import Mathlib

/-!
Verification development for the go-genjson JSON codec.

The Go sources are shallowly embedded:
* `internal/funcparser/parser.go` — the generic combinator framework
  (`BoolResult` / `ErrResult` / `CombineResult`, `ChainP`, `TryP`, `MapO`,
  `MapR`, `Validate`, `ToC`, `Discard`, `FlattenP`, `LazyP`).
* `deserialize.go` — the cursor (`deserializer`, `read`), the leaf parsers,
  the JSON grammar and `Deserialize`.
* the Value/Object model file — `Value`, `Number`, `Object` and the generic
  `orderedDuplicateMap`.
* the serializer file — `Serializer`, the per-variant `append` functions and
  `Serialize`.

Go machine types are mapped to `Nat` with explicit bounds where overflow
matters (`uint64` magnitudes are checked against `2^64`), bytes are `Nat`s
below 256, Go slices/strings are `List Nat`, Go `error` values are
`Option GoErr`, and a Go run-time panic is modelled by an `Option` result
being `none`.  The float64 payload of `Number` is carried as its bit pattern
(a `Nat`); the two `strconv` routines on floats (`FormatFloat`,
`ParseFloat`) are abstracted as explicit function parameters `fmtF` /
`parseF`, and `unicode.IsPrint` as `isPrint`, since their value tables are
external to this repository.  Everything else is executable and is
translated clause by clause from the Go source.
-/

namespace GenJson

/-! ## Errors (`deserialize.go` top of file, `strconv` error values) -/

/-- The Go `error` values that the deserializer can produce.
`numRange` / `numSyntax` are `strconv.ParseUint` failures, `floatSyntax` a
`strconv.ParseFloat` failure, `quoteSyntax` the `strconv.ErrSyntax` returned
by `strconv.Unquote`.  `fuelOut` is an artefact of the embedding: the Go
loops it replaces always terminate on the inputs that arise, and the fuel
supplied below is always sufficient, so it is unreachable. -/
inductive GoErr where
  | unmatchedQuote
  | unexpectedEndOfInput
  | invalidToken (tok row col : Nat)
  | numRange (digits : List Nat)
  | numSyntax (digits : List Nat)
  | floatSyntax (digits : List Nat)
  | quoteSyntax
  | fuelOut
deriving DecidableEq

/-! ## Result types (`funcparser/parser.go`) -/

/-- Go `ErrResult struct { Err error }`. -/
structure ErrResult where
  Err : Option GoErr
deriving DecidableEq

/-- Go `BoolResult struct { OK bool }`.  (The Go `Valid` method also treats a
nil `*BoolResult` as valid; no combinator in the repository ever produces a
nil result pointer, so the pointer layer is dropped.) -/
structure BoolResult where
  OK : Bool
deriving DecidableEq

/-- Go `CombineResult struct { OK bool; Err error }`. -/
structure CombineResult where
  OK : Bool
  Err : Option GoErr
deriving DecidableEq

/-- Go helper `Err(err error) *ErrResult`. -/
def Err (e : Option GoErr) : ErrResult := ⟨e⟩

/-- Go helper `OK(ok bool) *BoolResult`. -/
def OK (ok : Bool) : BoolResult := ⟨ok⟩

/-- Go helper `CErr(err error) *CombineResult` (`OK: err == nil`). -/
def CErr (e : Option GoErr) : CombineResult := ⟨e.isNone, e⟩

/-- Go helper `COK(ok bool) *CombineResult`. -/
def COK (ok : Bool) : CombineResult := ⟨ok, none⟩

def ErrResult.Valid (r : ErrResult) : Bool := r.Err.isNone
def ErrResult.Fatal (r : ErrResult) : Bool := !r.Valid
def BoolResult.Valid (r : BoolResult) : Bool := r.OK
def BoolResult.Fatal (_ : BoolResult) : Bool := false
def CombineResult.Valid (r : CombineResult) : Bool := r.OK && r.Err.isNone
def CombineResult.Fatal (r : CombineResult) : Bool := r.Err.isSome
def CombineResult.ToE (r : CombineResult) : ErrResult := ⟨r.Err⟩
def CombineResult.ToB (r : CombineResult) : BoolResult := ⟨r.OK⟩

/-- The Go `result` interface (`Valid`, `Fatal`, `toC`) together with the
`valid[R]()` helper, as a typeclass over the three result types. -/
class ResultC (R : Type) where
  Valid : R → Bool
  Fatal : R → Bool
  toC : R → CombineResult
  validR : R

/-- The Go `TryResult` constraint (`*BoolResult | *CombineResult`) with its
`ok[R](bool)` helper. -/
class TryResultC (R : Type) extends ResultC R where
  okR : Bool → R

instance : ResultC ErrResult where
  Valid := ErrResult.Valid
  Fatal := ErrResult.Fatal
  toC r := CErr r.Err
  validR := Err none

instance : TryResultC BoolResult where
  Valid := BoolResult.Valid
  Fatal := BoolResult.Fatal
  toC r := COK r.OK
  validR := OK true
  okR := OK

instance : TryResultC CombineResult where
  Valid := CombineResult.Valid
  Fatal := CombineResult.Fatal
  toC r := r
  validR := COK true
  okR := COK

/-- Go `type Empty struct{}`. -/
structure Empty where
deriving DecidableEq

instance : Inhabited Empty := ⟨⟨⟩⟩

/-- Go `Parser[I Input, O Output, R Result] func(I) (I, O, R)`. -/
def Parser (I O R : Type) : Type := I → I × O × R

/-! ## Combinators (`funcparser/parser.go`) -/

/-- Go `LazyP`: defer construction of a parser until invocation. -/
def LazyP (f : Unit → Parser I O R) : Parser I O R :=
  fun i => f () i

/-- The loop body of Go `ChainP`: `ii` is the pre-sequence input that a
failure rewinds to, `ii2` the threaded cursor, `res` the accumulated
outputs. -/
def chainAux [ResultC R] (ii : I) :
    List (Parser I O R) → I → List O → I × List O × R
  | [], ii2, res => (ii2, res, ResultC.validR)
  | p :: ps, ii2, res =>
    let t := p ii2
    if ResultC.Valid t.2.2 then chainAux ii ps t.1 (res ++ [t.2.1])
    else (ii, [], t.2.2)

/-- Go `ChainP`: run the parsers in order, threading the input; on any
failure return the original input with the failing result. -/
def ChainP [ResultC R] (ps : List (Parser I O R)) : Parser I (List O) R :=
  fun ii => chainAux ii ps ii []

/-- Go `TryP`: first-of alternation.  A fatal result stops the search and is
returned at the original input; a valid result is returned as-is; otherwise
the next alternative is tried; exhaustion yields `ok(false)`. -/
def TryP [TryResultC R] [Inhabited O] :
    List (Parser I O R) → Parser I O R
  | [] => fun ii => (ii, default, TryResultC.okR false)
  | p :: ps => fun ii =>
    let t := p ii
    if ResultC.Fatal t.2.2 then (ii, default, t.2.2)
    else if ResultC.Valid t.2.2 then t
    else TryP ps ii

/-- Go `MapO`: transform the output of a successful parse. -/
def MapO [ResultC R] [Inhabited O2] (p : Parser I O1 R) (f : O1 → O2) :
    Parser I O2 R :=
  fun ii =>
    let t := p ii
    if ResultC.Valid t.2.2 then (t.1, f t.2.1, t.2.2)
    else (t.1, default, t.2.2)

/-- Go `MapR`: transform the result, given the post-parse input. -/
def MapR (p : Parser I O R1) (f : I → R1 → R2) : Parser I O R2 :=
  fun ii =>
    let t := p ii
    (t.1, t.2.1, f t.1 t.2.2)

/-- Go `Validate`: like `MapO` but the transformation may itself fail, in
which case (and on parser failure) the original input is returned. -/
def Validate [ResultC R] [Inhabited O2] (p : Parser I O1 R)
    (f : O1 → O2 × R) : Parser I O2 R :=
  fun ii =>
    let t := p ii
    if ResultC.Valid t.2.2 then
      let fr := f t.2.1
      if ResultC.Valid fr.2 then (t.1, fr.1, t.2.2)
      else (ii, default, fr.2)
    else (ii, default, t.2.2)

/-- Go `ToC`: convert any result kind to a `CombineResult`. -/
def ToC [ResultC R] (p : Parser I O R) : Parser I O CombineResult :=
  fun ii =>
    let t := p ii
    (t.1, t.2.1, ResultC.toC t.2.2)

/-- Go `Discard`: keep the position advancement, drop the output. -/
def Discard (p : Parser I O R) : Parser I Empty R :=
  fun ii =>
    let t := p ii
    (t.1, ⟨⟩, t.2.2)

/-- Go `FlattenP`: chain byte-list parsers and concatenate their outputs. -/
def FlattenP [ResultC R] (ps : List (Parser I (List O) R)) :
    Parser I (List O) R :=
  MapO (ChainP ps) (fun oo => oo.foldl (fun out o => out ++ o) [])

/-! ## The cursor (`deserialize.go`: `deserializer`, `read`) -/

/-- Go `deserializer`: the whole input, the current offset, and the 1-based
row/column. -/
structure deserializer where
  b : List Nat
  idx : Nat
  row : Nat
  col : Nat
deriving DecidableEq

/-- Go `read`: pure cursor advance; bumps the row and resets the column on a
newline byte. -/
def read (d : deserializer) : deserializer × Nat × BoolResult :=
  if h : d.idx < d.b.length then
    let b := d.b.get ⟨d.idx, h⟩
    let row := if b = 10 then d.row + 1 else d.row
    let col := if b = 10 then 1 else d.col + 1
    (⟨d.b, d.idx + 1, row, col⟩, b, OK true)
  else (d, 0, OK false)

theorem read_ok_shape {d d' : deserializer} {b : Nat} {br : BoolResult}
    (h : read d = (d', b, br)) (hok : br.OK = true) :
    d'.b = d.b ∧ d'.idx = d.idx + 1 ∧ d.idx < d.b.length := by
  by_cases hlt : d.idx < d.b.length
  · simp only [read, dif_pos hlt] at h
    cases h
    exact ⟨rfl, rfl, hlt⟩
  · simp only [read, dif_neg hlt] at h
    cases h
    simp [OK] at hok

theorem read_fail_shape {d d' : deserializer} {b : Nat} {br : BoolResult}
    (h : read d = (d', b, br)) (hok : br.OK = false) : d' = d := by
  by_cases hlt : d.idx < d.b.length
  · simp only [read, dif_pos hlt] at h
    cases h
    simp [OK] at hok
  · simp only [read, dif_neg hlt] at h
    cases h
    rfl

/-- Go `unicode.IsSpace(rune(b))` restricted to byte values: the Latin-1
white space code points. -/
def isSpace (b : Nat) : Bool :=
  b = 9 || b = 10 || b = 11 || b = 12 || b = 13 || b = 32 || b = 133 || b = 160

/-- The skipping loop inside Go `trimSpaceParser`, paced by structural
fuel.  Each iteration consumes one byte, so `skipSpaces` below always
supplies enough fuel and the `0` base case is unreachable. -/
def skipSpacesF : Nat → deserializer → deserializer
  | 0, d => d
  | fuel + 1, d =>
    let t := read d
    if t.2.2.OK && isSpace t.2.1 then skipSpacesF fuel t.1 else d

def skipSpaces (d : deserializer) : deserializer :=
  skipSpacesF (d.b.length + 1 - d.idx) d

/-- Go `trimSpaceParser`: skip leading white space, then run `p`. -/
def trimSpaceParser (p : Parser deserializer V R) : Parser deserializer V R :=
  fun d => p (skipSpaces d)

/-- Go `byteParser`: match one exact byte. -/
def byteParser (b : Nat) : Parser deserializer Nat BoolResult :=
  fun d =>
    let t := read d
    if t.2.2.OK && (t.2.1 = b : Bool) then (t.1, b, OK true)
    else (d, 0, OK false)

/-- The scanning loop inside Go `predicateParser`, paced by structural
fuel (one byte per iteration; the fuel below never runs out). -/
def predLoopF (pred : Nat → Bool) :
    Nat → deserializer → List Nat → deserializer × List Nat × BoolResult
  | 0, d, buf => (d, buf, OK (buf.length > 0))
  | fuel + 1, d, buf =>
    let t := read d
    if t.2.2.OK && pred t.2.1 then predLoopF pred fuel t.1 (buf ++ [t.2.1])
    else (d, buf, OK (buf.length > 0))

/-- Go `predicateParser`: the longest run of bytes satisfying `pred`;
matches only when it is non-empty. -/
def predicateParser (pred : Nat → Bool) :
    Parser deserializer (List Nat) BoolResult :=
  fun d => predLoopF pred (d.b.length + 1 - d.idx) d []

/-- Go `digitsParser`: a non-empty run of ASCII digits. -/
def digitsParser : Parser deserializer (List Nat) BoolResult :=
  predicateParser (fun b => 48 ≤ b && b ≤ 57)

/-! ## Models of the Go standard-library routines used by the codec:
`unicode/utf8`, `strconv.ParseUint`, `strconv.FormatUint`, `strconv.Quote`
and `strconv.Unquote`. -/

/-- `utf8.RuneError` (U+FFFD). -/
def RuneError : Nat := 0xFFFD

/-- Go `utf8.ValidRune`: in range and not a surrogate. -/
def validRune (r : Nat) : Bool :=
  decide (r < 0xD800 ∨ (0xDFFF < r ∧ r ≤ 0x10FFFF))

/-- Go `utf8.AppendRune`: UTF-8 encoding; out-of-range or surrogate code
points encode `RuneError`. -/
def utf8Encode (r : Nat) : List Nat :=
  if r < 0x80 then [r]
  else if r < 0x800 then [0xC0 + r / 64, 0x80 + r % 64]
  else if !validRune r then [0xEF, 0xBF, 0xBD]
  else if r < 0x10000 then [0xE0 + r / 4096, 0x80 + r / 64 % 64, 0x80 + r % 64]
  else [0xF0 + r / 262144, 0x80 + r / 4096 % 64, 0x80 + r / 64 % 64, 0x80 + r % 64]

/-- A UTF-8 continuation byte (`0x80..0xBF`). -/
def isCont (b : Nat) : Bool := 0x80 ≤ b && b ≤ 0xBF

/-- Go `utf8.DecodeRune` on a byte list: the decoded rune and its width.
Invalid or truncated sequences (including surrogates and overlong forms,
which the `acceptRanges` table rejects) give `(RuneError, 1)`; the empty
input gives `(RuneError, 0)`. -/
def utf8Decode : List Nat → Nat × Nat
  | [] => (RuneError, 0)
  | b0 :: rest =>
    if b0 < 0x80 then (b0, 1)
    else if b0 < 0xC2 then (RuneError, 1)
    else if b0 ≤ 0xDF then
      match rest with
      | b1 :: _ =>
        if isCont b1 then ((b0 - 0xC0) * 64 + (b1 - 0x80), 2)
        else (RuneError, 1)
      | [] => (RuneError, 1)
    else if b0 ≤ 0xEF then
      match rest with
      | b1 :: b2 :: _ =>
        let lo1 := if b0 = 0xE0 then 0xA0 else 0x80
        let hi1 := if b0 = 0xED then 0x9F else 0xBF
        if lo1 ≤ b1 && b1 ≤ hi1 && isCont b2 then
          ((b0 - 0xE0) * 4096 + (b1 - 0x80) * 64 + (b2 - 0x80), 3)
        else (RuneError, 1)
      | _ => (RuneError, 1)
    else if b0 ≤ 0xF4 then
      match rest with
      | b1 :: b2 :: b3 :: _ =>
        let lo1 := if b0 = 0xF0 then 0x90 else 0x80
        let hi1 := if b0 = 0xF4 then 0x8F else 0xBF
        if lo1 ≤ b1 && b1 ≤ hi1 && isCont b2 && isCont b3 then
          ((b0 - 0xF0) * 262144 + (b1 - 0x80) * 4096 + (b2 - 0x80) * 64 + (b3 - 0x80), 4)
        else (RuneError, 1)
      | _ => (RuneError, 1)
    else (RuneError, 1)

theorem utf8Decode_width_pos (b0 : Nat) (rest : List Nat) :
    1 ≤ (utf8Decode (b0 :: rest)).2 := by
  unfold utf8Decode
  repeat' split
  all_goals simp_all
  all_goals split
  all_goals simp_all

theorem utf8Decode_width_le (b0 : Nat) (rest : List Nat) :
    (utf8Decode (b0 :: rest)).2 ≤ rest.length + 1 := by
  unfold utf8Decode
  repeat' split
  all_goals simp_all
  all_goals split
  all_goals simp_all

/-- The lower-case hexadecimal digit for `k % 16` (Go `"0123456789abcdef"`). -/
def hexDigit (k : Nat) : Nat :=
  if k % 16 < 10 then 48 + k % 16 else 87 + k % 16

/-- `n` big-endian lower-case hex digits of `v` (Go escape payloads). -/
def hexDigits (n v : Nat) : List Nat :=
  match n with
  | 0 => []
  | n + 1 => hexDigits n (v / 16) ++ [hexDigit v]

/-- Go `strconv`'s `unhex`: the value of one hex digit character. -/
def unhex (b : Nat) : Option Nat :=
  if 48 ≤ b && b ≤ 57 then some (b - 48)
  else if 97 ≤ b && b ≤ 102 then some (b - 97 + 10)
  else if 65 ≤ b && b ≤ 70 then some (b - 65 + 10)
  else none

/-- Go `strconv.ParseUint(string(bb), 10, 64)`: non-empty decimal digits,
value below `2^64`; otherwise the corresponding `*strconv.NumError`. -/
def parseUint (bs : List Nat) : Except GoErr Nat :=
  if bs.isEmpty then .error (.numSyntax bs)
  else if bs.all (fun b => 48 ≤ b && b ≤ 57) then
    let n := bs.foldl (fun acc b => acc * 10 + (b - 48)) 0
    if n < 2 ^ 64 then .ok n else .error (.numRange bs)
  else .error (.numSyntax bs)

/-- The digit-producing loop of Go `strconv.FormatUint` (base 10): most
significant digit first, prepended to `acc`; fuel-paced (the number of
digits of `n` never exceeds `n + 1`, so `formatUint`'s fuel suffices). -/
def uintDigitsF : Nat → Nat → List Nat → List Nat
  | 0, n, acc => (48 + n % 10) :: acc
  | fuel + 1, n, acc =>
    if n < 10 then (48 + n % 10) :: acc
    else uintDigitsF fuel (n / 10) ((48 + n % 10) :: acc)

/-- Go `strconv.FormatUint(n, 10)`. -/
def formatUint (n : Nat) : List Nat := uintDigitsF n n []

/-! ### `strconv.Quote`.

`appendEscapedRune` and the rune loop of `appendQuotedWith`, with
`quote = '"'`, `ASCIIonly = false`, `graphicOnly = false`.
`unicode.IsPrint` is taken as a parameter `isPrint` (its table is outside
this repository); the branch order follows the Go source exactly. -/

def escapedRune (isPrint : Nat → Bool) (r : Nat) : List Nat :=
  if r = 34 || r = 92 then [92, r]
  else if isPrint r then utf8Encode r
  else if r = 7 then [92, 97]
  else if r = 8 then [92, 98]
  else if r = 12 then [92, 102]
  else if r = 10 then [92, 110]
  else if r = 13 then [92, 114]
  else if r = 9 then [92, 116]
  else if r = 11 then [92, 118]
  else if r < 32 || r = 0x7F then [92, 120] ++ hexDigits 2 r
  else if !validRune r then [92, 117] ++ hexDigits 4 RuneError
  else if r < 0x10000 then [92, 117] ++ hexDigits 4 r
  else [92, 85] ++ hexDigits 8 r

/-- The rune loop of Go `appendQuotedWith`: bytes that are not part of a
valid UTF-8 encoding are emitted as `\xNN`; decoded runes go through
`escapedRune`.  Fuel-paced (at least one byte per iteration; `quote`'s
fuel suffices). -/
def quoteLoopF (isPrint : Nat → Bool) : Nat → List Nat → List Nat
  | 0, _ => []
  | fuel + 1, s =>
    match s with
    | [] => []
    | b0 :: rest =>
      if b0 < 0x80 then escapedRune isPrint b0 ++ quoteLoopF isPrint fuel rest
      else
        let t := utf8Decode (b0 :: rest)
        if t.2 = 1 then [92, 120] ++ hexDigits 2 b0 ++ quoteLoopF isPrint fuel rest
        else escapedRune isPrint t.1 ++ quoteLoopF isPrint fuel ((b0 :: rest).drop t.2)

/-- Go `strconv.Quote` on raw bytes. -/
def quote (isPrint : Nat → Bool) (s : List Nat) : List Nat :=
  34 :: quoteLoopF isPrint (s.length + 1) s ++ [34]

/-! ### `strconv.Unquote` (with `quote = '"'`). -/

/-- The hex-payload accumulation inside Go `unquoteChar` for `\x`, `\u`,
`\U`: fold `n` hex digits, failing on any non-hex digit. -/
def hexFold (hs : List Nat) : Option Nat :=
  hs.foldl
    (fun acc h => match acc, unhex h with
      | some a, some x => some (a * 16 + x)
      | _, _ => none)
    (some 0)

/-- The `\x` / `\u` / `\U` arm of Go `unquoteChar`: `n` hex digits; a `\x`
value is a raw byte (`isX`), the other two are runes that must be valid. -/
def hexEsc (n : Nat) (isX : Bool) (rest2 : List Nat) :
    Option (Nat × Bool × List Nat) :=
  if rest2.length < n then none
  else
    match hexFold (rest2.take n) with
    | none => none
    | some v =>
      if isX then some (v, false, rest2.drop n)
      else if validRune v then some (v, true, rest2.drop n)
      else none

theorem hexEsc_rem_le {n : Nat} {isX : Bool} {rest2 : List Nat} {v : Nat}
    {mb : Bool} {rem : List Nat} (h : hexEsc n isX rest2 = some (v, mb, rem)) :
    rem.length ≤ rest2.length := by
  unfold hexEsc at h
  repeat' split at h
  all_goals simp_all
  all_goals (obtain ⟨-, -, h3⟩ := h; subst h3; simp)

/-- The escape-sequence arm of Go `unquoteChar` (the byte after a `\`,
with `quote = '"'`): the value, multi-byte flag and remaining input. -/
def unquoteEsc (e : Nat) (rest2 : List Nat) : Option (Nat × Bool × List Nat) :=
  if e = 97 then some (7, false, rest2)
  else if e = 98 then some (8, false, rest2)
  else if e = 102 then some (12, false, rest2)
  else if e = 110 then some (10, false, rest2)
  else if e = 114 then some (13, false, rest2)
  else if e = 116 then some (9, false, rest2)
  else if e = 118 then some (11, false, rest2)
  else if e = 120 then hexEsc 2 true rest2
  else if e = 117 then hexEsc 4 false rest2
  else if e = 85 then hexEsc 8 false rest2
  else if 48 ≤ e && e ≤ 55 then
    match rest2 with
    | d1 :: d2 :: rest3 =>
      if 48 ≤ d1 && d1 ≤ 55 && (48 ≤ d2 && d2 ≤ 55) then
        if (e - 48) * 64 + (d1 - 48) * 8 + (d2 - 48) ≤ 255 then
          some ((e - 48) * 64 + (d1 - 48) * 8 + (d2 - 48), false, rest3)
        else none
      else none
    | _ => none
  else if e = 92 then some (92, false, rest2)
  else if e = 34 then some (34, false, rest2)
  else none

/-- Go `unquoteChar(s, '"')`: one character or escape sequence; the value,
whether it is a multi-byte rune, and the remaining input.  `none` is the
Go error return. -/
def unquoteChar (s : List Nat) : Option (Nat × Bool × List Nat) :=
  match s with
  | [] => none
  | c :: rest =>
    if c = 34 then none
    else if 0x80 ≤ c then
      let t := utf8Decode (c :: rest)
      some (t.1, true, (c :: rest).drop t.2)
    else if c ≠ 92 then some (c, false, rest)
    else
      match rest with
      | [] => none
      | e :: rest2 => unquoteEsc e rest2

theorem unquoteEsc_rem_le {e : Nat} {rest2 : List Nat} {v : Nat} {mb : Bool}
    {rem : List Nat} (h : unquoteEsc e rest2 = some (v, mb, rem)) :
    rem.length ≤ rest2.length := by
  have hsome : ∀ (k : Nat) (b : Bool),
      some (k, b, rest2) = some (v, mb, rem) → rem.length ≤ rest2.length := by
    intro k b hk
    simp only [Option.some.injEq, Prod.mk.injEq] at hk
    obtain ⟨-, -, h3⟩ := hk
    simp [h3]
  unfold unquoteEsc at h
  by_cases h97 : e = 97
  · rw [if_pos h97] at h; exact hsome _ _ h
  rw [if_neg h97] at h
  by_cases h98 : e = 98
  · rw [if_pos h98] at h; exact hsome _ _ h
  rw [if_neg h98] at h
  by_cases h102 : e = 102
  · rw [if_pos h102] at h; exact hsome _ _ h
  rw [if_neg h102] at h
  by_cases h110 : e = 110
  · rw [if_pos h110] at h; exact hsome _ _ h
  rw [if_neg h110] at h
  by_cases h114 : e = 114
  · rw [if_pos h114] at h; exact hsome _ _ h
  rw [if_neg h114] at h
  by_cases h116 : e = 116
  · rw [if_pos h116] at h; exact hsome _ _ h
  rw [if_neg h116] at h
  by_cases h118 : e = 118
  · rw [if_pos h118] at h; exact hsome _ _ h
  rw [if_neg h118] at h
  by_cases h120 : e = 120
  · rw [if_pos h120] at h; exact hexEsc_rem_le h
  rw [if_neg h120] at h
  by_cases h117 : e = 117
  · rw [if_pos h117] at h; exact hexEsc_rem_le h
  rw [if_neg h117] at h
  by_cases h85 : e = 85
  · rw [if_pos h85] at h; exact hexEsc_rem_le h
  rw [if_neg h85] at h
  by_cases hoct : 48 ≤ e && e ≤ 55
  · rw [if_pos hoct] at h
    match rest2 with
    | [] => exact Option.noConfusion h
    | [d1] => exact Option.noConfusion h
    | d1 :: d2 :: rest3 =>
      simp only at h
      repeat' split at h
      all_goals first
        | exact Option.noConfusion h
        | (simp only [Option.some.injEq, Prod.mk.injEq] at h
           obtain ⟨-, -, h3⟩ := h
           subst h3
           simp
           omega)
  rw [if_neg hoct] at h
  by_cases h92e : e = 92
  · rw [if_pos h92e] at h; exact hsome _ _ h
  rw [if_neg h92e] at h
  by_cases h34e : e = 34
  · rw [if_pos h34e] at h; exact hsome _ _ h
  rw [if_neg h34e] at h
  exact Option.noConfusion h

theorem unquoteChar_shrinks {s : List Nat} {v : Nat} {mb : Bool}
    {rem : List Nat} (h : unquoteChar s = some (v, mb, rem)) :
    rem.length < s.length := by
  match s with
  | [] => simp [unquoteChar] at h
  | c :: rest =>
    by_cases h34 : c = 34
    · simp [unquoteChar, h34] at h
    · by_cases hhi : 0x80 ≤ c
      · have hw := utf8Decode_width_pos c rest
        simp only [unquoteChar, if_neg h34, if_pos hhi, Option.some.injEq,
          Prod.mk.injEq] at h
        obtain ⟨-, -, h3⟩ := h
        subst h3
        simp only [List.length_drop, List.length_cons]
        omega
      · by_cases h92 : c = 92
        · subst h92
          simp only [unquoteChar] at h
          rw [if_neg h34, if_neg hhi,
            if_neg (show ¬((92 : Nat) ≠ 92) by decide)] at h
          match rest with
          | [] => simp at h
          | e :: rest2 =>
            simp only at h
            have := unquoteEsc_rem_le h
            simp only [List.length_cons]
            omega
        · simp only [unquoteChar, if_neg h34, if_neg hhi, if_pos h92] at h
          simp only [Option.some.injEq, Prod.mk.injEq] at h
          obtain ⟨-, -, h3⟩ := h
          subst h3
          simp

/-- The per-character loop of Go `unquote` (slow path, `unescape = true`):
stops at the closing quote; a raw newline or any `unquoteChar` error is
`ErrSyntax`.  Returns the unescaped bytes and the input remaining after the
closing quote. -/
def unquoteLoopF : Nat → List Nat → List Nat →
    Except GoErr (List Nat × List Nat)
  | 0, _, _ => .error .fuelOut
  | fuel + 1, s, buf =>
    match s with
    | [] => .error .quoteSyntax
    | c :: rest =>
      if c = 34 then .ok (buf, rest)
      else if c = 10 then .error .quoteSyntax
      else
        match unquoteChar (c :: rest) with
        | none => .error .quoteSyntax
        | some (r, mb, rem) =>
          let buf := if r < 0x80 || !mb then buf ++ [r] else buf ++ utf8Encode r
          unquoteLoopF fuel rem buf

def unquoteLoop (s : List Nat) (buf : List Nat) :
    Except GoErr (List Nat × List Nat) :=
  unquoteLoopF (s.length + 1) s buf

/-- Go `strconv.Unquote`: surrounding double quotes, no unconsumed bytes
after the closing quote.  (The Go fast path for escape-free contents is an
optimisation with the same observable result and is not modelled
separately.) -/
def unquote (s : List Nat) : Except GoErr (List Nat) :=
  match s with
  | 34 :: rest =>
    match unquoteLoop rest [] with
    | .error e => .error e
    | .ok (buf, rem) => if rem.isEmpty then .ok buf else .error .quoteSyntax
  | _ => .error .quoteSyntax

/-! ## The Value model (`Value`, `Number`, `Object` backing store).

`Object` wraps a nil-able pointer to the ordered duplicate-preserving map;
its observable content is the insertion-ordered entry list, which is how
the payload of `Value.object` is represented here (`none` is the Go nil
pointer of a zero `Object`).  The generic two-structure
`orderedDuplicateMap` itself is embedded separately below and related to
this entry-list view. -/

/-- Go `Number`: float and unsigned-integer magnitudes, a kind flag, and a
sign flag.  `Float` holds the IEEE-754 bit pattern of the `float64`. -/
structure Number where
  Float : Nat
  Integer : Nat
  IsFloat : Bool
  IsNeg : Bool
deriving DecidableEq

instance : Inhabited Number := ⟨⟨0, 0, false, false⟩⟩

/-- Go `Value`: the closed tagged union of the six JSON variants.  Slices
(`Array`) are lists; the `Object` payload is `none` for the zero Object
(nil internal map) and otherwise the insertion-ordered key/value entries
of its `orderedDuplicateMap`. -/
inductive Value where
  | null
  | bool (b : Bool)
  | number (n : Number)
  | string (s : List Nat)
  | array (elems : List Value)
  | object (entries : Option (List (List Nat × Value)))

/-- A nil Go `Value` interface is modelled by `null`; it only arises in
zero values that the grammar never observes. -/
instance : Inhabited Value := ⟨.null⟩

/-- Go `Object.Add` (via `init` and `orderedDuplicateMap.add`), seen on the
entry-list view: initialise an absent map, then append the entry. -/
def objectAdd (o : Option (List (List Nat × Value))) (k : List Nat)
    (v : Value) : Option (List (List Nat × Value)) :=
  some (o.getD [] ++ [(k, v)])

/-- Go `Loc`. -/
structure Loc where
  Row : Nat
  Col : Nat
deriving DecidableEq

instance : Inhabited Loc := ⟨⟨0, 0⟩⟩

/-- Go `node` with `nodeKeyValue` inlined as
`(key, keyStart, keyEnd, node)` (the grammar leaves `key` at its zero
value).  `stop` is the Go field `end`. -/
inductive node where
  | mk (objectNodes : List (List Nat × Loc × Loc × node))
       (arrayNodes : List node) (start stop : Loc)

def node.start : node → Loc
  | .mk _ _ s _ => s

def node.stop : node → Loc
  | .mk _ _ _ e => e

instance : Inhabited node := ⟨.mk [] [] default default⟩

/-- Go `output`: the parsed value and its location node. -/
structure output where
  value : Value
  node : node

instance : Inhabited output := ⟨⟨default, default⟩⟩

/-- Go `locV`. -/
structure locV (V : Type) where
  start : Loc
  stop : Loc
  v : V

instance [Inhabited V] : Inhabited (locV V) := ⟨⟨default, default, default⟩⟩

/-- Go `locParser`: record the row/column before and after `p`. -/
def locParser (p : Parser deserializer O R) :
    Parser deserializer (locV O) R :=
  fun d =>
    let start : Loc := ⟨d.row, d.col⟩
    let t := p d
    (t.1, ⟨start, ⟨t.1.row, t.1.col⟩, t.2.1⟩, t.2.2)

/-- Go `outputParser`: wrap a `Value` parser's span into an `output`. -/
def outputParser (p : Parser deserializer Value CombineResult) :
    Parser deserializer output CombineResult :=
  MapO (locParser p)
    (fun loc => ⟨loc.v, .mk [] [] loc.start loc.stop⟩)

/-- Go `errNoMatch`: `ErrUnexpectedEndOfInput` at the end of input,
otherwise an `InvalidTokenError` carrying the next byte and the cursor's
row/column. -/
def errNoMatch (d : deserializer) : GoErr :=
  let t := read d
  if t.2.2.OK then .invalidToken t.2.1 d.row d.col
  else .unexpectedEndOfInput

/-- Go `errBoolResult`: promote a boolean non-match to a fatal
`errNoMatch`. -/
def errBoolResult (d : deserializer) (br : BoolResult) : CombineResult :=
  if br.OK then COK true else CErr (some (errNoMatch d))

/-! ## Leaf grammar parsers (`deserialize.go`) -/

/-- Go `nullParser`. -/
def nullParser : Parser deserializer output CombineResult :=
  outputParser
    (ToC
      (MapO
        (ChainP [byteParser 110, byteParser 117, byteParser 108, byteParser 108])
        (fun _ => Value.null)))

/-- Go `boolParser`. -/
def boolParser : Parser deserializer output CombineResult :=
  outputParser
    (ToC
      (MapO
        (TryP
          [ChainP [byteParser 116, byteParser 114, byteParser 117, byteParser 101],
           ChainP [byteParser 102, byteParser 97, byteParser 108, byteParser 115,
                   byteParser 101]])
        (fun v => Value.bool (v = [116, 114, 117, 101]))))

/-- Go `floatParser`: digits, a dot, digits; the byte span goes through
`strconv.ParseFloat` (abstracted as `parseF`, `none` being a parse
error). -/
def floatParser (parseF : List Nat → Option Nat) :
    Parser deserializer Nat CombineResult :=
  Validate
    (ToC (FlattenP [digitsParser, ChainP [byteParser 46], digitsParser]))
    (fun bb =>
      match parseF bb with
      | some f => (f, COK true)
      | none => (0, CErr (some (.floatSyntax bb))))

/-- Go `intParser`: digits through `strconv.ParseUint`. -/
def intParser : Parser deserializer Nat CombineResult :=
  Validate (ToC digitsParser)
    (fun bb =>
      match parseUint bb with
      | .ok i => (i, COK true)
      | .error e => (0, CErr (some e)))

/-- Go `surroundParser` (curried in Go): `before` parsers, the body, then
`after` parsers; a failure anywhere rewinds to the original input, and a
boolean non-match of `before` is surfaced as `COK` of its flag. -/
def surroundParser [Inhabited V]
    (before : List (Parser deserializer Empty BoolResult))
    (p : Parser deserializer V CombineResult)
    (after : List (Parser deserializer Empty CombineResult)) :
    Parser deserializer V CombineResult :=
  fun d =>
    let t := ChainP before d
    if t.2.2.Valid then
      let t2 := p t.1
      if t2.2.2.Valid then
        let t3 := ChainP after t2.1
        if t3.2.2.Valid then (t3.1, t2.2.1, COK true)
        else (d, default, t3.2.2)
      else (d, default, t2.2.2)
    else (d, default, COK t.2.2.OK)

/-- Go `positiveNumberParser`: float form first, then integer form. -/
def positiveNumberParser (parseF : List Nat → Option Nat) :
    Parser deserializer Number CombineResult :=
  TryP
    [MapO (floatParser parseF) (fun f => { Float := f, Integer := 0, IsFloat := true, IsNeg := false }),
     MapO intParser (fun i => { Float := 0, Integer := i, IsFloat := false, IsNeg := false })]

/-- Go `numberParser`: an optional leading `-` (setting `IsNeg`) around the
positive form. -/
def numberParser (parseF : List Nat → Option Nat) :
    Parser deserializer output CombineResult :=
  outputParser
    (MapO
      (TryP
        [MapO
          (surroundParser [Discard (byteParser 45)] (positiveNumberParser parseF) [])
          (fun n => { n with IsNeg := true }),
         positiveNumberParser parseF])
      (fun n => Value.number n))

/-- The byte-by-byte scanning loop inside Go `rawStringParser`: collect
bytes up to an unescaped closing quote; any byte after an unescaped `\` is
skipped over; end of input is the fatal `ErrUnmatchedQuote`. -/
def scanLoopF : Nat → deserializer → List Nat → Bool →
    deserializer × List Nat × CombineResult
  | 0, d, _, _ => (d, [], CErr (some .fuelOut))
  | fuel + 1, d, buf, inEscape =>
    let t := read d
    if t.2.2.OK then
      let buf2 := buf ++ [t.2.1]
      if inEscape then scanLoopF fuel t.1 buf2 false
      else if t.2.1 = 92 then scanLoopF fuel t.1 buf2 true
      else if t.2.1 = 34 then (t.1, buf2, COK true)
      else scanLoopF fuel t.1 buf2 false
    else (t.1, [], CErr (some .unmatchedQuote))

/-- Go `rawStringParser`: the opening quote chained with the scan, then the
raw span unescaped by `strconv.Unquote`. -/
def rawStringParser : Parser deserializer (List Nat) CombineResult :=
  Validate
    (FlattenP
      [ToC (ChainP [byteParser 34]),
       fun d => scanLoopF (d.b.length + 1 - d.idx) d [] false])
    (fun b =>
      match unquote b with
      | .ok s => (s, COK true)
      | .error e => ([], CErr (some e)))

/-- Go `stringParser`. -/
def stringParser : Parser deserializer output CombineResult :=
  outputParser (MapO rawStringParser (fun s => Value.string s))

/-! ## Composite parsers (`listParser`, `compositeParser`, the array and
object grammar, and the top-level entry points). -/

/-- The iteration of Go `listParser` after the first element: check the end
parser, then require a separator and the next element.  The recursion is
paced by `fuel`; the Go loop consumes at least one byte per iteration, so
the fuel chosen by `listParser` below never runs out. -/
def listLoop [Inhabited V] (p : Parser deserializer V CombineResult)
    (sep endP : Parser deserializer Empty BoolResult) (dOrig : deserializer) :
    Nat → deserializer → List V → deserializer × List V × CombineResult
  | 0, _, _ => (dOrig, [], CErr (some .fuelOut))
  | fuel + 1, bb2, vs =>
    let te := endP bb2
    if te.2.2.Valid then (te.1, vs, COK true)
    else
      let ts := sep bb2
      if ts.2.2.Valid then
        let tp := p ts.1
        if tp.2.2.Err.isSome then (dOrig, [], tp.2.2)
        else if tp.2.2.OK then listLoop p sep endP dOrig fuel tp.1 (vs ++ [tp.2.1])
        else (dOrig, [], CErr (some (errNoMatch tp.1)))
      else (dOrig, [], CErr (some (errNoMatch ts.1)))

/-- Go `listParser`: empty list on an immediate end match; otherwise a
first element followed by the separator/end loop. -/
def listParser [Inhabited V] (p : Parser deserializer V CombineResult)
    (sep endP : Parser deserializer Empty BoolResult) :
    Parser deserializer (List V) CombineResult :=
  fun d =>
    let te := endP d
    if te.2.2.Valid then (te.1, [], COK true)
    else
      let tp := p te.1
      if tp.2.2.Valid then
        listLoop p sep endP d (d.b.length + 1 - d.idx) tp.1 [tp.2.1]
      else (d, [], tp.2.2)

/-- Go `compositeParser`: start delimiter surrounding a separated list.  -/
def compositeParser [Inhabited V]
    (start endP sep : Parser deserializer Empty BoolResult)
    (elem : Parser deserializer V CombineResult) :
    Parser deserializer (List V) CombineResult :=
  surroundParser [start] (listParser elem sep endP) []

/-- Go `arrayParser`, with the lazily referenced `jsonParserC` supplied as
`pv`. -/
def arrayParserWith (pv : Parser deserializer output CombineResult) :
    Parser deserializer output CombineResult :=
  MapO
    (locParser
      (compositeParser
        (Discard (byteParser 91))
        (Discard (trimSpaceParser (byteParser 93)))
        (Discard (trimSpaceParser (byteParser 44)))
        (LazyP (fun _ => pv))))
    (fun val =>
      ⟨.array (val.v.map (·.value)),
       .mk [] (val.v.map (·.node)) val.start val.stop⟩)

/-- Go `objectParser`'s `keyValue` record. -/
structure keyValue where
  key : locV (List Nat)
  value : output

instance : Inhabited keyValue := ⟨⟨default, default⟩⟩

/-- The local `elemParser` of Go `objectParser`: a raw-string key followed
by a mandatory colon (its non-match made fatal by `errBoolResult`), then a
value via the error-result JSON parser (`pvE`, so a value non-match is
already fatal), collected into a `keyValue`. -/
def objectElemParser (pvE : Parser deserializer output ErrResult) :
    Parser deserializer keyValue CombineResult :=
  MapO
    (ChainP
      [surroundParser []
        (MapO (locParser rawStringParser)
          (fun s => ({ key := s, value := default } : keyValue)))
        [Discard (trimSpaceParser (MapR (byteParser 58) errBoolResult))],
       MapO (ToC (LazyP (fun _ => pvE)))
        (fun o => ({ key := default, value := o } : keyValue))])
    (fun kvs =>
      match kvs with
      | [kv0, kv1] => ⟨kv0.key, kv1.value⟩
      | _ => default)

/-- The `Validate` body of Go `objectParser`: each parsed pair is added to
the Object in encounter order with the duplicate-preserving `Add`
(`objectAdd` is `Add` on the entry-list view). -/
def objectBuild (kvs : locV (List keyValue)) : output :=
  ⟨.object (kvs.v.foldl (fun o kv => objectAdd o kv.key.v kv.value.value) none),
   .mk (kvs.v.map (fun kv => ([], kv.key.start, kv.key.stop, kv.value.node)))
     [] kvs.start kvs.stop⟩

/-- The located composite inside Go `objectParser`. -/
def objectInner (pvE : Parser deserializer output ErrResult) :
    Parser deserializer (locV (List keyValue)) CombineResult :=
  locParser
    (compositeParser
      (Discard (byteParser 123))
      (Discard (trimSpaceParser (byteParser 125)))
      (Discard (trimSpaceParser (byteParser 44)))
      (trimSpaceParser (objectElemParser pvE)))

/-- Go `objectParser`, with the lazily referenced `jsonParserE` supplied as
`pvE`. -/
def objectParserWith (pvE : Parser deserializer output ErrResult) :
    Parser deserializer output CombineResult :=
  Validate (objectInner pvE) (fun kvs => (objectBuild kvs, COK true))

/-- Go `jsonParserE` as a function of the combined-result parser it wraps:
a valid result is no error, a fatal cause is passed through, and a plain
non-match becomes `errNoMatch` at the post-parse cursor. -/
def jsonParserEFun (pc : Parser deserializer output CombineResult) :
    Parser deserializer output ErrResult :=
  trimSpaceParser
    (MapR pc
      (fun d r =>
        if r.Valid then Err none
        else if r.Err.isSome then r.ToE
        else Err (some (errNoMatch d))))

/-- Go `jsonParserC`: whitespace skip around the fixed-order alternation of
the six variant parsers.  The `fuel` argument is the embedding of the lazy
self-reference: each recursive use inside an array or object element burns
one unit, and nesting one level deeper always consumes at least one input
byte first, so the fuel chosen by `Deserialize` never runs out. -/
def jsonParserC (parseF : List Nat → Option Nat) :
    Nat → Parser deserializer output CombineResult
  | 0 => fun d => (d, default, CErr (some .fuelOut))
  | fuel + 1 =>
    trimSpaceParser
      (TryP
        [nullParser,
         boolParser,
         numberParser parseF,
         stringParser,
         arrayParserWith (jsonParserC parseF fuel),
         objectParserWith (jsonParserEFun (jsonParserC parseF fuel))])

/-- Go `jsonParserE`. -/
def jsonParserE (parseF : List Nat → Option Nat) (fuel : Nat) :
    Parser deserializer output ErrResult :=
  jsonParserEFun (jsonParserC parseF fuel)

/-- Go `deserialize`: run the grammar from offset 0, row 1, column 1; a
non-nil error aborts, otherwise the output is returned. -/
def deserialize (parseF : List Nat → Option Nat) (b : List Nat) :
    Except GoErr output :=
  match jsonParserE parseF (b.length + 1) ⟨b, 0, 1, 1⟩ with
  | (_, v, er) =>
    match er.Err with
    | some e => .error e
    | none => .ok v

/-- Go `Deserialize`: the value of `deserialize`, or its error. -/
def Deserialize (parseF : List Nat → Option Nat) (b : List Nat) :
    Except GoErr Value :=
  match deserialize parseF b with
  | .error e => .error e
  | .ok d => .ok d.value

/-! ## The serializer (`Serializer`, per-variant `append`, `Serialize`). -/

/-- Go `Serializer`.  `Pfx` is the Go field `Prefix`. -/
structure Serializer where
  Indent : Nat
  Pfx : Nat
  KeyValueGap : Nat
  SortKeys : Bool
deriving DecidableEq

/-- Go `appendIndent`: with a non-zero indent width, a newline followed by
the prefix spaces and `Indent * level` spaces; with indent 0, nothing. -/
def appendIndent (s : Serializer) (level : Nat) (bb : List Nat) : List Nat :=
  if s.Indent ≠ 0 then
    bb ++ [10] ++ List.replicate s.Pfx 32 ++ List.replicate (s.Indent * level) 32
  else bb

/-- Go `Number.append`: the sign byte when `IsNeg`, then either the
formatted float (with `".0"` appended when it contains no dot) or the
decimal integer magnitude.  `fmtF` stands for
`strconv.FormatFloat(f, 'f', -1, 64)` on the bit pattern. -/
def numberAppend (fmtF : Nat → List Nat) (n : Number) (bb : List Nat) :
    List Nat :=
  let bb2 := if n.IsNeg then bb ++ [45] else bb
  if n.IsFloat then
    let s := fmtF n.Float
    let s2 := if s.contains 46 then s else s ++ [46, 48]
    bb2 ++ s2
  else bb2 ++ formatUint n.Integer

/-- Go `appendString`: `strconv.Quote` of the raw text. -/
def appendString (isPrint : Nat → Bool) (bb : List Nat) (str : List Nat) :
    List Nat :=
  bb ++ quote isPrint str

/-- Go `string <` on byte strings (lexicographic). -/
def ltBytes : List Nat → List Nat → Bool
  | [], [] => false
  | [], _ :: _ => true
  | _ :: _, [] => false
  | a :: as, b :: bs => if a < b then true else if b < a then false else ltBytes as bs

/-- One insertion step of the key sort used when `SortKeys` is set. -/
def insertByKey (kv : List Nat × List Nat) :
    List (List Nat × List Nat) → List (List Nat × List Nat)
  | [] => [kv]
  | kv2 :: rest =>
    if ltBytes kv2.1 kv.1 then kv2 :: insertByKey kv rest else kv :: kv2 :: rest

/-- Ascending sort by key, modelling the effect of Go's
`sort.Slice(keys, keys[i].key < keys[j].key)`.  (Go's sort is unstable, so
for duplicate keys its order among equal keys is unspecified; this model
fixes one order.  No claim below exercises `SortKeys`.) -/
def sortByKey (l : List (List Nat × List Nat)) : List (List Nat × List Nat) :=
  l.foldr insertByKey []

/-- The per-entry emission loop of Go `Object.append`, over entries whose
values are already rendered: separating comma, indent, quoted key, colon,
`KeyValueGap` spaces, value bytes. -/
def objectLoop (isPrint : Nat → Bool) (s : Serializer)
    (keys : List (List Nat × List Nat)) (level i : Nat) (bb : List Nat) :
    List Nat :=
  match keys with
  | [] => bb
  | (k, vb) :: rest =>
    let bb2 := if 0 < i then bb ++ [44] else bb
    let bb3 := appendIndent s (level + 1) bb2
    let bb4 := appendString isPrint bb3 k ++ [58] ++
      List.replicate s.KeyValueGap 32 ++ vb
    objectLoop isPrint s rest level (i + 1) bb4

mutual
/-- Go `Value.append` (the per-variant `append` methods).  The `Object`
case collects the iterator's entries, optionally sorts them by key, and
emits each entry; entry values are rendered first (Go renders them in
emission order into the shared buffer — every `append` method only ever
appends, so the two are byte-for-byte the same). -/
def valueAppend (isPrint : Nat → Bool) (fmtF : Nat → List Nat)
    (s : Serializer) : Value → Nat → List Nat → List Nat
  | .null, _, bb => bb ++ [110, 117, 108, 108]
  | .bool b, _, bb =>
    bb ++ (if b then [116, 114, 117, 101] else [102, 97, 108, 115, 101])
  | .number n, _, bb => numberAppend fmtF n bb
  | .string str, _, bb => appendString isPrint bb str
  | .array a, level, bb =>
    let bb2 := arrayLoop isPrint fmtF s a level 0 (bb ++ [91])
    let bb3 := if 0 < a.length then appendIndent s level bb2 else bb2
    bb3 ++ [93]
  | .object o, level, bb =>
    let keys :=
      match o with
      | none => []
      | some es => renderEntries isPrint fmtF s es (level + 1)
    let keys2 := if s.SortKeys then sortByKey keys else keys
    let bb2 := objectLoop isPrint s keys2 level 0 (bb ++ [123])
    let bb3 := if 0 < keys2.length then appendIndent s level bb2 else bb2
    bb3 ++ [125]

/-- The element loop of Go `Array.append`. -/
def arrayLoop (isPrint : Nat → Bool) (fmtF : Nat → List Nat)
    (s : Serializer) : List Value → Nat → Nat → List Nat → List Nat
  | [], _, _, bb => bb
  | v :: rest, level, i, bb =>
    let bb2 := if 0 < i then bb ++ [44] else bb
    let bb3 := appendIndent s (level + 1) bb2
    let bb4 := valueAppend isPrint fmtF s v (level + 1) bb3
    arrayLoop isPrint fmtF s rest level (i + 1) bb4

/-- The iterator collection of Go `Object.append`: each entry's key with
its value rendered at the entry level. -/
def renderEntries (isPrint : Nat → Bool) (fmtF : Nat → List Nat)
    (s : Serializer) : List (List Nat × Value) → Nat →
      List (List Nat × List Nat)
  | [], _ => []
  | (k, v) :: rest, lev =>
    (k, valueAppend isPrint fmtF s v lev []) ::
      renderEntries isPrint fmtF s rest lev
end

/-- Go `(*Serializer).Serialize`: the prefix spaces, then the value at
level 0. -/
def Serializer.Serialize (isPrint : Nat → Bool) (fmtF : Nat → List Nat)
    (s : Serializer) (v : Value) : List Nat :=
  valueAppend isPrint fmtF s v 0 (List.replicate s.Pfx 32)

/-- Go package-level `Serialize`: the zero `defSerializer`. -/
def Serialize (isPrint : Nat → Bool) (fmtF : Nat → List Nat) (v : Value) :
    List Nat :=
  Serializer.Serialize isPrint fmtF ⟨0, 0, 0, false⟩ v

/-! ## The ordered duplicate-preserving map (`orderedDuplicateMap`) and the
`Object` methods built on it.

Go backs the map with a `container/list` linked list of keys plus a
`map[K][]entry` whose entries hold `*list.Element` pointers.  Element
pointers are modelled by numeric ids drawn from `nextId`; the Go map is an
association list (`mget`/`mset`/`mdel` are Go map read, write and
`delete`).  A nil `*orderedDuplicateMap` — the `m` field of a zero
`Object` — is `none`; methods that dereference it return `none`,
modelling the run-time panic. -/

/-- Go `orderedDuplicateMapEntry`: the element pointer (as its id) and the
stored value. -/
structure odmEntry (V : Type) where
  key : Nat
  value : V

/-- Go `orderedDuplicateMap`. -/
structure orderedDuplicateMap (K V : Type) where
  keys : List (Nat × K)
  m : List (K × List (odmEntry V))
  nextId : Nat

/-- Go map read `o.m[k]` (a missing key reads as the nil slice). -/
def mget [DecidableEq K] (m : List (K × List (odmEntry V))) (k : K) :
    List (odmEntry V) :=
  match m.find? (fun p => p.1 = k) with
  | some p => p.2
  | none => []

/-- Go map write `o.m[k] = es`. -/
def mset [DecidableEq K] (m : List (K × List (odmEntry V))) (k : K)
    (es : List (odmEntry V)) : List (K × List (odmEntry V)) :=
  if m.any (fun p => p.1 = k) then
    m.map (fun p => if p.1 = k then (k, es) else p)
  else m ++ [(k, es)]

/-- Go `delete(o.m, k)`. -/
def mdel [DecidableEq K] (m : List (K × List (odmEntry V))) (k : K) :
    List (K × List (odmEntry V)) :=
  m.filter (fun p => !(p.1 = k : Bool))

namespace orderedDuplicateMap

variable {K V : Type} [DecidableEq K]

/-- Go `(*orderedDuplicateMap).get`: the first entry of `o.m[k]`, with a
found flag (the missing-key zero value is `none`). -/
def get (o : orderedDuplicateMap K V) (k : K) : Option V × Bool :=
  match mget o.m k with
  | [] => (none, false)
  | e :: _ => (some e.value, true)

/-- Go `(*orderedDuplicateMap).getAll`. -/
def getAll (o : orderedDuplicateMap K V) (k : K) : List V × Bool :=
  match mget o.m k with
  | [] => ([], false)
  | es => (es.map (·.value), true)

/-- Go `(*orderedDuplicateMap).add`: push the key at the back of the key
list and append the entry to the key's slice. -/
def add (o : orderedDuplicateMap K V) (k : K) (v : V) :
    orderedDuplicateMap K V :=
  ⟨o.keys ++ [(o.nextId, k)],
   mset o.m k (mget o.m k ++ [⟨o.nextId, v⟩]),
   o.nextId + 1⟩

/-- Go `(*orderedDuplicateMap).remove`: drop each of `o.m[k]`'s elements
from the key list, then delete `k` from the map. -/
def remove (o : orderedDuplicateMap K V) (k : K) :
    orderedDuplicateMap K V :=
  ⟨o.keys.filter (fun p => !(mget o.m k).any (fun e => e.key = p.1)),
   mdel o.m k,
   o.nextId⟩

/-- Go `(*orderedDuplicateMap).set`: remove then add. -/
def set (o : orderedDuplicateMap K V) (k : K) (v : V) :
    orderedDuplicateMap K V :=
  (o.remove k).add k v

/-- Go `(*orderedDuplicateMap).len` (nil receiver reads as 0): the sum of
the per-key slice lengths. -/
def len (o : Option (orderedDuplicateMap K V)) : Nat :=
  match o with
  | none => 0
  | some om => (om.m.map (fun p => p.2.length)).sum

end orderedDuplicateMap

/-- Go `orderedDuplicateMapIterator`: the current element of the key list
(the remaining suffix here) and the map. -/
structure odmIter (K V : Type) where
  e : List (Nat × K)
  m : List (K × List (odmEntry V))

/-- Go `(*orderedDuplicateMap).iter` (nil receiver yields the empty
iterator). -/
def orderedDuplicateMap.iter (o : Option (orderedDuplicateMap K V)) :
    odmIter K V :=
  match o with
  | none => ⟨[], []⟩
  | some om => ⟨om.keys, om.m⟩

/-- Go `(*orderedDuplicateMapIterator).next`: the inner `none` is the
exhausted iterator's `(zero, zero, false)` return; the outer `none` is the
`panic("illegal map state")` taken when the current element is missing
from its key's slice. -/
def odmIter.next [DecidableEq K] (it : odmIter K V) :
    Option (Option (K × V) × odmIter K V) :=
  match it.e with
  | [] => some (none, it)
  | (id, k) :: rest =>
    match (mget it.m k).find? (fun e => e.key = id) with
    | some e => some (some (k, e.value), ⟨rest, it.m⟩)
    | none => none

/-- The element walk behind `odmIter.collect`, structurally on the
remaining key-list suffix. -/
def collectGo [DecidableEq K] (m : List (K × List (odmEntry V))) :
    List (Nat × K) → Option (List (K × V))
  | [] => some []
  | (id, k) :: rest =>
    match (mget m k).find? (fun e => e.key = id) with
    | some e => (collectGo m rest).map (fun l => (k, e.value) :: l)
    | none => none

/-- Driving `next` to exhaustion: the sequence of yielded pairs, or `none`
if any step panics. -/
def odmIter.collect [DecidableEq K] (it : odmIter K V) :
    Option (List (K × V)) :=
  collectGo it.m it.e

/-! ### The `Object` methods (`part` defining `Value`): a nil-able pointer
to the map.  `init` materialises the empty map; `Get`, `GetAll` and
`Delete` dereference the pointer without a nil check, so on the zero
`Object` they panic (`none`); `Len` and `Iter` nil-check. -/

/-- Go `Object`: the `m *orderedDuplicateMap[string, Value]` field. -/
def Object : Type := Option (orderedDuplicateMap (List Nat) Value)

/-- The empty map materialised by Go `(*Object).init`. -/
def emptyOdm : orderedDuplicateMap (List Nat) Value := ⟨[], [], 0⟩

/-- Go `Object.Get` (no nil check: panics on the zero Object). -/
def Object.Get (o : Object) (k : List Nat) : Option (Option Value × Bool) :=
  match o with
  | none => none
  | some om => some (om.get k)

/-- Go `Object.GetAll` (no nil check: panics on the zero Object). -/
def Object.GetAll (o : Object) (k : List Nat) :
    Option (List Value × Bool) :=
  match o with
  | none => none
  | some om => some (om.getAll k)

/-- Go `(*Object).Add`: `init` then `add`. -/
def Object.Add (o : Object) (k : List Nat) (v : Value) : Object :=
  some ((o.getD emptyOdm).add k v)

/-- Go `(*Object).Set`: `init` then `set`. -/
def Object.Set (o : Object) (k : List Nat) (v : Value) : Object :=
  some ((o.getD emptyOdm).set k v)

/-- Go `Object.Delete` (no nil check: panics on the zero Object). -/
def Object.Delete (o : Object) (k : List Nat) : Option Object :=
  match o with
  | none => none
  | some om => some (some (om.remove k))

/-- Go `(*Object).Len` (nil-checked inside `len`). -/
def Object.Len (o : Object) : Nat := orderedDuplicateMap.len o

/-- Go `Object.Iter` (nil-checked inside `iter`). -/
def Object.Iter (o : Object) : odmIter (List Nat) Value :=
  orderedDuplicateMap.iter o

/-! ## Claim C8: sequencing (`ChainP`). -/

/-- The specification's description of sequencing, as its own definition
for the refinement comparison: run the parsers in order threading the
cursor forward (`inl` carries the final cursor and the outputs), and
surface the first failing step's result (`inr`). -/
def chainSpec [ResultC R] : List (Parser I O R) → I → (I × List O) ⊕ R
  | [], ii => .inl (ii, [])
  | p :: ps, ii =>
    let t := p ii
    if ResultC.Valid t.2.2 then
      match chainSpec ps t.1 with
      | .inl (iF, vs) => .inl (iF, t.2.1 :: vs)
      | .inr r => .inr r
    else .inr t.2.2

theorem chainAux_spec [ResultC R] (ps : List (Parser I O R)) (ii0 ii2 : I)
    (acc : List O) :
    chainAux ii0 ps ii2 acc =
      match chainSpec ps ii2 with
      | .inl (iF, vs) => (iF, acc ++ vs, ResultC.validR)
      | .inr r => (ii0, [], r) := by
  induction ps generalizing ii2 acc with
  | nil => simp [chainAux, chainSpec]
  | cons p ps ih =>
    simp only [chainAux, chainSpec]
    by_cases hv : ResultC.Valid (p ii2).2.2
    · simp only [if_pos hv, ih]
      match chainSpec ps (p ii2).1 with
      | .inl (iF, vs) => simp
      | .inr r => simp
    · simp [if_neg hv]

/-- C8: the sequence combinator `ChainP` runs its parsers in listed order,
threading the cursor forward; when every step is valid it returns the final
cursor with the collected outputs, and when any step fails the whole
sequence returns that step's failing result together with the cursor at the
pre-sequence position, so no partial consumption is observable. -/
theorem chainP_threads_and_rewinds [ResultC R] (ps : List (Parser I O R))
    (ii : I) :
    ChainP ps ii =
      match chainSpec ps ii with
      | .inl (iF, vs) => (iF, vs, ResultC.validR)
      | .inr r => (ii, [], r) := by
  have h := chainAux_spec (R := R) ps ii ii []
  simpa [ChainP] using h

/-! ## Claim C2: alternation (`TryP`). -/

/-- C2: the alternation combinator `TryP` tries alternatives in listed
order.  Given a prefix `ps` of alternatives that all return a non-fatal
non-match at `ii`: a fatal result at the next alternative `p` is returned
immediately from the original input, independently of all later
alternatives `qs`; a valid result at `p` returns `p`'s own triple; and
exhausting only non-fatal non-matches yields `ok(false)` at the original
input. -/
theorem tryP_order_fatal_first [TryResultC R] [Inhabited O]
    (ps qs : List (Parser I O R)) (p : Parser I O R) (ii : I)
    (hns : ∀ q ∈ ps, ResultC.Fatal ((q ii).2.2) = false ∧
      ResultC.Valid ((q ii).2.2) = false) :
    (ResultC.Fatal ((p ii).2.2) = true →
      TryP (ps ++ p :: qs) ii = (ii, default, (p ii).2.2))
    ∧ (ResultC.Fatal ((p ii).2.2) = false →
       ResultC.Valid ((p ii).2.2) = true →
      TryP (ps ++ p :: qs) ii = p ii)
    ∧ TryP ps ii = (ii, default, TryResultC.okR false) := by
  induction ps with
  | nil =>
    refine ⟨fun hf => ?_, fun hnf hv => ?_, rfl⟩
    · simp [TryP, hf]
    · simp [TryP, hnf, hv]
  | cons q ps ih =>
    obtain ⟨hqf, hqv⟩ := hns q (by simp)
    have ih' := ih (fun q' hq' => hns q' (by simp [hq']))
    refine ⟨fun hf => ?_, fun hnf hv => ?_, ?_⟩
    · simpa [TryP, hqf, hqv] using ih'.1 hf
    · simpa [TryP, hqf, hqv] using ih'.2.1 hnf hv
    · simpa [TryP, hqf, hqv] using ih'.2.2

/-- Witness for C2 at a concrete input: the first alternative is a
non-fatal non-match, the second is fatal; alternation stops there with the
fatal result at the original input, without consulting the third. -/
theorem tryP_order_fatal_first_witness :
    TryP
      [(fun n => (n + 1, 5, COK false)),
       (fun n => (n, 7, CErr (some .unmatchedQuote))),
       (fun n => (n, 9, COK true))] (0 : Nat)
      = (0, 0, CErr (some .unmatchedQuote)) :=
  (tryP_order_fatal_first
    [(fun n => (n + 1, 5, COK false))]
    [(fun n => (n, 9, COK true))]
    (fun n => (n, 7, CErr (some .unmatchedQuote))) 0
    (by
      intro q hq
      simp only [List.mem_singleton] at hq
      subst hq
      exact ⟨rfl, rfl⟩)).1 rfl

/-! ## Claim C7: Object operations on a missing key and the zero Object. -/

/-- C7 concerns the claim that no `Object` operation panics on a missing
key, including on the zero-value `Object`.  On an initialised (even empty)
map, `Get` on a missing key indeed reports `(nil, false)` — but on the
zero-value `Object` (nil internal map), `Get`, `GetAll` and `Delete`
dereference the nil `*orderedDuplicateMap` and panic (modelled by `none`),
while `Len` and `Iter` nil-check and stay total.  This theorem evaluates
the operations at the failing input `Object{}` with key `"a"`. -/
theorem objectZeroValue_get_panics :
    Object.Get (none : Object) [97] = none
    ∧ Object.GetAll (none : Object) [97] = none
    ∧ Object.Delete (none : Object) [97] = none
    ∧ Object.Len (none : Object) = 0
    ∧ odmIter.collect (Object.Iter (none : Object)) = some []
    ∧ Object.Get (some emptyOdm) [97] = some (none, false)
    ∧ Object.GetAll (some emptyOdm) [97] = some ([], false) :=
  ⟨rfl, rfl, rfl, rfl, rfl, rfl, rfl⟩

/-! ## Claim C6: the ordered duplicate-preserving map.

`Rep om abs` relates the two-structure Go map to its abstract content
`abs`: the insertion-ordered list of `(element id, key, value)` triples.
All operations are characterised against `abs`, and any state reachable by
the operations satisfies `Rep` for some `abs`. -/

section OdmTheory

variable {K V : Type} [DecidableEq K]

theorem mget_cons (p : K × List (odmEntry V)) (m : List (K × List (odmEntry V)))
    (k : K) : mget (p :: m) k = if p.1 = k then p.2 else mget m k := by
  by_cases h : p.1 = k
  · simp [mget, List.find?_cons, h]
  · simp [mget, List.find?_cons, h]

theorem mget_eq_nil {m : List (K × List (odmEntry V))} {k : K}
    (h : m.any (fun p => p.1 = k) = false) : mget m k = [] := by
  have hf : m.find? (fun p => p.1 = k) = none := by
    rw [List.find?_eq_none]
    intro p hp
    simpa using List.any_eq_false.mp h p hp
  unfold mget
  rw [hf]

theorem mget_map_update (m : List (K × List (odmEntry V))) (k k' : K)
    (es : List (odmEntry V)) :
    mget (m.map (fun p => if p.1 = k then (k, es) else p)) k' =
      if k' = k then (if m.any (fun p => p.1 = k) then es else [])
      else mget m k' := by
  induction m with
  | nil => by_cases h : k' = k <;> simp [mget, h]
  | cons p m ih =>
    simp only [List.map_cons, List.any_cons, mget_cons]
    by_cases hp : p.1 = k
    · by_cases hk : k' = k
      · subst hk
        simp [hp, ih]
      · simp [hp, hk, Ne.symm hk, ih]
    · by_cases hk : k' = k
      · subst hk
        have hd : decide (p.1 = k') = false := by simp [hp]
        simp only [if_neg hp, mget_cons, ih, if_pos rfl, hd, Bool.false_or]
      · simp [hp, hk, ih]

theorem mget_mset (m : List (K × List (odmEntry V))) (k k' : K)
    (es : List (odmEntry V)) :
    mget (mset m k es) k' = if k' = k then es else mget m k' := by
  unfold mset
  by_cases hany : (m.any (fun p => p.1 = k)) = true
  · rw [if_pos hany, mget_map_update, hany]
    by_cases hk : k' = k <;> simp [hk]
  · rw [if_neg hany]
    induction m with
    | nil =>
      rw [List.nil_append, mget_cons]
      by_cases hk : k' = k
      · simp [hk]
      · rw [if_neg (show ¬(k, es).1 = k' from fun h => hk h.symm), if_neg hk]
    | cons p m ih =>
      simp only [List.any_cons, Bool.or_eq_true, not_or] at hany
      rw [List.cons_append, mget_cons, mget_cons,
        ih (by simpa using hany.2)]
      by_cases hpk' : p.1 = k'
      · have hkk : ¬k' = k := fun h => hany.1 (by simp [hpk', h])
        rw [if_pos hpk', if_neg hkk, if_pos hpk']
      · rw [if_neg hpk']
        by_cases hk : k' = k
        · rw [if_pos hk, if_pos hk]
        · rw [if_neg hk, if_neg hk, if_neg hpk']

theorem mget_mdel (m : List (K × List (odmEntry V))) (k k' : K) :
    mget (mdel m k) k' = if k' = k then [] else mget m k' := by
  induction m with
  | nil => by_cases h : k' = k <;> simp [mdel, mget, h]
  | cons p m ih =>
    by_cases hp : p.1 = k
    · rw [show mdel (p :: m) k = mdel m k by simp [mdel, List.filter_cons, hp],
        ih, mget_cons]
      by_cases hk : k' = k
      · simp [hk]
      · rw [if_neg hk, if_neg hk,
          if_neg (show ¬p.1 = k' from fun h => hk (by rw [← h]; exact hp))]
    · rw [show mdel (p :: m) k = p :: mdel m k by simp [mdel, List.filter_cons, hp],
        mget_cons, mget_cons, ih]
      by_cases hk : k' = k
      · rw [if_pos hk, if_pos hk,
          if_neg (show ¬p.1 = k' from fun h => hp (hk ▸ h))]
      · rw [if_neg hk, if_neg hk]

/-- The conversion from an abstract triple to a stored entry. -/
def absEntry (t : Nat × K × V) : odmEntry V := ⟨t.1, t.2.2⟩

/-- The abstraction relation: the key list is the projection of `abs`, the
map groups `abs` by key in order, all ids are below `nextId` and distinct. -/
def Rep (om : orderedDuplicateMap K V) (abs : List (Nat × K × V)) : Prop :=
  om.keys = abs.map (fun t => (t.1, t.2.1))
  ∧ (∀ k, mget om.m k = (abs.filter (fun t => t.2.1 = k)).map absEntry)
  ∧ (∀ t ∈ abs, t.1 < om.nextId)
  ∧ (abs.map (fun t => t.1)).Nodup

theorem rep_empty : Rep (⟨[], [], 0⟩ : orderedDuplicateMap K V) [] := by
  refine ⟨rfl, fun k => rfl, by simp, by simp⟩

theorem rep_add {om : orderedDuplicateMap K V} {abs : List (Nat × K × V)}
    (h : Rep om abs) (k : K) (v : V) :
    Rep (om.add k v) (abs ++ [(om.nextId, k, v)]) := by
  obtain ⟨h1, h2, h3, h4⟩ := h
  refine ⟨?_, ?_, ?_, ?_⟩
  · simp [orderedDuplicateMap.add, h1]
  · intro k'
    simp only [orderedDuplicateMap.add, mget_mset, h2, List.filter_append,
      List.map_append]
    by_cases hk : k' = k
    · subst hk
      simp [absEntry]
    · have hk2 : ¬k = k' := fun h => hk (Eq.symm h)
      simp [hk, hk2]
  · intro t ht
    simp only [List.mem_append, List.mem_singleton] at ht
    rcases ht with ht | ht
    · have := h3 t ht
      simp only [orderedDuplicateMap.add]
      omega
    · subst ht
      simp [orderedDuplicateMap.add]
  · simp only [List.map_append, List.map_cons, List.map_nil]
    rw [List.nodup_append]
    refine ⟨h4, by simp, ?_⟩
    intro a ha
    simp only [List.mem_map] at ha
    obtain ⟨t, ht, rfl⟩ := ha
    have := h3 t ht
    simp
    omega

theorem rep_remove {om : orderedDuplicateMap K V} {abs : List (Nat × K × V)}
    (h : Rep om abs) (k : K) :
    Rep (om.remove k) (abs.filter (fun t => !(t.2.1 = k : Bool))) := by
  obtain ⟨h1, h2, h3, h4⟩ := h
  have hinj := List.inj_on_of_nodup_map (f := fun t : Nat × K × V => t.1) h4
  refine ⟨?_, ?_, ?_, ?_⟩
  · simp only [orderedDuplicateMap.remove, h1, h2]
    rw [List.filter_map]
    congr 1
    apply List.filter_congr
    intro t ht
    simp only [Function.comp]
    by_cases htk : t.2.1 = k
    · have htf : t ∈ abs.filter (fun t => t.2.1 = k) := by
        simp [List.mem_filter, ht, htk]
      have : (((abs.filter (fun t => t.2.1 = k)).map absEntry).any
          (fun e => e.key = t.1)) = true := by
        simp only [List.any_eq_true]
        exact ⟨absEntry t, List.mem_map_of_mem _ htf, by simp [absEntry]⟩
      simp [this, htk]
    · have : (((abs.filter (fun t => t.2.1 = k)).map absEntry).any
          (fun e => e.key = t.1)) = false := by
        simp only [List.any_eq_false]
        intro e he
        simp only [List.mem_map] at he
        obtain ⟨u, hu, rfl⟩ := he
        simp only [List.mem_filter] at hu
        intro hkey
        simp only [absEntry, decide_eq_true_eq] at hkey
        have : u = t := hinj hu.1 ht hkey
        subst this
        exact htk (by simpa using hu.2)
      simp [this, htk]
  · intro k'
    simp only [orderedDuplicateMap.remove, mget_mdel, List.filter_filter]
    by_cases hk : k' = k
    · rw [if_pos hk]
      symm
      rw [List.map_eq_nil_iff, List.filter_eq_nil_iff]
      intro t ht
      rw [hk]
      by_cases h : t.2.1 = k <;> simp [h]
    · rw [if_neg hk, h2]
      congr 1
      apply List.filter_congr
      intro t ht
      by_cases h : t.2.1 = k'
      · have hkk : ¬t.2.1 = k := fun hh => hk (by rw [← h]; exact hh)
        simp [h, hkk, hk]
      · simp [h]
  · intro t ht
    exact h3 t (List.mem_of_mem_filter ht)
  · exact ((List.filter_sublist _).map (fun t : Nat × K × V => t.1)).nodup h4

/-- The earliest surviving entry for `k` in an abstract entry list. -/
def absFirst (abs : List (Nat × K × V)) (k : K) : Option V × Bool :=
  match abs.filter (fun t => t.2.1 = k) with
  | [] => (none, false)
  | t :: _ => (some t.2.2, true)

/-- All surviving entries for `k` in an abstract entry list, in order. -/
def absAll (abs : List (Nat × K × V)) (k : K) : List V × Bool :=
  match abs.filter (fun t => t.2.1 = k) with
  | [] => ([], false)
  | l => (l.map (fun t => t.2.2), true)

theorem rep_get {om : orderedDuplicateMap K V} {abs : List (Nat × K × V)}
    (h : Rep om abs) (k : K) : om.get k = absFirst abs k := by
  obtain ⟨-, h2, -, -⟩ := h
  simp only [orderedDuplicateMap.get, h2, absFirst]
  cases habs : abs.filter (fun t => t.2.1 = k) with
  | nil => simp [habs]
  | cons t rest => simp [habs, absEntry]

theorem rep_getAll {om : orderedDuplicateMap K V} {abs : List (Nat × K × V)}
    (h : Rep om abs) (k : K) : om.getAll k = absAll abs k := by
  obtain ⟨-, h2, -, -⟩ := h
  simp only [orderedDuplicateMap.getAll, h2, absAll]
  cases habs : abs.filter (fun t => t.2.1 = k) with
  | nil => simp [habs]
  | cons t rest => simp [habs, absEntry]

theorem find_absEntry (t : Nat × K × V) :
    ∀ (l : List (Nat × K × V)), (l.map (fun u => u.1)).Nodup → t ∈ l →
      (l.map absEntry).find? (fun e => e.key = t.1) = some (absEntry t)
  | [], _, ht => absurd ht (List.not_mem_nil t)
  | u :: l, hnd, ht => by
    simp only [List.map_cons, List.find?_cons]
    by_cases hu : u.1 = t.1
    · have : u = t := by
        rcases List.mem_cons.mp ht with rfl | htl
        · rfl
        · exfalso
          simp only [List.map_cons, List.nodup_cons] at hnd
          exact hnd.1 (hu ▸ List.mem_map_of_mem _ htl)
      subst this
      simp [absEntry]
    · have hd : decide ((absEntry u).key = t.1) = false := by
        simp [absEntry, hu]
      rw [hd]
      have htl : t ∈ l := by
        rcases List.mem_cons.mp ht with rfl | htl
        · exact absurd rfl hu
        · exact htl
      exact find_absEntry t l (by
        simp only [List.map_cons, List.nodup_cons] at hnd
        exact hnd.2) htl

theorem collectGo_abs (m : List (K × List (odmEntry V)))
    (abs0 : List (Nat × K × V))
    (hm : ∀ k, mget m k = (abs0.filter (fun t => t.2.1 = k)).map absEntry)
    (hnd : (abs0.map (fun t => t.1)).Nodup) :
    ∀ abs1 : List (Nat × K × V), (∀ t ∈ abs1, t ∈ abs0) →
      collectGo m (abs1.map (fun t => (t.1, t.2.1))) =
        some (abs1.map (fun t => (t.2.1, t.2.2)))
  | [] , _ => by simp [collectGo]
  | t :: abs1, hsub => by
    simp only [List.map_cons, collectGo]
    rw [hm t.2.1]
    have ht0 : t ∈ abs0.filter (fun u => u.2.1 = t.2.1) :=
      List.mem_filter.mpr ⟨hsub t (by simp), by simp⟩
    have hndf : ((abs0.filter (fun u => u.2.1 = t.2.1)).map (fun u => u.1)).Nodup :=
      hnd.sublist ((List.filter_sublist _).map _)
    rw [find_absEntry t _ hndf ht0]
    rw [collectGo_abs m abs0 hm hnd abs1 (fun u hu => hsub u (by simp [hu]))]
    rfl

theorem rep_collect {om : orderedDuplicateMap K V} {abs : List (Nat × K × V)}
    (h : Rep om abs) :
    odmIter.collect (orderedDuplicateMap.iter (some om)) =
      some (abs.map (fun t => (t.2.1, t.2.2))) := by
  obtain ⟨h1, h2, h3, h4⟩ := h
  simp only [odmIter.collect, orderedDuplicateMap.iter, h1]
  exact collectGo_abs om.m abs h2 h4 abs (fun t ht => ht)

/-- The states reachable by any sequence of map operations from the empty
map that `init` creates. -/
inductive Reaches : orderedDuplicateMap K V → Prop where
  | empty : Reaches ⟨[], [], 0⟩
  | add (o : orderedDuplicateMap K V) (k : K) (v : V) :
      Reaches o → Reaches (o.add k v)
  | set (o : orderedDuplicateMap K V) (k : K) (v : V) :
      Reaches o → Reaches (o.set k v)
  | remove (o : orderedDuplicateMap K V) (k : K) :
      Reaches o → Reaches (o.remove k)

theorem reaches_rep {om : orderedDuplicateMap K V} (h : Reaches om) :
    ∃ abs, Rep om abs := by
  induction h with
  | empty => exact ⟨[], rep_empty⟩
  | add o k v _ ih =>
    obtain ⟨abs, hr⟩ := ih
    exact ⟨_, rep_add hr k v⟩
  | set o k v _ ih =>
    obtain ⟨abs, hr⟩ := ih
    exact ⟨_, rep_add (rep_remove hr k) k v⟩
  | remove o k _ ih =>
    obtain ⟨abs, hr⟩ := ih
    exact ⟨_, rep_remove hr k⟩

end OdmTheory

section C6

variable {K V : Type} [DecidableEq K]

/-- C6: for every state of the ordered duplicate-preserving map reachable
by a sequence of operations, there is an abstract insertion-order entry
list `abs` such that: iteration yields exactly the surviving entries in
insertion order; `add` appends a new entry without removing prior entries
under the same key; `set` removes all prior entries for the key and then
adds the new one; `get` returns the earliest-inserted surviving entry for
the key; `get-all` returns every surviving entry for the key in insertion
order; and `delete` (`remove`) removes every entry for the key — each
op's after-state again iterating to the corresponding list. -/
theorem odm_operations_spec (om : orderedDuplicateMap K V)
    (h : Reaches om) :
    ∃ abs : List (Nat × K × V),
      odmIter.collect (orderedDuplicateMap.iter (some om)) =
        some (abs.map (fun t => (t.2.1, t.2.2)))
      ∧ (∀ k v,
          odmIter.collect (orderedDuplicateMap.iter (some (om.add k v))) =
            some ((abs ++ [(om.nextId, k, v)]).map (fun t => (t.2.1, t.2.2))))
      ∧ (∀ k v, om.set k v = (om.remove k).add k v
          ∧ odmIter.collect (orderedDuplicateMap.iter (some (om.set k v))) =
              some ((abs.filter (fun t => !(t.2.1 = k : Bool)) ++
                [((om.remove k).nextId, k, v)]).map (fun t => (t.2.1, t.2.2))))
      ∧ (∀ k, om.get k = absFirst abs k)
      ∧ (∀ k, om.getAll k = absAll abs k)
      ∧ (∀ k,
          odmIter.collect (orderedDuplicateMap.iter (some (om.remove k))) =
            some ((abs.filter (fun t => !(t.2.1 = k : Bool))).map
              (fun t => (t.2.1, t.2.2)))) := by
  obtain ⟨abs, hr⟩ := reaches_rep h
  refine ⟨abs, rep_collect hr, ?_, ?_, ?_, ?_, ?_⟩
  · intro k v
    exact rep_collect (rep_add hr k v)
  · intro k v
    exact ⟨rfl, rep_collect (rep_add (rep_remove hr k) k v)⟩
  · intro k
    exact rep_get hr k
  · intro k
    exact rep_getAll hr k
  · intro k
    exact rep_collect (rep_remove hr k)

end C6

/-- Witness for C6 at a concrete operation sequence (two `add`s under the
same key, reached from the empty map). -/
theorem odm_operations_spec_witness :
    Reaches (((⟨[], [], 0⟩ : orderedDuplicateMap Nat Nat).add 1 10).add 1 20)
    ∧ ∃ abs : List (Nat × Nat × Nat),
        odmIter.collect (orderedDuplicateMap.iter
          (some (((⟨[], [], 0⟩ : orderedDuplicateMap Nat Nat).add 1 10).add 1 20))) =
          some (abs.map (fun t => (t.2.1, t.2.2))) := by
  have hr : Reaches (((⟨[], [], 0⟩ : orderedDuplicateMap Nat Nat).add 1 10).add 1 20) :=
    Reaches.add _ 1 20 (Reaches.add _ 1 10 Reaches.empty)
  refine ⟨hr, ?_⟩
  obtain ⟨abs, hcol, -⟩ := odm_operations_spec _ hr
  exact ⟨abs, hcol⟩

/-! ## Claim C5: the object grammar and the duplicate-preserving `Add`. -/

/-- A UTF-8 byte string from a Lean string literal (test inputs). -/
def strBytes (s : String) : List Nat :=
  s.data.foldr (fun c acc => utf8Encode c.toNat ++ acc) []

section C5Theory

variable {K V : Type} [DecidableEq K]

/-- The abstract triples of `kvs` with ids counted from `n`. -/
def absOfFrom (n : Nat) : List (K × V) → List (Nat × K × V)
  | [] => []
  | kv :: rest => (n, kv.1, kv.2) :: absOfFrom (n + 1) rest

theorem absOfFrom_map_pairs (n : Nat) :
    ∀ kvs : List (K × V),
      (absOfFrom n kvs).map (fun t => (t.2.1, t.2.2)) = kvs
  | [] => rfl
  | kv :: rest => by
    simp [absOfFrom, absOfFrom_map_pairs (n + 1) rest]

theorem absOfFrom_filter_map (n : Nat) (k : K) :
    ∀ kvs : List (K × V),
      ((absOfFrom n kvs).filter (fun t => t.2.1 = k)).map
          (fun t => (t.2.1, t.2.2)) =
        kvs.filter (fun kv => kv.1 = k)
  | [] => rfl
  | (k', v) :: rest => by
    by_cases hk : k' = k
    · simp [absOfFrom, List.filter_cons, hk,
        absOfFrom_filter_map (n + 1) k rest]
    · simp [absOfFrom, List.filter_cons, hk,
        absOfFrom_filter_map (n + 1) k rest]

theorem rep_foldAdd {om : orderedDuplicateMap K V} {abs : List (Nat × K × V)}
    (h : Rep om abs) :
    ∀ kvs : List (K × V),
      Rep (kvs.foldl (fun o kv => o.add kv.1 kv.2) om)
        (abs ++ absOfFrom om.nextId kvs)
  | [] => by simpa [absOfFrom] using h
  | kv :: rest => by
    have h2 := rep_foldAdd (rep_add h kv.1 kv.2) rest
    show Rep (List.foldl (fun o kv => o.add kv.1 kv.2) (om.add kv.1 kv.2) rest)
      (abs ++ ((om.nextId, kv.1, kv.2) :: absOfFrom (om.nextId + 1) rest))
    simpa [List.append_assoc,
      show (om.add kv.1 kv.2).nextId = om.nextId + 1 from rfl] using h2

theorem foldl_objectAdd_acc :
    ∀ (kvs : List (List Nat × Value)) (acc : List (List Nat × Value)),
      kvs.foldl (fun o kv => objectAdd o kv.1 kv.2) (some acc) =
        some (acc ++ kvs)
  | [], acc => by simp
  | kv :: rest, acc => by
    rw [List.foldl_cons,
      show objectAdd (some acc) kv.1 kv.2 = some (acc ++ [kv]) from rfl,
      foldl_objectAdd_acc rest (acc ++ [kv])]
    simp

theorem foldl_objectAdd (kvs : List (List Nat × Value)) :
    kvs.foldl (fun o kv => objectAdd o kv.1 kv.2) none =
      if kvs.isEmpty then none else some kvs := by
  cases kvs with
  | nil => rfl
  | cons kv rest =>
    rw [List.foldl_cons,
      show objectAdd none kv.1 kv.2 = some [kv] from rfl,
      foldl_objectAdd_acc rest [kv]]
    simp

theorem foldl_ObjectAdd_some (om : orderedDuplicateMap (List Nat) Value) :
    ∀ kvs : List (List Nat × Value),
      kvs.foldl (fun o kv => Object.Add o kv.1 kv.2) (some om) =
        some (kvs.foldl (fun o kv => o.add kv.1 kv.2) om)
  | [] => rfl
  | kv :: rest => by
    simp only [List.foldl_cons]
    rw [show Object.Add (some om) kv.1 kv.2 = some (om.add kv.1 kv.2) from rfl]
    exact foldl_ObjectAdd_some _ rest

/-- The earliest pair for `k` among plain key/value pairs. -/
def pairsFirst (kvs : List (K × V)) (k : K) : Option V × Bool :=
  match kvs.filter (fun kv => kv.1 = k) with
  | [] => (none, false)
  | kv :: _ => (some kv.2, true)

/-- All pairs for `k` among plain key/value pairs, in order. -/
def pairsAll (kvs : List (K × V)) (k : K) : List V × Bool :=
  match kvs.filter (fun kv => kv.1 = k) with
  | [] => ([], false)
  | l => (l.map (fun kv => kv.2), true)

theorem absFirst_absOfFrom (n : Nat) (k : K) (kvs : List (K × V)) :
    absFirst (absOfFrom n kvs) k = pairsFirst kvs k := by
  have hm := absOfFrom_filter_map n k kvs
  unfold absFirst pairsFirst
  cases h1 : (absOfFrom n kvs).filter (fun t => t.2.1 = k) with
  | nil =>
    rw [h1] at hm
    simp only [List.map_nil] at hm
    rw [← hm]
  | cons t ts =>
    rw [h1] at hm
    simp only [List.map_cons] at hm
    rw [← hm]

theorem absAll_absOfFrom (n : Nat) (k : K) (kvs : List (K × V)) :
    absAll (absOfFrom n kvs) k = pairsAll kvs k := by
  have hm := absOfFrom_filter_map n k kvs
  unfold absAll pairsAll
  cases h1 : (absOfFrom n kvs).filter (fun t => t.2.1 = k) with
  | nil =>
    rw [h1] at hm
    simp only [List.map_nil] at hm
    rw [← hm]
  | cons t ts =>
    rw [h1] at hm
    simp only [List.map_cons] at hm
    rw [← hm]
    simp [List.map_map, Function.comp]

/-- `Validate` with an always-valid transformation (the shape of
`objectParser`'s build step). -/
theorem Validate_always_ok {O1 O2 : Type} [Inhabited O2]
    (p : Parser deserializer O1 CombineResult) (g : O1 → O2)
    (ii : deserializer) :
    Validate p (fun o => (g o, COK true)) ii =
      (if CombineResult.Valid (p ii).2.2 then
        ((p ii).1, g (p ii).2.1, (p ii).2.2)
      else (ii, default, (p ii).2.2)) := by
  unfold Validate
  by_cases hv : CombineResult.Valid (p ii).2.2
  · rw [if_pos (show ResultC.Valid (p ii).2.2 = true from hv),
      if_pos (show ResultC.Valid (COK true) = true from rfl), if_pos hv]
  · rw [if_neg (show ¬ResultC.Valid (p ii).2.2 = true from hv), if_neg hv]

end C5Theory

/-- The Object built by folding the duplicate-preserving `Add` over parsed
pairs, as a single definition for the claim statement. -/
def objectOfPairs (kvs : List (List Nat × Value)) : Object :=
  kvs.foldl (fun o kv => Object.Add o kv.1 kv.2) (none : Object)

theorem objectOfPairs_rep (kv : List Nat × Value)
    (rest : List (List Nat × Value)) :
    objectOfPairs (kv :: rest) =
      some ((kv :: rest).foldl (fun o kvp => o.add kvp.1 kvp.2) emptyOdm)
    ∧ Rep ((kv :: rest).foldl (fun o kvp => o.add kvp.1 kvp.2) emptyOdm)
        (absOfFrom 0 (kv :: rest)) := by
  constructor
  · show (kv :: rest).foldl (fun o kvp => Object.Add o kvp.1 kvp.2) none = _
    rw [List.foldl_cons,
      show Object.Add none kv.1 kv.2 = some (emptyOdm.add kv.1 kv.2) from rfl,
      foldl_ObjectAdd_some]
    rw [List.foldl_cons]
  · have h := rep_foldAdd (rep_add (rep_empty (K := List Nat) (V := Value)) kv.1 kv.2) rest
    rw [List.foldl_cons]
    simpa [absOfFrom, List.append_assoc,
      show ((emptyOdm.add kv.1 kv.2).nextId) = 1 from rfl] using h

theorem objectOfPairs_spec (kvs : List (List Nat × Value)) :
    odmIter.collect (Object.Iter (objectOfPairs kvs)) = some kvs
    ∧ (kvs ≠ [] → ∀ k, Object.Get (objectOfPairs kvs) k =
        some (pairsFirst kvs k))
    ∧ (kvs ≠ [] → ∀ k, Object.GetAll (objectOfPairs kvs) k =
        some (pairsAll kvs k)) := by
  cases kvs with
  | nil => exact ⟨rfl, fun h => absurd rfl h, fun h => absurd rfl h⟩
  | cons kv rest =>
    obtain ⟨hfold, hrep⟩ := objectOfPairs_rep kv rest
    refine ⟨?_, fun _ k => ?_, fun _ k => ?_⟩
    · rw [hfold]
      show odmIter.collect (orderedDuplicateMap.iter (some _)) = _
      rw [rep_collect hrep, absOfFrom_map_pairs]
    · rw [hfold]
      show some (orderedDuplicateMap.get _ k) = _
      rw [rep_get hrep k]
      exact congrArg some (absFirst_absOfFrom 0 k (kv :: rest))
    · rw [hfold]
      show some (orderedDuplicateMap.getAll _ k) = _
      rw [rep_getAll hrep k]
      exact congrArg some (absAll_absOfFrom 0 k (kv :: rest))

/-! ## Claims C3, C4, C10: concrete deserializer behaviour. -/

/-- C3: deserializing `[1,]` (bytes 91 49 44 93) and `{"a":1,}` (bytes
123 34 97 34 58 49 44 125) both return the structural
`InvalidTokenError` at the closing delimiter — the Go error produced by
`listParser` when, after a separator, no further element matches — and
never succeed.  The result is the same under two distinct float-parsing
oracles; these inputs never consult one (no float form appears). -/
theorem trailingComma_rejected :
    (Deserialize (fun _ => none) [91, 49, 44, 93] =
        .error (.invalidToken 93 1 4)
      ∧ Deserialize (fun _ => none) [123, 34, 97, 34, 58, 49, 44, 125] =
        .error (.invalidToken 125 1 8))
    ∧ (Deserialize (fun _ => some 0) [91, 49, 44, 93] =
        .error (.invalidToken 93 1 4)
      ∧ Deserialize (fun _ => some 0) [123, 34, 97, 34, 58, 49, 44, 125] =
        .error (.invalidToken 125 1 8)) :=
  ⟨⟨rfl, rfl⟩, ⟨rfl, rfl⟩⟩

/-- C4: deserializing `"abc` (bytes 34 97 98 99) — a string literal whose
closing quote is never found — fails with `ErrUnmatchedQuote`
specifically, which is distinct from the end-of-input-on-value error
`ErrUnexpectedEndOfInput`; the string scanner turns end of input into this
fatal error rather than a silent non-match. -/
theorem unterminatedString_unmatchedQuote :
    Deserialize (fun _ => none) [34, 97, 98, 99] = .error .unmatchedQuote
    ∧ Deserialize (fun _ => some 0) [34, 97, 98, 99] = .error .unmatchedQuote
    ∧ GoErr.unmatchedQuote ≠ GoErr.unexpectedEndOfInput :=
  ⟨rfl, rfl, by decide⟩

/-- C10: whenever the grammar parses one leading value successfully, the
top-level `Deserialize` returns that value with no error, even though
unconsumed bytes remain after the value (the post-parse cursor `d'` stops
short of the end); the remaining input does not affect the result. -/
theorem deserialize_ignores_trailing_input (parseF : List Nat → Option Nat)
    (b : List Nat) (d' : deserializer) (out : output)
    (h : jsonParserE parseF (b.length + 1) ⟨b, 0, 1, 1⟩ = (d', out, Err none))
    (hrem : d'.idx < b.length) :
    Deserialize parseF b = .ok out.value := by
  have hd : deserialize parseF b = .ok out := by
    unfold deserialize
    rw [h]
    rfl
  unfold Deserialize
  rw [hd]

/-- Witness for C10: `123abc` (bytes 49 50 51 97 98 99) deserializes to
the integer 123 while the cursor stops at offset 3 of 6. -/
theorem deserialize_ignores_trailing_input_witness :
    Deserialize (fun _ => none) [49, 50, 51, 97, 98, 99] =
      .ok (.number ⟨0, 123, false, false⟩)
    ∧ (jsonParserE (fun _ => none) 7 ⟨[49, 50, 51, 97, 98, 99], 0, 1, 1⟩).1.idx = 3 := by
  refine ⟨?_, rfl⟩
  exact deserialize_ignores_trailing_input (fun _ => none)
    [49, 50, 51, 97, 98, 99] _ _ rfl (by decide)

/-! ### C1: the serialize/deserialize round trip.

`cfg2` is the configuration named by the claim: indent width 2, no prefix,
key-value gap 1, no key sorting. -/

def cfg2 : Serializer := ⟨2, 0, 1, false⟩

/-- A byte that `strconv.Quote` emits verbatim: printable ASCII that is not
the quote or the backslash (so quoting and unquoting are both the
identity on it). -/
def plainChar (isPrint : Nat → Bool) (b : Nat) : Bool :=
  32 ≤ b && b ≤ 126 && b != 34 && b != 92 && isPrint b

/-- Pairwise-distinct keys. -/
def keysNodup : List (List Nat) → Bool
  | [] => true
  | k :: ks => !ks.contains k && keysNodup ks

mutual
/-- The claim's hypothesis: no object in the tree has two equal keys. -/
def noDupKeysV : Value → Bool
  | .null => true
  | .bool _ => true
  | .number _ => true
  | .string _ => true
  | .array vs => noDupKeysL vs
  | .object o =>
    match o with
    | none => true
    | some es => keysNodup (es.map (fun kv => kv.1)) && noDupKeysP es

def noDupKeysL : List Value → Bool
  | [] => true
  | v :: vs => noDupKeysV v && noDupKeysL vs

def noDupKeysP : List (List Nat × Value) → Bool
  | [] => true
  | kv :: es => noDupKeysV kv.2 && noDupKeysP es
end

mutual
/-- The canonical values, on which serialization loses nothing: numbers are
integer-kind with a zeroed float field and a magnitude below `2^64`,
strings (and keys) are plain printable ASCII, and object payloads are
never the empty entry list (which serializes like the nil map). -/
def canonicalV (isPrint : Nat → Bool) : Value → Bool
  | .null => true
  | .bool _ => true
  | .number n => !n.IsFloat && n.Float == 0 && decide (n.Integer < 2 ^ 64)
  | .string s => s.all (plainChar isPrint)
  | .array vs => canonicalL isPrint vs
  | .object o =>
    match o with
    | none => true
    | some es => !es.isEmpty && canonicalP isPrint es

def canonicalL (isPrint : Nat → Bool) : List Value → Bool
  | [] => true
  | v :: vs => canonicalV isPrint v && canonicalL isPrint vs

def canonicalP (isPrint : Nat → Bool) : List (List Nat × Value) → Bool
  | [] => true
  | kv :: es =>
    kv.1.all (plainChar isPrint) && canonicalV isPrint kv.2 &&
      canonicalP isPrint es
end

/-- The serializer's float text (the body of `Number.append`'s float arm):
`strconv.FormatFloat(x, 'f', -1, 64)` with `".0"` appended when the
formatted text contains no dot. -/
def dotForm (s : List Nat) : List Nat :=
  if s.contains 46 then s else s ++ [46, 48]

/-- The byte shape `digits '.' digits` that `floatParser` consumes whole:
a non-empty digit run, one dot, a non-empty digit run. -/
def floatShape (s : List Nat) : Prop :=
  ∃ d1 d2, s = d1 ++ 46 :: d2 ∧ d1 ≠ [] ∧ d2 ≠ [] ∧
    (∀ b ∈ d1, 48 ≤ b ∧ b ≤ 57) ∧ (∀ b ∈ d2, 48 ≤ b ∧ b ≤ 57)

/-- Coherence of the two float oracles at the magnitude `x`: the formatted
text (with the serializer's `".0"` completion) is digits-dot-digits and
parses back to `x` — the `FormatFloat`/`ParseFloat` round-trip contract for
a finite non-negative `float64` magnitude. -/
def floatOK (f : Nat → List Nat) (parseF : List Nat → Option Nat)
    (x : Nat) : Prop :=
  floatShape (dotForm (f x)) ∧ parseF (dotForm (f x)) = some x

mutual
/-- The normalisation the round trip forces, and nothing more: a number's
unused magnitude field is zeroed (`Float` for integer kind — the
counterexample's failure — and `Integer` for float kind), integer
magnitudes fit Go's `uint64`, string and key elements are bytes
(Go strings are byte arrays), and no object payload is the non-nil empty
entry list (which serializes like the nil map).  String and key CONTENT is
unrestricted: escapes, control bytes, non-ASCII and invalid UTF-8 all
round-trip. -/
def normalV : Value → Bool
  | .null => true
  | .bool _ => true
  | .number n =>
    if n.IsFloat then n.Integer == 0
    else n.Float == 0 && decide (n.Integer < 2 ^ 64)
  | .string s => s.all (fun b => decide (b < 256))
  | .array vs => normalL vs
  | .object o =>
    match o with
    | none => true
    | some es => !es.isEmpty && normalP es

def normalL : List Value → Bool
  | [] => true
  | v :: vs => normalV v && normalL vs

def normalP : List (List Nat × Value) → Bool
  | [] => true
  | kv :: es =>
    kv.1.all (fun b => decide (b < 256)) && normalV kv.2 && normalP es
end

mutual
/-- The float magnitudes of the tree's float-kind numbers: the values at
which the float oracles must cohere for the tree to round-trip. -/
def floatsOf : Value → List Nat
  | .null => []
  | .bool _ => []
  | .number n => if n.IsFloat then [n.Float] else []
  | .string _ => []
  | .array vs => floatsOfL vs
  | .object o =>
    match o with
    | none => []
    | some es => floatsOfP es

def floatsOfL : List Value → List Nat
  | [] => []
  | v :: vs => floatsOf v ++ floatsOfL vs

def floatsOfP : List (List Nat × Value) → List Nat
  | [] => []
  | kv :: es => floatsOf kv.2 ++ floatsOfP es
end

theorem floatsOfL_sub {v : Value} : ∀ {vs : List Value}, v ∈ vs →
    ∀ x ∈ floatsOf v, x ∈ floatsOfL vs := by
  intro vs
  induction vs with
  | nil => intro h; exact absurd h (List.not_mem_nil v)
  | cons v' vs ih =>
    intro h x hx
    rw [show floatsOfL (v' :: vs) = floatsOf v' ++ floatsOfL vs from rfl]
    rcases List.mem_cons.mp h with h' | h'
    · subst h'
      exact List.mem_append.mpr (Or.inl hx)
    · exact List.mem_append.mpr (Or.inr (ih h' x hx))

theorem floatsOfP_sub {kv : List Nat × Value} :
    ∀ {es : List (List Nat × Value)}, kv ∈ es →
    ∀ x ∈ floatsOf kv.2, x ∈ floatsOfP es := by
  intro es
  induction es with
  | nil => intro h; exact absurd h (List.not_mem_nil kv)
  | cons kv' es ih =>
    intro h x hx
    rw [show floatsOfP (kv' :: es) = floatsOf kv'.2 ++ floatsOfP es from rfl]
    rcases List.mem_cons.mp h with h' | h'
    · subst h'
      exact List.mem_append.mpr (Or.inl hx)
    · exact List.mem_append.mpr (Or.inr (ih h' x hx))

theorem normalV_of_memL {v : Value} : ∀ {vs : List Value}, v ∈ vs →
    normalL vs = true → normalV v = true := by
  intro vs
  induction vs with
  | nil => intro h; exact absurd h (List.not_mem_nil v)
  | cons v' vs ih =>
    intro h hc
    have hc2 : (normalV v' && normalL vs) = true := hc
    rcases List.mem_cons.mp h with h' | h'
    · subst h'
      exact (Bool.and_eq_true _ _ |>.mp hc2).1
    · exact ih h' (Bool.and_eq_true _ _ |>.mp hc2).2

theorem normalV_of_memP {kv : List Nat × Value} :
    ∀ {es : List (List Nat × Value)}, kv ∈ es → normalP es = true →
      normalV kv.2 = true := by
  intro es
  induction es with
  | nil => intro h; exact absurd h (List.not_mem_nil kv)
  | cons kv' es ih =>
    intro h hc
    have hc2 : (kv'.1.all (fun b => decide (b < 256)) && normalV kv'.2 &&
        normalP es) = true := hc
    rcases List.mem_cons.mp h with h' | h'
    · subst h'
      exact (Bool.and_eq_true _ _ |>.mp
        ((Bool.and_eq_true _ _ |>.mp hc2).1)).2
    · exact ih h' (Bool.and_eq_true _ _ |>.mp hc2).2

mutual
/-- Nesting depth: how many times the grammar must recurse into itself
(one fuel unit per array or object level). -/
def vdepth : Value → Nat
  | .null => 0
  | .bool _ => 0
  | .number _ => 0
  | .string _ => 0
  | .array vs => vdepthL vs + 1
  | .object o =>
    match o with
    | none => 1
    | some es => vdepthP es + 1

def vdepthL : List Value → Nat
  | [] => 0
  | v :: vs => max (vdepth v) (vdepthL vs)

def vdepthP : List (List Nat × Value) → Nat
  | [] => 0
  | kv :: es => max (vdepth kv.2) (vdepthP es)
end

/-- The big-endian decimal digit bytes of `n`. -/
def digitsOf (n : Nat) : List Nat :=
  if n = 0 then [48] else (Nat.digits 10 n).reverse.map (fun d => 48 + d)

theorem uintDigitsF_head (fuel n : Nat) (acc : List Nat) :
    ∃ d l, uintDigitsF fuel n acc = d :: l ∧ 48 ≤ d ∧ d ≤ 57 := by
  induction fuel generalizing n acc with
  | zero =>
    refine ⟨48 + n % 10, acc, rfl, by omega, ?_⟩
    have := Nat.mod_lt n (show 0 < 10 by decide)
    omega
  | succ fuel ih =>
    by_cases h : n < 10
    · refine ⟨48 + n % 10, acc, by simp [uintDigitsF, h], by omega, ?_⟩
      have := Nat.mod_lt n (show 0 < 10 by decide)
      omega
    · obtain ⟨d, l, he, h1, h2⟩ := ih (n / 10) ((48 + n % 10) :: acc)
      exact ⟨d, l, by simp only [uintDigitsF, if_neg h, he], h1, h2⟩

theorem uintDigitsF_mem (fuel n : Nat) (acc : List Nat) :
    ∀ x ∈ uintDigitsF fuel n acc, (48 ≤ x ∧ x ≤ 57) ∨ x ∈ acc := by
  induction fuel generalizing n acc with
  | zero =>
    intro x hx
    rcases List.mem_cons.mp hx with h | h
    · subst h
      have := Nat.mod_lt n (show 0 < 10 by decide)
      exact Or.inl ⟨by omega, by omega⟩
    · exact Or.inr h
  | succ fuel ih =>
    intro x hx
    by_cases h : n < 10
    · simp only [uintDigitsF, if_pos h] at hx
      rcases List.mem_cons.mp hx with h' | h'
      · subst h'
        have := Nat.mod_lt n (show 0 < 10 by decide)
        exact Or.inl ⟨by omega, by omega⟩
      · exact Or.inr h'
    · simp only [uintDigitsF, if_neg h] at hx
      rcases ih (n / 10) ((48 + n % 10) :: acc) x hx with h' | h'
      · exact Or.inl h'
      · rcases List.mem_cons.mp h' with h'' | h''
        · subst h''
          have := Nat.mod_lt n (show 0 < 10 by decide)
          exact Or.inl ⟨by omega, by omega⟩
        · exact Or.inr h''

theorem formatUint_digits (n : Nat) :
    ∀ x ∈ formatUint n, 48 ≤ x ∧ x ≤ 57 := by
  intro x hx
  rcases uintDigitsF_mem n n [] x hx with h | h
  · exact h
  · exact absurd h (List.not_mem_nil x)

theorem formatUint_no_dot (n : Nat) : (formatUint n).contains 46 = false := by
  have h : 46 ∉ formatUint n := fun hm => by
    have := formatUint_digits n 46 hm
    omega
  simp [h]

theorem formatUint_head (n : Nat) :
    ∃ d l, formatUint n = d :: l ∧ 48 ≤ d ∧ d ≤ 57 :=
  uintDigitsF_head n n []

theorem uintDigitsF_digitsOf (n : Nat) : ∀ fuel acc, n ≤ fuel →
    uintDigitsF fuel n acc = digitsOf n ++ acc := by
  induction n using Nat.strong_induction_on with
  | _ n ih =>
    intro fuel acc hle
    match fuel with
    | 0 =>
      have hn : n = 0 := Nat.le_zero.mp hle
      subst hn
      simp [uintDigitsF, digitsOf]
    | fuel + 1 =>
      by_cases h : n < 10
      · rw [show uintDigitsF (fuel + 1) n acc = (48 + n % 10) :: acc by
          simp [uintDigitsF, h]]
        by_cases h0 : n = 0
        · subst h0; simp [digitsOf]
        · have hd : digitsOf n = [48 + n] := by
            unfold digitsOf
            rw [if_neg h0,
              Nat.digits_def' (by norm_num : (1:Nat) < 10)
                (Nat.pos_of_ne_zero h0),
              (show n / 10 = 0 by omega)]
            simp [Nat.mod_eq_of_lt h]
          rw [hd, show n % 10 = n by omega]
          simp
      · have hlt : n / 10 < n := Nat.div_lt_self (by omega) (by norm_num)
        rw [show uintDigitsF (fuel + 1) n acc =
              uintDigitsF fuel (n / 10) ((48 + n % 10) :: acc) by
            simp [uintDigitsF, h],
          ih (n / 10) hlt fuel ((48 + n % 10) :: acc) (by omega)]
        have h10 : n / 10 ≠ 0 := by
          have : 1 ≤ n / 10 := (Nat.one_le_div_iff (by norm_num)).mpr (by omega)
          omega
        have key : digitsOf n = digitsOf (n / 10) ++ [48 + n % 10] := by
          unfold digitsOf
          rw [if_neg (by omega : ¬n = 0), if_neg h10,
            Nat.digits_def' (by norm_num : (1:Nat) < 10) (by omega : 0 < n)]
          simp
        rw [key]
        simp

theorem formatUint_digitsOf (n : Nat) : formatUint n = digitsOf n := by
  have := uintDigitsF_digitsOf n n [] le_rfl
  simpa [formatUint] using this

theorem foldl_digits_rev (l : List Nat) (a : Nat) :
    ((l.reverse.map (fun d => 48 + d)).foldl
        (fun acc b => acc * 10 + (b - 48)) a)
      = a * 10 ^ l.length + Nat.ofDigits 10 l := by
  induction l generalizing a with
  | nil => simp [Nat.ofDigits]
  | cons d l ih =>
    rw [List.reverse_cons, List.map_append, List.foldl_append]
    simp only [List.map_cons, List.map_nil, List.foldl_cons, List.foldl_nil]
    rw [ih, Nat.ofDigits_cons, show 48 + d - 48 = d by omega,
      List.length_cons, pow_succ]
    push_cast
    ring

theorem foldl_formatUint (n : Nat) :
    (formatUint n).foldl (fun acc b => acc * 10 + (b - 48)) 0 = n := by
  rw [formatUint_digitsOf]
  unfold digitsOf
  by_cases h0 : n = 0
  · subst h0; simp
  · rw [if_neg h0, foldl_digits_rev]
    simp [Nat.ofDigits_digits]

theorem parseUint_formatUint (n : Nat) (h : n < 2 ^ 64) :
    parseUint (formatUint n) = .ok n := by
  obtain ⟨d, l, he, hd1, hd2⟩ := formatUint_head n
  have hne : (formatUint n).isEmpty = false := by simp [he]
  have hall : (formatUint n).all (fun b => 48 ≤ b && b ≤ 57) = true := by
    rw [List.all_eq_true]
    intro x hx
    have hm := formatUint_digits n x hx
    simp only [Bool.and_eq_true, decide_eq_true_eq]
    exact hm
  unfold parseUint
  rw [hne]
  simp only [Bool.false_eq_true, if_false]
  rw [if_pos hall, foldl_formatUint, if_pos h]

theorem numberAppend_decomp (fmtF : Nat → List Nat) (n : Number)
    (bb : List Nat) :
    numberAppend fmtF n bb = bb ++ numberAppend fmtF n [] := by
  unfold numberAppend
  by_cases hn : n.IsNeg <;> by_cases hf : n.IsFloat <;>
    simp only [hn, hf, if_true, if_false, List.nil_append, List.append_nil,
      List.append_assoc] <;> split <;> simp [List.append_assoc]

mutual
/-- The bytes `valueAppend` writes for one subtree (key order unsorted, as
with `SortKeys = false`): every `append` method only ever appends, so the
written bytes do not depend on the buffer so far, and `valueAppend` is
`(· ++ serB …)` — proved below as `valueAppend_eq_serB`. -/
def serB (iP : Nat → Bool) (f : Nat → List Nat) (s : Serializer) :
    Value → Nat → List Nat
  | .null, _ => [110, 117, 108, 108]
  | .bool b, _ => if b then [116, 114, 117, 101] else [102, 97, 108, 115, 101]
  | .number n, _ => numberAppend f n []
  | .string str, _ => quote iP str
  | .array vs, ℓ =>
    match vs with
    | [] => [91, 93]
    | v :: rest =>
      [91] ++ appendIndent s (ℓ + 1) [] ++ serB iP f s v (ℓ + 1) ++
        serTail iP f s rest ℓ ++ appendIndent s ℓ [] ++ [93]
  | .object o, ℓ =>
    match o with
    | none => [123, 125]
    | some [] => [123, 125]
    | some (kv :: es) =>
      [123] ++ appendIndent s (ℓ + 1) [] ++ quote iP kv.1 ++ [58] ++
        List.replicate s.KeyValueGap 32 ++ serB iP f s kv.2 (ℓ + 1) ++
        serPTail iP f s es ℓ ++ appendIndent s ℓ [] ++ [125]

/-- The bytes for the second and later array elements. -/
def serTail (iP : Nat → Bool) (f : Nat → List Nat) (s : Serializer) :
    List Value → Nat → List Nat
  | [], _ => []
  | v :: vs, ℓ =>
    [44] ++ appendIndent s (ℓ + 1) [] ++ serB iP f s v (ℓ + 1) ++
      serTail iP f s vs ℓ

/-- The bytes for the second and later object entries. -/
def serPTail (iP : Nat → Bool) (f : Nat → List Nat) (s : Serializer) :
    List (List Nat × Value) → Nat → List Nat
  | [], _ => []
  | kv :: es, ℓ =>
    [44] ++ appendIndent s (ℓ + 1) [] ++ quote iP kv.1 ++ [58] ++
      List.replicate s.KeyValueGap 32 ++ serB iP f s kv.2 (ℓ + 1) ++
      serPTail iP f s es ℓ
end

/-- The bytes for the second and later object entries, over entries whose
values are already rendered (the shape `objectLoop` works on). -/
def objTail (iP : Nat → Bool) (s : Serializer) :
    List (List Nat × List Nat) → Nat → List Nat
  | [], _ => []
  | kv :: rest, ℓ =>
    [44] ++ appendIndent s (ℓ + 1) [] ++ quote iP kv.1 ++ [58] ++
      List.replicate s.KeyValueGap 32 ++ kv.2 ++ objTail iP s rest ℓ

theorem appendIndent_decomp (s : Serializer) (ℓ : Nat) (bb : List Nat) :
    appendIndent s ℓ bb = bb ++ appendIndent s ℓ [] := by
  unfold appendIndent
  split <;> simp

theorem vdepth_le_of_memL {v : Value} : ∀ {vs : List Value}, v ∈ vs →
    vdepth v ≤ vdepthL vs := by
  intro vs
  induction vs with
  | nil => intro h; exact absurd h (List.not_mem_nil v)
  | cons v' vs ih =>
    intro h
    rw [show vdepthL (v' :: vs) = max (vdepth v') (vdepthL vs) from rfl]
    rcases List.mem_cons.mp h with h' | h'
    · subst h'; exact le_max_left _ _
    · exact le_trans (ih h') (le_max_right _ _)

theorem vdepth_le_of_memP {kv : List Nat × Value} :
    ∀ {es : List (List Nat × Value)}, kv ∈ es →
    vdepth kv.2 ≤ vdepthP es := by
  intro es
  induction es with
  | nil => intro h; exact absurd h (List.not_mem_nil kv)
  | cons kv' es ih =>
    intro h
    rw [show vdepthP (kv' :: es) = max (vdepth kv'.2) (vdepthP es) from rfl]
    rcases List.mem_cons.mp h with h' | h'
    · subst h'; exact le_max_left _ _
    · exact le_trans (ih h') (le_max_right _ _)

theorem arrayLoop_tail (iP : Nat → Bool) (f : Nat → List Nat)
    (s : Serializer) :
    ∀ (vs : List Value)
      (hdec : ∀ v ∈ vs, ∀ ℓ bb, valueAppend iP f s v ℓ bb =
        bb ++ serB iP f s v ℓ)
      (ℓ i : Nat) (bb : List Nat), 0 < i →
    arrayLoop iP f s vs ℓ i bb = bb ++ serTail iP f s vs ℓ := by
  intro vs
  induction vs with
  | nil => intro _ ℓ i bb _; simp [arrayLoop, serTail]
  | cons v rest ih =>
    intro hdec ℓ i bb hi
    show arrayLoop iP f s rest ℓ (i + 1)
        (valueAppend iP f s v (ℓ + 1)
          (appendIndent s (ℓ + 1) (if 0 < i then bb ++ [44] else bb))) = _
    rw [if_pos hi, appendIndent_decomp s (ℓ + 1) (bb ++ [44]),
      hdec v (List.mem_cons_self v rest) (ℓ + 1)
        ((bb ++ [44]) ++ appendIndent s (ℓ + 1) []),
      ih (fun v' h' => hdec v' (List.mem_cons_of_mem _ h')) ℓ (i + 1) _
        (Nat.succ_pos i)]
    simp [serTail, List.append_assoc]

theorem arrayLoop_first (iP : Nat → Bool) (f : Nat → List Nat)
    (s : Serializer) (v : Value) (rest : List Value)
    (hdec : ∀ v' ∈ v :: rest, ∀ ℓ bb, valueAppend iP f s v' ℓ bb =
      bb ++ serB iP f s v' ℓ)
    (ℓ : Nat) (bb : List Nat) :
    arrayLoop iP f s (v :: rest) ℓ 0 bb =
      bb ++ appendIndent s (ℓ + 1) [] ++ serB iP f s v (ℓ + 1) ++
        serTail iP f s rest ℓ := by
  show arrayLoop iP f s rest ℓ 1
      (valueAppend iP f s v (ℓ + 1)
        (appendIndent s (ℓ + 1) (if 0 < 0 then bb ++ [44] else bb))) = _
  rw [if_neg (lt_irrefl 0), appendIndent_decomp s (ℓ + 1) bb,
    hdec v (List.mem_cons_self v rest) (ℓ + 1)
      (bb ++ appendIndent s (ℓ + 1) []),
    arrayLoop_tail iP f s rest
      (fun v' h' => hdec v' (List.mem_cons_of_mem _ h')) ℓ 1 _ Nat.one_pos]

theorem objectLoop_tail (iP : Nat → Bool) (s : Serializer) :
    ∀ (keys : List (List Nat × List Nat)) (ℓ i : Nat) (bb : List Nat),
      0 < i → objectLoop iP s keys ℓ i bb = bb ++ objTail iP s keys ℓ := by
  intro keys
  induction keys with
  | nil => intro ℓ i bb _; simp [objectLoop, objTail]
  | cons kv rest ih =>
    intro ℓ i bb hi
    cases kv with
    | mk k vb =>
      show objectLoop iP s rest ℓ (i + 1)
          (appendString iP
            (appendIndent s (ℓ + 1) (if 0 < i then bb ++ [44] else bb)) k ++
            [58] ++ List.replicate s.KeyValueGap 32 ++ vb) = _
      rw [if_pos hi, appendIndent_decomp s (ℓ + 1) (bb ++ [44]),
        ih ℓ (i + 1) _ (Nat.succ_pos i)]
      simp [objTail, appendString, List.append_assoc]

theorem objectLoop_first (iP : Nat → Bool) (s : Serializer)
    (k vb : List Nat) (rest : List (List Nat × List Nat))
    (ℓ : Nat) (bb : List Nat) :
    objectLoop iP s ((k, vb) :: rest) ℓ 0 bb =
      bb ++ appendIndent s (ℓ + 1) [] ++ quote iP k ++ [58] ++
        List.replicate s.KeyValueGap 32 ++ vb ++ objTail iP s rest ℓ := by
  show objectLoop iP s rest ℓ 1
      (appendString iP
        (appendIndent s (ℓ + 1) (if 0 < 0 then bb ++ [44] else bb)) k ++
        [58] ++ List.replicate s.KeyValueGap 32 ++ vb) = _
  rw [if_neg (lt_irrefl 0), appendIndent_decomp s (ℓ + 1) bb,
    objectLoop_tail iP s rest ℓ 1 _ Nat.one_pos]
  simp [appendString, List.append_assoc]

theorem objTail_serPTail (iP : Nat → Bool) (f : Nat → List Nat)
    (s : Serializer) :
    ∀ (es : List (List Nat × Value)) (ℓ : Nat)
      (hdec : ∀ kv ∈ es, ∀ bb, valueAppend iP f s kv.2 (ℓ + 1) bb =
        bb ++ serB iP f s kv.2 (ℓ + 1)),
    objTail iP s (renderEntries iP f s es (ℓ + 1)) ℓ =
      serPTail iP f s es ℓ := by
  intro es
  induction es with
  | nil => intro ℓ _; rfl
  | cons kv es ih =>
    intro ℓ hdec
    cases kv with
    | mk k v =>
      show objTail iP s
          ((k, valueAppend iP f s v (ℓ + 1) []) ::
            renderEntries iP f s es (ℓ + 1)) ℓ = _
      rw [show valueAppend iP f s v (ℓ + 1) [] =
            [] ++ serB iP f s v (ℓ + 1) from
          hdec (k, v) (List.mem_cons_self _ es) [],
        List.nil_append]
      show [44] ++ appendIndent s (ℓ + 1) [] ++ quote iP k ++ [58] ++
          List.replicate s.KeyValueGap 32 ++ serB iP f s v (ℓ + 1) ++
          objTail iP s (renderEntries iP f s es (ℓ + 1)) ℓ = _
      rw [ih ℓ (fun kv' h' => hdec kv' (List.mem_cons_of_mem _ h'))]
      rfl

theorem valueAppend_serB (iP : Nat → Bool) (f : Nat → List Nat)
    (s : Serializer) (hs : s.SortKeys = false) :
    ∀ (N : Nat) (v : Value), vdepth v ≤ N → ∀ (ℓ : Nat) (bb : List Nat),
    valueAppend iP f s v ℓ bb = bb ++ serB iP f s v ℓ := by
  intro N
  induction N with
  | zero =>
    intro v hv ℓ bb
    cases v with
    | null => rfl
    | bool b => cases b <;> rfl
    | number n => exact numberAppend_decomp f n bb
    | string str => rfl
    | array vs => rw [show vdepth (.array vs) = vdepthL vs + 1 from rfl] at hv; omega
    | object o =>
      cases o with
      | none => rw [show vdepth (.object none) = 1 from rfl] at hv; omega
      | some es =>
        rw [show vdepth (.object (some es)) = vdepthP es + 1 from rfl] at hv
        omega
  | succ N ih =>
    intro v hv ℓ bb
    cases v with
    | null => rfl
    | bool b => cases b <;> rfl
    | number n => exact numberAppend_decomp f n bb
    | string str => rfl
    | array vs =>
      have hdl : vdepthL vs ≤ N := by
        rw [show vdepth (.array vs) = vdepthL vs + 1 from rfl] at hv; omega
      have hdec : ∀ v' ∈ vs, ∀ ℓ' bb', valueAppend iP f s v' ℓ' bb' =
          bb' ++ serB iP f s v' ℓ' := fun v' h' =>
        ih v' (le_trans (vdepth_le_of_memL h') hdl)
      cases vs with
      | nil =>
        show (if 0 < ([] : List Value).length then
                appendIndent s ℓ (arrayLoop iP f s [] ℓ 0 (bb ++ [91]))
              else arrayLoop iP f s [] ℓ 0 (bb ++ [91])) ++ [93] = _
        simp [arrayLoop, serB]
      | cons v rest =>
        show (if 0 < (v :: rest).length then
                appendIndent s ℓ (arrayLoop iP f s (v :: rest) ℓ 0 (bb ++ [91]))
              else arrayLoop iP f s (v :: rest) ℓ 0 (bb ++ [91])) ++ [93] = _
        rw [if_pos (by simp), arrayLoop_first iP f s v rest hdec ℓ (bb ++ [91]),
          appendIndent_decomp s ℓ
            (bb ++ [91] ++ appendIndent s (ℓ + 1) [] ++ serB iP f s v (ℓ + 1) ++
              serTail iP f s rest ℓ)]
        simp [serB, List.append_assoc]
    | object o =>
      have hde : ∀ es, o = some es → vdepthP es ≤ N := by
        intro es he
        subst he
        rw [show vdepth (.object (some es)) = vdepthP es + 1 from rfl] at hv
        omega
      cases o with
      | none =>
        show (if 0 < (if s.SortKeys then sortByKey [] else []).length then
                appendIndent s ℓ
                  (objectLoop iP s (if s.SortKeys then sortByKey [] else [])
                    ℓ 0 (bb ++ [123]))
              else objectLoop iP s (if s.SortKeys then sortByKey [] else [])
                ℓ 0 (bb ++ [123])) ++ [125] = _
        rw [hs]
        simp [objectLoop, serB]
      | some es =>
        have hdec : ∀ kv ∈ es, ∀ bb', valueAppend iP f s kv.2 (ℓ + 1) bb' =
            bb' ++ serB iP f s kv.2 (ℓ + 1) := fun kv h' =>
          ih kv.2 (le_trans (vdepth_le_of_memP h') (hde es rfl)) (ℓ + 1)
        show (if 0 < (if s.SortKeys then
                  sortByKey (renderEntries iP f s es (ℓ + 1))
                else renderEntries iP f s es (ℓ + 1)).length then
                appendIndent s ℓ
                  (objectLoop iP s
                    (if s.SortKeys then
                      sortByKey (renderEntries iP f s es (ℓ + 1))
                    else renderEntries iP f s es (ℓ + 1)) ℓ 0 (bb ++ [123]))
              else objectLoop iP s
                (if s.SortKeys then
                  sortByKey (renderEntries iP f s es (ℓ + 1))
                else renderEntries iP f s es (ℓ + 1)) ℓ 0 (bb ++ [123])) ++
            [125] = _
        rw [hs]
        simp only [Bool.false_eq_true, if_false]
        cases es with
        | nil => simp [renderEntries, objectLoop, serB]
        | cons kv rest =>
          cases kv with
          | mk k v =>
            rw [show renderEntries iP f s ((k, v) :: rest) (ℓ + 1) =
                  (k, valueAppend iP f s v (ℓ + 1) []) ::
                    renderEntries iP f s rest (ℓ + 1) from rfl,
              if_pos (by simp),
              objectLoop_first iP s k (valueAppend iP f s v (ℓ + 1) [])
                (renderEntries iP f s rest (ℓ + 1)) ℓ (bb ++ [123]),
              show valueAppend iP f s v (ℓ + 1) [] =
                  [] ++ serB iP f s v (ℓ + 1) from
                hdec (k, v) (List.mem_cons_self _ rest) [],
              List.nil_append,
              objTail_serPTail iP f s rest ℓ
                (fun kv' h' => hdec kv' (List.mem_cons_of_mem _ h'))]
            rw [appendIndent_decomp s ℓ
              (bb ++ [123] ++ appendIndent s (ℓ + 1) [] ++ quote iP k ++ [58] ++
                List.replicate s.KeyValueGap 32 ++ serB iP f s v (ℓ + 1) ++
                serPTail iP f s rest ℓ)]
            simp [serB, List.append_assoc]

theorem valueAppend_eq_serB (iP : Nat → Bool) (f : Nat → List Nat)
    (s : Serializer) (hs : s.SortKeys = false) (v : Value) (ℓ : Nat)
    (bb : List Nat) :
    valueAppend iP f s v ℓ bb = bb ++ serB iP f s v ℓ :=
  valueAppend_serB iP f s hs (vdepth v) v le_rfl ℓ bb

theorem Serialize_cfg2_serB (iP : Nat → Bool) (f : Nat → List Nat)
    (v : Value) :
    Serializer.Serialize iP f cfg2 v = serB iP f cfg2 v 0 := by
  unfold Serializer.Serialize
  rw [valueAppend_eq_serB iP f cfg2 rfl v 0]
  simp [cfg2]

/-! Cursor primitives for the parse proof: `read`, `skipSpaces`,
`byteParser` and the predicate loop, characterised through the bytes
remaining at the cursor (`d.b.drop d.idx`). -/

theorem drop_cons_lt {l : List Nat} {i c : Nat} {rest : List Nat}
    (h : l.drop i = c :: rest) : i < l.length := by
  by_contra hc
  rw [List.drop_eq_nil_of_le (by omega)] at h
  exact List.noConfusion h

theorem drop_cons_succ {l : List Nat} {i c : Nat} {rest : List Nat}
    (h : l.drop i = c :: rest) : l.drop (i + 1) = rest := by
  have hlt := drop_cons_lt h
  have := List.drop_eq_getElem_cons hlt
  rw [this] at h
  exact (List.cons.injEq _ _ _ _ ▸ h).2

theorem read_drop_cons {d : deserializer} {c : Nat} {rest : List Nat}
    (h : d.b.drop d.idx = c :: rest) :
    read d = (⟨d.b, d.idx + 1, if c = 10 then d.row + 1 else d.row,
      if c = 10 then 1 else d.col + 1⟩, c, OK true) := by
  have hlt := drop_cons_lt h
  have hget : d.b.get ⟨d.idx, hlt⟩ = c := by
    have := List.drop_eq_getElem_cons hlt
    rw [this] at h
    exact (List.cons.injEq _ _ _ _ ▸ h).1
  simp only [read, dif_pos hlt, hget]

theorem read_drop_nil {d : deserializer} (h : d.b.drop d.idx = []) :
    read d = (d, 0, OK false) := by
  have hge : ¬d.idx < d.b.length := by
    intro hlt
    rw [List.drop_eq_getElem_cons hlt] at h
    exact List.noConfusion h
  simp only [read, dif_neg hge]

theorem skipSpacesF_over {ws : List Nat} :
    ∀ (fuel : Nat) (d : deserializer) (rest : List Nat),
    d.b.drop d.idx = ws ++ rest →
    (∀ b ∈ ws, isSpace b = true) →
    (rest.head?.all (fun c => !isSpace c)) →
    ws.length < fuel →
    ∃ row col, skipSpacesF fuel d =
      ⟨d.b, d.idx + ws.length, row, col⟩ := by
  induction ws with
  | nil =>
    intro fuel d rest hd _ hrest hf
    match fuel with
    | fuel + 1 =>
      have hstep : skipSpacesF (fuel + 1) d = d := by
        show (if (read d).2.2.OK && isSpace (read d).2.1 then
                skipSpacesF fuel (read d).1 else d) = d
        cases rest with
        | nil => rw [read_drop_nil (by simpa using hd)]; simp [OK]
        | cons c r =>
          rw [read_drop_cons (by simpa using hd)]
          simp only [List.head?] at hrest
          have hc : isSpace c = false := by simpa using hrest
          rw [hc]
          simp
      exact ⟨d.row, d.col, by rw [hstep]; cases d; simp⟩
  | cons w ws ih =>
    intro fuel d rest hd hws hrest hf
    match fuel with
    | fuel + 1 =>
      have hd' : d.b.drop d.idx = w :: (ws ++ rest) := by simpa using hd
      have hw : isSpace w = true := hws w (List.mem_cons_self _ _)
      have hstep : skipSpacesF (fuel + 1) d =
          skipSpacesF fuel ⟨d.b, d.idx + 1,
            if w = 10 then d.row + 1 else d.row,
            if w = 10 then 1 else d.col + 1⟩ := by
        show (if (read d).2.2.OK && isSpace (read d).2.1 then
                skipSpacesF fuel (read d).1 else d) = _
        rw [read_drop_cons hd']
        simp [hw, OK]
      rw [hstep]
      obtain ⟨row, col, hrec⟩ := ih fuel
        ⟨d.b, d.idx + 1, if w = 10 then d.row + 1 else d.row,
          if w = 10 then 1 else d.col + 1⟩ rest
        (drop_cons_succ hd')
        (fun b hb => hws b (List.mem_cons_of_mem _ hb)) hrest
        (by simp only [List.length_cons] at hf; omega)
      refine ⟨row, col, ?_⟩
      rw [hrec, show d.idx + 1 + ws.length = d.idx + (w :: ws).length by
        simp only [List.length_cons]; omega]

theorem skipSpaces_over {ws rest : List Nat} {d : deserializer}
    (hd : d.b.drop d.idx = ws ++ rest)
    (hws : ∀ b ∈ ws, isSpace b = true)
    (hrest : rest.head?.all (fun c => !isSpace c)) :
    ∃ row col, skipSpaces d = ⟨d.b, d.idx + ws.length, row, col⟩ := by
  have hlen : (d.b.drop d.idx).length = d.b.length - d.idx := by simp
  rw [hd] at hlen
  simp only [List.length_append] at hlen
  by_cases hc : d.idx ≤ d.b.length
  · exact skipSpacesF_over (d.b.length + 1 - d.idx) d rest hd hws hrest
      (by omega)
  · have hnil : ws ++ rest = [] := by
      rw [← hd]
      exact List.drop_eq_nil_of_le (by omega)
    have hws0 : ws = [] := (List.append_eq_nil.mp hnil).1
    have hf0 : d.b.length + 1 - d.idx = 0 := by omega
    refine ⟨d.row, d.col, ?_⟩
    unfold skipSpaces
    rw [hf0]
    subst hws0
    cases d
    simp [skipSpacesF]

theorem skipSpaces_id {d : deserializer}
    (hrest : (d.b.drop d.idx).head?.all (fun c => !isSpace c)) :
    skipSpaces d = d := by
  unfold skipSpaces
  match hf : d.b.length + 1 - d.idx with
  | 0 => rfl
  | fuel + 1 =>
    show (if (read d).2.2.OK && isSpace (read d).2.1 then
            skipSpacesF fuel (read d).1 else d) = d
    cases hd : d.b.drop d.idx with
    | nil => rw [read_drop_nil hd]; simp [OK]
    | cons c r =>
      rw [read_drop_cons hd]
      rw [hd] at hrest
      simp only [List.head?] at hrest
      have : isSpace c = false := by simpa using hrest
      rw [this]
      simp

theorem byteParser_drop_cons {d : deserializer} {c : Nat} {rest : List Nat}
    (h : d.b.drop d.idx = c :: rest) :
    byteParser c d = (⟨d.b, d.idx + 1, if c = 10 then d.row + 1 else d.row,
      if c = 10 then 1 else d.col + 1⟩, c, OK true) := by
  show (if (read d).2.2.OK && ((read d).2.1 = c : Bool) then
          ((read d).1, c, OK true) else (d, 0, OK false)) = _
  rw [read_drop_cons h]
  simp [OK]

theorem byteParser_miss {d : deserializer} {c : Nat}
    (h : (d.b.drop d.idx).head? ≠ some c) :
    byteParser c d = (d, 0, OK false) := by
  show (if (read d).2.2.OK && ((read d).2.1 = c : Bool) then
          ((read d).1, c, OK true) else (d, 0, OK false)) = _
  cases hd : d.b.drop d.idx with
  | nil => rw [read_drop_nil hd]; simp [OK]
  | cons c' r =>
    rw [read_drop_cons hd]
    rw [hd] at h
    have : c' ≠ c := by simpa using h
    simp [OK, this]

theorem predLoopF_run {pred : Nat → Bool} :
    ∀ (run : List Nat) (fuel : Nat) (d : deserializer) (buf rest : List Nat),
    d.b.drop d.idx = run ++ rest →
    (∀ b ∈ run, pred b = true) →
    (rest.head?.all (fun c => !pred c)) →
    run.length < fuel →
    ∃ row col, predLoopF pred fuel d buf =
      (⟨d.b, d.idx + run.length, row, col⟩, buf ++ run,
        OK (buf.length + run.length > 0)) := by
  intro run
  induction run with
  | nil =>
    intro fuel d buf rest hd _ hrest hf
    match fuel with
    | fuel + 1 =>
      have hstep : predLoopF pred (fuel + 1) d buf =
          (d, buf, OK (buf.length > 0)) := by
        show (if (read d).2.2.OK && pred (read d).2.1 then
                predLoopF pred fuel (read d).1 (buf ++ [(read d).2.1])
              else (d, buf, OK (buf.length > 0))) = _
        cases rest with
        | nil => rw [read_drop_nil (by simpa using hd)]; simp [OK]
        | cons c r =>
          rw [read_drop_cons (by simpa using hd)]
          simp only [List.head?] at hrest
          have hc : pred c = false := by simpa using hrest
          rw [hc]
          simp
      refine ⟨d.row, d.col, ?_⟩
      rw [hstep]
      cases d
      simp
  | cons x run ih =>
    intro fuel d buf rest hd hrun hrest hf
    match fuel with
    | fuel + 1 =>
      have hd' : d.b.drop d.idx = x :: (run ++ rest) := by simpa using hd
      have hx : pred x = true := hrun x (List.mem_cons_self _ _)
      have hstep : predLoopF pred (fuel + 1) d buf =
          predLoopF pred fuel
            ⟨d.b, d.idx + 1, if x = 10 then d.row + 1 else d.row,
              if x = 10 then 1 else d.col + 1⟩ (buf ++ [x]) := by
        show (if (read d).2.2.OK && pred (read d).2.1 then
                predLoopF pred fuel (read d).1 (buf ++ [(read d).2.1])
              else (d, buf, OK (buf.length > 0))) = _
        rw [read_drop_cons hd']
        simp [hx, OK]
      rw [hstep]
      obtain ⟨row, col, hrec⟩ := ih fuel
        ⟨d.b, d.idx + 1, if x = 10 then d.row + 1 else d.row,
          if x = 10 then 1 else d.col + 1⟩ (buf ++ [x]) rest
        (drop_cons_succ hd')
        (fun b hb => hrun b (List.mem_cons_of_mem _ hb)) hrest
        (by simp only [List.length_cons] at hf; omega)
      refine ⟨row, col, ?_⟩
      rw [hrec, show d.idx + 1 + run.length = d.idx + (x :: run).length by
          simp only [List.length_cons]; omega,
        show buf ++ [x] ++ run = buf ++ x :: run by simp,
        show (buf ++ [x]).length + run.length = buf.length + (x :: run).length by
          simp only [List.length_append, List.length_cons, List.length_nil]
          omega]

theorem predicateParser_run {pred : Nat → Bool} {d : deserializer}
    {run rest : List Nat}
    (hd : d.b.drop d.idx = run ++ rest)
    (hrun : ∀ b ∈ run, pred b = true)
    (hrest : rest.head?.all (fun c => !pred c))
    (hne : run ≠ []) :
    ∃ row col, predicateParser pred d =
      (⟨d.b, d.idx + run.length, row, col⟩, run, OK true) := by
  have hlen : (d.b.drop d.idx).length = d.b.length - d.idx := by simp
  rw [hd] at hlen
  simp only [List.length_append] at hlen
  have hidx : d.idx < d.b.length := by
    cases run with
    | nil => exact absurd rfl hne
    | cons x r => exact drop_cons_lt (l := d.b) (by simpa using hd)
  obtain ⟨row, col, h⟩ := predLoopF_run run (d.b.length + 1 - d.idx) d [] rest
    hd hrun hrest (by omega)
  refine ⟨row, col, ?_⟩
  show predLoopF pred (d.b.length + 1 - d.idx) d [] = _
  rw [h]
  cases run with
  | nil => exact absurd rfl hne
  | cons x r => simp

/-! `strconv.Quote` / the scan loop / `strconv.Unquote` on plain printable
ASCII content: all three are the identity (up to the quotes). -/

/-! Inversion facts for the `strconv.Quote` / `strconv.Unquote` models:
hex escape payloads, UTF-8 encode/decode, and the full
`Unquote (Quote s) = s` round trip on arbitrary byte strings. -/

theorem hexDigits_length (n : Nat) : ∀ v, (hexDigits n v).length = n := by
  induction n with
  | zero => intro v; rfl
  | succ n ih =>
    intro v
    show (hexDigits n (v / 16) ++ [hexDigit v]).length = n + 1
    simp [ih]

theorem hexDigit_range (v : Nat) :
    (48 ≤ hexDigit v ∧ hexDigit v ≤ 57) ∨
      (97 ≤ hexDigit v ∧ hexDigit v ≤ 102) := by
  unfold hexDigit
  have := Nat.mod_lt v (show 0 < 16 by decide)
  by_cases h : v % 16 < 10
  · rw [if_pos h]; omega
  · rw [if_neg h]; omega

theorem hexDigits_mem (n : Nat) : ∀ v, ∀ b ∈ hexDigits n v,
    (48 ≤ b ∧ b ≤ 57) ∨ (97 ≤ b ∧ b ≤ 102) := by
  induction n with
  | zero => intro v b hb; exact absurd hb (List.not_mem_nil b)
  | succ n ih =>
    intro v b hb
    rw [show hexDigits (n + 1) v =
      hexDigits n (v / 16) ++ [hexDigit v] from rfl] at hb
    rcases List.mem_append.mp hb with h | h
    · exact ih (v / 16) b h
    · rcases List.mem_singleton.mp h with rfl
      exact hexDigit_range v

theorem unhex_hexDigit (v : Nat) : unhex (hexDigit v) = some (v % 16) := by
  unfold hexDigit unhex
  have := Nat.mod_lt v (show 0 < 16 by decide)
  by_cases h : v % 16 < 10
  · rw [if_pos h, if_pos (by simp; omega)]
    congr 1
    omega
  · rw [if_neg h, if_neg (by simp; omega), if_pos (by simp; omega)]
    congr 1
    omega

theorem hexFold_hexDigits (n : Nat) : ∀ v,
    hexFold (hexDigits n v) = some (v % 16 ^ n) := by
  induction n with
  | zero =>
    intro v
    show (some 0 : Option Nat) = some (v % 16 ^ 0)
    rw [Nat.pow_zero, Nat.mod_one]
  | succ n ih =>
    intro v
    rw [show hexDigits (n + 1) v =
      hexDigits n (v / 16) ++ [hexDigit v] from rfl]
    unfold hexFold
    rw [List.foldl_append]
    have h1 : hexFold (hexDigits n (v / 16)) = some (v / 16 % 16 ^ n) :=
      ih (v / 16)
    unfold hexFold at h1
    rw [h1]
    show (match (some (v / 16 % 16 ^ n) : Option Nat), unhex (hexDigit v) with
      | some a, some x => some (a * 16 + x)
      | _, _ => none) = _
    rw [unhex_hexDigit]
    show some (v / 16 % 16 ^ n * 16 + v % 16) = some (v % 16 ^ (n + 1))
    rw [pow_succ', Nat.mod_mul]
    congr 1
    ring

theorem hexEsc_hexDigits (n v : Nat) (isX : Bool) (tail : List Nat)
    (hv : v < 16 ^ n) (hval : isX = true ∨ validRune v = true) :
    hexEsc n isX (hexDigits n v ++ tail) = some (v, !isX, tail) := by
  have htake : (hexDigits n v ++ tail).take n = hexDigits n v := by
    have h := List.take_left (hexDigits n v) tail
    rwa [hexDigits_length] at h
  have hdrop : (hexDigits n v ++ tail).drop n = tail := by
    have h := List.drop_left (hexDigits n v) tail
    rwa [hexDigits_length] at h
  unfold hexEsc
  rw [if_neg (by simp only [List.length_append, hexDigits_length]; omega),
    htake, hexFold_hexDigits, Nat.mod_eq_of_lt hv, hdrop]
  cases isX with
  | true => simp
  | false =>
    rcases hval with h | h
    · exact absurd h (by decide)
    · simp [h]

theorem utf8Encode_ne_nil (r : Nat) : utf8Encode r ≠ [] := by
  unfold utf8Encode
  split
  · simp
  · split
    · simp
    · split
      · simp
      · split
        · simp
        · simp

theorem utf8Encode_head (r : Nat) (hval : validRune r = true)
    (h80 : 0x80 ≤ r) :
    ∃ h0 t0, utf8Encode r = h0 :: t0 ∧ 0xC2 ≤ h0 ∧ h0 ≤ 0xF4 := by
  have hr : r < 0xD800 ∨ (0xDFFF < r ∧ r ≤ 0x10FFFF) := by
    simpa [validRune] using hval
  unfold utf8Encode
  split
  · rename_i h1
    exact absurd h1 (by omega)
  · split
    · exact ⟨_, _, rfl, by omega, by omega⟩
    · split
      · rename_i h3
        rw [hval] at h3
        exact absurd h3 (by decide)
      · split
        · exact ⟨_, _, rfl, by omega, by omega⟩
        · exact ⟨_, _, rfl, by omega, by omega⟩

theorem utf8Encode_mem (r : Nat) (hval : validRune r = true)
    (h80 : 0x80 ≤ r) : ∀ b ∈ utf8Encode r, 0x80 ≤ b := by
  have hm1 := Nat.mod_lt r (show 0 < 64 by decide)
  have hm2 := Nat.mod_lt (r / 64) (show 0 < 64 by decide)
  have hm3 := Nat.mod_lt (r / 4096) (show 0 < 64 by decide)
  unfold utf8Encode
  split
  · rename_i h1
    exact absurd h1 (by omega)
  · split
    · intro b hb
      simp only [List.mem_cons, List.not_mem_nil, or_false] at hb
      rcases hb with rfl | rfl <;> omega
    · split
      · rename_i h3
        rw [hval] at h3
        exact absurd h3 (by decide)
      · split
        · intro b hb
          simp only [List.mem_cons, List.not_mem_nil, or_false] at hb
          rcases hb with rfl | rfl | rfl <;> omega
        · intro b hb
          simp only [List.mem_cons, List.not_mem_nil, or_false] at hb
          rcases hb with rfl | rfl | rfl | rfl <;> omega

theorem utf8Decode_encode (r : Nat) (hval : validRune r = true)
    (h80 : 0x80 ≤ r) (tail : List Nat) :
    utf8Decode (utf8Encode r ++ tail) = (r, (utf8Encode r).length) := by
  have hr : r < 0xD800 ∨ (0xDFFF < r ∧ r ≤ 0x10FFFF) := by
    simpa [validRune] using hval
  have hm1 := Nat.mod_lt r (show 0 < 64 by decide)
  have hm2 := Nat.mod_lt (r / 64) (show 0 < 64 by decide)
  have hm3 := Nat.mod_lt (r / 4096) (show 0 < 64 by decide)
  by_cases h2 : r < 0x800
  · have he : utf8Encode r = [0xC0 + r / 64, 0x80 + r % 64] := by
      unfold utf8Encode
      rw [if_neg (by omega), if_pos h2]
    rw [he]
    have hdlo : 2 ≤ r / 64 := by omega
    have hdhi : r / 64 ≤ 31 := by omega
    show utf8Decode ((0xC0 + r / 64) :: ((0x80 + r % 64) :: tail)) = _
    simp only [utf8Decode]
    rw [if_neg (by omega), if_neg (by omega), if_pos (by omega),
      if_pos (by simp [isCont]; omega)]
    simp only [List.length_cons, List.length_nil, Prod.mk.injEq]
    refine ⟨by omega, by trivial⟩
  · by_cases h4 : r < 0x10000
    · have he : utf8Encode r =
          [0xE0 + r / 4096, 0x80 + r / 64 % 64, 0x80 + r % 64] := by
        unfold utf8Encode
        rw [if_neg (by omega), if_neg (by omega), if_neg (by simp [hval]),
          if_pos h4]
      rw [he]
      have hdlo : r / 4096 ≤ 15 := by omega
      show utf8Decode ((0xE0 + r / 4096) ::
        ((0x80 + r / 64 % 64) :: ((0x80 + r % 64) :: tail))) = _
      simp only [utf8Decode]
      rw [if_neg (by omega), if_neg (by omega), if_neg (by omega),
        if_pos (by omega)]
      rw [if_pos (by
        simp only [Bool.and_eq_true, decide_eq_true_eq, isCont]
        refine ⟨⟨?_, ?_⟩, by omega, by omega⟩
        · split <;> omega
        · split <;> omega)]
      simp only [List.length_cons, List.length_nil, Prod.mk.injEq]
      refine ⟨by omega, by trivial⟩
    · have hhi : r ≤ 0x10FFFF := by omega
      have he : utf8Encode r =
          [0xF0 + r / 262144, 0x80 + r / 4096 % 64, 0x80 + r / 64 % 64,
            0x80 + r % 64] := by
        unfold utf8Encode
        rw [if_neg (by omega), if_neg (by omega), if_neg (by simp [hval]),
          if_neg (by omega)]
      rw [he]
      have hdlo : r / 262144 ≤ 4 := by omega
      show utf8Decode ((0xF0 + r / 262144) ::
        ((0x80 + r / 4096 % 64) :: ((0x80 + r / 64 % 64) ::
          ((0x80 + r % 64) :: tail)))) = _
      simp only [utf8Decode]
      rw [if_neg (by omega), if_neg (by omega), if_neg (by omega),
        if_neg (by omega), if_pos (by omega)]
      rw [if_pos (by
        simp only [Bool.and_eq_true, decide_eq_true_eq, isCont]
        refine ⟨⟨⟨?_, ?_⟩, by omega, by omega⟩, by omega, by omega⟩
        · split <;> omega
        · split <;> omega)]
      simp only [List.length_cons, List.length_nil, Prod.mk.injEq]
      refine ⟨by omega, by trivial⟩

theorem utf8Decode_take {b0 : Nat} {rest : List Nat} {r w : Nat}
    (h : utf8Decode (b0 :: rest) = (r, w)) (hb0 : 0x80 ≤ b0) (hw : w ≠ 1) :
    2 ≤ w ∧ 0x80 ≤ r ∧ validRune r = true ∧
      utf8Encode r = (b0 :: rest).take w := by
  by_cases hc2 : b0 < 0xC2
  · simp only [utf8Decode] at h
    rw [if_neg (by omega), if_pos hc2] at h
    injection h with h1 h2
    exact absurd h2.symm hw
  by_cases hdf : b0 ≤ 0xDF
  · cases rest with
    | nil =>
      simp only [utf8Decode] at h
      rw [if_neg (by omega), if_neg hc2, if_pos hdf] at h
      injection h with h1 h2
      exact absurd h2.symm hw
    | cons b1 rtl =>
      simp only [utf8Decode] at h
      rw [if_neg (by omega), if_neg hc2, if_pos hdf] at h
      by_cases hcont : isCont b1
      · rw [if_pos hcont] at h
        injection h with h1 h2
        subst h1
        subst h2
        have hb1 : 0x80 ≤ b1 ∧ b1 ≤ 0xBF := by
          simpa [isCont] using hcont
        have hval2 : validRune ((b0 - 0xC0) * 64 + (b1 - 0x80)) = true := by
          simp only [validRune, decide_eq_true_eq]
          omega
        refine ⟨by omega, by omega, hval2, ?_⟩
        unfold utf8Encode
        rw [if_neg (by omega), if_pos (by omega)]
        show _ = [b0, b1]
        have e1 : ((b0 - 0xC0) * 64 + (b1 - 0x80)) / 64 = b0 - 0xC0 := by
          omega
        have e2 : ((b0 - 0xC0) * 64 + (b1 - 0x80)) % 64 = b1 - 0x80 := by
          omega
        rw [e1, e2]
        simp only [List.cons.injEq, and_true]
        omega
      · rw [if_neg hcont] at h
        injection h with h1 h2
        exact absurd h2.symm hw
  by_cases hef : b0 ≤ 0xEF
  · cases rest with
    | nil =>
      simp only [utf8Decode] at h
      rw [if_neg (by omega), if_neg hc2, if_neg hdf, if_pos hef] at h
      injection h with h1 h2
      exact absurd h2.symm hw
    | cons b1 rest1 =>
      cases rest1 with
      | nil =>
        simp only [utf8Decode] at h
        rw [if_neg (by omega), if_neg hc2, if_neg hdf, if_pos hef] at h
        injection h with h1 h2
        exact absurd h2.symm hw
      | cons b2 rtl =>
        simp only [utf8Decode] at h
        rw [if_neg (by omega), if_neg hc2, if_neg hdf, if_pos hef] at h
        by_cases hok : ((if b0 = 0xE0 then 0xA0 else 0x80) ≤ b1 &&
            (b1 ≤ if b0 = 0xED then 0x9F else 0xBF) && isCont b2) = true
        · rw [if_pos hok] at h
          injection h with h1 h2
          subst h1
          subst h2
          simp only [Bool.and_eq_true, decide_eq_true_eq] at hok
          obtain ⟨⟨hb1lo', hb1hi'⟩, hcont2⟩ := hok
          have hb2A : 0x80 ≤ b2 ∧ b2 ≤ 0xBF := by
            simpa [isCont] using hcont2
          have hb1A : 0x80 ≤ b1 ∧ b1 ≤ 0xBF := by
            constructor
            · by_cases hE : b0 = 0xE0 <;> simp [hE] at hb1lo' <;> omega
            · by_cases hE : b0 = 0xED <;> simp [hE] at hb1hi' <;> omega
          have hlo800 : 0x800 ≤ (b0 - 0xE0) * 4096 + (b1 - 0x80) * 64 +
              (b2 - 0x80) := by
            by_cases hE : b0 = 0xE0
            · simp [hE] at hb1lo'
              omega
            · omega
          have hnosur : (b0 - 0xE0) * 4096 + (b1 - 0x80) * 64 + (b2 - 0x80) <
              0xD800 ∨ 0xDFFF < (b0 - 0xE0) * 4096 + (b1 - 0x80) * 64 +
              (b2 - 0x80) := by
            by_cases hE : b0 = 0xED
            · simp [hE] at hb1hi'
              left
              omega
            · by_cases hlt : b0 < 0xED
              · left; omega
              · right; omega
          have hval2 : validRune ((b0 - 0xE0) * 4096 + (b1 - 0x80) * 64 +
              (b2 - 0x80)) = true := by
            simp only [validRune, decide_eq_true_eq]
            omega
          refine ⟨by omega, by omega, hval2, ?_⟩
          unfold utf8Encode
          rw [if_neg (by omega), if_neg (by omega), if_neg (by simp [hval2]),
            if_pos (by omega)]
          show _ = [b0, b1, b2]
          have e1 : ((b0 - 0xE0) * 4096 + (b1 - 0x80) * 64 + (b2 - 0x80)) /
              4096 = b0 - 0xE0 := by omega
          have e2 : ((b0 - 0xE0) * 4096 + (b1 - 0x80) * 64 + (b2 - 0x80)) /
              64 % 64 = b1 - 0x80 := by omega
          have e3 : ((b0 - 0xE0) * 4096 + (b1 - 0x80) * 64 + (b2 - 0x80)) %
              64 = b2 - 0x80 := by omega
          rw [e1, e2, e3]
          simp only [List.cons.injEq, and_true]
          omega
        · rw [if_neg hok] at h
          injection h with h1 h2
          exact absurd h2.symm hw
  by_cases hf4 : b0 ≤ 0xF4
  · cases rest with
    | nil =>
      simp only [utf8Decode] at h
      rw [if_neg (by omega), if_neg hc2, if_neg hdf, if_neg hef,
        if_pos hf4] at h
      injection h with h1 h2
      exact absurd h2.symm hw
    | cons b1 rest1 =>
      cases rest1 with
      | nil =>
        simp only [utf8Decode] at h
        rw [if_neg (by omega), if_neg hc2, if_neg hdf, if_neg hef,
          if_pos hf4] at h
        injection h with h1 h2
        exact absurd h2.symm hw
      | cons b2 rest2 =>
        cases rest2 with
        | nil =>
          simp only [utf8Decode] at h
          rw [if_neg (by omega), if_neg hc2, if_neg hdf, if_neg hef,
            if_pos hf4] at h
          injection h with h1 h2
          exact absurd h2.symm hw
        | cons b3 rtl =>
          simp only [utf8Decode] at h
          rw [if_neg (by omega), if_neg hc2, if_neg hdf, if_neg hef,
            if_pos hf4] at h
          by_cases hok : ((if b0 = 0xF0 then 0x90 else 0x80) ≤ b1 &&
              (b1 ≤ if b0 = 0xF4 then 0x8F else 0xBF) && isCont b2 &&
              isCont b3) = true
          · rw [if_pos hok] at h
            injection h with h1 h2
            subst h1
            subst h2
            simp only [Bool.and_eq_true, decide_eq_true_eq] at hok
            obtain ⟨⟨⟨hb1lo', hb1hi'⟩, hcont2⟩, hcont3⟩ := hok
            have hb2A : 0x80 ≤ b2 ∧ b2 ≤ 0xBF := by
              simpa [isCont] using hcont2
            have hb3A : 0x80 ≤ b3 ∧ b3 ≤ 0xBF := by
              simpa [isCont] using hcont3
            have hb1A : 0x80 ≤ b1 ∧ b1 ≤ 0xBF := by
              constructor
              · by_cases hE : b0 = 0xF0 <;> simp [hE] at hb1lo' <;> omega
              · by_cases hE : b0 = 0xF4 <;> simp [hE] at hb1hi' <;> omega
            have hlo : 0x10000 ≤ (b0 - 0xF0) * 262144 + (b1 - 0x80) * 4096 +
                (b2 - 0x80) * 64 + (b3 - 0x80) := by
              by_cases hE : b0 = 0xF0
              · simp [hE] at hb1lo'
                omega
              · omega
            have hhi : (b0 - 0xF0) * 262144 + (b1 - 0x80) * 4096 +
                (b2 - 0x80) * 64 + (b3 - 0x80) ≤ 0x10FFFF := by
              by_cases hE : b0 = 0xF4
              · simp [hE] at hb1hi'
                omega
              · omega
            have hval2 : validRune ((b0 - 0xF0) * 262144 +
                (b1 - 0x80) * 4096 + (b2 - 0x80) * 64 + (b3 - 0x80)) =
                true := by
              simp only [validRune, decide_eq_true_eq]
              omega
            refine ⟨by omega, by omega, hval2, ?_⟩
            unfold utf8Encode
            rw [if_neg (by omega), if_neg (by omega),
              if_neg (by simp [hval2]), if_neg (by omega)]
            show _ = [b0, b1, b2, b3]
            have e1 : ((b0 - 0xF0) * 262144 + (b1 - 0x80) * 4096 +
                (b2 - 0x80) * 64 + (b3 - 0x80)) / 262144 = b0 - 0xF0 := by
              omega
            have e2 : ((b0 - 0xF0) * 262144 + (b1 - 0x80) * 4096 +
                (b2 - 0x80) * 64 + (b3 - 0x80)) / 4096 % 64 = b1 - 0x80 := by
              omega
            have e3 : ((b0 - 0xF0) * 262144 + (b1 - 0x80) * 4096 +
                (b2 - 0x80) * 64 + (b3 - 0x80)) / 64 % 64 = b2 - 0x80 := by
              omega
            have e4 : ((b0 - 0xF0) * 262144 + (b1 - 0x80) * 4096 +
                (b2 - 0x80) * 64 + (b3 - 0x80)) % 64 = b3 - 0x80 := by
              omega
            rw [e1, e2, e3, e4]
            simp only [List.cons.injEq, and_true]
            omega
          · rw [if_neg hok] at h
            injection h with h1 h2
            exact absurd h2.symm hw
  · simp only [utf8Decode] at h
    rw [if_neg (by omega), if_neg hc2, if_neg hdf, if_neg hef,
      if_neg hf4] at h
    injection h with h1 h2
    exact absurd h2.symm hw

theorem unquoteChar_esc (x : Nat) (Z : List Nat) :
    unquoteChar (92 :: (x :: Z)) = unquoteEsc x Z := rfl

theorem unquoteLoopF_step {c : Nat} {Zc buf : List Nat} {fz2 : Nat}
    {r : Nat} {mb : Bool} {rem : List Nat}
    (hc34 : c ≠ 34) (hc10 : c ≠ 10)
    (huc : unquoteChar (c :: Zc) = some (r, mb, rem)) :
    unquoteLoopF (fz2 + 1) (c :: Zc) buf =
      unquoteLoopF fz2 rem
        (if r < 0x80 || !mb then buf ++ [r] else buf ++ utf8Encode r) := by
  show (if c = 34 then Except.ok (buf, Zc)
        else if c = 10 then Except.error GoErr.quoteSyntax
        else match unquoteChar (c :: Zc) with
          | none => Except.error GoErr.quoteSyntax
          | some (r, mb, rem) =>
            unquoteLoopF fz2 rem
              (if r < 0x80 || !mb then buf ++ [r]
               else buf ++ utf8Encode r)) = _
  rw [if_neg hc34, if_neg hc10, huc]

/-- One `unquoteChar` step undoes one `escapedRune` emission: an ASCII rune
comes back as its single byte. -/
theorem unquoteLoopF_escChunk_lo (iP : Nat → Bool) (hiP : iP 10 = false)
    (r : Nat) (hr : r < 0x80) (Z buf : List Nat) (fz2 : Nat) :
    unquoteLoopF (fz2 + 1) (escapedRune iP r ++ Z) buf =
      unquoteLoopF fz2 Z (buf ++ [r]) := by
  by_cases hq : r = 34 ∨ r = 92
  · have hE : escapedRune iP r = [92, r] := by
      unfold escapedRune
      rw [if_pos (by simp only [Bool.or_eq_true, decide_eq_true_eq]
                     exact hq)]
    rw [hE]
    rcases hq with rfl | rfl
    · rw [show ([92, 34] ++ Z) = 92 :: (34 :: Z) from rfl,
        unquoteLoopF_step (by decide) (by decide)
          (show unquoteChar (92 :: (34 :: Z)) = some (34, false, Z)
            from rfl)]
      rfl
    · rw [show ([92, 92] ++ Z) = 92 :: (92 :: Z) from rfl,
        unquoteLoopF_step (by decide) (by decide)
          (show unquoteChar (92 :: (92 :: Z)) = some (92, false, Z)
            from rfl)]
      rfl
  have hq' : r ≠ 34 ∧ r ≠ 92 := by
    constructor <;> intro h <;> exact hq (by simp [h])
  by_cases hp : iP r = true
  · have hr10 : r ≠ 10 := by
      intro h
      rw [h, hiP] at hp
      exact absurd hp (by decide)
    have hE : escapedRune iP r = [r] := by
      unfold escapedRune
      rw [if_neg (by simp only [Bool.or_eq_true, decide_eq_true_eq]; omega),
        if_pos hp]
      unfold utf8Encode
      rw [if_pos hr]
    rw [hE]
    rw [show ([r] ++ Z) = r :: Z from rfl,
      unquoteLoopF_step hq'.1 hr10
        (show unquoteChar (r :: Z) = some (r, false, Z) by
          simp only [unquoteChar]
          rw [if_neg hq'.1, if_neg (by omega), if_pos hq'.2])]
    rw [if_pos (by simp)]
  · have hnq : ¬((r = 34 || r = 92 : Bool) = true) := by
      simp only [Bool.or_eq_true, decide_eq_true_eq]
      omega
    by_cases h7 : r = 7
    · subst h7
      have hE : escapedRune iP 7 = [92, 97] := by
        unfold escapedRune
        rw [if_neg (by decide), if_neg hp, if_pos (by decide)]
      rw [hE, show ([92, 97] ++ Z) = 92 :: (97 :: Z) from rfl,
        unquoteLoopF_step (by decide) (by decide)
          (show unquoteChar (92 :: (97 :: Z)) = some (7, false, Z)
            from rfl)]
      rfl
    by_cases h8 : r = 8
    · subst h8
      have hE : escapedRune iP 8 = [92, 98] := by
        unfold escapedRune
        rw [if_neg (by decide), if_neg hp, if_neg (by decide), if_pos (by decide)]
      rw [hE, show ([92, 98] ++ Z) = 92 :: (98 :: Z) from rfl,
        unquoteLoopF_step (by decide) (by decide)
          (show unquoteChar (92 :: (98 :: Z)) = some (8, false, Z)
            from rfl)]
      rfl
    by_cases h12 : r = 12
    · subst h12
      have hE : escapedRune iP 12 = [92, 102] := by
        unfold escapedRune
        rw [if_neg (by decide), if_neg hp, if_neg (by decide), if_neg (by decide), if_pos (by decide)]
      rw [hE, show ([92, 102] ++ Z) = 92 :: (102 :: Z) from rfl,
        unquoteLoopF_step (by decide) (by decide)
          (show unquoteChar (92 :: (102 :: Z)) = some (12, false, Z)
            from rfl)]
      rfl
    by_cases h10 : r = 10
    · subst h10
      have hE : escapedRune iP 10 = [92, 110] := by
        unfold escapedRune
        rw [if_neg (by decide), if_neg hp, if_neg (by decide), if_neg (by decide), if_neg (by decide), if_pos (by decide)]
      rw [hE, show ([92, 110] ++ Z) = 92 :: (110 :: Z) from rfl,
        unquoteLoopF_step (by decide) (by decide)
          (show unquoteChar (92 :: (110 :: Z)) = some (10, false, Z)
            from rfl)]
      rfl
    by_cases h13 : r = 13
    · subst h13
      have hE : escapedRune iP 13 = [92, 114] := by
        unfold escapedRune
        rw [if_neg (by decide), if_neg hp, if_neg (by decide), if_neg (by decide), if_neg (by decide), if_neg (by decide), if_pos (by decide)]
      rw [hE, show ([92, 114] ++ Z) = 92 :: (114 :: Z) from rfl,
        unquoteLoopF_step (by decide) (by decide)
          (show unquoteChar (92 :: (114 :: Z)) = some (13, false, Z)
            from rfl)]
      rfl
    by_cases h9 : r = 9
    · subst h9
      have hE : escapedRune iP 9 = [92, 116] := by
        unfold escapedRune
        rw [if_neg (by decide), if_neg hp, if_neg (by decide), if_neg (by decide), if_neg (by decide), if_neg (by decide), if_neg (by decide), if_pos (by decide)]
      rw [hE, show ([92, 116] ++ Z) = 92 :: (116 :: Z) from rfl,
        unquoteLoopF_step (by decide) (by decide)
          (show unquoteChar (92 :: (116 :: Z)) = some (9, false, Z)
            from rfl)]
      rfl
    by_cases h11 : r = 11
    · subst h11
      have hE : escapedRune iP 11 = [92, 118] := by
        unfold escapedRune
        rw [if_neg (by decide), if_neg hp, if_neg (by decide), if_neg (by decide), if_neg (by decide), if_neg (by decide), if_neg (by decide), if_neg (by decide), if_pos (by decide)]
      rw [hE, show ([92, 118] ++ Z) = 92 :: (118 :: Z) from rfl,
        unquoteLoopF_step (by decide) (by decide)
          (show unquoteChar (92 :: (118 :: Z)) = some (11, false, Z)
            from rfl)]
      rfl
    by_cases h32 : r < 32 ∨ r = 0x7F
    · have hE : escapedRune iP r = [92, 120] ++ hexDigits 2 r := by
        unfold escapedRune
        rw [if_neg hnq, if_neg (by simp [hp]),
          if_neg (by omega),
          if_neg (by omega),
          if_neg (by omega),
          if_neg (by omega),
          if_neg (by omega),
          if_neg (by omega),
          if_neg (by omega),
          if_pos (by simp only [Bool.or_eq_true, decide_eq_true_eq]; omega)]
      rw [hE,
        show (([92, 120] ++ hexDigits 2 r) ++ Z) =
          92 :: (120 :: (hexDigits 2 r ++ Z)) by simp,
        unquoteLoopF_step (by decide) (by decide)
          (show unquoteChar (92 :: (120 :: (hexDigits 2 r ++ Z))) =
            some (r, false, Z) by
            rw [unquoteChar_esc,
              show unquoteEsc 120 (hexDigits 2 r ++ Z) =
                hexEsc 2 true (hexDigits 2 r ++ Z) from rfl,
              hexEsc_hexDigits 2 r true Z (by omega) (Or.inl rfl)]
            rfl)]
      rw [if_pos (by simp)]
    · have hval : validRune r = true := by
        simp only [validRune, decide_eq_true_eq]
        omega
      have hE : escapedRune iP r = [92, 117] ++ hexDigits 4 r := by
        unfold escapedRune
        rw [if_neg hnq, if_neg (by simp [hp]),
          if_neg (by omega),
          if_neg (by omega),
          if_neg (by omega),
          if_neg (by omega),
          if_neg (by omega),
          if_neg (by omega),
          if_neg (by omega),
          if_neg (by simp only [Bool.or_eq_true, decide_eq_true_eq]; omega),
          if_neg (by simp [hval]),
          if_pos (by omega)]
      rw [hE,
        show (([92, 117] ++ hexDigits 4 r) ++ Z) =
          92 :: (117 :: (hexDigits 4 r ++ Z)) by simp,
        unquoteLoopF_step (by decide) (by decide)
          (show unquoteChar (92 :: (117 :: (hexDigits 4 r ++ Z))) =
            some (r, true, Z) by
            rw [unquoteChar_esc,
              show unquoteEsc 117 (hexDigits 4 r ++ Z) =
                hexEsc 4 false (hexDigits 4 r ++ Z) from rfl,
              hexEsc_hexDigits 4 r false Z (by omega) (Or.inr hval)]
            rfl)]
      rw [if_pos (by simp only [Bool.or_eq_true, decide_eq_true_eq]
                     exact Or.inl hr)]

/-- One `unquoteChar` step undoes one `escapedRune` emission: a valid
multi-byte rune comes back as its canonical UTF-8 bytes. -/
theorem unquoteLoopF_escChunk_hi (iP : Nat → Bool) (r : Nat)
    (hval : validRune r = true) (hr : 0x80 ≤ r)
    (Z buf : List Nat) (fz2 : Nat) :
    unquoteLoopF (fz2 + 1) (escapedRune iP r ++ Z) buf =
      unquoteLoopF fz2 Z (buf ++ utf8Encode r) := by
  have hnq : ¬((r = 34 || r = 92 : Bool) = true) := by
    simp only [Bool.or_eq_true, decide_eq_true_eq]
    omega
  have hrange : r < 0xD800 ∨ (0xDFFF < r ∧ r ≤ 0x10FFFF) := by
    simpa [validRune] using hval
  by_cases hp : iP r = true
  · have hE : escapedRune iP r = utf8Encode r := by
      unfold escapedRune
      rw [if_neg hnq, if_pos hp]
    obtain ⟨h0, t0, he0, h0lo, h0hi⟩ := utf8Encode_head r hval hr
    have hdec := utf8Decode_encode r hval hr Z
    rw [he0] at hdec
    have hdrop : (h0 :: (t0 ++ Z)).drop (h0 :: t0).length = Z := by
      have h := List.drop_left (h0 :: t0) Z
      simpa using h
    rw [hE, he0,
      show ((h0 :: t0) ++ Z) = h0 :: (t0 ++ Z) from rfl,
      unquoteLoopF_step (by omega) (by omega)
        (show unquoteChar (h0 :: (t0 ++ Z)) = some (r, true, Z) by
          simp only [unquoteChar]
          rw [if_neg (by omega), if_pos (by omega)]
          show some ((utf8Decode (h0 :: (t0 ++ Z))).1, true,
            (h0 :: (t0 ++ Z)).drop (utf8Decode (h0 :: (t0 ++ Z))).2) = _
          rw [show utf8Decode (h0 :: (t0 ++ Z)) =
            (r, (h0 :: t0).length) by simpa using hdec]
          rw [hdrop])]
    rw [if_neg (by simp; omega), he0]
  · by_cases h4 : r < 0x10000
    · have hE : escapedRune iP r = [92, 117] ++ hexDigits 4 r := by
        unfold escapedRune
        rw [if_neg hnq, if_neg (by simp [hp]),
          if_neg (by omega),
          if_neg (by omega),
          if_neg (by omega),
          if_neg (by omega),
          if_neg (by omega),
          if_neg (by omega),
          if_neg (by omega),
          if_neg (by simp only [Bool.or_eq_true, decide_eq_true_eq]; omega),
          if_neg (by simp [hval]),
          if_pos (by omega)]
      rw [hE,
        show (([92, 117] ++ hexDigits 4 r) ++ Z) =
          92 :: (117 :: (hexDigits 4 r ++ Z)) by simp,
        unquoteLoopF_step (by decide) (by decide)
          (show unquoteChar (92 :: (117 :: (hexDigits 4 r ++ Z))) =
            some (r, true, Z) by
            rw [unquoteChar_esc,
              show unquoteEsc 117 (hexDigits 4 r ++ Z) =
                hexEsc 4 false (hexDigits 4 r ++ Z) from rfl,
              hexEsc_hexDigits 4 r false Z (by omega) (Or.inr hval)]
            rfl)]
      rw [if_neg (by simp; omega)]
    · have hE : escapedRune iP r = [92, 85] ++ hexDigits 8 r := by
        unfold escapedRune
        rw [if_neg hnq, if_neg (by simp [hp]),
          if_neg (by omega),
          if_neg (by omega),
          if_neg (by omega),
          if_neg (by omega),
          if_neg (by omega),
          if_neg (by omega),
          if_neg (by omega),
          if_neg (by simp only [Bool.or_eq_true, decide_eq_true_eq]; omega),
          if_neg (by simp [hval]),
          if_neg (by omega)]
      rw [hE,
        show (([92, 85] ++ hexDigits 8 r) ++ Z) =
          92 :: (85 :: (hexDigits 8 r ++ Z)) by simp,
        unquoteLoopF_step (by decide) (by decide)
          (show unquoteChar (92 :: (85 :: (hexDigits 8 r ++ Z))) =
            some (r, true, Z) by
            rw [unquoteChar_esc,
              show unquoteEsc 85 (hexDigits 8 r ++ Z) =
                hexEsc 8 false (hexDigits 8 r ++ Z) from rfl,
              hexEsc_hexDigits 8 r false Z (by omega) (Or.inr hval)]
            rfl)]
      rw [if_neg (by simp; omega)]

/-- The `\xNN` chunk the quote loop emits for a byte that is not part of a
valid UTF-8 encoding comes back as that raw byte. -/
theorem unquoteLoopF_hexChunk (b0 : Nat) (hb : b0 < 256)
    (Z buf : List Nat) (fz2 : Nat) :
    unquoteLoopF (fz2 + 1) (92 :: (120 :: (hexDigits 2 b0 ++ Z))) buf =
      unquoteLoopF fz2 Z (buf ++ [b0]) := by
  rw [unquoteLoopF_step (by decide) (by decide)
    (show unquoteChar (92 :: (120 :: (hexDigits 2 b0 ++ Z))) =
      some (b0, false, Z) by
      rw [unquoteChar_esc,
        show unquoteEsc 120 (hexDigits 2 b0 ++ Z) =
          hexEsc 2 true (hexDigits 2 b0 ++ Z) from rfl,
        hexEsc_hexDigits 2 b0 true Z (by omega) (Or.inl rfl)]
      rfl)]
  rw [if_pos (by simp)]

theorem escapedRune_ne_nil (iP : Nat → Bool) (r : Nat) :
    escapedRune iP r ≠ [] := by
  by_cases h1 : (r = 34 || r = 92 : Bool) = true
  · have hE : escapedRune iP r = [92, r] := by
      unfold escapedRune
      rw [if_pos h1]
    rw [hE]
    exact List.cons_ne_nil _ _
  by_cases h2 : iP r = true
  · have hE : escapedRune iP r = utf8Encode r := by
      unfold escapedRune
      rw [if_neg h1, if_pos h2]
    rw [hE]
    exact utf8Encode_ne_nil r
  by_cases h3 : r = 7
  · have hE : escapedRune iP r = [92, 97] := by
      unfold escapedRune
      rw [if_neg h1, if_neg h2, if_pos h3]
    rw [hE]
    exact List.cons_ne_nil _ _
  by_cases h4 : r = 8
  · have hE : escapedRune iP r = [92, 98] := by
      unfold escapedRune
      rw [if_neg h1, if_neg h2, if_neg h3, if_pos h4]
    rw [hE]
    exact List.cons_ne_nil _ _
  by_cases h5 : r = 12
  · have hE : escapedRune iP r = [92, 102] := by
      unfold escapedRune
      rw [if_neg h1, if_neg h2, if_neg h3, if_neg h4, if_pos h5]
    rw [hE]
    exact List.cons_ne_nil _ _
  by_cases h6 : r = 10
  · have hE : escapedRune iP r = [92, 110] := by
      unfold escapedRune
      rw [if_neg h1, if_neg h2, if_neg h3, if_neg h4, if_neg h5, if_pos h6]
    rw [hE]
    exact List.cons_ne_nil _ _
  by_cases h7n : r = 13
  · have hE : escapedRune iP r = [92, 114] := by
      unfold escapedRune
      rw [if_neg h1, if_neg h2, if_neg h3, if_neg h4, if_neg h5, if_neg h6, if_pos h7n]
    rw [hE]
    exact List.cons_ne_nil _ _
  by_cases h8n : r = 9
  · have hE : escapedRune iP r = [92, 116] := by
      unfold escapedRune
      rw [if_neg h1, if_neg h2, if_neg h3, if_neg h4, if_neg h5, if_neg h6, if_neg h7n, if_pos h8n]
    rw [hE]
    exact List.cons_ne_nil _ _
  by_cases h9n : r = 11
  · have hE : escapedRune iP r = [92, 118] := by
      unfold escapedRune
      rw [if_neg h1, if_neg h2, if_neg h3, if_neg h4, if_neg h5, if_neg h6, if_neg h7n, if_neg h8n, if_pos h9n]
    rw [hE]
    exact List.cons_ne_nil _ _
  by_cases h10n : (r < 32 || r = 0x7F : Bool) = true
  · have hE : escapedRune iP r = [92, 120] ++ hexDigits 2 r := by
      unfold escapedRune
      rw [if_neg h1, if_neg h2, if_neg h3, if_neg h4, if_neg h5, if_neg h6, if_neg h7n, if_neg h8n, if_neg h9n, if_pos h10n]
    rw [hE]
    exact List.cons_ne_nil _ _
  by_cases h11n : (!validRune r) = true
  · have hE : escapedRune iP r = [92, 117] ++ hexDigits 4 RuneError := by
      unfold escapedRune
      rw [if_neg h1, if_neg h2, if_neg h3, if_neg h4, if_neg h5, if_neg h6, if_neg h7n, if_neg h8n, if_neg h9n, if_neg h10n, if_pos h11n]
    rw [hE]
    exact List.cons_ne_nil _ _
  by_cases h12n : r < 0x10000
  · have hE : escapedRune iP r = [92, 117] ++ hexDigits 4 r := by
      unfold escapedRune
      rw [if_neg h1, if_neg h2, if_neg h3, if_neg h4, if_neg h5, if_neg h6, if_neg h7n, if_neg h8n, if_neg h9n, if_neg h10n, if_neg h11n, if_pos h12n]
    rw [hE]
    exact List.cons_ne_nil _ _
  · have hE : escapedRune iP r = [92, 85] ++ hexDigits 8 r := by
      unfold escapedRune
      rw [if_neg h1, if_neg h2, if_neg h3, if_neg h4, if_neg h5, if_neg h6, if_neg h7n, if_neg h8n, if_neg h9n, if_neg h10n, if_neg h11n, if_neg h12n]
    rw [hE]
    exact List.cons_ne_nil _ _

/-- Inverting the rune loop of `Quote` with the loop of `Unquote`: the
escaped body followed by the closing quote unescapes back to the original
bytes, leaving exactly the input after the quote. -/
theorem unquote_quoteLoopF (iP : Nat → Bool) (hiP : iP 10 = false) :
    ∀ (N : Nat) (s : List Nat), s.length ≤ N →
    (∀ b ∈ s, b < 256) →
    ∀ (fuel1 : Nat), s.length < fuel1 →
    ∀ (buf tail : List Nat) (fuel2 : Nat),
      (quoteLoopF iP fuel1 s).length < fuel2 →
      unquoteLoopF fuel2 (quoteLoopF iP fuel1 s ++ 34 :: tail) buf =
        .ok (buf ++ s, tail) := by
  intro N
  induction N with
  | zero =>
    intro s hsN _ fuel1 hf1 buf tail fuel2 hf2
    have hs0 : s = [] := List.length_eq_zero.mp (by omega)
    subst hs0
    match fuel1, fuel2 with
    | f1 + 1, f2 + 1 =>
      rw [show quoteLoopF iP (f1 + 1) [] = [] from rfl, List.nil_append, List.append_nil]
      rfl
  | succ N ih =>
    intro s hsN hbytes fuel1 hf1 buf tail fuel2 hf2
    match s, fuel1 with
    | [], f1 + 1 =>
      match fuel2 with
      | f2 + 1 =>
        rw [show quoteLoopF iP (f1 + 1) [] = [] from rfl, List.nil_append, List.append_nil]
        rfl
    | b0 :: rest, f1 + 1 =>
      by_cases hb0 : b0 < 0x80
      · have hq : quoteLoopF iP (f1 + 1) (b0 :: rest) =
            escapedRune iP b0 ++ quoteLoopF iP f1 rest := by
          show (if b0 < 0x80 then
                  escapedRune iP b0 ++ quoteLoopF iP f1 rest
                else _) = _
          rw [if_pos hb0]
        rw [hq] at hf2 ⊢
        have hene := escapedRune_ne_nil iP b0
        have hlenE : 1 ≤ (escapedRune iP b0).length := by
          cases hE : escapedRune iP b0 with
          | nil => exact absurd hE hene
          | cons x xs => simp
        simp only [List.length_append] at hf2
        obtain ⟨f2, rfl⟩ : ∃ f2, fuel2 = f2 + 1 := ⟨fuel2 - 1, by omega⟩
        rw [List.append_assoc,
          unquoteLoopF_escChunk_lo iP hiP b0 hb0 _ buf f2]
        rw [ih rest (by simp at hsN; omega)
          (fun b hb => hbytes b (List.mem_cons_of_mem _ hb))
          f1 (by simp at hf1; omega) (buf ++ [b0]) tail f2 (by omega)]
        simp
      · have hb256 : b0 < 256 := hbytes b0 (List.mem_cons_self _ _)
        by_cases hw1 : (utf8Decode (b0 :: rest)).2 = 1
        · have hq : quoteLoopF iP (f1 + 1) (b0 :: rest) =
              [92, 120] ++ hexDigits 2 b0 ++ quoteLoopF iP f1 rest := by
            show (if b0 < 0x80 then
                    escapedRune iP b0 ++ quoteLoopF iP f1 rest
                  else
                    if (utf8Decode (b0 :: rest)).2 = 1 then
                      [92, 120] ++ hexDigits 2 b0 ++ quoteLoopF iP f1 rest
                    else
                      escapedRune iP (utf8Decode (b0 :: rest)).1 ++
                        quoteLoopF iP f1
                          ((b0 :: rest).drop (utf8Decode (b0 :: rest)).2)) =
              _
            rw [if_neg hb0, if_pos hw1]
          rw [hq] at hf2 ⊢
          simp only [List.length_append, List.length_cons, List.length_nil,
            hexDigits_length] at hf2
          obtain ⟨f2, rfl⟩ : ∃ f2, fuel2 = f2 + 1 := ⟨fuel2 - 1, by omega⟩
          rw [show ([92, 120] ++ hexDigits 2 b0 ++ quoteLoopF iP f1 rest) ++
              34 :: tail =
              92 :: (120 :: (hexDigits 2 b0 ++
                (quoteLoopF iP f1 rest ++ 34 :: tail))) by simp,
            unquoteLoopF_hexChunk b0 hb256 _ buf f2]
          rw [ih rest (by simp at hsN; omega)
            (fun b hb => hbytes b (List.mem_cons_of_mem _ hb))
            f1 (by simp at hf1; omega) (buf ++ [b0]) tail f2
            (by omega)]
          simp
        · obtain ⟨r, w, hrw⟩ : ∃ r w, utf8Decode (b0 :: rest) = (r, w) :=
            ⟨_, _, rfl⟩
          obtain ⟨hw2, hr80, hrval, henc⟩ := utf8Decode_take hrw
            (by omega) (by rw [hrw] at hw1; simpa using hw1)
          have hq : quoteLoopF iP (f1 + 1) (b0 :: rest) =
              escapedRune iP r ++
                quoteLoopF iP f1 ((b0 :: rest).drop w) := by
            show (if b0 < 0x80 then
                    escapedRune iP b0 ++ quoteLoopF iP f1 rest
                  else
                    if (utf8Decode (b0 :: rest)).2 = 1 then
                      [92, 120] ++ hexDigits 2 b0 ++ quoteLoopF iP f1 rest
                    else
                      escapedRune iP (utf8Decode (b0 :: rest)).1 ++
                        quoteLoopF iP f1
                          ((b0 :: rest).drop (utf8Decode (b0 :: rest)).2)) =
              _
            rw [if_neg hb0, if_neg hw1, hrw]
          rw [hq] at hf2 ⊢
          have hene := escapedRune_ne_nil iP r
          have hlenE : 1 ≤ (escapedRune iP r).length := by
            cases hE : escapedRune iP r with
            | nil => exact absurd hE hene
            | cons x xs => simp
          simp only [List.length_append] at hf2
          obtain ⟨f2, rfl⟩ : ∃ f2, fuel2 = f2 + 1 := ⟨fuel2 - 1, by omega⟩
          rw [List.append_assoc,
            unquoteLoopF_escChunk_hi iP r hrval hr80 _ buf f2]
          have hlen : (b0 :: rest).length ≤ N + 1 := hsN
          rw [ih ((b0 :: rest).drop w)
            (by simp only [List.length_drop, List.length_cons] at *; omega)
            (fun b hb => hbytes b (List.mem_of_mem_drop hb))
            f1 (by simp only [List.length_drop, List.length_cons] at *; omega)
            (buf ++ utf8Encode r) tail f2 (by omega)]
          rw [henc, List.append_assoc, List.take_append_drop]

/-- The escape-tracking scan of `rawStringParser` accepts these bytes as the
interior of a quoted span: no unescaped closing quote, and every backslash
is followed by a byte it escapes. -/
def scanSafe : List Nat → Bool
  | [] => true
  | [c] => !(c == 34) && !(c == 92)
  | c :: x :: t =>
    if c = 92 then scanSafe t
    else !(c == 34) && scanSafe (x :: t)

theorem scanSafe_cons_plain {c : Nat} (t : List Nat) (hc34 : c ≠ 34)
    (hc92 : c ≠ 92) : scanSafe (c :: t) = scanSafe t := by
  cases t with
  | nil =>
    show (!(c == 34) && !(c == 92)) = true
    simp [hc34, hc92]
  | cons x t2 =>
    show (if c = 92 then scanSafe t2
        else !(c == 34) && scanSafe (x :: t2)) = scanSafe (x :: t2)
    rw [if_neg hc92]
    simp [hc34]

theorem scanSafe_cons_elim {c : Nat} {t : List Nat} (hc92 : c ≠ 92)
    (h : scanSafe (c :: t) = true) : c ≠ 34 ∧ scanSafe t = true := by
  cases t with
  | nil =>
    have h2 : (!(c == 34) && !(c == 92)) = true := h
    refine ⟨?_, rfl⟩
    intro hx
    subst hx
    simp at h2
  | cons x t2 =>
    have h2 : (if c = 92 then scanSafe t2
        else !(c == 34) && scanSafe (x :: t2)) = true := h
    rw [if_neg hc92] at h2
    constructor
    · intro hx
      subst hx
      simp at h2
    · exact (Bool.and_eq_true _ _ |>.mp h2).2

theorem scanSafe_esc (x : Nat) (t : List Nat) :
    scanSafe (92 :: (x :: t)) = scanSafe t := rfl

theorem scanSafe_digits {l : List Nat}
    (h : ∀ c ∈ l, c ≠ 34 ∧ c ≠ 92) (b : List Nat) :
    scanSafe (l ++ b) = scanSafe b := by
  induction l with
  | nil => rfl
  | cons c t ih =>
    obtain ⟨h34, h92⟩ := h c (List.mem_cons_self _ _)
    rw [List.cons_append, scanSafe_cons_plain _ h34 h92,
      ih (fun x hx => h x (List.mem_cons_of_mem _ hx))]

theorem hexDigits_scanSafe (n v : Nat) (b : List Nat) :
    scanSafe (hexDigits n v ++ b) = scanSafe b :=
  scanSafe_digits
    (fun c hc => by
      rcases hexDigits_mem n v c hc with h | h
      · exact ⟨by omega, by omega⟩
      · exact ⟨by omega, by omega⟩) b

/-- Every chunk `escapedRune` emits is scan-transparent: the scanning
loop walks over it without seeing an unescaped quote. -/
theorem escapedRune_scanSafe (iP : Nat → Bool) (r : Nat)
    (hv : r < 0x80 ∨ validRune r = true) (b : List Nat) :
    scanSafe (escapedRune iP r ++ b) = scanSafe b := by
  by_cases h1 : (r = 34 || r = 92 : Bool) = true
  · have hE : escapedRune iP r = [92, r] := by
      unfold escapedRune
      rw [if_pos h1]
    rw [hE]
    exact scanSafe_esc r b
  by_cases h2 : iP r = true
  · have hE : escapedRune iP r = utf8Encode r := by
      unfold escapedRune
      rw [if_neg h1, if_pos h2]
    by_cases hr80 : r < 0x80
    · have hE2 : utf8Encode r = [r] := by
        unfold utf8Encode
        rw [if_pos hr80]
      have h34 : r ≠ 34 := fun hx => h1 (by simp [hx])
      have h92 : r ≠ 92 := fun hx => h1 (by simp [hx])
      rw [hE, hE2]
      exact scanSafe_cons_plain b h34 h92
    · have hval : validRune r = true := by
        rcases hv with hx | hx
        · exact absurd hx hr80
        · exact hx
      have hmem := utf8Encode_mem r hval (by omega)
      rw [hE]
      exact scanSafe_digits
        (fun c hc => ⟨by have := hmem c hc; omega,
          by have := hmem c hc; omega⟩) b
  by_cases h3 : r = 7
  · have hE : escapedRune iP r = [92, 97] := by
      unfold escapedRune
      rw [if_neg h1, if_neg h2, if_pos h3]
    rw [hE]
    exact scanSafe_esc 97 b
  by_cases h4 : r = 8
  · have hE : escapedRune iP r = [92, 98] := by
      unfold escapedRune
      rw [if_neg h1, if_neg h2, if_neg h3, if_pos h4]
    rw [hE]
    exact scanSafe_esc 98 b
  by_cases h5 : r = 12
  · have hE : escapedRune iP r = [92, 102] := by
      unfold escapedRune
      rw [if_neg h1, if_neg h2, if_neg h3, if_neg h4, if_pos h5]
    rw [hE]
    exact scanSafe_esc 102 b
  by_cases h6 : r = 10
  · have hE : escapedRune iP r = [92, 110] := by
      unfold escapedRune
      rw [if_neg h1, if_neg h2, if_neg h3, if_neg h4, if_neg h5, if_pos h6]
    rw [hE]
    exact scanSafe_esc 110 b
  by_cases h7n : r = 13
  · have hE : escapedRune iP r = [92, 114] := by
      unfold escapedRune
      rw [if_neg h1, if_neg h2, if_neg h3, if_neg h4, if_neg h5, if_neg h6, if_pos h7n]
    rw [hE]
    exact scanSafe_esc 114 b
  by_cases h8n : r = 9
  · have hE : escapedRune iP r = [92, 116] := by
      unfold escapedRune
      rw [if_neg h1, if_neg h2, if_neg h3, if_neg h4, if_neg h5, if_neg h6, if_neg h7n, if_pos h8n]
    rw [hE]
    exact scanSafe_esc 116 b
  by_cases h9n : r = 11
  · have hE : escapedRune iP r = [92, 118] := by
      unfold escapedRune
      rw [if_neg h1, if_neg h2, if_neg h3, if_neg h4, if_neg h5, if_neg h6, if_neg h7n, if_neg h8n, if_pos h9n]
    rw [hE]
    exact scanSafe_esc 118 b
  by_cases h10n : (r < 32 || r = 0x7F : Bool) = true
  · have hE : escapedRune iP r = [92, 120] ++ hexDigits 2 r := by
      unfold escapedRune
      rw [if_neg h1, if_neg h2, if_neg h3, if_neg h4, if_neg h5, if_neg h6, if_neg h7n, if_neg h8n, if_neg h9n, if_pos h10n]
    rw [hE,
      show (([92, 120] ++ hexDigits 2 r) ++ b) =
        92 :: (120 :: (hexDigits 2 r ++ b)) by simp,
      scanSafe_esc]
    exact hexDigits_scanSafe 2 r b
  by_cases h11n : (!validRune r) = true
  · have hE : escapedRune iP r = [92, 117] ++ hexDigits 4 RuneError := by
      unfold escapedRune
      rw [if_neg h1, if_neg h2, if_neg h3, if_neg h4, if_neg h5, if_neg h6, if_neg h7n, if_neg h8n, if_neg h9n, if_neg h10n, if_pos h11n]
    rw [hE,
      show (([92, 117] ++ hexDigits 4 RuneError) ++ b) =
        92 :: (117 :: (hexDigits 4 RuneError ++ b)) by simp,
      scanSafe_esc]
    exact hexDigits_scanSafe 4 RuneError b
  by_cases h12n : r < 0x10000
  · have hE : escapedRune iP r = [92, 117] ++ hexDigits 4 r := by
      unfold escapedRune
      rw [if_neg h1, if_neg h2, if_neg h3, if_neg h4, if_neg h5, if_neg h6, if_neg h7n, if_neg h8n, if_neg h9n, if_neg h10n, if_neg h11n, if_pos h12n]
    rw [hE,
      show (([92, 117] ++ hexDigits 4 r) ++ b) =
        92 :: (117 :: (hexDigits 4 r ++ b)) by simp,
      scanSafe_esc]
    exact hexDigits_scanSafe 4 r b
  · have hE : escapedRune iP r = [92, 85] ++ hexDigits 8 r := by
      unfold escapedRune
      rw [if_neg h1, if_neg h2, if_neg h3, if_neg h4, if_neg h5, if_neg h6, if_neg h7n, if_neg h8n, if_neg h9n, if_neg h10n, if_neg h11n, if_neg h12n]
    rw [hE,
      show (([92, 85] ++ hexDigits 8 r) ++ b) =
        92 :: (85 :: (hexDigits 8 r ++ b)) by simp,
      scanSafe_esc]
    exact hexDigits_scanSafe 8 r b

theorem scanLoopF_close {d : deserializer} {buf rest : List Nat} {fuel : Nat}
    (hd : d.b.drop d.idx = 34 :: rest) :
    scanLoopF (fuel + 1) d buf false =
      (⟨d.b, d.idx + 1, d.row, d.col + 1⟩, buf ++ [34], COK true) := by
  show (if (read d).2.2.OK then
          (if false then scanLoopF fuel (read d).1 (buf ++ [(read d).2.1]) false
           else if (read d).2.1 = 92 then
             scanLoopF fuel (read d).1 (buf ++ [(read d).2.1]) true
           else if (read d).2.1 = 34 then
             ((read d).1, buf ++ [(read d).2.1], COK true)
           else scanLoopF fuel (read d).1 (buf ++ [(read d).2.1]) false)
        else ((read d).1, [], CErr (some .unmatchedQuote))) = _
  rw [read_drop_cons hd]
  simp [OK]

theorem scanLoopF_plain_step {d : deserializer} {c : Nat} {Z buf : List Nat}
    {fuel : Nat} (hd : d.b.drop d.idx = c :: Z) (hc34 : c ≠ 34)
    (hc92 : c ≠ 92) :
    scanLoopF (fuel + 1) d buf false =
      scanLoopF fuel
        ⟨d.b, d.idx + 1, if c = 10 then d.row + 1 else d.row,
          if c = 10 then 1 else d.col + 1⟩ (buf ++ [c]) false := by
  show (if (read d).2.2.OK then
          (if false then scanLoopF fuel (read d).1 (buf ++ [(read d).2.1]) false
           else if (read d).2.1 = 92 then
             scanLoopF fuel (read d).1 (buf ++ [(read d).2.1]) true
           else if (read d).2.1 = 34 then
             ((read d).1, buf ++ [(read d).2.1], COK true)
           else scanLoopF fuel (read d).1 (buf ++ [(read d).2.1]) false)
        else ((read d).1, [], CErr (some .unmatchedQuote))) = _
  rw [read_drop_cons hd]
  simp [OK, hc34, hc92]

theorem scanLoopF_esc_step1 {d : deserializer} {Z buf : List Nat}
    {fuel : Nat} (hd : d.b.drop d.idx = 92 :: Z) :
    scanLoopF (fuel + 1) d buf false =
      scanLoopF fuel ⟨d.b, d.idx + 1, d.row, d.col + 1⟩ (buf ++ [92]) true := by
  show (if (read d).2.2.OK then
          (if false then scanLoopF fuel (read d).1 (buf ++ [(read d).2.1]) false
           else if (read d).2.1 = 92 then
             scanLoopF fuel (read d).1 (buf ++ [(read d).2.1]) true
           else if (read d).2.1 = 34 then
             ((read d).1, buf ++ [(read d).2.1], COK true)
           else scanLoopF fuel (read d).1 (buf ++ [(read d).2.1]) false)
        else ((read d).1, [], CErr (some .unmatchedQuote))) = _
  rw [read_drop_cons hd]
  simp [OK]

theorem scanLoopF_esc_step2 {d : deserializer} {x : Nat} {Z buf : List Nat}
    {fuel : Nat} (hd : d.b.drop d.idx = x :: Z) :
    scanLoopF (fuel + 1) d buf true =
      scanLoopF fuel
        ⟨d.b, d.idx + 1, if x = 10 then d.row + 1 else d.row,
          if x = 10 then 1 else d.col + 1⟩ (buf ++ [x]) false := by
  show (if (read d).2.2.OK then
          (if true then scanLoopF fuel (read d).1 (buf ++ [(read d).2.1]) false
           else if (read d).2.1 = 92 then
             scanLoopF fuel (read d).1 (buf ++ [(read d).2.1]) true
           else if (read d).2.1 = 34 then
             ((read d).1, buf ++ [(read d).2.1], COK true)
           else scanLoopF fuel (read d).1 (buf ++ [(read d).2.1]) false)
        else ((read d).1, [], CErr (some .unmatchedQuote))) = _
  rw [read_drop_cons hd]
  simp [OK]

/-- The scanning loop of `rawStringParser` on a scan-transparent interior:
it collects exactly the interior plus the closing quote and stops there. -/
theorem scanLoopF_safe :
    ∀ (n : Nat) (s : List Nat), s.length ≤ n →
    ∀ (d : deserializer) (buf rest : List Nat) (fuel : Nat),
    d.b.drop d.idx = s ++ 34 :: rest →
    scanSafe s = true → s.length < fuel →
    ∃ row col, scanLoopF fuel d buf false =
      (⟨d.b, d.idx + s.length + 1, row, col⟩, buf ++ s ++ [34], COK true) := by
  intro n
  induction n with
  | zero =>
    intro s hsn d buf rest fuel hd _ hf
    have hs0 : s = [] := List.length_eq_zero.mp (by omega)
    subst hs0
    match fuel with
    | fuel + 1 =>
      have hd' : d.b.drop d.idx = 34 :: rest := by simpa using hd
      exact ⟨d.row, d.col + 1, by rw [scanLoopF_close hd']; simp⟩
  | succ N ih =>
    intro s hsn d buf rest fuel hd hsafe hf
    match s with
    | [] =>
      match fuel with
      | fuel + 1 =>
        have hd' : d.b.drop d.idx = 34 :: rest := by simpa using hd
        exact ⟨d.row, d.col + 1, by rw [scanLoopF_close hd']; simp⟩
    | c :: t =>
      match fuel with
      | fuel + 1 =>
        by_cases hc92 : c = 92
        · subst hc92
          cases t with
          | nil => exact absurd hsafe (by decide)
          | cons x t2 =>
            have hsafe2 : scanSafe t2 = true := by
              rwa [scanSafe_esc] at hsafe
            have hd' : d.b.drop d.idx = 92 :: (x :: (t2 ++ 34 :: rest)) := by
              simpa using hd
            obtain ⟨fuel2, rfl⟩ : ∃ f2, fuel = f2 + 1 :=
              ⟨fuel - 1, by simp only [List.length_cons] at hf; omega⟩
            rw [scanLoopF_esc_step1 hd']
            have hd2 : (⟨d.b, d.idx + 1, d.row, d.col + 1⟩ :
                deserializer).b.drop (d.idx + 1) = x :: (t2 ++ 34 :: rest) :=
              drop_cons_succ hd'
            rw [scanLoopF_esc_step2 hd2]
            obtain ⟨row, col, hrec⟩ := ih t2
              (by simp only [List.length_cons] at hsn; omega)
              ⟨d.b, d.idx + 1 + 1, if x = 10 then d.row + 1 else d.row,
                if x = 10 then 1 else d.col + 1 + 1⟩
              ((buf ++ [92]) ++ [x]) rest fuel2
              (drop_cons_succ hd2) hsafe2
              (by simp only [List.length_cons] at hf; omega)
            refine ⟨row, col, ?_⟩
            rw [hrec,
              show d.idx + 1 + 1 + t2.length + 1 =
                d.idx + (92 :: (x :: t2)).length + 1 by
                simp only [List.length_cons]; omega,
              show buf ++ [92] ++ [x] ++ t2 ++ [34] =
                buf ++ (92 :: (x :: t2)) ++ [34] by simp]
        · have hsafe' : c ≠ 34 ∧ scanSafe t = true :=
            scanSafe_cons_elim hc92 hsafe
          have hd' : d.b.drop d.idx = c :: (t ++ 34 :: rest) := by
            simpa using hd
          rw [scanLoopF_plain_step hd' hsafe'.1 hc92]
          obtain ⟨row, col, hrec⟩ := ih t
            (by simp only [List.length_cons] at hsn; omega)
            ⟨d.b, d.idx + 1, if c = 10 then d.row + 1 else d.row,
              if c = 10 then 1 else d.col + 1⟩ (buf ++ [c]) rest fuel
            (drop_cons_succ hd') hsafe'.2
            (by simp only [List.length_cons] at hf; omega)
          refine ⟨row, col, ?_⟩
          rw [hrec,
            show d.idx + 1 + t.length + 1 = d.idx + (c :: t).length + 1 by
              simp only [List.length_cons]; omega,
            show buf ++ [c] ++ t ++ [34] = buf ++ (c :: t) ++ [34] by simp]

/-- The body `Quote` emits is scan-transparent. -/
theorem scanSafe_quoteLoopF (iP : Nat → Bool) :
    ∀ (N : Nat) (s : List Nat), s.length ≤ N → ∀ (fuel : Nat) (b : List Nat),
    scanSafe (quoteLoopF iP fuel s ++ b) = scanSafe b := by
  intro N
  induction N with
  | zero =>
    intro s hsn fuel b
    have hs0 : s = [] := List.length_eq_zero.mp (by omega)
    subst hs0
    match fuel with
    | 0 => rfl
    | fuel + 1 => rfl
  | succ N ih =>
    intro s hsn fuel b
    match s with
    | [] =>
      match fuel with
      | 0 => rfl
      | fuel + 1 => rfl
    | b0 :: rest =>
      match fuel with
      | 0 => rfl
      | fuel + 1 =>
        by_cases hb0 : b0 < 0x80
        · have hq : quoteLoopF iP (fuel + 1) (b0 :: rest) =
              escapedRune iP b0 ++ quoteLoopF iP fuel rest := by
            show (if b0 < 0x80 then
                    escapedRune iP b0 ++ quoteLoopF iP fuel rest
                  else
                    if (utf8Decode (b0 :: rest)).2 = 1 then
                      [92, 120] ++ hexDigits 2 b0 ++ quoteLoopF iP fuel rest
                    else
                      escapedRune iP (utf8Decode (b0 :: rest)).1 ++
                        quoteLoopF iP fuel
                          ((b0 :: rest).drop (utf8Decode (b0 :: rest)).2)) = _
            rw [if_pos hb0]
          rw [hq, List.append_assoc, escapedRune_scanSafe iP b0 (Or.inl hb0),
            ih rest (by simp only [List.length_cons] at hsn; omega) fuel b]
        · by_cases hw1 : (utf8Decode (b0 :: rest)).2 = 1
          · have hq : quoteLoopF iP (fuel + 1) (b0 :: rest) =
                [92, 120] ++ hexDigits 2 b0 ++ quoteLoopF iP fuel rest := by
              show (if b0 < 0x80 then
                      escapedRune iP b0 ++ quoteLoopF iP fuel rest
                    else
                      if (utf8Decode (b0 :: rest)).2 = 1 then
                        [92, 120] ++ hexDigits 2 b0 ++ quoteLoopF iP fuel rest
                      else
                        escapedRune iP (utf8Decode (b0 :: rest)).1 ++
                          quoteLoopF iP fuel
                            ((b0 :: rest).drop (utf8Decode (b0 :: rest)).2)) =
                _
              rw [if_neg hb0, if_pos hw1]
            rw [hq,
              show ([92, 120] ++ hexDigits 2 b0 ++ quoteLoopF iP fuel rest) ++
                  b =
                92 :: (120 :: (hexDigits 2 b0 ++
                  (quoteLoopF iP fuel rest ++ b))) by simp,
              scanSafe_esc, hexDigits_scanSafe,
              ih rest (by simp only [List.length_cons] at hsn; omega) fuel b]
          · obtain ⟨r, w, hrw⟩ : ∃ r w, utf8Decode (b0 :: rest) = (r, w) :=
              ⟨_, _, rfl⟩
            obtain ⟨hw2, hr80, hrval, henc⟩ := utf8Decode_take hrw
              (by omega) (by rw [hrw] at hw1; simpa using hw1)
            have hq : quoteLoopF iP (fuel + 1) (b0 :: rest) =
                escapedRune iP r ++
                  quoteLoopF iP fuel ((b0 :: rest).drop w) := by
              show (if b0 < 0x80 then
                      escapedRune iP b0 ++ quoteLoopF iP fuel rest
                    else
                      if (utf8Decode (b0 :: rest)).2 = 1 then
                        [92, 120] ++ hexDigits 2 b0 ++ quoteLoopF iP fuel rest
                      else
                        escapedRune iP (utf8Decode (b0 :: rest)).1 ++
                          quoteLoopF iP fuel
                            ((b0 :: rest).drop (utf8Decode (b0 :: rest)).2)) =
                _
              rw [if_neg hb0, if_neg hw1, hrw]
            rw [hq, List.append_assoc, escapedRune_scanSafe iP r (Or.inr hrval),
              ih ((b0 :: rest).drop w)
                (by simp only [List.length_drop, List.length_cons] at *; omega)
                fuel b]

/-- `strconv.Unquote` inverts `strconv.Quote` on any byte string, given only
that `IsPrint` rejects the newline (true of Go `unicode.IsPrint`). -/
theorem unquote_quote (iP : Nat → Bool) (hiP : iP 10 = false)
    (s : List Nat) (hbytes : ∀ b ∈ s, b < 256) :
    unquote (quote iP s) = .ok s := by
  have h := unquote_quoteLoopF iP hiP s.length s le_rfl hbytes
    (s.length + 1) (by omega) [] []
    ((quoteLoopF iP (s.length + 1) s ++ [34]).length + 1)
    (by simp only [List.length_append, List.length_cons, List.length_nil]
        omega)
  have hloop : unquoteLoop (quoteLoopF iP (s.length + 1) s ++ [34]) [] =
      Except.ok (s, ([] : List Nat)) := by
    unfold unquoteLoop
    rw [h]
    simp
  rw [show quote iP s =
    34 :: (quoteLoopF iP (s.length + 1) s ++ [34]) from rfl]
  show (match unquoteLoop (quoteLoopF iP (s.length + 1) s ++ [34]) [] with
        | .error e => .error e
        | .ok (buf, rem) =>
          if rem.isEmpty then Except.ok buf
          else Except.error GoErr.quoteSyntax) = Except.ok s
  rw [hloop]
  rfl

theorem plainChar_props {iP : Nat → Bool} {b : Nat}
    (h : plainChar iP b = true) :
    32 ≤ b ∧ b ≤ 126 ∧ b ≠ 34 ∧ b ≠ 92 ∧ iP b = true := by
  simp only [plainChar, Bool.and_eq_true, decide_eq_true_eq, bne_iff_ne,
    ne_eq] at h
  exact ⟨h.1.1.1.1, h.1.1.1.2, h.1.1.2, h.1.2, h.2⟩

theorem escapedRune_plain {iP : Nat → Bool} {b : Nat}
    (h : plainChar iP b = true) : escapedRune iP b = [b] := by
  obtain ⟨h1, h2, h3, h4, h5⟩ := plainChar_props h
  unfold escapedRune
  rw [if_neg (by simp [h3, h4]), if_pos h5]
  unfold utf8Encode
  rw [if_pos (by omega)]

theorem quoteLoopF_plain {iP : Nat → Bool} :
    ∀ (s : List Nat) (fuel : Nat),
    (∀ b ∈ s, plainChar iP b = true) → s.length ≤ fuel →
    quoteLoopF iP fuel s = s := by
  intro s
  induction s with
  | nil => intro fuel _ _; cases fuel <;> rfl
  | cons c rest ih =>
    intro fuel hp hf
    match fuel with
    | fuel + 1 =>
      have hc := hp c (List.mem_cons_self _ _)
      obtain ⟨h1, h2, -, -, -⟩ := plainChar_props hc
      show (if c < 0x80 then escapedRune iP c ++ quoteLoopF iP fuel rest
            else _) = c :: rest
      rw [if_pos (by omega), escapedRune_plain hc,
        ih fuel (fun b hb => hp b (List.mem_cons_of_mem _ hb))
          (by simp at hf; omega)]
      rfl

theorem quote_plain {iP : Nat → Bool} {s : List Nat}
    (hp : ∀ b ∈ s, plainChar iP b = true) :
    quote iP s = 34 :: s ++ [34] := by
  unfold quote
  rw [quoteLoopF_plain s (s.length + 1) hp (by omega)]

theorem unquoteLoopF_plain :
    ∀ (s : List Nat) (buf rest : List Nat) (fuel : Nat),
    (∀ b ∈ s, 32 ≤ b ∧ b ≤ 126 ∧ b ≠ 34 ∧ b ≠ 92) → s.length < fuel →
    unquoteLoopF fuel (s ++ 34 :: rest) buf = .ok (buf ++ s, rest) := by
  intro s
  induction s with
  | nil =>
    intro buf rest fuel _ hf
    match fuel with
    | fuel + 1 =>
      show unquoteLoopF (fuel + 1) (34 :: rest) buf = _
      rw [show unquoteLoopF (fuel + 1) (34 :: rest) buf =
            (if (34 : Nat) = 34 then Except.ok (buf, rest)
             else if (34 : Nat) = 10 then Except.error GoErr.quoteSyntax
             else match unquoteChar (34 :: rest) with
               | none => Except.error GoErr.quoteSyntax
               | some (r, mb, rem) =>
                 unquoteLoopF fuel rem
                   (if r < 0x80 || !mb then buf ++ [r]
                    else buf ++ utf8Encode r)) from rfl]
      simp
  | cons c s ih =>
    intro buf rest fuel hp hf
    match fuel with
    | fuel + 1 =>
      obtain ⟨h1, h2, h3, h4⟩ := hp c (List.mem_cons_self _ _)
      show unquoteLoopF (fuel + 1) (c :: (s ++ 34 :: rest)) buf = _
      rw [show unquoteLoopF (fuel + 1) (c :: (s ++ 34 :: rest)) buf =
            (if c = 34 then Except.ok (buf, s ++ 34 :: rest)
             else if c = 10 then Except.error GoErr.quoteSyntax
             else match unquoteChar (c :: (s ++ 34 :: rest)) with
               | none => Except.error GoErr.quoteSyntax
               | some (r, mb, rem) =>
                 unquoteLoopF fuel rem
                   (if r < 0x80 || !mb then buf ++ [r]
                    else buf ++ utf8Encode r)) from rfl]
      have huc : unquoteChar (c :: (s ++ 34 :: rest)) =
          some (c, false, s ++ 34 :: rest) := by
        show (if c = 34 then none
              else if 0x80 ≤ c then
                some ((utf8Decode (c :: (s ++ 34 :: rest))).1, true,
                  (c :: (s ++ 34 :: rest)).drop
                    (utf8Decode (c :: (s ++ 34 :: rest))).2)
              else if c ≠ 92 then some (c, false, s ++ 34 :: rest)
              else match s ++ 34 :: rest with
                | [] => none
                | e :: rest2 => unquoteEsc e rest2) = _
        rw [if_neg h3, if_neg (by omega : ¬(0x80 ≤ c)), if_pos h4]
      rw [if_neg h3, if_neg (by omega : ¬c = 10), huc]
      show unquoteLoopF fuel (s ++ 34 :: rest)
          (if c < 0x80 || !false then buf ++ [c] else buf ++ utf8Encode c) = _
      rw [if_pos (by simp),
        ih (buf ++ [c]) rest fuel
          (fun b hb => hp b (List.mem_cons_of_mem _ hb))
          (by simp only [List.length_cons] at hf; omega)]
      simp

theorem unquote_plain {s : List Nat}
    (hp : ∀ b ∈ s, 32 ≤ b ∧ b ≤ 126 ∧ b ≠ 34 ∧ b ≠ 92) :
    unquote (34 :: s ++ [34]) = .ok s := by
  show unquote (34 :: (s ++ [34])) = _
  have hu : unquote (34 :: (s ++ [34])) =
      match unquoteLoop (s ++ [34]) [] with
      | .error e => .error e
      | .ok (buf, rem) =>
        if rem.isEmpty then .ok buf else .error .quoteSyntax := rfl
  rw [hu]
  unfold unquoteLoop
  have hh := unquoteLoopF_plain s [] [] ((s ++ [34]).length + 1) hp
    (by simp only [List.length_append, List.length_cons, List.length_nil]; omega)
  rw [hh]
  simp

theorem scanLoopF_plain :
    ∀ (s : List Nat) (d : deserializer) (buf rest : List Nat) (fuel : Nat),
    d.b.drop d.idx = s ++ 34 :: rest →
    (∀ b ∈ s, b ≠ 34 ∧ b ≠ 92) → s.length < fuel →
    ∃ row col, scanLoopF fuel d buf false =
      (⟨d.b, d.idx + s.length + 1, row, col⟩, buf ++ s ++ [34], COK true) := by
  intro s
  induction s with
  | nil =>
    intro d buf rest fuel hd _ hf
    match fuel with
    | fuel + 1 =>
      have hd' : d.b.drop d.idx = 34 :: rest := by simpa using hd
      have hstep : scanLoopF (fuel + 1) d buf false =
          (⟨d.b, d.idx + 1, d.row, d.col + 1⟩, buf ++ [34], COK true) := by
        show (if (read d).2.2.OK then
                (if false then scanLoopF fuel (read d).1 (buf ++ [(read d).2.1]) false
                 else if (read d).2.1 = 92 then
                   scanLoopF fuel (read d).1 (buf ++ [(read d).2.1]) true
                 else if (read d).2.1 = 34 then
                   ((read d).1, buf ++ [(read d).2.1], COK true)
                 else scanLoopF fuel (read d).1 (buf ++ [(read d).2.1]) false)
              else ((read d).1, [], CErr (some .unmatchedQuote))) = _
        rw [read_drop_cons hd']
        simp [OK]
      exact ⟨d.row, d.col + 1, by rw [hstep]; simp⟩
  | cons c s ih =>
    intro d buf rest fuel hd hp hf
    match fuel with
    | fuel + 1 =>
      obtain ⟨h3, h4⟩ := hp c (List.mem_cons_self _ _)
      have hd' : d.b.drop d.idx = c :: (s ++ 34 :: rest) := by simpa using hd
      have hstep : scanLoopF (fuel + 1) d buf false =
          scanLoopF fuel
            ⟨d.b, d.idx + 1, if c = 10 then d.row + 1 else d.row,
              if c = 10 then 1 else d.col + 1⟩ (buf ++ [c]) false := by
        show (if (read d).2.2.OK then
                (if false then scanLoopF fuel (read d).1 (buf ++ [(read d).2.1]) false
                 else if (read d).2.1 = 92 then
                   scanLoopF fuel (read d).1 (buf ++ [(read d).2.1]) true
                 else if (read d).2.1 = 34 then
                   ((read d).1, buf ++ [(read d).2.1], COK true)
                 else scanLoopF fuel (read d).1 (buf ++ [(read d).2.1]) false)
              else ((read d).1, [], CErr (some .unmatchedQuote))) = _
        rw [read_drop_cons hd']
        simp [OK, h3, h4]
      rw [hstep]
      obtain ⟨row, col, hrec⟩ := ih
        ⟨d.b, d.idx + 1, if c = 10 then d.row + 1 else d.row,
          if c = 10 then 1 else d.col + 1⟩ (buf ++ [c]) rest fuel
        (drop_cons_succ hd')
        (fun b hb => hp b (List.mem_cons_of_mem _ hb))
        (by simp only [List.length_cons] at hf; omega)
      refine ⟨row, col, ?_⟩
      rw [hrec, show d.idx + 1 + s.length + 1 = d.idx + (c :: s).length + 1 by
          simp only [List.length_cons]; omega,
        show buf ++ [c] ++ s ++ [34] = buf ++ c :: s ++ [34] by simp]

/-! Combinator-level stepping lemmas for the parse proof. -/

theorem MapO_result {O1 O2 : Type} [Inhabited O2]
    (p : Parser deserializer O1 CombineResult) (f : O1 → O2)
    (ii : deserializer) : ((MapO p f) ii).2.2 = (p ii).2.2 := by
  show (if ResultC.Valid (p ii).2.2 then ((p ii).1, f (p ii).2.1, (p ii).2.2)
        else ((p ii).1, default, (p ii).2.2)).2.2 = _
  split <;> rfl

theorem MapOB_result {O1 O2 : Type} [Inhabited O2]
    (p : Parser deserializer O1 BoolResult) (f : O1 → O2)
    (ii : deserializer) : ((MapO p f) ii).2.2 = (p ii).2.2 := by
  show (if ResultC.Valid (p ii).2.2 then ((p ii).1, f (p ii).2.1, (p ii).2.2)
        else ((p ii).1, default, (p ii).2.2)).2.2 = _
  split <;> rfl

theorem outputParser_result (p : Parser deserializer Value CombineResult)
    (ii : deserializer) : ((outputParser p) ii).2.2 = (p ii).2.2 := by
  unfold outputParser
  rw [MapO_result]
  rfl

theorem MapO_run {O1 O2 : Type} [Inhabited O2]
    {p : Parser deserializer O1 CombineResult} (f : O1 → O2)
    {ii d' : deserializer} {o : O1}
    (h : p ii = (d', o, COK true)) :
    (MapO p f) ii = (d', f o, COK true) := by
  show (if ResultC.Valid (p ii).2.2 then ((p ii).1, f (p ii).2.1, (p ii).2.2)
        else ((p ii).1, default, (p ii).2.2)) = _
  rw [h]
  rfl

theorem MapOB_run {O1 O2 : Type} [Inhabited O2]
    {p : Parser deserializer O1 BoolResult} (f : O1 → O2)
    {ii d' : deserializer} {o : O1}
    (h : p ii = (d', o, OK true)) :
    (MapO p f) ii = (d', f o, OK true) := by
  show (if ResultC.Valid (p ii).2.2 then ((p ii).1, f (p ii).2.1, (p ii).2.2)
        else ((p ii).1, default, (p ii).2.2)) = _
  rw [h]
  rfl

theorem outputParser_run {p : Parser deserializer Value CombineResult}
    {ii d' : deserializer} {v : Value}
    (h : p ii = (d', v, COK true)) :
    outputParser p ii =
      (d', ⟨v, .mk [] [] ⟨ii.row, ii.col⟩ ⟨d'.row, d'.col⟩⟩, COK true) := by
  unfold outputParser
  have hloc : locParser p ii =
      (d', ⟨⟨ii.row, ii.col⟩, ⟨d'.row, d'.col⟩, v⟩, COK true) := by
    show ((p ii).1, (⟨⟨ii.row, ii.col⟩, ⟨(p ii).1.row, (p ii).1.col⟩,
        (p ii).2.1⟩ : locV Value), (p ii).2.2) = _
    rw [h]
  exact MapO_run _ hloc

theorem ToC_resultB (p : Parser deserializer V BoolResult)
    (ii : deserializer) :
    ((ToC p) ii).2.2 = COK ((p ii).2.2).OK := rfl

theorem ToC_runB {p : Parser deserializer V BoolResult}
    {ii d' : deserializer} {o : V} {r : BoolResult}
    (h : p ii = (d', o, r)) :
    (ToC p) ii = (d', o, COK r.OK) := by
  show ((p ii).1, (p ii).2.1, COK ((p ii).2.2).OK) = _
  rw [h]

theorem tryP_step_skip {O : Type} [Inhabited O]
    {p : Parser deserializer O CombineResult}
    {ps : List (Parser deserializer O CombineResult)} {ii : deserializer}
    (hf : ResultC.Fatal ((p ii).2.2) = false)
    (hv : ResultC.Valid ((p ii).2.2) = false) :
    TryP (p :: ps) ii = TryP ps ii := by
  simp [TryP, hf, hv]

theorem tryP_step_take {O : Type} [Inhabited O]
    {p : Parser deserializer O CombineResult}
    {ps : List (Parser deserializer O CombineResult)} {ii : deserializer}
    (hf : ResultC.Fatal ((p ii).2.2) = false)
    (hv : ResultC.Valid ((p ii).2.2) = true) :
    TryP (p :: ps) ii = p ii := by
  simp [TryP, hf, hv]

theorem tryP_step_skipB {O : Type} [Inhabited O]
    {p : Parser deserializer O BoolResult}
    {ps : List (Parser deserializer O BoolResult)} {ii : deserializer}
    (hv : ResultC.Valid ((p ii).2.2) = false) :
    TryP (p :: ps) ii = TryP ps ii := by
  have hf : ResultC.Fatal ((p ii).2.2) = false := rfl
  simp [TryP, hf, hv]

theorem tryP_step_takeB {O : Type} [Inhabited O]
    {p : Parser deserializer O BoolResult}
    {ps : List (Parser deserializer O BoolResult)} {ii : deserializer}
    (hv : ResultC.Valid ((p ii).2.2) = true) :
    TryP (p :: ps) ii = p ii := by
  have hf : ResultC.Fatal ((p ii).2.2) = false := rfl
  simp [TryP, hf, hv]

theorem chainP_head_fail {R : Type} [ResultC R] {O : Type}
    (p : Parser deserializer O R) (ps : List (Parser deserializer O R))
    (ii : deserializer) (h : ResultC.Valid ((p ii).2.2) = false) :
    ChainP (p :: ps) ii = (ii, [], (p ii).2.2) := by
  show chainAux ii (p :: ps) ii [] = _
  show (if ResultC.Valid ((p ii).2.2) then
          chainAux ii ps (p ii).1 ([] ++ [(p ii).2.1])
        else (ii, [], (p ii).2.2)) = _
  rw [h]
  simp

theorem chainLit_run : ∀ (w : List Nat) (d : deserializer)
    (rest acc : List Nat) (ii : deserializer),
    d.b.drop d.idx = w ++ rest →
    ∃ row col, chainAux ii (w.map byteParser) d acc =
      (⟨d.b, d.idx + w.length, row, col⟩, acc ++ w, OK true) := by
  intro w
  induction w with
  | nil =>
    intro d rest acc ii _
    refine ⟨d.row, d.col, ?_⟩
    show (d, acc, ResultC.validR) = _
    cases d
    simp [OK]
    rfl
  | cons c w ih =>
    intro d rest acc ii hd
    have hd' : d.b.drop d.idx = c :: (w ++ rest) := by simpa using hd
    have hb := byteParser_drop_cons hd'
    have hstep : chainAux ii ((c :: w).map byteParser) d acc =
        chainAux ii (w.map byteParser)
          ⟨d.b, d.idx + 1, if c = 10 then d.row + 1 else d.row,
            if c = 10 then 1 else d.col + 1⟩ (acc ++ [c]) := by
      show (if ResultC.Valid ((byteParser c d).2.2) then
              chainAux ii (w.map byteParser) (byteParser c d).1
                (acc ++ [(byteParser c d).2.1])
            else (ii, [], (byteParser c d).2.2)) = _
      rw [hb]
      rfl
    rw [hstep]
    obtain ⟨row, col, hrec⟩ := ih
      ⟨d.b, d.idx + 1, if c = 10 then d.row + 1 else d.row,
        if c = 10 then 1 else d.col + 1⟩ rest (acc ++ [c]) ii
      (drop_cons_succ hd')
    refine ⟨row, col, ?_⟩
    rw [hrec, show d.idx + 1 + w.length = d.idx + (c :: w).length by
        simp only [List.length_cons]; omega,
      show acc ++ [c] ++ w = acc ++ c :: w by simp]

theorem chainPLit_run {w : List Nat} {d : deserializer} {rest : List Nat}
    (hd : d.b.drop d.idx = w ++ rest) :
    ∃ row col, ChainP (w.map byteParser) d =
      (⟨d.b, d.idx + w.length, row, col⟩, w, OK true) := by
  obtain ⟨row, col, h⟩ := chainLit_run w d rest [] d hd
  exact ⟨row, col, by simpa [ChainP] using h⟩

theorem Validate_fail {O1 O2 : Type} [Inhabited O2]
    {p : Parser deserializer O1 CombineResult} {f : O1 → O2 × CombineResult}
    {ii : deserializer} (h : ResultC.Valid ((p ii).2.2) = false) :
    Validate p f ii = (ii, default, (p ii).2.2) := by
  show (if ResultC.Valid ((p ii).2.2) then _ else (ii, default, (p ii).2.2)) = _
  rw [h]
  simp

theorem Validate_run {O1 O2 : Type} [Inhabited O2]
    {p : Parser deserializer O1 CombineResult} {f : O1 → O2 × CombineResult}
    {ii d' : deserializer} {o : O1} {o2 : O2}
    (h : p ii = (d', o, COK true)) (hf : f o = (o2, COK true)) :
    Validate p f ii = (d', o2, COK true) := by
  show (if ResultC.Valid ((p ii).2.2) then
          (if ResultC.Valid ((f (p ii).2.1).2) then
            ((p ii).1, (f (p ii).2.1).1, (p ii).2.2)
          else (ii, default, (f (p ii).2.1).2))
        else (ii, default, (p ii).2.2)) = _
  rw [h]
  show (if ResultC.Valid (COK true) then
          (if ResultC.Valid ((f o).2) then (d', (f o).1, COK true)
           else (ii, default, (f o).2))
        else (ii, default, COK true)) = _
  rw [hf]
  rfl

theorem surround_before_fail {V : Type} [Inhabited V]
    {before : List (Parser deserializer Empty BoolResult)}
    {p : Parser deserializer V CombineResult}
    {after : List (Parser deserializer Empty CombineResult)}
    {ii : deserializer}
    (h : ((ChainP before ii).2.2).Valid = false) :
    surroundParser before p after ii =
      (ii, default, COK ((ChainP before ii).2.2).OK) := by
  show (if ((ChainP before ii).2.2).Valid then _
        else (ii, default, COK ((ChainP before ii).2.2).OK)) = _
  rw [h]
  simp

theorem predicateParser_miss {pred : Nat → Bool} {d : deserializer}
    (h : (d.b.drop d.idx).head?.all (fun c => !pred c)) :
    predicateParser pred d = (d, [], OK false) := by
  unfold predicateParser
  match hf : d.b.length + 1 - d.idx with
  | 0 => rfl
  | fuel + 1 =>
    show (if (read d).2.2.OK && pred (read d).2.1 then
            predLoopF pred fuel (read d).1 ([] ++ [(read d).2.1])
          else (d, [], OK (([] : List Nat).length > 0))) = _
    cases hd : d.b.drop d.idx with
    | nil => rw [read_drop_nil hd]; simp [OK]
    | cons c r =>
      rw [read_drop_cons hd]
      rw [hd] at h
      simp only [List.head?] at h
      have : pred c = false := by simpa using h
      rw [this]
      simp

/-! Leaf-parser non-match lemmas: on input whose first byte cannot start
the variant, each leaf parser returns the non-fatal non-match `COK false`
(so the alternation moves on to the next variant at the original input). -/

theorem discard_result {O R : Type} (p : Parser deserializer O R)
    (ii : deserializer) : ((Discard p) ii).2.2 = (p ii).2.2 := rfl

theorem nullParser_miss {d : deserializer}
    (h : (d.b.drop d.idx).head? ≠ some 110) :
    (nullParser d).2.2 = COK false := by
  unfold nullParser
  rw [outputParser_result, ToC_resultB, MapOB_result,
    chainP_head_fail _ _ _ (by rw [byteParser_miss h]; rfl),
    byteParser_miss h]
  rfl

theorem boolParser_miss {d : deserializer}
    (h116 : (d.b.drop d.idx).head? ≠ some 116)
    (h102 : (d.b.drop d.idx).head? ≠ some 102) :
    (boolParser d).2.2 = COK false := by
  unfold boolParser
  rw [outputParser_result, ToC_resultB, MapOB_result]
  have hv1 : ResultC.Valid
      ((ChainP [byteParser 116, byteParser 114, byteParser 117,
        byteParser 101] d).2.2) = false := by
    rw [chainP_head_fail _ _ _ (by rw [byteParser_miss h116]; rfl),
      byteParser_miss h116]
    rfl
  have hv2 : ResultC.Valid
      ((ChainP [byteParser 102, byteParser 97, byteParser 108,
        byteParser 115, byteParser 101] d).2.2) = false := by
    rw [chainP_head_fail _ _ _ (by rw [byteParser_miss h102]; rfl),
      byteParser_miss h102]
    rfl
  rw [tryP_step_skipB hv1, tryP_step_skipB hv2]
  rfl

theorem digitsParser_miss {d : deserializer}
    (h : (d.b.drop d.idx).head?.all (fun c => !(48 ≤ c && c ≤ 57))) :
    digitsParser d = (d, [], OK false) := by
  unfold digitsParser
  exact predicateParser_miss h

theorem positiveNumberParser_miss (parseF : List Nat → Option Nat)
    {d : deserializer}
    (hdig : (d.b.drop d.idx).head?.all (fun c => !(48 ≤ c && c ≤ 57))) :
    (positiveNumberParser parseF d).2.2 = COK false := by
  have hdigs : digitsParser d = (d, [], OK false) := digitsParser_miss hdig
  have hcf : ChainP [digitsParser, ChainP [byteParser 46], digitsParser] d =
      (d, [], OK false) := by
    rw [chainP_head_fail _ _ _ (by rw [hdigs]; rfl), hdigs]
  have hfl : ResultC.Valid
      ((ToC (FlattenP [digitsParser, ChainP [byteParser 46], digitsParser])
        d).2.2) = false := by
    rw [ToC_resultB]
    unfold FlattenP
    rw [MapOB_result, hcf]
    rfl
  have hfloat : (floatParser parseF d).2.2 = COK false := by
    unfold floatParser
    rw [Validate_fail hfl, ToC_resultB]
    unfold FlattenP
    rw [MapOB_result, hcf]
    rfl
  have hintv : ResultC.Valid ((ToC digitsParser d).2.2) = false := by
    rw [ToC_resultB, hdigs]
    rfl
  have hint : (intParser d).2.2 = COK false := by
    unfold intParser
    rw [Validate_fail hintv, ToC_resultB, hdigs]
    rfl
  unfold positiveNumberParser
  rw [tryP_step_skip (by rw [MapO_result, hfloat]; rfl)
      (by rw [MapO_result, hfloat]; rfl),
    tryP_step_skip (by rw [MapO_result, hint]; rfl)
      (by rw [MapO_result, hint]; rfl)]
  rfl

theorem numberParser_miss {parseF : List Nat → Option Nat} {d : deserializer}
    (h45 : (d.b.drop d.idx).head? ≠ some 45)
    (hdig : (d.b.drop d.idx).head?.all (fun c => !(48 ≤ c && c ≤ 57))) :
    (numberParser parseF d).2.2 = COK false := by
  unfold numberParser
  rw [outputParser_result, MapO_result]
  have hchain : ChainP [Discard (byteParser 45)] d = (d, [], OK false) := by
    rw [chainP_head_fail _ _ _
        (by show ResultC.Valid ((byteParser 45 d).2.2) = false
            rw [byteParser_miss h45]; rfl),
      show (Discard (byteParser 45) d).2.2 = OK false by
        show (byteParser 45 d).2.2 = OK false
        rw [byteParser_miss h45]]
  have hsur : surroundParser [Discard (byteParser 45)]
      (positiveNumberParser parseF) [] d = (d, default, COK false) := by
    rw [surround_before_fail (by rw [hchain]; rfl), hchain]
    rfl
  have hpos := positiveNumberParser_miss parseF (d := d) hdig
  rw [tryP_step_skip (by rw [MapO_result, hsur]; rfl)
      (by rw [MapO_result, hsur]; rfl),
    tryP_step_skip (by rw [hpos]; rfl) (by rw [hpos]; rfl)]
  rfl

theorem rawStringParser_miss {d : deserializer}
    (h34 : (d.b.drop d.idx).head? ≠ some 34) :
    (rawStringParser d).2.2 = COK false := by
  have hc1 : ChainP [byteParser 34] d = (d, [], OK false) := by
    rw [chainP_head_fail _ _ _ (by rw [byteParser_miss h34]; rfl),
      byteParser_miss h34]
  have hp1 : (ToC (ChainP [byteParser 34])) d = (d, [], COK false) := by
    rw [ToC_runB hc1]
    rfl
  have houter : ChainP [ToC (ChainP [byteParser 34]),
      fun d2 => scanLoopF (d2.b.length + 1 - d2.idx) d2 [] false] d =
      (d, [], COK false) := by
    rw [chainP_head_fail _ _ _ (by rw [hp1]; rfl), hp1]
  have hfl : ResultC.Valid ((FlattenP [ToC (ChainP [byteParser 34]),
      fun d2 => scanLoopF (d2.b.length + 1 - d2.idx) d2 [] false] d).2.2)
      = false := by
    unfold FlattenP
    rw [MapO_result, houter]
    rfl
  unfold rawStringParser
  rw [Validate_fail hfl]
  unfold FlattenP
  rw [MapO_result, houter]

theorem stringParser_miss {d : deserializer}
    (h34 : (d.b.drop d.idx).head? ≠ some 34) :
    (stringParser d).2.2 = COK false := by
  unfold stringParser
  rw [outputParser_result, MapO_result]
  exact rawStringParser_miss h34

theorem arrayParserWith_miss {d : deserializer}
    (pv : Parser deserializer output CombineResult)
    (h91 : (d.b.drop d.idx).head? ≠ some 91) :
    (arrayParserWith pv d).2.2 = COK false := by
  unfold arrayParserWith
  rw [MapO_result]
  show ((compositeParser (Discard (byteParser 91))
      (Discard (trimSpaceParser (byteParser 93)))
      (Discard (trimSpaceParser (byteParser 44)))
      (LazyP (fun _ => pv)) d)).2.2 = COK false
  unfold compositeParser
  have hchain : ChainP [Discard (byteParser 91)] d = (d, [], OK false) := by
    rw [chainP_head_fail _ _ _
        (by show ResultC.Valid ((byteParser 91 d).2.2) = false
            rw [byteParser_miss h91]; rfl),
      show (Discard (byteParser 91) d).2.2 = OK false by
        show (byteParser 91 d).2.2 = OK false
        rw [byteParser_miss h91]]
  rw [surround_before_fail (by rw [hchain]; rfl), hchain]
  rfl

theorem drop_append_of_drop {l : List Nat} {i : Nat} {xs rest : List Nat}
    (h : l.drop i = xs ++ rest) : l.drop (i + xs.length) = rest := by
  induction xs generalizing i with
  | nil => simpa using h
  | cons x xs ih =>
    have h' : l.drop i = x :: (xs ++ rest) := by simpa using h
    have h2 := ih (i := i + 1) (drop_cons_succ h')
    rw [show i + (x :: xs).length = (i + 1) + xs.length by
      simp only [List.length_cons]; omega]
    exact h2

/-! Leaf-parser success lemmas: on the serialized text of the matching
variant, each leaf parser consumes exactly that text and returns the
variant's value. -/

theorem nullParser_run {d : deserializer} {rest : List Nat}
    (hd : d.b.drop d.idx = [110, 117, 108, 108] ++ rest) :
    ∃ d' nd, nullParser d = (d', ⟨Value.null, nd⟩, COK true) ∧
      d'.b = d.b ∧ d'.idx = d.idx + 4 := by
  obtain ⟨row, col, hch⟩ := chainPLit_run (w := [110, 117, 108, 108]) hd
  have hch' : ChainP [byteParser 110, byteParser 117, byteParser 108,
      byteParser 108] d =
      (⟨d.b, d.idx + 4, row, col⟩, [110, 117, 108, 108], OK true) := by
    simpa using hch
  have h1 : MapO (ChainP [byteParser 110, byteParser 117, byteParser 108,
      byteParser 108]) (fun _ => Value.null) d =
      (⟨d.b, d.idx + 4, row, col⟩, Value.null, OK true) := MapOB_run _ hch'
  have h2 : ToC (MapO (ChainP [byteParser 110, byteParser 117, byteParser 108,
      byteParser 108]) (fun _ => Value.null)) d =
      (⟨d.b, d.idx + 4, row, col⟩, Value.null, COK true) := ToC_runB h1
  exact ⟨⟨d.b, d.idx + 4, row, col⟩, _, outputParser_run h2, rfl, rfl⟩

theorem boolParser_run {d : deserializer} {b : Bool} {rest : List Nat}
    (hd : d.b.drop d.idx =
      (if b then [116, 114, 117, 101] else [102, 97, 108, 115, 101]) ++ rest) :
    ∃ d' nd, boolParser d = (d', ⟨Value.bool b, nd⟩, COK true) ∧
      d'.b = d.b ∧ d'.idx = d.idx + (if b then 4 else 5) := by
  cases b with
  | true =>
    obtain ⟨row, col, hch⟩ := chainPLit_run (w := [116, 114, 117, 101])
      (by simpa using hd)
    have hch' : ChainP [byteParser 116, byteParser 114, byteParser 117,
        byteParser 101] d =
        (⟨d.b, d.idx + 4, row, col⟩, [116, 114, 117, 101], OK true) := by
      simpa using hch
    have htry : TryP
        [ChainP [byteParser 116, byteParser 114, byteParser 117, byteParser 101],
         ChainP [byteParser 102, byteParser 97, byteParser 108, byteParser 115,
           byteParser 101]] d =
        (⟨d.b, d.idx + 4, row, col⟩, [116, 114, 117, 101], OK true) := by
      rw [tryP_step_takeB (by rw [hch']; rfl)]
      exact hch'
    have h1 : MapO (TryP
        [ChainP [byteParser 116, byteParser 114, byteParser 117, byteParser 101],
         ChainP [byteParser 102, byteParser 97, byteParser 108, byteParser 115,
           byteParser 101]])
        (fun v => Value.bool (v = [116, 114, 117, 101])) d =
        (⟨d.b, d.idx + 4, row, col⟩, Value.bool true, OK true) :=
      MapOB_run _ htry
    have h2 := ToC_runB h1
    exact ⟨⟨d.b, d.idx + 4, row, col⟩, _, outputParser_run h2, rfl, rfl⟩
  | false =>
    have hd' : d.b.drop d.idx = [102, 97, 108, 115, 101] ++ rest := by
      simpa using hd
    have hmiss : (d.b.drop d.idx).head? ≠ some 116 := by
      rw [hd']; simp
    have hv1 : ResultC.Valid ((ChainP [byteParser 116, byteParser 114,
        byteParser 117, byteParser 101] d).2.2) = false := by
      rw [chainP_head_fail _ _ _ (by rw [byteParser_miss hmiss]; rfl),
        byteParser_miss hmiss]
      rfl
    obtain ⟨row, col, hch⟩ := chainPLit_run (w := [102, 97, 108, 115, 101]) hd'
    have hch' : ChainP [byteParser 102, byteParser 97, byteParser 108,
        byteParser 115, byteParser 101] d =
        (⟨d.b, d.idx + 5, row, col⟩, [102, 97, 108, 115, 101], OK true) := by
      simpa using hch
    have htry : TryP
        [ChainP [byteParser 116, byteParser 114, byteParser 117, byteParser 101],
         ChainP [byteParser 102, byteParser 97, byteParser 108, byteParser 115,
           byteParser 101]] d =
        (⟨d.b, d.idx + 5, row, col⟩, [102, 97, 108, 115, 101], OK true) := by
      rw [tryP_step_skipB hv1, tryP_step_takeB (by rw [hch']; rfl)]
      exact hch'
    have h1 : MapO (TryP
        [ChainP [byteParser 116, byteParser 114, byteParser 117, byteParser 101],
         ChainP [byteParser 102, byteParser 97, byteParser 108, byteParser 115,
           byteParser 101]])
        (fun v => Value.bool (v = [116, 114, 117, 101])) d =
        (⟨d.b, d.idx + 5, row, col⟩, Value.bool false, OK true) :=
      MapOB_run _ htry
    have h2 := ToC_runB h1
    exact ⟨⟨d.b, d.idx + 5, row, col⟩, _, outputParser_run h2, rfl, rfl⟩

theorem digitsParser_run {d : deserializer} {ds rest : List Nat}
    (hd : d.b.drop d.idx = ds ++ rest)
    (hds : ∀ b ∈ ds, 48 ≤ b ∧ b ≤ 57) (hne : ds ≠ [])
    (hrest : rest.head?.all (fun c => !(48 ≤ c && c ≤ 57))) :
    ∃ row col, digitsParser d =
      (⟨d.b, d.idx + ds.length, row, col⟩, ds, OK true) := by
  unfold digitsParser
  exact predicateParser_run hd
    (fun b hb => by
      have := hds b hb
      simp only [Bool.and_eq_true, decide_eq_true_eq]
      exact this)
    hrest hne

theorem intParser_run {d : deserializer} {m : Nat} {rest : List Nat}
    (hm : m < 2 ^ 64)
    (hd : d.b.drop d.idx = formatUint m ++ rest)
    (hrest : rest.head?.all (fun c => !(48 ≤ c && c ≤ 57))) :
    ∃ row col, intParser d =
      (⟨d.b, d.idx + (formatUint m).length, row, col⟩, m, COK true) := by
  obtain ⟨dd, l, he, hd1, hd2⟩ := formatUint_head m
  obtain ⟨row, col, hdig⟩ := digitsParser_run hd (formatUint_digits m)
    (by simp [he]) hrest
  refine ⟨row, col, ?_⟩
  unfold intParser
  have htoc := ToC_runB hdig
  exact Validate_run htoc (by rw [parseUint_formatUint m hm])

theorem floatParser_skip (parseF : List Nat → Option Nat) {d : deserializer}
    {ds rest : List Nat}
    (hd : d.b.drop d.idx = ds ++ rest)
    (hds : ∀ b ∈ ds, 48 ≤ b ∧ b ≤ 57) (hne : ds ≠ [])
    (hrest : rest.head?.all (fun c => !(48 ≤ c && c ≤ 57)))
    (h46 : rest.head? ≠ some 46) :
    (floatParser parseF d).2.2 = COK false := by
  obtain ⟨row, col, hdig⟩ := digitsParser_run hd hds hne hrest
  have hdrop1 : d.b.drop (d.idx + ds.length) = rest :=
    drop_append_of_drop hd
  have hm46 : ((⟨d.b, d.idx + ds.length, row, col⟩ :
      deserializer).b.drop (⟨d.b, d.idx + ds.length, row, col⟩ :
      deserializer).idx).head? ≠ some 46 := by
    show (d.b.drop (d.idx + ds.length)).head? ≠ some 46
    rw [hdrop1]
    exact h46
  have hmiss46 : ChainP [byteParser 46]
      (⟨d.b, d.idx + ds.length, row, col⟩ : deserializer) =
      (⟨d.b, d.idx + ds.length, row, col⟩, [], OK false) := by
    rw [chainP_head_fail _ _ _ (by rw [byteParser_miss hm46]; rfl),
      byteParser_miss hm46]
  have hchain : ChainP [digitsParser, ChainP [byteParser 46], digitsParser] d =
      (d, [], OK false) := by
    show (if ResultC.Valid ((digitsParser d).2.2) then
            chainAux d [ChainP [byteParser 46], digitsParser]
              (digitsParser d).1 ([] ++ [(digitsParser d).2.1])
          else (d, [], (digitsParser d).2.2)) = _
    rw [hdig]
    show (if ResultC.Valid ((ChainP [byteParser 46]
            (⟨d.b, d.idx + ds.length, row, col⟩ : deserializer)).2.2) then _
          else (d, [],
            (ChainP [byteParser 46]
              (⟨d.b, d.idx + ds.length, row, col⟩ : deserializer)).2.2)) = _
    rw [hmiss46]
    rfl
  unfold floatParser
  rw [Validate_fail (by
      rw [ToC_resultB]
      unfold FlattenP
      rw [MapOB_result, hchain]
      rfl),
    ToC_resultB]
  unfold FlattenP
  rw [MapOB_result, hchain]
  rfl

theorem positiveNumberParser_run (parseF : List Nat → Option Nat)
    {d : deserializer} {m : Nat} {rest : List Nat}
    (hm : m < 2 ^ 64)
    (hd : d.b.drop d.idx = formatUint m ++ rest)
    (hrest : rest.head?.all (fun c => !(48 ≤ c && c ≤ 57)))
    (h46 : rest.head? ≠ some 46) :
    ∃ row col, positiveNumberParser parseF d =
      (⟨d.b, d.idx + (formatUint m).length, row, col⟩,
        (⟨0, m, false, false⟩ : Number), COK true) := by
  obtain ⟨dd, l, he, hd1, hd2⟩ := formatUint_head m
  have hfl := floatParser_skip parseF hd (formatUint_digits m)
    (by simp [he]) hrest h46
  obtain ⟨row, col, hint⟩ := intParser_run hm hd hrest
  refine ⟨row, col, ?_⟩
  unfold positiveNumberParser
  rw [tryP_step_skip (by rw [MapO_result, hfl]; rfl)
      (by rw [MapO_result, hfl]; rfl),
    tryP_step_take
      (by rw [MapO_result, hint]; rfl) (by rw [MapO_result, hint]; rfl)]
  exact MapO_run _ hint

theorem surround_run {V : Type} [Inhabited V]
    {before : List (Parser deserializer Empty BoolResult)}
    {p : Parser deserializer V CombineResult} {ii d1 d2 : deserializer}
    {os : List Empty} {v : V}
    (hb : ChainP before ii = (d1, os, OK true))
    (hp : p d1 = (d2, v, COK true)) :
    surroundParser before p [] ii = (d2, v, COK true) := by
  show (if ((ChainP before ii).2.2).Valid then
          (if ((p (ChainP before ii).1).2.2).Valid then
            (if ((ChainP ([] : List (Parser deserializer Empty CombineResult))
                  (p (ChainP before ii).1).1).2.2).Valid then
              ((ChainP ([] : List (Parser deserializer Empty CombineResult))
                  (p (ChainP before ii).1).1).1,
                (p (ChainP before ii).1).2.1, COK true)
             else (ii, default,
               (ChainP ([] : List (Parser deserializer Empty CombineResult))
                 (p (ChainP before ii).1).1).2.2))
           else (ii, default, (p (ChainP before ii).1).2.2))
        else (ii, default, COK ((ChainP before ii).2.2).OK)) = _
  rw [hb]
  show (if (OK true).Valid then
          (if ((p d1).2.2).Valid then
            (if ((ChainP ([] : List (Parser deserializer Empty CombineResult))
                  (p d1).1).2.2).Valid then
              ((ChainP ([] : List (Parser deserializer Empty CombineResult))
                  (p d1).1).1, (p d1).2.1, COK true)
             else (ii, default,
               (ChainP ([] : List (Parser deserializer Empty CombineResult))
                 (p d1).1).2.2))
           else (ii, default, (p d1).2.2))
        else (ii, default, COK (OK true).OK)) = _
  rw [hp]
  rfl

theorem numberParser_run (parseF : List Nat → Option Nat) {d : deserializer}
    {m : Nat} {neg : Bool} {rest : List Nat}
    (hm : m < 2 ^ 64)
    (hd : d.b.drop d.idx =
      (if neg then [45] else []) ++ formatUint m ++ rest)
    (hrest : rest.head?.all (fun c => !(48 ≤ c && c ≤ 57)))
    (h46 : rest.head? ≠ some 46) :
    ∃ d' nd, numberParser parseF d =
      (d', ⟨Value.number ⟨0, m, false, neg⟩, nd⟩, COK true) ∧
      d'.b = d.b ∧
      d'.idx = d.idx + (if neg then 1 else 0) + (formatUint m).length := by
  obtain ⟨dd, l, he, hdd1, hdd2⟩ := formatUint_head m
  cases neg with
  | false =>
    have hd2 : d.b.drop d.idx = formatUint m ++ rest := by simpa using hd
    have h45 : (d.b.drop d.idx).head? ≠ some 45 := by
      rw [hd2, he]
      simp
      omega
    have hchain : ChainP [Discard (byteParser 45)] d = (d, [], OK false) := by
      rw [chainP_head_fail _ _ _
          (by show ResultC.Valid ((byteParser 45 d).2.2) = false
              rw [byteParser_miss h45]; rfl),
        show (Discard (byteParser 45) d).2.2 = OK false by
          show (byteParser 45 d).2.2 = OK false
          rw [byteParser_miss h45]]
    have hsur : surroundParser [Discard (byteParser 45)]
        (positiveNumberParser parseF) [] d = (d, default, COK false) := by
      rw [surround_before_fail (by rw [hchain]; rfl), hchain]
      rfl
    obtain ⟨row, col, hpos⟩ :=
      positiveNumberParser_run parseF hm hd2 hrest h46
    have htry : TryP
        [MapO (surroundParser [Discard (byteParser 45)]
          (positiveNumberParser parseF) [])
          (fun n => { n with IsNeg := true }),
         positiveNumberParser parseF] d =
        (⟨d.b, d.idx + (formatUint m).length, row, col⟩,
          (⟨0, m, false, false⟩ : Number), COK true) := by
      rw [tryP_step_skip (by rw [MapO_result, hsur]; rfl)
          (by rw [MapO_result, hsur]; rfl),
        tryP_step_take (by rw [hpos]; rfl) (by rw [hpos]; rfl)]
      exact hpos
    have h1 := MapO_run (fun n => Value.number n) htry
    have h2 := outputParser_run h1
    exact ⟨⟨d.b, d.idx + (formatUint m).length, row, col⟩, _, h2, rfl,
      by simp⟩
  | true =>
    have hd' : d.b.drop d.idx = 45 :: (formatUint m ++ rest) := by
      simpa using hd
    have hbp := byteParser_drop_cons hd'
    have hdisc : Discard (byteParser 45) d =
        (⟨d.b, d.idx + 1, d.row, d.col + 1⟩, ⟨⟩, OK true) := by
      show ((byteParser 45 d).1, (⟨⟩ : Empty), (byteParser 45 d).2.2) = _
      rw [hbp]
      rfl
    have hchain : ChainP [Discard (byteParser 45)] d =
        (⟨d.b, d.idx + 1, d.row, d.col + 1⟩, [⟨⟩], OK true) := by
      show (if ResultC.Valid ((Discard (byteParser 45) d).2.2) then
              chainAux d [] (Discard (byteParser 45) d).1
                ([] ++ [(Discard (byteParser 45) d).2.1])
            else (d, [], (Discard (byteParser 45) d).2.2)) = _
      rw [hdisc]
      rfl
    have hdrop1 : (⟨d.b, d.idx + 1, d.row, d.col + 1⟩ :
        deserializer).b.drop (d.idx + 1) = formatUint m ++ rest :=
      drop_cons_succ hd'
    obtain ⟨row, col, hpos⟩ := positiveNumberParser_run parseF
      (d := ⟨d.b, d.idx + 1, d.row, d.col + 1⟩) hm hdrop1 hrest h46
    have hsur : surroundParser [Discard (byteParser 45)]
        (positiveNumberParser parseF) [] d =
        (⟨d.b, d.idx + 1 + (formatUint m).length, row, col⟩,
          (⟨0, m, false, false⟩ : Number), COK true) :=
      surround_run hchain hpos
    have halt1 : MapO (surroundParser [Discard (byteParser 45)]
        (positiveNumberParser parseF) [])
        (fun n => { n with IsNeg := true }) d =
        (⟨d.b, d.idx + 1 + (formatUint m).length, row, col⟩,
          (⟨0, m, false, true⟩ : Number), COK true) := MapO_run _ hsur
    have htry : TryP
        [MapO (surroundParser [Discard (byteParser 45)]
          (positiveNumberParser parseF) [])
          (fun n => { n with IsNeg := true }),
         positiveNumberParser parseF] d =
        (⟨d.b, d.idx + 1 + (formatUint m).length, row, col⟩,
          (⟨0, m, false, true⟩ : Number), COK true) := by
      rw [tryP_step_take (by rw [halt1]; rfl) (by rw [halt1]; rfl)]
      exact halt1
    have h1 := MapO_run (fun n => Value.number n) htry
    have h2 := outputParser_run h1
    exact ⟨⟨d.b, d.idx + 1 + (formatUint m).length, row, col⟩, _, h2, rfl, rfl⟩


theorem numberAppend_float (fmtF : Nat → List Nat) (n : Number)
    (hf : n.IsFloat = true) (bb : List Nat) :
    numberAppend fmtF n bb =
      (if n.IsNeg then bb ++ [45] else bb) ++ dotForm (fmtF n.Float) := by
  show (if n.IsFloat then
          (if n.IsNeg then bb ++ [45] else bb) ++
            (if (fmtF n.Float).contains 46 then fmtF n.Float
             else fmtF n.Float ++ [46, 48])
        else (if n.IsNeg then bb ++ [45] else bb) ++
          formatUint n.Integer) = _
  rw [if_pos hf]
  rfl

theorem floatParser_run (parseF : List Nat → Option Nat) {d : deserializer}
    {d1 d2 rest : List Nat} {x : Nat}
    (hd : d.b.drop d.idx = d1 ++ 46 :: (d2 ++ rest))
    (hd1 : ∀ b ∈ d1, 48 ≤ b ∧ b ≤ 57) (hne1 : d1 ≠ [])
    (hd2 : ∀ b ∈ d2, 48 ≤ b ∧ b ≤ 57) (hne2 : d2 ≠ [])
    (hrest : rest.head?.all (fun c => !(48 ≤ c && c ≤ 57)))
    (hpf : parseF (d1 ++ 46 :: d2) = some x) :
    ∃ row col, floatParser parseF d =
      (⟨d.b, d.idx + d1.length + 1 + d2.length, row, col⟩, x, COK true) := by
  have hrest1 : ((46 :: (d2 ++ rest)).head?).all
      (fun c => !(48 ≤ c && c ≤ 57)) := by rfl
  obtain ⟨row1, col1, hdig1⟩ := digitsParser_run hd hd1 hne1 hrest1
  have hdropA : d.b.drop (d.idx + d1.length) = 46 :: (d2 ++ rest) :=
    drop_append_of_drop hd
  have hbp : byteParser 46
      (⟨d.b, d.idx + d1.length, row1, col1⟩ : deserializer) =
      (⟨d.b, d.idx + d1.length + 1, row1, col1 + 1⟩, 46, OK true) := by
    have h := byteParser_drop_cons
      (d := ⟨d.b, d.idx + d1.length, row1, col1⟩) hdropA
    simpa using h
  have hc46 : ChainP [byteParser 46]
      (⟨d.b, d.idx + d1.length, row1, col1⟩ : deserializer) =
      (⟨d.b, d.idx + d1.length + 1, row1, col1 + 1⟩, [46], OK true) := by
    show (if ResultC.Valid ((byteParser 46
            (⟨d.b, d.idx + d1.length, row1, col1⟩ : deserializer)).2.2) then
            chainAux (⟨d.b, d.idx + d1.length, row1, col1⟩ : deserializer) []
              (byteParser 46
                (⟨d.b, d.idx + d1.length, row1, col1⟩ : deserializer)).1
              ([] ++ [(byteParser 46
                (⟨d.b, d.idx + d1.length, row1, col1⟩ : deserializer)).2.1])
          else ((⟨d.b, d.idx + d1.length, row1, col1⟩ : deserializer), [],
            (byteParser 46
              (⟨d.b, d.idx + d1.length, row1, col1⟩ : deserializer)).2.2)) = _
    rw [hbp]
    rfl
  have hdropB : d.b.drop (d.idx + d1.length + 1) = d2 ++ rest :=
    drop_cons_succ hdropA
  obtain ⟨row2, col2, hdig2⟩ := digitsParser_run
    (d := ⟨d.b, d.idx + d1.length + 1, row1, col1 + 1⟩) hdropB hd2 hne2 hrest
  have hch : ChainP [digitsParser, ChainP [byteParser 46], digitsParser] d =
      (⟨d.b, d.idx + d1.length + 1 + d2.length, row2, col2⟩,
        [d1, [46], d2], OK true) := by
    show (if ResultC.Valid ((digitsParser d).2.2) then
            chainAux d [ChainP [byteParser 46], digitsParser]
              (digitsParser d).1 ([] ++ [(digitsParser d).2.1])
          else (d, [], (digitsParser d).2.2)) = _
    rw [hdig1]
    show (if ResultC.Valid ((ChainP [byteParser 46]
            (⟨d.b, d.idx + d1.length, row1, col1⟩ : deserializer)).2.2) then
            chainAux d [digitsParser]
              (ChainP [byteParser 46]
                (⟨d.b, d.idx + d1.length, row1, col1⟩ : deserializer)).1
              ([d1] ++ [(ChainP [byteParser 46]
                (⟨d.b, d.idx + d1.length, row1, col1⟩ :
                  deserializer)).2.1])
          else (d, [], (ChainP [byteParser 46]
            (⟨d.b, d.idx + d1.length, row1, col1⟩ : deserializer)).2.2)) = _
    rw [hc46]
    show (if ResultC.Valid ((digitsParser
            (⟨d.b, d.idx + d1.length + 1, row1, col1 + 1⟩ :
              deserializer)).2.2) then
            chainAux d []
              (digitsParser (⟨d.b, d.idx + d1.length + 1, row1, col1 + 1⟩ :
                deserializer)).1
              ([d1, [46]] ++ [(digitsParser
                (⟨d.b, d.idx + d1.length + 1, row1, col1 + 1⟩ :
                  deserializer)).2.1])
          else (d, [], (digitsParser
            (⟨d.b, d.idx + d1.length + 1, row1, col1 + 1⟩ :
              deserializer)).2.2)) = _
    rw [hdig2]
    rfl
  have hflat : FlattenP [digitsParser, ChainP [byteParser 46],
      digitsParser] d =
      (⟨d.b, d.idx + d1.length + 1 + d2.length, row2, col2⟩,
        d1 ++ 46 :: d2, OK true) := by
    unfold FlattenP
    rw [MapOB_run _ hch]
    simp
  have htoc : ToC (FlattenP [digitsParser, ChainP [byteParser 46],
      digitsParser]) d =
      (⟨d.b, d.idx + d1.length + 1 + d2.length, row2, col2⟩,
        d1 ++ 46 :: d2, COK true) := ToC_runB hflat
  refine ⟨row2, col2, ?_⟩
  unfold floatParser
  exact Validate_run htoc (by
    show (match parseF (d1 ++ 46 :: d2) with
      | some f => (f, COK true)
      | none => ((0 : Nat),
          CErr (some (.floatSyntax (d1 ++ 46 :: d2))))) = _
    rw [hpf])

theorem positiveNumberParser_run_float (parseF : List Nat → Option Nat)
    {d : deserializer} {d1 d2 rest : List Nat} {x : Nat}
    (hd : d.b.drop d.idx = d1 ++ 46 :: (d2 ++ rest))
    (hd1 : ∀ b ∈ d1, 48 ≤ b ∧ b ≤ 57) (hne1 : d1 ≠ [])
    (hd2 : ∀ b ∈ d2, 48 ≤ b ∧ b ≤ 57) (hne2 : d2 ≠ [])
    (hrest : rest.head?.all (fun c => !(48 ≤ c && c ≤ 57)))
    (hpf : parseF (d1 ++ 46 :: d2) = some x) :
    ∃ row col, positiveNumberParser parseF d =
      (⟨d.b, d.idx + d1.length + 1 + d2.length, row, col⟩,
        (⟨x, 0, true, false⟩ : Number), COK true) := by
  obtain ⟨row, col, hfp⟩ :=
    floatParser_run parseF hd hd1 hne1 hd2 hne2 hrest hpf
  refine ⟨row, col, ?_⟩
  unfold positiveNumberParser
  rw [tryP_step_take (by rw [MapO_result, hfp]; rfl)
    (by rw [MapO_result, hfp]; rfl)]
  exact MapO_run _ hfp

theorem numberParser_run_float (parseF : List Nat → Option Nat)
    {d : deserializer} {d1 d2 rest : List Nat} {x : Nat} {neg : Bool}
    (hd : d.b.drop d.idx =
      (if neg then [45] else []) ++ (d1 ++ 46 :: d2) ++ rest)
    (hd1 : ∀ b ∈ d1, 48 ≤ b ∧ b ≤ 57) (hne1 : d1 ≠ [])
    (hd2 : ∀ b ∈ d2, 48 ≤ b ∧ b ≤ 57) (hne2 : d2 ≠ [])
    (hrest : rest.head?.all (fun c => !(48 ≤ c && c ≤ 57)))
    (hpf : parseF (d1 ++ 46 :: d2) = some x) :
    ∃ d' nd, numberParser parseF d =
      (d', ⟨Value.number ⟨x, 0, true, neg⟩, nd⟩, COK true) ∧
      d'.b = d.b ∧
      d'.idx = d.idx + (if neg then 1 else 0) + d1.length + 1 + d2.length := by
  cases neg with
  | false =>
    have hdd : d.b.drop d.idx = d1 ++ 46 :: (d2 ++ rest) := by
      simpa using hd
    have h45 : (d.b.drop d.idx).head? ≠ some 45 := by
      rw [hdd]
      cases d1 with
      | nil => exact absurd rfl hne1
      | cons dd l =>
        have hb := hd1 dd (List.mem_cons_self _ _)
        simp
        omega
    have hchain : ChainP [Discard (byteParser 45)] d = (d, [], OK false) := by
      rw [chainP_head_fail _ _ _
          (by show ResultC.Valid ((byteParser 45 d).2.2) = false
              rw [byteParser_miss h45]; rfl),
        show (Discard (byteParser 45) d).2.2 = OK false by
          show (byteParser 45 d).2.2 = OK false
          rw [byteParser_miss h45]]
    have hsur : surroundParser [Discard (byteParser 45)]
        (positiveNumberParser parseF) [] d = (d, default, COK false) := by
      rw [surround_before_fail (by rw [hchain]; rfl), hchain]
      rfl
    obtain ⟨row, col, hpos⟩ := positiveNumberParser_run_float parseF
      hdd hd1 hne1 hd2 hne2 hrest hpf
    have htry : TryP
        [MapO (surroundParser [Discard (byteParser 45)]
          (positiveNumberParser parseF) [])
          (fun n => { n with IsNeg := true }),
         positiveNumberParser parseF] d =
        (⟨d.b, d.idx + d1.length + 1 + d2.length, row, col⟩,
          (⟨x, 0, true, false⟩ : Number), COK true) := by
      rw [tryP_step_skip (by rw [MapO_result, hsur]; rfl)
          (by rw [MapO_result, hsur]; rfl),
        tryP_step_take (by rw [hpos]; rfl) (by rw [hpos]; rfl)]
      exact hpos
    have h1 := MapO_run (fun n => Value.number n) htry
    have h2 := outputParser_run h1
    exact ⟨⟨d.b, d.idx + d1.length + 1 + d2.length, row, col⟩, _, h2, rfl,
      by simp⟩
  | true =>
    have hdd : d.b.drop d.idx = 45 :: (d1 ++ 46 :: (d2 ++ rest)) := by
      simpa using hd
    have hbp := byteParser_drop_cons hdd
    have hdisc : Discard (byteParser 45) d =
        (⟨d.b, d.idx + 1, d.row, d.col + 1⟩, ⟨⟩, OK true) := by
      show ((byteParser 45 d).1, (⟨⟩ : Empty), (byteParser 45 d).2.2) = _
      rw [hbp]
      rfl
    have hchain : ChainP [Discard (byteParser 45)] d =
        (⟨d.b, d.idx + 1, d.row, d.col + 1⟩, [⟨⟩], OK true) := by
      show (if ResultC.Valid ((Discard (byteParser 45) d).2.2) then
              chainAux d [] (Discard (byteParser 45) d).1
                ([] ++ [(Discard (byteParser 45) d).2.1])
            else (d, [], (Discard (byteParser 45) d).2.2)) = _
      rw [hdisc]
      rfl
    have hdrop1 : (⟨d.b, d.idx + 1, d.row, d.col + 1⟩ :
        deserializer).b.drop (d.idx + 1) = d1 ++ 46 :: (d2 ++ rest) :=
      drop_cons_succ hdd
    obtain ⟨row, col, hpos⟩ := positiveNumberParser_run_float parseF
      (d := ⟨d.b, d.idx + 1, d.row, d.col + 1⟩) hdrop1 hd1 hne1 hd2 hne2
      hrest hpf
    have hsur : surroundParser [Discard (byteParser 45)]
        (positiveNumberParser parseF) [] d =
        (⟨d.b, d.idx + 1 + d1.length + 1 + d2.length, row, col⟩,
          (⟨x, 0, true, false⟩ : Number), COK true) :=
      surround_run hchain hpos
    have halt1 : MapO (surroundParser [Discard (byteParser 45)]
        (positiveNumberParser parseF) [])
        (fun n => { n with IsNeg := true }) d =
        (⟨d.b, d.idx + 1 + d1.length + 1 + d2.length, row, col⟩,
          (⟨x, 0, true, true⟩ : Number), COK true) := MapO_run _ hsur
    have htry : TryP
        [MapO (surroundParser [Discard (byteParser 45)]
          (positiveNumberParser parseF) [])
          (fun n => { n with IsNeg := true }),
         positiveNumberParser parseF] d =
        (⟨d.b, d.idx + 1 + d1.length + 1 + d2.length, row, col⟩,
          (⟨x, 0, true, true⟩ : Number), COK true) := by
      rw [tryP_step_take (by rw [halt1]; rfl) (by rw [halt1]; rfl)]
      exact halt1
    have h1 := MapO_run (fun n => Value.number n) htry
    have h2 := outputParser_run h1
    exact ⟨⟨d.b, d.idx + 1 + d1.length + 1 + d2.length, row, col⟩, _, h2,
      rfl, rfl⟩

theorem rawStringParser_run {d : deserializer} {s rest : List Nat}
    (hd : d.b.drop d.idx = 34 :: (s ++ 34 :: rest))
    (hs : ∀ b ∈ s, 32 ≤ b ∧ b ≤ 126 ∧ b ≠ 34 ∧ b ≠ 92) :
    ∃ row col, rawStringParser d =
      (⟨d.b, d.idx + s.length + 2, row, col⟩, s, COK true) := by
  have hbp := byteParser_drop_cons hd
  have hq : byteParser 34 d =
      (⟨d.b, d.idx + 1, d.row, d.col + 1⟩, 34, OK true) := by
    rw [hbp]
    rfl
  have hc34 : ChainP [byteParser 34] d =
      (⟨d.b, d.idx + 1, d.row, d.col + 1⟩, [34], OK true) := by
    show (if ResultC.Valid ((byteParser 34 d).2.2) then
            chainAux d [] (byteParser 34 d).1 ([] ++ [(byteParser 34 d).2.1])
          else (d, [], (byteParser 34 d).2.2)) = _
    rw [hq]
    rfl
  have hp1 : ToC (ChainP [byteParser 34]) d =
      (⟨d.b, d.idx + 1, d.row, d.col + 1⟩, [34], COK true) := ToC_runB hc34
  have hdrop1 : d.b.drop (d.idx + 1) = s ++ 34 :: rest := drop_cons_succ hd
  have hlen : s.length + 1 + rest.length = d.b.length - (d.idx + 1) := by
    have hl : (d.b.drop (d.idx + 1)).length = d.b.length - (d.idx + 1) := by
      simp
    rw [hdrop1] at hl
    simp only [List.length_append, List.length_cons] at hl
    omega
  obtain ⟨row2, col2, hscan⟩ := scanLoopF_plain s
    ⟨d.b, d.idx + 1, d.row, d.col + 1⟩ [] rest
    (d.b.length + 1 - (d.idx + 1)) hdrop1
    (fun b hb => ⟨(hs b hb).2.2.1, (hs b hb).2.2.2⟩) (by omega)
  have hscanP : (fun d2 : deserializer =>
      scanLoopF (d2.b.length + 1 - d2.idx) d2 [] false)
      (⟨d.b, d.idx + 1, d.row, d.col + 1⟩ : deserializer) =
      (⟨d.b, d.idx + 1 + s.length + 1, row2, col2⟩, [] ++ s ++ [34],
        COK true) := hscan
  have hch : ChainP [ToC (ChainP [byteParser 34]),
      fun d2 => scanLoopF (d2.b.length + 1 - d2.idx) d2 [] false] d =
      (⟨d.b, d.idx + 1 + s.length + 1, row2, col2⟩, [[34], s ++ [34]],
        COK true) := by
    show (if ResultC.Valid ((ToC (ChainP [byteParser 34]) d).2.2) then
            chainAux d [fun d2 => scanLoopF (d2.b.length + 1 - d2.idx) d2 [] false]
              (ToC (ChainP [byteParser 34]) d).1
              ([] ++ [(ToC (ChainP [byteParser 34]) d).2.1])
          else (d, [], (ToC (ChainP [byteParser 34]) d).2.2)) = _
    rw [hp1]
    show (if ResultC.Valid (((fun d2 : deserializer =>
            scanLoopF (d2.b.length + 1 - d2.idx) d2 [] false)
            (⟨d.b, d.idx + 1, d.row, d.col + 1⟩ : deserializer)).2.2) then
            chainAux d []
              ((fun d2 : deserializer =>
                scanLoopF (d2.b.length + 1 - d2.idx) d2 [] false)
                (⟨d.b, d.idx + 1, d.row, d.col + 1⟩ : deserializer)).1
              ([[34]] ++ [((fun d2 : deserializer =>
                scanLoopF (d2.b.length + 1 - d2.idx) d2 [] false)
                (⟨d.b, d.idx + 1, d.row, d.col + 1⟩ : deserializer)).2.1])
          else (d, [],
            ((fun d2 : deserializer =>
              scanLoopF (d2.b.length + 1 - d2.idx) d2 [] false)
              (⟨d.b, d.idx + 1, d.row, d.col + 1⟩ : deserializer)).2.2)) = _
    rw [hscanP]
    rfl
  have hfl : FlattenP [ToC (ChainP [byteParser 34]),
      fun d2 => scanLoopF (d2.b.length + 1 - d2.idx) d2 [] false] d =
      (⟨d.b, d.idx + 1 + s.length + 1, row2, col2⟩, 34 :: s ++ [34],
        COK true) := by
    unfold FlattenP
    rw [MapO_run _ hch]
    rfl
  have hfv : (fun b => match unquote b with
      | .ok s2 => (s2, COK true)
      | .error e => (([] : List Nat), CErr (some e))) (34 :: s ++ [34]) =
      (s, COK true) := by
    show (match unquote (34 :: s ++ [34]) with
      | .ok s2 => (s2, COK true)
      | .error e => (([] : List Nat), CErr (some e))) = _
    rw [unquote_plain hs]
  have hraw : rawStringParser d =
      (⟨d.b, d.idx + 1 + s.length + 1, row2, col2⟩, s, COK true) := by
    unfold rawStringParser
    exact Validate_run hfl hfv
  refine ⟨row2, col2, ?_⟩
  rw [hraw, show d.idx + 1 + s.length + 1 = d.idx + s.length + 2 by omega]

theorem stringParser_run {d : deserializer} {s rest : List Nat}
    (hd : d.b.drop d.idx = 34 :: (s ++ 34 :: rest))
    (hs : ∀ b ∈ s, 32 ≤ b ∧ b ≤ 126 ∧ b ≠ 34 ∧ b ≠ 92) :
    ∃ d' nd, stringParser d = (d', ⟨Value.string s, nd⟩, COK true) ∧
      d'.b = d.b ∧ d'.idx = d.idx + s.length + 2 := by
  obtain ⟨row, col, hraw⟩ := rawStringParser_run hd hs
  have h1 := MapO_run (fun s2 => Value.string s2) hraw
  have h2 := outputParser_run h1
  exact ⟨⟨d.b, d.idx + s.length + 2, row, col⟩, _, h2, rfl, rfl⟩


theorem rawStringParser_run_quote (iP : Nat → Bool) (hiP : iP 10 = false)
    {d : deserializer} {s rest : List Nat}
    (hbytes : ∀ b ∈ s, b < 256)
    (hd : d.b.drop d.idx = quote iP s ++ rest) :
    ∃ row col, rawStringParser d =
      (⟨d.b, d.idx + (quote iP s).length, row, col⟩, s, COK true) := by
  have hd' : d.b.drop d.idx =
      34 :: (quoteLoopF iP (s.length + 1) s ++ 34 :: rest) := by
    rw [hd, show quote iP s =
      34 :: (quoteLoopF iP (s.length + 1) s ++ [34]) from rfl]
    simp
  have hbp := byteParser_drop_cons hd'
  have hq : byteParser 34 d =
      (⟨d.b, d.idx + 1, d.row, d.col + 1⟩, 34, OK true) := by
    rw [hbp]
    rfl
  have hc34 : ChainP [byteParser 34] d =
      (⟨d.b, d.idx + 1, d.row, d.col + 1⟩, [34], OK true) := by
    show (if ResultC.Valid ((byteParser 34 d).2.2) then
            chainAux d [] (byteParser 34 d).1 ([] ++ [(byteParser 34 d).2.1])
          else (d, [], (byteParser 34 d).2.2)) = _
    rw [hq]
    rfl
  have hp1 : ToC (ChainP [byteParser 34]) d =
      (⟨d.b, d.idx + 1, d.row, d.col + 1⟩, [34], COK true) := ToC_runB hc34
  have hdrop1 : d.b.drop (d.idx + 1) =
      quoteLoopF iP (s.length + 1) s ++ 34 :: rest := drop_cons_succ hd'
  have hsafe : scanSafe (quoteLoopF iP (s.length + 1) s) = true := by
    have h := scanSafe_quoteLoopF iP s.length s le_rfl (s.length + 1) []
    rw [List.append_nil] at h
    exact h
  have hflen : (quoteLoopF iP (s.length + 1) s).length <
      d.b.length + 1 - (d.idx + 1) := by
    have hl : (d.b.drop (d.idx + 1)).length = d.b.length - (d.idx + 1) := by
      simp
    rw [hdrop1] at hl
    simp only [List.length_append, List.length_cons] at hl
    omega
  obtain ⟨row2, col2, hscan⟩ := scanLoopF_safe
    (quoteLoopF iP (s.length + 1) s).length (quoteLoopF iP (s.length + 1) s)
    le_rfl ⟨d.b, d.idx + 1, d.row, d.col + 1⟩ [] rest
    (d.b.length + 1 - (d.idx + 1)) hdrop1 hsafe hflen
  have hscanP : (fun d2 : deserializer =>
      scanLoopF (d2.b.length + 1 - d2.idx) d2 [] false)
      (⟨d.b, d.idx + 1, d.row, d.col + 1⟩ : deserializer) =
      (⟨d.b, d.idx + 1 + (quoteLoopF iP (s.length + 1) s).length + 1,
          row2, col2⟩,
        [] ++ quoteLoopF iP (s.length + 1) s ++ [34], COK true) := hscan
  have hch : ChainP [ToC (ChainP [byteParser 34]),
      fun d2 => scanLoopF (d2.b.length + 1 - d2.idx) d2 [] false] d =
      (⟨d.b, d.idx + 1 + (quoteLoopF iP (s.length + 1) s).length + 1,
          row2, col2⟩,
        [[34], quoteLoopF iP (s.length + 1) s ++ [34]], COK true) := by
    show (if ResultC.Valid ((ToC (ChainP [byteParser 34]) d).2.2) then
            chainAux d
              [fun d2 => scanLoopF (d2.b.length + 1 - d2.idx) d2 [] false]
              (ToC (ChainP [byteParser 34]) d).1
              ([] ++ [(ToC (ChainP [byteParser 34]) d).2.1])
          else (d, [], (ToC (ChainP [byteParser 34]) d).2.2)) = _
    rw [hp1]
    show (if ResultC.Valid (((fun d2 : deserializer =>
            scanLoopF (d2.b.length + 1 - d2.idx) d2 [] false)
            (⟨d.b, d.idx + 1, d.row, d.col + 1⟩ : deserializer)).2.2) then
            chainAux d []
              ((fun d2 : deserializer =>
                scanLoopF (d2.b.length + 1 - d2.idx) d2 [] false)
                (⟨d.b, d.idx + 1, d.row, d.col + 1⟩ : deserializer)).1
              ([[34]] ++ [((fun d2 : deserializer =>
                scanLoopF (d2.b.length + 1 - d2.idx) d2 [] false)
                (⟨d.b, d.idx + 1, d.row, d.col + 1⟩ : deserializer)).2.1])
          else (d, [],
            ((fun d2 : deserializer =>
              scanLoopF (d2.b.length + 1 - d2.idx) d2 [] false)
              (⟨d.b, d.idx + 1, d.row, d.col + 1⟩ : deserializer)).2.2)) = _
    rw [hscanP]
    rfl
  have hfl : FlattenP [ToC (ChainP [byteParser 34]),
      fun d2 => scanLoopF (d2.b.length + 1 - d2.idx) d2 [] false] d =
      (⟨d.b, d.idx + 1 + (quoteLoopF iP (s.length + 1) s).length + 1,
          row2, col2⟩,
        34 :: (quoteLoopF iP (s.length + 1) s ++ [34]), COK true) := by
    unfold FlattenP
    rw [MapO_run _ hch]
    rfl
  have hfv : (fun b => match unquote b with
      | .ok s2 => (s2, COK true)
      | .error e => (([] : List Nat), CErr (some e)))
      (34 :: (quoteLoopF iP (s.length + 1) s ++ [34])) = (s, COK true) := by
    show (match unquote (quote iP s) with
      | .ok s2 => (s2, COK true)
      | .error e => (([] : List Nat), CErr (some e))) = _
    rw [unquote_quote iP hiP s hbytes]
  have hraw : rawStringParser d =
      (⟨d.b, d.idx + 1 + (quoteLoopF iP (s.length + 1) s).length + 1,
        row2, col2⟩, s, COK true) := by
    unfold rawStringParser
    exact Validate_run hfl hfv
  refine ⟨row2, col2, ?_⟩
  rw [hraw, show d.idx + 1 + (quoteLoopF iP (s.length + 1) s).length + 1 =
    d.idx + (quote iP s).length by
    rw [show quote iP s =
      34 :: (quoteLoopF iP (s.length + 1) s ++ [34]) from rfl]
    simp only [List.length_cons, List.length_append, List.length_nil]
    omega]

theorem stringParser_run_quote (iP : Nat → Bool) (hiP : iP 10 = false)
    {d : deserializer} {s rest : List Nat}
    (hbytes : ∀ b ∈ s, b < 256)
    (hd : d.b.drop d.idx = quote iP s ++ rest) :
    ∃ d' nd, stringParser d = (d', ⟨Value.string s, nd⟩, COK true) ∧
      d'.b = d.b ∧ d'.idx = d.idx + (quote iP s).length := by
  obtain ⟨row, col, hraw⟩ := rawStringParser_run_quote iP hiP hbytes hd
  have h1 := MapO_run (fun s2 => Value.string s2) hraw
  have h2 := outputParser_run h1
  exact ⟨⟨d.b, d.idx + (quote iP s).length, row, col⟩, _, h2, rfl, rfl⟩

/-! Facts about the serialized bytes used by the composite cases. -/

theorem appendIndent_cfg2 (ℓ : Nat) :
    appendIndent cfg2 ℓ [] = 10 :: List.replicate (2 * ℓ) 32 := by
  simp [appendIndent, cfg2]

theorem indent_space (ℓ : Nat) :
    ∀ b ∈ appendIndent cfg2 ℓ [], isSpace b = true := by
  rw [appendIndent_cfg2]
  intro b hb
  rcases List.mem_cons.mp hb with h | h
  · subst h; rfl
  · rw [List.eq_of_mem_replicate h]; rfl

theorem indent_len_pos (ℓ : Nat) : 1 ≤ (appendIndent cfg2 ℓ []).length := by
  rw [appendIndent_cfg2]
  simp

theorem numberAppend_ne_nil (f : Nat → List Nat) (n : Number) :
    numberAppend f n [] ≠ [] := by
  unfold numberAppend
  intro h
  by_cases hf : n.IsFloat
  · simp only [hf, if_true] at h
    rcases List.append_eq_nil.mp h with ⟨-, h2⟩
    by_cases hc : (f n.Float).contains 46
    · rw [if_pos hc] at h2
      rw [h2] at hc
      simp at hc
    · rw [if_neg hc] at h2
      rcases List.append_eq_nil.mp h2 with ⟨-, h3⟩
      exact List.noConfusion h3
  · simp only [hf, if_false] at h
    rcases List.append_eq_nil.mp h with ⟨-, h2⟩
    obtain ⟨dd, l, he, -, -⟩ := formatUint_head n.Integer
    rw [he] at h2
    exact List.noConfusion h2

theorem serB_length_pos (iP : Nat → Bool) (f : Nat → List Nat)
    (v : Value) (ℓ : Nat) : 1 ≤ (serB iP f cfg2 v ℓ).length := by
  cases v with
  | null => simp [serB]
  | bool b => cases b <;> simp [serB]
  | number n =>
    show 1 ≤ (numberAppend f n []).length
    cases he : numberAppend f n [] with
    | nil => exact absurd he (numberAppend_ne_nil f n)
    | cons x t => simp
  | string str =>
    show 1 ≤ (quote iP str).length
    unfold quote
    simp
  | array vs =>
    cases vs with
    | nil => show 1 ≤ ([91, 93] : List Nat).length; simp
    | cons v rest =>
      show 1 ≤ ([91] ++ appendIndent cfg2 (ℓ + 1) [] ++ _ ++ _ ++ _ ++
        [93] : List Nat).length
      simp
  | object o =>
    cases o with
    | none => show 1 ≤ ([123, 125] : List Nat).length; simp
    | some es =>
      cases es with
      | nil => show 1 ≤ ([123, 125] : List Nat).length; simp
      | cons kv rest =>
        show 1 ≤ ([123] ++ appendIndent cfg2 (ℓ + 1) [] ++ _ ++ [58] ++ _ ++
          _ ++ _ ++ _ ++ [125] : List Nat).length
        simp

theorem serB_head (iP : Nat → Bool) (f : Nat → List Nat) (v : Value)
    (ℓ : Nat) (hc : canonicalV iP v = true) :
    ∃ c t, serB iP f cfg2 v ℓ = c :: t ∧ isSpace c = false ∧
      c ≠ 93 ∧ c ≠ 125 ∧ c ≠ 44 := by
  cases v with
  | null => exact ⟨110, _, rfl, rfl, by decide, by decide, by decide⟩
  | bool b =>
    cases b with
    | true => exact ⟨116, _, rfl, rfl, by decide, by decide, by decide⟩
    | false => exact ⟨102, _, rfl, rfl, by decide, by decide, by decide⟩
  | number n =>
    have hnf : n.IsFloat = false := by
      simp only [canonicalV, Bool.and_eq_true] at hc
      simpa using hc.1.1
    show ∃ c t, numberAppend f n [] = c :: t ∧ _
    unfold numberAppend
    rw [hnf]
    simp only [Bool.false_eq_true, if_false]
    obtain ⟨dd, l, he, hd1, hd2⟩ := formatUint_head n.Integer
    by_cases hneg : n.IsNeg
    · refine ⟨45, _, by rw [if_pos hneg, he]; rfl, by decide, by decide,
        by decide, by decide⟩
    · refine ⟨dd, l, by rw [if_neg hneg, he]; rfl, ?_, by omega, by omega,
        by omega⟩
      simp [isSpace]
      omega
  | string str =>
    exact ⟨34, _, rfl, rfl, by decide, by decide, by decide⟩
  | array vs =>
    cases vs with
    | nil => exact ⟨91, [93], rfl, rfl, by decide, by decide, by decide⟩
    | cons v rest =>
      exact ⟨91, _, rfl, rfl, by decide, by decide, by decide⟩
  | object o =>
    cases o with
    | none => exact ⟨123, [125], rfl, rfl, by decide, by decide, by decide⟩
    | some es =>
      cases es with
      | nil => exact ⟨123, [125], rfl, rfl, by decide, by decide, by decide⟩
      | cons kv rest =>
        exact ⟨123, _, rfl, rfl, by decide, by decide, by decide⟩

theorem vdepthL_le_serTail (iP : Nat → Bool) (f : Nat → List Nat) :
    ∀ (vs : List Value)
      (hel : ∀ v ∈ vs, ∀ ℓ', vdepth v ≤ (serB iP f cfg2 v ℓ').length)
      (ℓ : Nat), vdepthL vs ≤ (serTail iP f cfg2 vs ℓ).length := by
  intro vs
  induction vs with
  | nil => intro _ ℓ; simp [vdepthL, serTail]
  | cons v vs ih =>
    intro hel ℓ
    rw [show vdepthL (v :: vs) = max (vdepth v) (vdepthL vs) from rfl,
      show serTail iP f cfg2 (v :: vs) ℓ =
        [44] ++ appendIndent cfg2 (ℓ + 1) [] ++ serB iP f cfg2 v (ℓ + 1) ++
          serTail iP f cfg2 vs ℓ from rfl]
    have h1 := hel v (List.mem_cons_self _ _) (ℓ + 1)
    have h2 := ih (fun v' h' => hel v' (List.mem_cons_of_mem _ h')) ℓ
    simp only [List.length_append]
    omega

theorem vdepthP_le_serPTail (iP : Nat → Bool) (f : Nat → List Nat) :
    ∀ (es : List (List Nat × Value))
      (hel : ∀ kv ∈ es, ∀ ℓ', vdepth kv.2 ≤ (serB iP f cfg2 kv.2 ℓ').length)
      (ℓ : Nat), vdepthP es ≤ (serPTail iP f cfg2 es ℓ).length := by
  intro es
  induction es with
  | nil => intro _ ℓ; simp [vdepthP, serPTail]
  | cons kv es ih =>
    intro hel ℓ
    rw [show vdepthP (kv :: es) = max (vdepth kv.2) (vdepthP es) from rfl,
      show serPTail iP f cfg2 (kv :: es) ℓ =
        [44] ++ appendIndent cfg2 (ℓ + 1) [] ++ quote iP kv.1 ++ [58] ++
          List.replicate cfg2.KeyValueGap 32 ++ serB iP f cfg2 kv.2 (ℓ + 1) ++
          serPTail iP f cfg2 es ℓ from rfl]
    have h1 := hel kv (List.mem_cons_self _ _) (ℓ + 1)
    have h2 := ih (fun kv' h' => hel kv' (List.mem_cons_of_mem _ h')) ℓ
    simp only [List.length_append]
    omega

theorem vdepth_le_serB (iP : Nat → Bool) (f : Nat → List Nat) :
    ∀ (N : Nat) (v : Value), vdepth v ≤ N → ∀ (ℓ : Nat),
    vdepth v ≤ (serB iP f cfg2 v ℓ).length := by
  intro N
  induction N with
  | zero =>
    intro v hv ℓ
    cases v with
    | null => rw [show vdepth Value.null = 0 from rfl]; omega
    | bool b => rw [show vdepth (Value.bool b) = 0 from rfl]; omega
    | number n => rw [show vdepth (Value.number n) = 0 from rfl]; omega
    | string str => rw [show vdepth (Value.string str) = 0 from rfl]; omega
    | array vs => rw [show vdepth (.array vs) = vdepthL vs + 1 from rfl] at hv; omega
    | object o =>
      cases o with
      | none => rw [show vdepth (.object none) = 1 from rfl] at hv; omega
      | some es =>
        rw [show vdepth (.object (some es)) = vdepthP es + 1 from rfl] at hv
        omega
  | succ N ih =>
    intro v hv ℓ
    cases v with
    | null => rw [show vdepth Value.null = 0 from rfl]; omega
    | bool b => rw [show vdepth (Value.bool b) = 0 from rfl]; omega
    | number n => rw [show vdepth (Value.number n) = 0 from rfl]; omega
    | string str => rw [show vdepth (Value.string str) = 0 from rfl]; omega
    | array vs =>
      have hL : vdepthL vs ≤ N := by
        rw [show vdepth (.array vs) = vdepthL vs + 1 from rfl] at hv; omega
      cases vs with
      | nil =>
        rw [show vdepth (.array ([] : List Value)) = 1 from rfl,
          show serB iP f cfg2 (.array []) ℓ = [91, 93] from rfl]
        simp
      | cons v' rest =>
        have hel : ∀ w ∈ v' :: rest, ∀ ℓ', vdepth w ≤
            (serB iP f cfg2 w ℓ').length := fun w hw ℓ' =>
          ih w (le_trans (vdepth_le_of_memL hw) hL) ℓ'
        rw [show vdepth (.array (v' :: rest)) = vdepthL (v' :: rest) + 1
            from rfl,
          show vdepthL (v' :: rest) = max (vdepth v') (vdepthL rest) from rfl,
          show serB iP f cfg2 (.array (v' :: rest)) ℓ =
            [91] ++ appendIndent cfg2 (ℓ + 1) [] ++ serB iP f cfg2 v' (ℓ + 1) ++
              serTail iP f cfg2 rest ℓ ++ appendIndent cfg2 ℓ [] ++ [93]
            from rfl]
        have h1 := hel v' (List.mem_cons_self _ _) (ℓ + 1)
        have h2 := vdepthL_le_serTail iP f rest
          (fun w hw => hel w (List.mem_cons_of_mem _ hw)) ℓ
        have hmax : max (vdepth v') (vdepthL rest) ≤
            (serB iP f cfg2 v' (ℓ + 1)).length +
              (serTail iP f cfg2 rest ℓ).length :=
          max_le (by omega) (by omega)
        simp only [List.length_append, List.length_cons, List.length_nil]
        omega
    | object o =>
      cases o with
      | none =>
        rw [show vdepth (.object none) = 1 from rfl,
          show serB iP f cfg2 (.object none) ℓ = [123, 125] from rfl]
        simp
      | some es =>
        have hP : vdepthP es ≤ N := by
          rw [show vdepth (.object (some es)) = vdepthP es + 1 from rfl] at hv
          omega
        cases es with
        | nil =>
          rw [show vdepth (.object (some ([] : List (List Nat × Value)))) =
              vdepthP ([] : List (List Nat × Value)) + 1 from rfl,
            show serB iP f cfg2 (.object (some [])) ℓ = [123, 125] from rfl]
          simp [vdepthP]
        | cons kv rest =>
          have hel : ∀ kv' ∈ kv :: rest, ∀ ℓ', vdepth kv'.2 ≤
              (serB iP f cfg2 kv'.2 ℓ').length := fun kv' hk ℓ' =>
            ih kv'.2 (le_trans (vdepth_le_of_memP hk) hP) ℓ'
          rw [show vdepth (.object (some (kv :: rest))) =
              vdepthP (kv :: rest) + 1 from rfl,
            show vdepthP (kv :: rest) = max (vdepth kv.2) (vdepthP rest)
              from rfl,
            show serB iP f cfg2 (.object (some (kv :: rest))) ℓ =
              [123] ++ appendIndent cfg2 (ℓ + 1) [] ++ quote iP kv.1 ++ [58] ++
                List.replicate cfg2.KeyValueGap 32 ++
                serB iP f cfg2 kv.2 (ℓ + 1) ++ serPTail iP f cfg2 rest ℓ ++
                appendIndent cfg2 ℓ [] ++ [125] from rfl]
          have h1 := hel kv (List.mem_cons_self _ _) (ℓ + 1)
          have h2 := vdepthP_le_serPTail iP f rest
            (fun kv' hk => hel kv' (List.mem_cons_of_mem _ hk)) ℓ
          have hmax : max (vdepth kv.2) (vdepthP rest) ≤
              (serB iP f cfg2 kv.2 (ℓ + 1)).length +
                (serPTail iP f cfg2 rest ℓ).length :=
            max_le (by omega) (by omega)
          simp only [List.length_append, List.length_cons, List.length_nil]
          omega

/-! `listParser` loop stepping. -/

theorem listLoop_step_end {V : Type} [Inhabited V]
    {p : Parser deserializer V CombineResult}
    {sep endP : Parser deserializer Empty BoolResult}
    {dOrig : deserializer} {fl : Nat} {bb2 : deserializer} {vs : List V}
    {dE : deserializer} {r : BoolResult}
    (hend : endP bb2 = (dE, ⟨⟩, r)) (hr : r.OK = true) :
    listLoop p sep endP dOrig (fl + 1) bb2 vs = (dE, vs, COK true) := by
  show (if ((endP bb2).2.2).Valid then ((endP bb2).1, vs, COK true)
        else if ((sep bb2).2.2).Valid then
          (if ((p (sep bb2).1).2.2).Err.isSome then
            (dOrig, [], (p (sep bb2).1).2.2)
           else if ((p (sep bb2).1).2.2).OK then
            listLoop p sep endP dOrig fl (p (sep bb2).1).1
              (vs ++ [(p (sep bb2).1).2.1])
           else (dOrig, [], CErr (some (errNoMatch (p (sep bb2).1).1))))
        else (dOrig, [], CErr (some (errNoMatch (sep bb2).1)))) = _
  rw [hend]
  rw [show ((dE, (⟨⟩ : Empty), r) :
      deserializer × Empty × BoolResult).2.2.Valid = true from hr]
  simp

theorem listLoop_step_next {V : Type} [Inhabited V]
    {p : Parser deserializer V CombineResult}
    {sep endP : Parser deserializer Empty BoolResult}
    (dOrig : deserializer) (fl : Nat) {bb2 : deserializer} (vs : List V)
    {dE dS dP : deserializer} {o : V}
    (hend : endP bb2 = (dE, ⟨⟩, OK false))
    (hsep : sep bb2 = (dS, ⟨⟩, OK true))
    (hp : p dS = (dP, o, COK true)) :
    listLoop p sep endP dOrig (fl + 1) bb2 vs =
      listLoop p sep endP dOrig fl dP (vs ++ [o]) := by
  show (if ((endP bb2).2.2).Valid then ((endP bb2).1, vs, COK true)
        else if ((sep bb2).2.2).Valid then
          (if ((p (sep bb2).1).2.2).Err.isSome then
            (dOrig, [], (p (sep bb2).1).2.2)
           else if ((p (sep bb2).1).2.2).OK then
            listLoop p sep endP dOrig fl (p (sep bb2).1).1
              (vs ++ [(p (sep bb2).1).2.1])
           else (dOrig, [], CErr (some (errNoMatch (p (sep bb2).1).1))))
        else (dOrig, [], CErr (some (errNoMatch (sep bb2).1)))) = _
  rw [hend, hsep]
  show (if (OK false).Valid then (dE, vs, COK true)
        else if (OK true).Valid then
          (if ((p dS).2.2).Err.isSome then (dOrig, [], (p dS).2.2)
           else if ((p dS).2.2).OK then
            listLoop p sep endP dOrig fl (p dS).1 (vs ++ [(p dS).2.1])
           else (dOrig, [], CErr (some (errNoMatch (p dS).1))))
        else (dOrig, [], CErr (some (errNoMatch dS)))) = _
  rw [hp]
  rfl

theorem listLoop_arr (iP : Nat → Bool) (f : Nat → List Nat)
    (parseF : List Nat → Option Nat) (fuelE ℓ : Nat) (post : List Nat)
    (hpost : post.head?.all (fun c => c = 10 || c = 44)) :
    ∀ (vs : List Value)
      (hdec : ∀ v' ∈ vs, ∀ (d2 : deserializer) (ws post2 : List Nat),
        d2.b.drop d2.idx = ws ++ serB iP f cfg2 v' (ℓ + 1) ++ post2 →
        (∀ b ∈ ws, isSpace b = true) →
        post2.head?.all (fun c => c = 10 || c = 44) →
        ∃ d' nd, jsonParserC parseF fuelE d2 = (d', ⟨v', nd⟩, COK true) ∧
          d'.b = d2.b ∧
          d'.idx = d2.idx + ws.length + (serB iP f cfg2 v' (ℓ + 1)).length)
      (dcur dOrig : deserializer) (fuelL : Nat) (acc : List output),
      dcur.b.drop dcur.idx =
        serTail iP f cfg2 vs ℓ ++ appendIndent cfg2 ℓ [] ++ 93 :: post →
      dcur.b.length + 1 - dcur.idx ≤ fuelL →
    ∃ (dF : deserializer) (outs : List output),
      listLoop (LazyP (fun _ => jsonParserC parseF fuelE))
        (Discard (trimSpaceParser (byteParser 44)))
        (Discard (trimSpaceParser (byteParser 93))) dOrig fuelL dcur acc =
        (dF, acc ++ outs, COK true) ∧
      outs.map (fun o => o.value) = vs ∧
      dF.b = dcur.b ∧
      dF.idx = dcur.idx + (serTail iP f cfg2 vs ℓ).length +
        (appendIndent cfg2 ℓ []).length + 1 := by
  intro vs
  induction vs with
  | nil =>
    intro _ dcur dOrig fuelL acc hdrop hfuel
    rw [show serTail iP f cfg2 [] ℓ = [] from rfl, List.nil_append] at hdrop
    have hconsform : dcur.b.drop dcur.idx =
        10 :: (List.replicate (2 * ℓ) 32 ++ 93 :: post) := by
      rw [hdrop, appendIndent_cfg2]
      rfl
    have hlt := drop_cons_lt hconsform
    obtain ⟨fl, rfl⟩ : ∃ fl, fuelL = fl + 1 := ⟨fuelL - 1, by omega⟩
    obtain ⟨rs, cs, hskip⟩ := skipSpaces_over hdrop (indent_space ℓ) rfl
    have hdws : (⟨dcur.b, dcur.idx + (appendIndent cfg2 ℓ []).length, rs, cs⟩ :
        deserializer).b.drop (⟨dcur.b,
          dcur.idx + (appendIndent cfg2 ℓ []).length, rs, cs⟩ :
        deserializer).idx = 93 :: post := drop_append_of_drop hdrop
    have hend : Discard (trimSpaceParser (byteParser 93)) dcur =
        (⟨dcur.b, dcur.idx + (appendIndent cfg2 ℓ []).length + 1, rs, cs + 1⟩,
          ⟨⟩, OK true) := by
      show ((byteParser 93 (skipSpaces dcur)).1, (⟨⟩ : Empty),
        (byteParser 93 (skipSpaces dcur)).2.2) = _
      rw [hskip, byteParser_drop_cons hdws]
      rfl
    refine ⟨⟨dcur.b, dcur.idx + (appendIndent cfg2 ℓ []).length + 1, rs,
      cs + 1⟩, [], ?_, rfl, rfl, ?_⟩
    · rw [listLoop_step_end hend rfl, List.append_nil]
    · rw [show serTail iP f cfg2 [] ℓ = [] from rfl]
      simp
  | cons v₂ vs' ih =>
    intro hdec dcur dOrig fuelL acc hdrop hfuel
    have hdropC : dcur.b.drop dcur.idx =
        44 :: (appendIndent cfg2 (ℓ + 1) [] ++
          (serB iP f cfg2 v₂ (ℓ + 1) ++
            (serTail iP f cfg2 vs' ℓ ++
              (appendIndent cfg2 ℓ [] ++ 93 :: post)))) := by
      rw [hdrop, show serTail iP f cfg2 (v₂ :: vs') ℓ =
        [44] ++ appendIndent cfg2 (ℓ + 1) [] ++ serB iP f cfg2 v₂ (ℓ + 1) ++
          serTail iP f cfg2 vs' ℓ from rfl]
      simp [List.append_assoc]
    have hlt := drop_cons_lt hdropC
    obtain ⟨fl, rfl⟩ : ∃ fl, fuelL = fl + 1 := ⟨fuelL - 1, by omega⟩
    have hid : skipSpaces dcur = dcur := skipSpaces_id (by rw [hdropC]; rfl)
    have h93 : (dcur.b.drop dcur.idx).head? ≠ some 93 := by
      rw [hdropC]; simp
    have hend : Discard (trimSpaceParser (byteParser 93)) dcur =
        (dcur, ⟨⟩, OK false) := by
      show ((byteParser 93 (skipSpaces dcur)).1, (⟨⟩ : Empty),
        (byteParser 93 (skipSpaces dcur)).2.2) = _
      rw [hid, byteParser_miss h93]
    have hsep : Discard (trimSpaceParser (byteParser 44)) dcur =
        (⟨dcur.b, dcur.idx + 1, dcur.row, dcur.col + 1⟩, ⟨⟩, OK true) := by
      show ((byteParser 44 (skipSpaces dcur)).1, (⟨⟩ : Empty),
        (byteParser 44 (skipSpaces dcur)).2.2) = _
      rw [hid, byteParser_drop_cons hdropC]
      rfl
    have hdrop1 : (⟨dcur.b, dcur.idx + 1, dcur.row, dcur.col + 1⟩ :
        deserializer).b.drop (⟨dcur.b, dcur.idx + 1, dcur.row,
          dcur.col + 1⟩ : deserializer).idx =
        appendIndent cfg2 (ℓ + 1) [] ++ serB iP f cfg2 v₂ (ℓ + 1) ++
          (serTail iP f cfg2 vs' ℓ ++
            (appendIndent cfg2 ℓ [] ++ 93 :: post)) := by
      show dcur.b.drop (dcur.idx + 1) = _
      rw [drop_cons_succ hdropC]
      simp [List.append_assoc]
    have hpost2 : (serTail iP f cfg2 vs' ℓ ++
        (appendIndent cfg2 ℓ [] ++ 93 :: post)).head?.all
        (fun c => c = 10 || c = 44) := by
      cases vs' with
      | nil =>
        rw [show serTail iP f cfg2 [] ℓ = [] from rfl, List.nil_append,
          appendIndent_cfg2]
        rfl
      | cons w ws => rfl
    obtain ⟨dc₂, nd₂, hrun, hb₂, hidx₂⟩ := hdec v₂ (List.mem_cons_self _ _)
      ⟨dcur.b, dcur.idx + 1, dcur.row, dcur.col + 1⟩
      (appendIndent cfg2 (ℓ + 1) [])
      (serTail iP f cfg2 vs' ℓ ++ (appendIndent cfg2 ℓ [] ++ 93 :: post))
      hdrop1 (indent_space (ℓ + 1)) hpost2
    have htp : LazyP (fun _ => jsonParserC parseF fuelE)
        (⟨dcur.b, dcur.idx + 1, dcur.row, dcur.col + 1⟩ : deserializer) =
        (dc₂, ⟨v₂, nd₂⟩, COK true) := hrun
    have hstep := listLoop_step_next dOrig fl acc hend hsep htp
    have hserBpos := serB_length_pos iP f v₂ (ℓ + 1)
    have hindpos := indent_len_pos (ℓ + 1)
    have hlen : (dcur.b.drop dcur.idx).length = dcur.b.length - dcur.idx := by
      simp
    rw [hdropC] at hlen
    simp only [List.length_cons, List.length_append] at hlen
    have hdropNext : dc₂.b.drop dc₂.idx =
        serTail iP f cfg2 vs' ℓ ++ appendIndent cfg2 ℓ [] ++ 93 :: post := by
      rw [hb₂, hidx₂]
      show dcur.b.drop (dcur.idx + 1 +
        (appendIndent cfg2 (ℓ + 1) []).length +
        (serB iP f cfg2 v₂ (ℓ + 1)).length) = _
      have h1 : dcur.b.drop (dcur.idx + 1 +
          (appendIndent cfg2 (ℓ + 1) []).length) =
          serB iP f cfg2 v₂ (ℓ + 1) ++
            (serTail iP f cfg2 vs' ℓ ++
              (appendIndent cfg2 ℓ [] ++ 93 :: post)) := by
        have := drop_append_of_drop (i := dcur.idx + 1)
          (by rw [drop_cons_succ hdropC] :
            dcur.b.drop (dcur.idx + 1) = appendIndent cfg2 (ℓ + 1) [] ++
              (serB iP f cfg2 v₂ (ℓ + 1) ++
                (serTail iP f cfg2 vs' ℓ ++
                  (appendIndent cfg2 ℓ [] ++ 93 :: post))))
        exact this
      have h2 := drop_append_of_drop (i := dcur.idx + 1 +
        (appendIndent cfg2 (ℓ + 1) []).length) h1
      rw [h2]
      simp [List.append_assoc]
    have hfuel' : dc₂.b.length + 1 - dc₂.idx ≤ fl := by
      rw [hb₂, hidx₂]
      show dcur.b.length + 1 - (dcur.idx + 1 +
        (appendIndent cfg2 (ℓ + 1) []).length +
        (serB iP f cfg2 v₂ (ℓ + 1)).length) ≤ fl
      omega
    obtain ⟨d', outs', heq, hmap, hb', hidx'⟩ := ih
      (fun v' h' => hdec v' (List.mem_cons_of_mem _ h')) dc₂ dOrig fl
      (acc ++ [⟨v₂, nd₂⟩]) hdropNext hfuel'
    refine ⟨d', ⟨v₂, nd₂⟩ :: outs', ?_, ?_, ?_, ?_⟩
    · rw [hstep, heq]
      simp
    · simp [hmap]
    · rw [hb', hb₂]
    · rw [hidx', hidx₂,
        show serTail iP f cfg2 (v₂ :: vs') ℓ =
          [44] ++ appendIndent cfg2 (ℓ + 1) [] ++ serB iP f cfg2 v₂ (ℓ + 1) ++
            serTail iP f cfg2 vs' ℓ from rfl]
      show dcur.idx + 1 + (appendIndent cfg2 (ℓ + 1) []).length +
        (serB iP f cfg2 v₂ (ℓ + 1)).length +
        (serTail iP f cfg2 vs' ℓ).length +
        (appendIndent cfg2 ℓ []).length + 1 = _
      simp only [List.length_append, List.length_cons, List.length_nil]
      omega

theorem chain_discard_one {q : Parser deserializer Nat BoolResult}
    {d dq : deserializer} {n : Nat} (h : q d = (dq, n, OK true)) :
    ChainP [Discard q] d = (dq, [⟨⟩], OK true) := by
  show (if ResultC.Valid ((Discard q d).2.2) then
          chainAux d [] (Discard q d).1 ([] ++ [(Discard q d).2.1])
        else (d, [], (Discard q d).2.2)) = _
  have hdq : Discard q d = (dq, ⟨⟩, OK true) := by
    show ((q d).1, (⟨⟩ : Empty), (q d).2.2) = _
    rw [h]
  rw [hdq]
  rfl

theorem listParser_end {V : Type} [Inhabited V]
    (p : Parser deserializer V CombineResult)
    (sep : Parser deserializer Empty BoolResult)
    {endP : Parser deserializer Empty BoolResult}
    {d dE : deserializer} {r : BoolResult}
    (hend : endP d = (dE, ⟨⟩, r)) (hr : r.OK = true) :
    listParser p sep endP d = (dE, [], COK true) := by
  show (if ((endP d).2.2).Valid then ((endP d).1, [], COK true)
        else if ((p (endP d).1).2.2).Valid then
          listLoop p sep endP d (d.b.length + 1 - d.idx) (p (endP d).1).1
            [(p (endP d).1).2.1]
        else (d, [], (p (endP d).1).2.2)) = _
  rw [hend]
  rw [show ((dE, (⟨⟩ : Empty), r) :
      deserializer × Empty × BoolResult).2.2.Valid = true from hr]
  simp

theorem listParser_go {V : Type} [Inhabited V]
    {p : Parser deserializer V CombineResult}
    (sep : Parser deserializer Empty BoolResult)
    {endP : Parser deserializer Empty BoolResult}
    {d dE dP : deserializer} {o : V}
    (hend : endP d = (dE, ⟨⟩, OK false))
    (hp : p dE = (dP, o, COK true)) :
    listParser p sep endP d =
      listLoop p sep endP d (d.b.length + 1 - d.idx) dP [o] := by
  show (if ((endP d).2.2).Valid then ((endP d).1, [], COK true)
        else if ((p (endP d).1).2.2).Valid then
          listLoop p sep endP d (d.b.length + 1 - d.idx) (p (endP d).1).1
            [(p (endP d).1).2.1]
        else (d, [], (p (endP d).1).2.2)) = _
  rw [hend]
  show (if (OK false).Valid then (dE, [], COK true)
        else if ((p dE).2.2).Valid then
          listLoop p sep endP d (d.b.length + 1 - d.idx) (p dE).1 [(p dE).2.1]
        else (d, [], (p dE).2.2)) = _
  rw [hp]
  rfl

theorem arrayParserWith_run (iP : Nat → Bool) (f : Nat → List Nat)
    (parseF : List Nat → Option Nat) (fuelE ℓ : Nat)
    {d : deserializer} {vs : List Value} {post : List Nat}
    (hcanL : canonicalL iP vs = true)
    (hdec : ∀ v' ∈ vs, ∀ (d2 : deserializer) (ws post2 : List Nat),
      d2.b.drop d2.idx = ws ++ serB iP f cfg2 v' (ℓ + 1) ++ post2 →
      (∀ b ∈ ws, isSpace b = true) →
      post2.head?.all (fun c => c = 10 || c = 44) →
      ∃ d' nd, jsonParserC parseF fuelE d2 = (d', ⟨v', nd⟩, COK true) ∧
        d'.b = d2.b ∧
        d'.idx = d2.idx + ws.length + (serB iP f cfg2 v' (ℓ + 1)).length)
    (hdrop : d.b.drop d.idx = serB iP f cfg2 (.array vs) ℓ ++ post)
    (hpost : post.head?.all (fun c => c = 10 || c = 44)) :
    ∃ d' nd, arrayParserWith (jsonParserC parseF fuelE) d =
      (d', ⟨.array vs, nd⟩, COK true) ∧ d'.b = d.b ∧
      d'.idx = d.idx + (serB iP f cfg2 (.array vs) ℓ).length := by
  cases vs with
  | nil =>
    have hdropC : d.b.drop d.idx = 91 :: (93 :: post) := by
      rw [hdrop, show serB iP f cfg2 (.array []) ℓ = [91, 93] from rfl]
      rfl
    have hb91 := byteParser_drop_cons hdropC
    have hq91 : byteParser 91 d =
        (⟨d.b, d.idx + 1, d.row, d.col + 1⟩, 91, OK true) := by
      rw [hb91]
      rfl
    have hchainB := chain_discard_one hq91
    have hdrop1 : (⟨d.b, d.idx + 1, d.row, d.col + 1⟩ :
        deserializer).b.drop (⟨d.b, d.idx + 1, d.row, d.col + 1⟩ :
        deserializer).idx = 93 :: post := drop_cons_succ hdropC
    have hid : skipSpaces (⟨d.b, d.idx + 1, d.row, d.col + 1⟩ :
        deserializer) = ⟨d.b, d.idx + 1, d.row, d.col + 1⟩ :=
      skipSpaces_id (by rw [hdrop1]; rfl)
    have hb93 := byteParser_drop_cons hdrop1
    have hend : Discard (trimSpaceParser (byteParser 93))
        (⟨d.b, d.idx + 1, d.row, d.col + 1⟩ : deserializer) =
        (⟨d.b, d.idx + 2, d.row, d.col + 2⟩, ⟨⟩, OK true) := by
      show ((byteParser 93 (skipSpaces (⟨d.b, d.idx + 1, d.row,
        d.col + 1⟩ : deserializer))).1, (⟨⟩ : Empty),
        (byteParser 93 (skipSpaces (⟨d.b, d.idx + 1, d.row,
          d.col + 1⟩ : deserializer))).2.2) = _
      rw [hid, hb93]
      rfl
    have hlist := listParser_end
      (LazyP (fun _ => jsonParserC parseF fuelE))
      (Discard (trimSpaceParser (byteParser 44))) hend rfl
    have hcomp : compositeParser (Discard (byteParser 91))
        (Discard (trimSpaceParser (byteParser 93)))
        (Discard (trimSpaceParser (byteParser 44)))
        (LazyP (fun _ => jsonParserC parseF fuelE)) d =
        (⟨d.b, d.idx + 2, d.row, d.col + 2⟩, [], COK true) := by
      unfold compositeParser
      exact surround_run hchainB hlist
    have hloc : locParser (compositeParser (Discard (byteParser 91))
        (Discard (trimSpaceParser (byteParser 93)))
        (Discard (trimSpaceParser (byteParser 44)))
        (LazyP (fun _ => jsonParserC parseF fuelE))) d =
        (⟨d.b, d.idx + 2, d.row, d.col + 2⟩,
          (⟨⟨d.row, d.col⟩, ⟨d.row, d.col + 2⟩, []⟩ : locV (List output)),
          COK true) := by
      show ((compositeParser (Discard (byteParser 91))
          (Discard (trimSpaceParser (byteParser 93)))
          (Discard (trimSpaceParser (byteParser 44)))
          (LazyP (fun _ => jsonParserC parseF fuelE)) d).1,
        (⟨⟨d.row, d.col⟩,
          ⟨(compositeParser (Discard (byteParser 91))
            (Discard (trimSpaceParser (byteParser 93)))
            (Discard (trimSpaceParser (byteParser 44)))
            (LazyP (fun _ => jsonParserC parseF fuelE)) d).1.row,
           (compositeParser (Discard (byteParser 91))
            (Discard (trimSpaceParser (byteParser 93)))
            (Discard (trimSpaceParser (byteParser 44)))
            (LazyP (fun _ => jsonParserC parseF fuelE)) d).1.col⟩,
          (compositeParser (Discard (byteParser 91))
            (Discard (trimSpaceParser (byteParser 93)))
            (Discard (trimSpaceParser (byteParser 44)))
            (LazyP (fun _ => jsonParserC parseF fuelE)) d).2.1⟩ :
          locV (List output)),
        (compositeParser (Discard (byteParser 91))
          (Discard (trimSpaceParser (byteParser 93)))
          (Discard (trimSpaceParser (byteParser 44)))
          (LazyP (fun _ => jsonParserC parseF fuelE)) d).2.2) = _
      rw [hcomp]
    have hfin := MapO_run
      (fun val : locV (List output) =>
        (⟨.array (val.v.map (fun o => o.value)),
          .mk [] (val.v.map (fun o => o.node)) val.start val.stop⟩ : output))
      hloc
    have hfin2 : arrayParserWith (jsonParserC parseF fuelE) d =
        (⟨d.b, d.idx + 2, d.row, d.col + 2⟩,
          (⟨.array [], .mk [] [] ⟨d.row, d.col⟩ ⟨d.row, d.col + 2⟩⟩ : output),
          COK true) := hfin
    exact ⟨⟨d.b, d.idx + 2, d.row, d.col + 2⟩, _, hfin2, rfl, rfl⟩
  | cons v₁ rest =>
    have hdropC : d.b.drop d.idx =
        91 :: (appendIndent cfg2 (ℓ + 1) [] ++
          (serB iP f cfg2 v₁ (ℓ + 1) ++
            (serTail iP f cfg2 rest ℓ ++
              (appendIndent cfg2 ℓ [] ++ 93 :: post)))) := by
      rw [hdrop, show serB iP f cfg2 (.array (v₁ :: rest)) ℓ =
        [91] ++ appendIndent cfg2 (ℓ + 1) [] ++ serB iP f cfg2 v₁ (ℓ + 1) ++
          serTail iP f cfg2 rest ℓ ++ appendIndent cfg2 ℓ [] ++ [93]
        from rfl]
      simp [List.append_assoc]
    have hcan1 : canonicalV iP v₁ = true ∧ canonicalL iP rest = true := by
      have : canonicalL iP (v₁ :: rest) =
          (canonicalV iP v₁ && canonicalL iP rest) := rfl
      rw [this] at hcanL
      exact ⟨(Bool.and_eq_true _ _ |>.mp hcanL).1,
        (Bool.and_eq_true _ _ |>.mp hcanL).2⟩
    have hb91 := byteParser_drop_cons hdropC
    have hq91 : byteParser 91 d =
        (⟨d.b, d.idx + 1, d.row, d.col + 1⟩, 91, OK true) := by
      rw [hb91]
      rfl
    have hchainB := chain_discard_one hq91
    have hdrop1 : d.b.drop (d.idx + 1) =
        appendIndent cfg2 (ℓ + 1) [] ++
          (serB iP f cfg2 v₁ (ℓ + 1) ++
            (serTail iP f cfg2 rest ℓ ++
              (appendIndent cfg2 ℓ [] ++ 93 :: post))) :=
      drop_cons_succ hdropC
    obtain ⟨c₁, t₁, hser1, hsp1, hne93, hne125, hne44⟩ :=
      serB_head iP f v₁ (ℓ + 1) hcan1.1
    obtain ⟨rs, cs, hskip⟩ := skipSpaces_over
      (d := ⟨d.b, d.idx + 1, d.row, d.col + 1⟩)
      hdrop1 (indent_space (ℓ + 1))
      (by rw [hser1]; simp [hsp1])
    have hdws : d.b.drop (d.idx + 1 + (appendIndent cfg2 (ℓ + 1) []).length) =
        serB iP f cfg2 v₁ (ℓ + 1) ++
          (serTail iP f cfg2 rest ℓ ++
            (appendIndent cfg2 ℓ [] ++ 93 :: post)) :=
      drop_append_of_drop hdrop1
    have h93m : (d.b.drop (d.idx + 1 +
        (appendIndent cfg2 (ℓ + 1) []).length)).head? ≠ some 93 := by
      rw [hdws, hser1]
      simp
      exact fun h => absurd h hne93
    have hend : Discard (trimSpaceParser (byteParser 93))
        (⟨d.b, d.idx + 1, d.row, d.col + 1⟩ : deserializer) =
        (⟨d.b, d.idx + 1 + (appendIndent cfg2 (ℓ + 1) []).length, rs, cs⟩,
          ⟨⟩, OK false) := by
      show ((byteParser 93 (skipSpaces (⟨d.b, d.idx + 1, d.row,
        d.col + 1⟩ : deserializer))).1, (⟨⟩ : Empty),
        (byteParser 93 (skipSpaces (⟨d.b, d.idx + 1, d.row,
          d.col + 1⟩ : deserializer))).2.2) = _
      rw [hskip, byteParser_miss h93m]
    have hpost2 : (serTail iP f cfg2 rest ℓ ++
        (appendIndent cfg2 ℓ [] ++ 93 :: post)).head?.all
        (fun c => c = 10 || c = 44) := by
      cases rest with
      | nil =>
        rw [show serTail iP f cfg2 [] ℓ = [] from rfl, List.nil_append,
          appendIndent_cfg2]
        rfl
      | cons w ws => rfl
    obtain ⟨dc₂, nd₁, hrun1, hb₁, hidx₁⟩ := hdec v₁ (List.mem_cons_self _ _)
      ⟨d.b, d.idx + 1 + (appendIndent cfg2 (ℓ + 1) []).length, rs, cs⟩
      [] (serTail iP f cfg2 rest ℓ ++ (appendIndent cfg2 ℓ [] ++ 93 :: post))
      (by simpa using hdws) (by intro b hb; exact absurd hb (List.not_mem_nil b))
      hpost2
    have htp : LazyP (fun _ => jsonParserC parseF fuelE)
        (⟨d.b, d.idx + 1 + (appendIndent cfg2 (ℓ + 1) []).length, rs, cs⟩ :
          deserializer) = (dc₂, ⟨v₁, nd₁⟩, COK true) := hrun1
    have hlistgo := listParser_go
      (Discard (trimSpaceParser (byteParser 44))) hend htp
    have hdropNext : dc₂.b.drop dc₂.idx =
        serTail iP f cfg2 rest ℓ ++ appendIndent cfg2 ℓ [] ++ 93 :: post := by
      rw [hb₁, hidx₁]
      show d.b.drop (d.idx + 1 + (appendIndent cfg2 (ℓ + 1) []).length +
        [].length + (serB iP f cfg2 v₁ (ℓ + 1)).length) = _
      have h2 := drop_append_of_drop
        (i := d.idx + 1 + (appendIndent cfg2 (ℓ + 1) []).length) hdws
      rw [show d.idx + 1 + (appendIndent cfg2 (ℓ + 1) []).length +
          ([] : List Nat).length + (serB iP f cfg2 v₁ (ℓ + 1)).length =
          d.idx + 1 + (appendIndent cfg2 (ℓ + 1) []).length +
          (serB iP f cfg2 v₁ (ℓ + 1)).length by simp]
      rw [h2]
      simp [List.append_assoc]
    have hlen : (d.b.drop d.idx).length = d.b.length - d.idx := by simp
    rw [hdropC] at hlen
    simp only [List.length_cons, List.length_append] at hlen
    have hfuelL : dc₂.b.length + 1 - dc₂.idx ≤
        (⟨d.b, d.idx + 1, d.row, d.col + 1⟩ : deserializer).b.length + 1 -
          (⟨d.b, d.idx + 1, d.row, d.col + 1⟩ : deserializer).idx := by
      rw [hb₁, hidx₁]
      show d.b.length + 1 - (d.idx + 1 +
        (appendIndent cfg2 (ℓ + 1) []).length + ([] : List Nat).length +
        (serB iP f cfg2 v₁ (ℓ + 1)).length) ≤ d.b.length + 1 - (d.idx + 1)
      simp only [List.length_nil]
      omega
    obtain ⟨dF, outs, heqL, hmap, hbF, hidxF⟩ := listLoop_arr iP f parseF
      fuelE ℓ post hpost rest
      (fun v' h' => hdec v' (List.mem_cons_of_mem _ h')) dc₂
      ⟨d.b, d.idx + 1, d.row, d.col + 1⟩
      ((⟨d.b, d.idx + 1, d.row, d.col + 1⟩ : deserializer).b.length + 1 -
        (⟨d.b, d.idx + 1, d.row, d.col + 1⟩ : deserializer).idx)
      [⟨v₁, nd₁⟩] hdropNext hfuelL
    have hlist : listParser (LazyP (fun _ => jsonParserC parseF fuelE))
        (Discard (trimSpaceParser (byteParser 44)))
        (Discard (trimSpaceParser (byteParser 93)))
        (⟨d.b, d.idx + 1, d.row, d.col + 1⟩ : deserializer) =
        (dF, [⟨v₁, nd₁⟩] ++ outs, COK true) := by
      rw [hlistgo, heqL]
    have hcomp : compositeParser (Discard (byteParser 91))
        (Discard (trimSpaceParser (byteParser 93)))
        (Discard (trimSpaceParser (byteParser 44)))
        (LazyP (fun _ => jsonParserC parseF fuelE)) d =
        (dF, [⟨v₁, nd₁⟩] ++ outs, COK true) := by
      unfold compositeParser
      exact surround_run hchainB hlist
    have hloc : locParser (compositeParser (Discard (byteParser 91))
        (Discard (trimSpaceParser (byteParser 93)))
        (Discard (trimSpaceParser (byteParser 44)))
        (LazyP (fun _ => jsonParserC parseF fuelE))) d =
        (dF, (⟨⟨d.row, d.col⟩, ⟨dF.row, dF.col⟩, [⟨v₁, nd₁⟩] ++ outs⟩ :
          locV (List output)), COK true) := by
      show ((compositeParser (Discard (byteParser 91))
          (Discard (trimSpaceParser (byteParser 93)))
          (Discard (trimSpaceParser (byteParser 44)))
          (LazyP (fun _ => jsonParserC parseF fuelE)) d).1,
        (⟨⟨d.row, d.col⟩,
          ⟨(compositeParser (Discard (byteParser 91))
            (Discard (trimSpaceParser (byteParser 93)))
            (Discard (trimSpaceParser (byteParser 44)))
            (LazyP (fun _ => jsonParserC parseF fuelE)) d).1.row,
           (compositeParser (Discard (byteParser 91))
            (Discard (trimSpaceParser (byteParser 93)))
            (Discard (trimSpaceParser (byteParser 44)))
            (LazyP (fun _ => jsonParserC parseF fuelE)) d).1.col⟩,
          (compositeParser (Discard (byteParser 91))
            (Discard (trimSpaceParser (byteParser 93)))
            (Discard (trimSpaceParser (byteParser 44)))
            (LazyP (fun _ => jsonParserC parseF fuelE)) d).2.1⟩ :
          locV (List output)),
        (compositeParser (Discard (byteParser 91))
          (Discard (trimSpaceParser (byteParser 93)))
          (Discard (trimSpaceParser (byteParser 44)))
          (LazyP (fun _ => jsonParserC parseF fuelE)) d).2.2) = _
      rw [hcomp]
    have hfin := MapO_run
      (fun val : locV (List output) =>
        (⟨.array (val.v.map (fun o => o.value)),
          .mk [] (val.v.map (fun o => o.node)) val.start val.stop⟩ : output))
      hloc
    have hmap2 : ([(⟨v₁, nd₁⟩ : output)] ++ outs).map (fun o => o.value) =
        v₁ :: rest := by simp [hmap]
    have hfin2 : arrayParserWith (jsonParserC parseF fuelE) d =
        (dF, (⟨.array (([(⟨v₁, nd₁⟩ : output)] ++ outs).map
            (fun o => o.value)),
          .mk [] (([(⟨v₁, nd₁⟩ : output)] ++ outs).map (fun o => o.node))
            ⟨d.row, d.col⟩ ⟨dF.row, dF.col⟩⟩ : output), COK true) := hfin
    rw [hmap2] at hfin2
    refine ⟨dF, _, hfin2, ?_, ?_⟩
    · rw [hbF, hb₁]
    · rw [hidxF, hidx₁]
      show d.idx + 1 + (appendIndent cfg2 (ℓ + 1) []).length +
          ([] : List Nat).length + (serB iP f cfg2 v₁ (ℓ + 1)).length +
          (serTail iP f cfg2 rest ℓ).length +
          (appendIndent cfg2 ℓ []).length + 1 =
        d.idx + (serB iP f cfg2 (.array (v₁ :: rest)) ℓ).length
      rw [show serB iP f cfg2 (.array (v₁ :: rest)) ℓ =
        [91] ++ appendIndent cfg2 (ℓ + 1) [] ++ serB iP f cfg2 v₁ (ℓ + 1) ++
          serTail iP f cfg2 rest ℓ ++ appendIndent cfg2 ℓ [] ++ [93]
        from rfl]
      simp only [List.length_append, List.length_cons, List.length_nil]
      omega

theorem surround_run_after {V : Type} [Inhabited V]
    {before : List (Parser deserializer Empty BoolResult)}
    {p : Parser deserializer V CombineResult}
    {after : List (Parser deserializer Empty CombineResult)}
    {ii d1 d2 d3 : deserializer} {os : List Empty} {os2 : List Empty} {v : V}
    (hb : ChainP before ii = (d1, os, OK true))
    (hp : p d1 = (d2, v, COK true))
    (ha : ChainP after d2 = (d3, os2, COK true)) :
    surroundParser before p after ii = (d3, v, COK true) := by
  show (if ((ChainP before ii).2.2).Valid then
          (if ((p (ChainP before ii).1).2.2).Valid then
            (if ((ChainP after (p (ChainP before ii).1).1).2.2).Valid then
              ((ChainP after (p (ChainP before ii).1).1).1,
                (p (ChainP before ii).1).2.1, COK true)
             else (ii, default,
               (ChainP after (p (ChainP before ii).1).1).2.2))
           else (ii, default, (p (ChainP before ii).1).2.2))
        else (ii, default, COK ((ChainP before ii).2.2).OK)) = _
  rw [hb]
  show (if (OK true).Valid then
          (if ((p d1).2.2).Valid then
            (if ((ChainP after (p d1).1).2.2).Valid then
              ((ChainP after (p d1).1).1, (p d1).2.1, COK true)
             else (ii, default, (ChainP after (p d1).1).2.2))
           else (ii, default, (p d1).2.2))
        else (ii, default, COK (OK true).OK)) = _
  rw [hp]
  show (if (COK true).Valid then
          (if ((ChainP after d2).2.2).Valid then
            ((ChainP after d2).1, v, COK true)
           else (ii, default, (ChainP after d2).2.2))
        else (ii, default, COK (OK true).OK)) = _
  rw [ha]
  rfl

theorem objectElemParser_run (iP : Nat → Bool) (f : Nat → List Nat)
    (parseF : List Nat → Option Nat) (fuelE ℓ : Nat)
    {d2 : deserializer} {k : List Nat} {v : Value} {post2 : List Nat}
    (hk : ∀ b ∈ k, plainChar iP b = true)
    (hcv : canonicalV iP v = true)
    (hvdec : ∀ (d3 : deserializer) (ws post3 : List Nat),
      d3.b.drop d3.idx = ws ++ serB iP f cfg2 v (ℓ + 1) ++ post3 →
      (∀ b ∈ ws, isSpace b = true) →
      post3.head?.all (fun c => c = 10 || c = 44) →
      ∃ d' nd, jsonParserC parseF fuelE d3 = (d', ⟨v, nd⟩, COK true) ∧
        d'.b = d3.b ∧
        d'.idx = d3.idx + ws.length + (serB iP f cfg2 v (ℓ + 1)).length)
    (hdrop : d2.b.drop d2.idx =
      34 :: (k ++ 34 :: (58 :: 32 ::
        (serB iP f cfg2 v (ℓ + 1) ++ post2))))
    (hpost : post2.head?.all (fun c => c = 10 || c = 44)) :
    ∃ d' kv, objectElemParser (jsonParserEFun (jsonParserC parseF fuelE))
        d2 = (d', kv, COK true) ∧
      kv.key.v = k ∧ kv.value.value = v ∧ d'.b = d2.b ∧
      d'.idx = d2.idx + k.length + 4 +
        (serB iP f cfg2 v (ℓ + 1)).length := by
  have hkplain : ∀ b ∈ k, 32 ≤ b ∧ b ≤ 126 ∧ b ≠ 34 ∧ b ≠ 92 := by
    intro b hb
    obtain ⟨h1, h2, h3, h4, -⟩ := plainChar_props (hk b hb)
    exact ⟨h1, h2, h3, h4⟩
  obtain ⟨rk, ck, hraw⟩ := rawStringParser_run hdrop hkplain
  have hlocK : locParser rawStringParser d2 =
      (⟨d2.b, d2.idx + k.length + 2, rk, ck⟩,
        (⟨⟨d2.row, d2.col⟩, ⟨rk, ck⟩, k⟩ : locV (List Nat)), COK true) := by
    show ((rawStringParser d2).1,
      (⟨⟨d2.row, d2.col⟩, ⟨(rawStringParser d2).1.row,
        (rawStringParser d2).1.col⟩, (rawStringParser d2).2.1⟩ :
        locV (List Nat)),
      (rawStringParser d2).2.2) = _
    rw [hraw]
  have hkeyP := MapO_run
    (fun s : locV (List Nat) =>
      ({ key := s, value := default } : keyValue)) hlocK
  have hdropK : d2.b.drop (d2.idx + k.length + 2) =
      58 :: (32 :: (serB iP f cfg2 v (ℓ + 1) ++ post2)) := by
    have h1 := drop_cons_succ hdrop
    have h2 := drop_append_of_drop (i := d2.idx + 1) h1
    have h3 := drop_cons_succ (l := d2.b) (i := d2.idx + 1 + k.length) h2
    rw [show d2.idx + k.length + 2 = d2.idx + 1 + k.length + 1 by omega]
    exact h3
  have hq58 : byteParser 58
      (⟨d2.b, d2.idx + k.length + 2, rk, ck⟩ : deserializer) =
      (⟨d2.b, d2.idx + k.length + 2 + 1, rk, ck + 1⟩, 58, OK true) := by
    show byteParser 58 (⟨d2.b, d2.idx + k.length + 2, rk, ck⟩ :
      deserializer) = _
    rw [byteParser_drop_cons
      (show (⟨d2.b, d2.idx + k.length + 2, rk, ck⟩ :
        deserializer).b.drop (⟨d2.b, d2.idx + k.length + 2, rk, ck⟩ :
        deserializer).idx = 58 :: (32 ::
          (serB iP f cfg2 v (ℓ + 1) ++ post2)) from hdropK)]
    rfl
  have hid58 : skipSpaces (⟨d2.b, d2.idx + k.length + 2, rk, ck⟩ :
      deserializer) = ⟨d2.b, d2.idx + k.length + 2, rk, ck⟩ :=
    skipSpaces_id (by
      show (d2.b.drop (d2.idx + k.length + 2)).head?.all
        (fun c => !isSpace c) = true
      rw [hdropK]
      rfl)
  have hcolon : Discard (trimSpaceParser
      (MapR (byteParser 58) errBoolResult))
      (⟨d2.b, d2.idx + k.length + 2, rk, ck⟩ : deserializer) =
      (⟨d2.b, d2.idx + k.length + 2 + 1, rk, ck + 1⟩, ⟨⟩, COK true) := by
    show ((byteParser 58 (skipSpaces (⟨d2.b, d2.idx + k.length + 2, rk,
        ck⟩ : deserializer))).1, (⟨⟩ : Empty),
      errBoolResult
        (byteParser 58 (skipSpaces (⟨d2.b, d2.idx + k.length + 2, rk,
          ck⟩ : deserializer))).1
        (byteParser 58 (skipSpaces (⟨d2.b, d2.idx + k.length + 2, rk,
          ck⟩ : deserializer))).2.2) = _
    rw [hid58, hq58]
    rfl
  have hafter : ChainP [Discard (trimSpaceParser
      (MapR (byteParser 58) errBoolResult))]
      (⟨d2.b, d2.idx + k.length + 2, rk, ck⟩ : deserializer) =
      (⟨d2.b, d2.idx + k.length + 2 + 1, rk, ck + 1⟩, [⟨⟩], COK true) := by
    show (if ResultC.Valid ((Discard (trimSpaceParser
            (MapR (byteParser 58) errBoolResult))
            (⟨d2.b, d2.idx + k.length + 2, rk, ck⟩ : deserializer)).2.2) then
            chainAux (⟨d2.b, d2.idx + k.length + 2, rk, ck⟩ : deserializer) []
              (Discard (trimSpaceParser (MapR (byteParser 58) errBoolResult))
                (⟨d2.b, d2.idx + k.length + 2, rk, ck⟩ : deserializer)).1
              ([] ++ [(Discard (trimSpaceParser
                (MapR (byteParser 58) errBoolResult))
                (⟨d2.b, d2.idx + k.length + 2, rk, ck⟩ : deserializer)).2.1])
          else ((⟨d2.b, d2.idx + k.length + 2, rk, ck⟩ : deserializer), [],
            (Discard (trimSpaceParser (MapR (byteParser 58) errBoolResult))
              (⟨d2.b, d2.idx + k.length + 2, rk, ck⟩ :
                deserializer)).2.2)) = _
    rw [hcolon]
    rfl
  have hp1 : surroundParser []
      (MapO (locParser rawStringParser)
        (fun s => ({ key := s, value := default } : keyValue)))
      [Discard (trimSpaceParser (MapR (byteParser 58) errBoolResult))] d2 =
      (⟨d2.b, d2.idx + k.length + 2 + 1, rk, ck + 1⟩,
        ({ key := ⟨⟨d2.row, d2.col⟩, ⟨rk, ck⟩, k⟩, value := default } :
          keyValue), COK true) :=
    surround_run_after rfl hkeyP hafter
  have hdropV : d2.b.drop (d2.idx + k.length + 2 + 1) =
      [32] ++ (serB iP f cfg2 v (ℓ + 1) ++ post2) :=
    drop_cons_succ hdropK
  obtain ⟨c₂, t₂, hser2, hsp2, -, -, -⟩ := serB_head iP f v (ℓ + 1) hcv
  obtain ⟨rv, cv, hskipV⟩ := skipSpaces_over
    (d := ⟨d2.b, d2.idx + k.length + 2 + 1, rk, ck + 1⟩)
    hdropV
    (by intro b hb; rcases List.mem_singleton.mp hb with rfl; rfl)
    (by rw [hser2]; simp [hsp2])
  obtain ⟨dv', ndv, hvrun, hvb, hvidx⟩ := hvdec
    ⟨d2.b, d2.idx + k.length + 2 + 1 + 1, rv, cv⟩ []
    post2
    (by
      show d2.b.drop (d2.idx + k.length + 2 + 1 + 1) = _
      have := drop_append_of_drop (i := d2.idx + k.length + 2 + 1) hdropV
      simpa using this)
    (by intro b hb; exact absurd hb (List.not_mem_nil b)) hpost
  have hpvE : jsonParserEFun (jsonParserC parseF fuelE)
      (⟨d2.b, d2.idx + k.length + 2 + 1, rk, ck + 1⟩ : deserializer) =
      (dv', ⟨v, ndv⟩, Err none) := by
    show ((jsonParserC parseF fuelE (skipSpaces
        (⟨d2.b, d2.idx + k.length + 2 + 1, rk, ck + 1⟩ : deserializer))).1,
      (jsonParserC parseF fuelE (skipSpaces
        (⟨d2.b, d2.idx + k.length + 2 + 1, rk, ck + 1⟩ : deserializer))).2.1,
      (if ((jsonParserC parseF fuelE (skipSpaces
          (⟨d2.b, d2.idx + k.length + 2 + 1, rk, ck + 1⟩ :
            deserializer))).2.2).Valid then Err none
       else if ((jsonParserC parseF fuelE (skipSpaces
          (⟨d2.b, d2.idx + k.length + 2 + 1, rk, ck + 1⟩ :
            deserializer))).2.2).Err.isSome then
         ((jsonParserC parseF fuelE (skipSpaces
          (⟨d2.b, d2.idx + k.length + 2 + 1, rk, ck + 1⟩ :
            deserializer))).2.2).ToE
       else Err (some (errNoMatch (jsonParserC parseF fuelE (skipSpaces
          (⟨d2.b, d2.idx + k.length + 2 + 1, rk, ck + 1⟩ :
            deserializer))).1)))) = _
    rw [show skipSpaces (⟨d2.b, d2.idx + k.length + 2 + 1, rk, ck + 1⟩ :
        deserializer) = ⟨d2.b, d2.idx + k.length + 2 + 1 + 1, rv, cv⟩
      from hskipV]
    rw [hvrun]
    rfl
  have hp2run : ToC (LazyP (fun _ =>
      jsonParserEFun (jsonParserC parseF fuelE)))
      (⟨d2.b, d2.idx + k.length + 2 + 1, rk, ck + 1⟩ : deserializer) =
      (dv', ⟨v, ndv⟩, COK true) := by
    show ((jsonParserEFun (jsonParserC parseF fuelE)
        (⟨d2.b, d2.idx + k.length + 2 + 1, rk, ck + 1⟩ : deserializer)).1,
      (jsonParserEFun (jsonParserC parseF fuelE)
        (⟨d2.b, d2.idx + k.length + 2 + 1, rk, ck + 1⟩ : deserializer)).2.1,
      ResultC.toC (jsonParserEFun (jsonParserC parseF fuelE)
        (⟨d2.b, d2.idx + k.length + 2 + 1, rk, ck + 1⟩ :
          deserializer)).2.2) = _
    rw [hpvE]
    rfl
  have hp2 := MapO_run
    (fun o : output => ({ key := default, value := o } : keyValue)) hp2run
  have houter : ChainP
      [surroundParser []
        (MapO (locParser rawStringParser)
          (fun s => ({ key := s, value := default } : keyValue)))
        [Discard (trimSpaceParser (MapR (byteParser 58) errBoolResult))],
       MapO (ToC (LazyP (fun _ =>
         jsonParserEFun (jsonParserC parseF fuelE))))
        (fun o => ({ key := default, value := o } : keyValue))] d2 =
      (dv', [keyValue.mk ⟨⟨d2.row, d2.col⟩, ⟨rk, ck⟩, k⟩ default,
        keyValue.mk default ⟨v, ndv⟩], COK true) := by
    show (if ResultC.Valid ((surroundParser []
            (MapO (locParser rawStringParser)
              (fun s => ({ key := s, value := default } : keyValue)))
            [Discard (trimSpaceParser (MapR (byteParser 58) errBoolResult))]
            d2).2.2) then
            chainAux d2
              [MapO (ToC (LazyP (fun _ =>
                jsonParserEFun (jsonParserC parseF fuelE))))
                (fun o => ({ key := default, value := o } : keyValue))]
              (surroundParser []
                (MapO (locParser rawStringParser)
                  (fun s => ({ key := s, value := default } : keyValue)))
                [Discard (trimSpaceParser (MapR (byteParser 58)
                  errBoolResult))] d2).1
              ([] ++ [(surroundParser []
                (MapO (locParser rawStringParser)
                  (fun s => ({ key := s, value := default } : keyValue)))
                [Discard (trimSpaceParser (MapR (byteParser 58)
                  errBoolResult))] d2).2.1])
          else (d2, [], (surroundParser []
            (MapO (locParser rawStringParser)
              (fun s => ({ key := s, value := default } : keyValue)))
            [Discard (trimSpaceParser (MapR (byteParser 58) errBoolResult))]
            d2).2.2)) = _
    rw [hp1]
    show (if ResultC.Valid ((MapO (ToC (LazyP (fun _ =>
            jsonParserEFun (jsonParserC parseF fuelE))))
            (fun o => ({ key := default, value := o } : keyValue))
            (⟨d2.b, d2.idx + k.length + 2 + 1, rk, ck + 1⟩ :
              deserializer)).2.2) then
            chainAux d2 []
              (MapO (ToC (LazyP (fun _ =>
                jsonParserEFun (jsonParserC parseF fuelE))))
                (fun o => ({ key := default, value := o } : keyValue))
                (⟨d2.b, d2.idx + k.length + 2 + 1, rk, ck + 1⟩ :
                  deserializer)).1
              ([keyValue.mk ⟨⟨d2.row, d2.col⟩, ⟨rk, ck⟩, k⟩ default] ++
                [(MapO (ToC (LazyP (fun _ =>
                  jsonParserEFun (jsonParserC parseF fuelE))))
                  (fun o => ({ key := default, value := o } : keyValue))
                  (⟨d2.b, d2.idx + k.length + 2 + 1, rk, ck + 1⟩ :
                    deserializer)).2.1])
          else (d2, [], (MapO (ToC (LazyP (fun _ =>
            jsonParserEFun (jsonParserC parseF fuelE))))
            (fun o => ({ key := default, value := o } : keyValue))
            (⟨d2.b, d2.idx + k.length + 2 + 1, rk, ck + 1⟩ :
              deserializer)).2.2)) = _
    rw [hp2]
    rfl
  have hfin := MapO_run
    (fun kvs : List keyValue =>
      match kvs with
      | [kv0, kv1] => (⟨kv0.key, kv1.value⟩ : keyValue)
      | _ => default) houter
  refine ⟨dv', _, hfin, rfl, rfl, ?_, ?_⟩
  · rw [hvb]
  · rw [hvidx]
    show d2.idx + k.length + 2 + 1 + 1 + ([] : List Nat).length +
      (serB iP f cfg2 v (ℓ + 1)).length = _
    simp only [List.length_nil]

theorem objectElemParserTS_run (iP : Nat → Bool) (f : Nat → List Nat)
    (parseF : List Nat → Option Nat) (fuelE ℓ : Nat)
    {d : deserializer} {ws k : List Nat} {v : Value} {post2 : List Nat}
    (hk : ∀ b ∈ k, plainChar iP b = true)
    (hcv : canonicalV iP v = true)
    (hvdec : ∀ (d3 : deserializer) (ws3 post3 : List Nat),
      d3.b.drop d3.idx = ws3 ++ serB iP f cfg2 v (ℓ + 1) ++ post3 →
      (∀ b ∈ ws3, isSpace b = true) →
      post3.head?.all (fun c => c = 10 || c = 44) →
      ∃ d' nd, jsonParserC parseF fuelE d3 = (d', ⟨v, nd⟩, COK true) ∧
        d'.b = d3.b ∧
        d'.idx = d3.idx + ws3.length + (serB iP f cfg2 v (ℓ + 1)).length)
    (hdrop : d.b.drop d.idx = ws ++ (34 :: (k ++ 34 :: (58 :: 32 ::
      (serB iP f cfg2 v (ℓ + 1) ++ post2)))))
    (hws : ∀ b ∈ ws, isSpace b = true)
    (hpost : post2.head?.all (fun c => c = 10 || c = 44)) :
    ∃ d' kv, trimSpaceParser (objectElemParser
        (jsonParserEFun (jsonParserC parseF fuelE))) d = (d', kv, COK true) ∧
      kv.key.v = k ∧ kv.value.value = v ∧ d'.b = d.b ∧
      d'.idx = d.idx + ws.length + k.length + 4 +
        (serB iP f cfg2 v (ℓ + 1)).length := by
  obtain ⟨rs, cs, hskip⟩ := skipSpaces_over hdrop hws rfl
  have hdropS : (⟨d.b, d.idx + ws.length, rs, cs⟩ : deserializer).b.drop
      (⟨d.b, d.idx + ws.length, rs, cs⟩ : deserializer).idx =
      34 :: (k ++ 34 :: (58 :: 32 ::
        (serB iP f cfg2 v (ℓ + 1) ++ post2))) := drop_append_of_drop hdrop
  obtain ⟨d', kv, hrun, hkey, hval, hb', hidx'⟩ :=
    objectElemParser_run iP f parseF fuelE ℓ hk hcv hvdec hdropS hpost
  refine ⟨d', kv, ?_, hkey, hval, hb', ?_⟩
  · show objectElemParser (jsonParserEFun (jsonParserC parseF fuelE))
      (skipSpaces d) = _
    rw [hskip, hrun]
  · rw [hidx']

theorem listLoop_obj (iP : Nat → Bool) (f : Nat → List Nat)
    (parseF : List Nat → Option Nat) (fuelE ℓ : Nat) (post : List Nat)
    (hpost : post.head?.all (fun c => c = 10 || c = 44)) :
    ∀ (es : List (List Nat × Value))
      (hcanP : canonicalP iP es = true)
      (hdec : ∀ kv ∈ es, ∀ (d2 : deserializer) (ws post2 : List Nat),
        d2.b.drop d2.idx = ws ++ serB iP f cfg2 kv.2 (ℓ + 1) ++ post2 →
        (∀ b ∈ ws, isSpace b = true) →
        post2.head?.all (fun c => c = 10 || c = 44) →
        ∃ d' nd, jsonParserC parseF fuelE d2 = (d', ⟨kv.2, nd⟩, COK true) ∧
          d'.b = d2.b ∧
          d'.idx = d2.idx + ws.length + (serB iP f cfg2 kv.2 (ℓ + 1)).length)
      (dcur dOrig : deserializer) (fuelL : Nat) (acc : List keyValue),
      dcur.b.drop dcur.idx =
        serPTail iP f cfg2 es ℓ ++ appendIndent cfg2 ℓ [] ++ 125 :: post →
      dcur.b.length + 1 - dcur.idx ≤ fuelL →
    ∃ (dF : deserializer) (outs : List keyValue),
      listLoop (trimSpaceParser (objectElemParser
          (jsonParserEFun (jsonParserC parseF fuelE))))
        (Discard (trimSpaceParser (byteParser 44)))
        (Discard (trimSpaceParser (byteParser 125))) dOrig fuelL dcur acc =
        (dF, acc ++ outs, COK true) ∧
      outs.map (fun kv => (kv.key.v, kv.value.value)) = es ∧
      dF.b = dcur.b ∧
      dF.idx = dcur.idx + (serPTail iP f cfg2 es ℓ).length +
        (appendIndent cfg2 ℓ []).length + 1 := by
  intro es
  induction es with
  | nil =>
    intro _ _ dcur dOrig fuelL acc hdrop hfuel
    rw [show serPTail iP f cfg2 [] ℓ = [] from rfl, List.nil_append] at hdrop
    have hconsform : dcur.b.drop dcur.idx =
        10 :: (List.replicate (2 * ℓ) 32 ++ 125 :: post) := by
      rw [hdrop, appendIndent_cfg2]
      rfl
    have hlt := drop_cons_lt hconsform
    obtain ⟨fl, rfl⟩ : ∃ fl, fuelL = fl + 1 := ⟨fuelL - 1, by omega⟩
    obtain ⟨rs, cs, hskip⟩ := skipSpaces_over hdrop (indent_space ℓ) rfl
    have hdws : (⟨dcur.b, dcur.idx + (appendIndent cfg2 ℓ []).length, rs, cs⟩ :
        deserializer).b.drop (⟨dcur.b,
          dcur.idx + (appendIndent cfg2 ℓ []).length, rs, cs⟩ :
        deserializer).idx = 125 :: post := drop_append_of_drop hdrop
    have hend : Discard (trimSpaceParser (byteParser 125)) dcur =
        (⟨dcur.b, dcur.idx + (appendIndent cfg2 ℓ []).length + 1, rs, cs + 1⟩,
          ⟨⟩, OK true) := by
      show ((byteParser 125 (skipSpaces dcur)).1, (⟨⟩ : Empty),
        (byteParser 125 (skipSpaces dcur)).2.2) = _
      rw [hskip, byteParser_drop_cons hdws]
      rfl
    refine ⟨⟨dcur.b, dcur.idx + (appendIndent cfg2 ℓ []).length + 1, rs,
      cs + 1⟩, [], ?_, rfl, rfl, ?_⟩
    · rw [listLoop_step_end hend rfl, List.append_nil]
    · rw [show serPTail iP f cfg2 [] ℓ = [] from rfl]
      simp
  | cons kv es' ih =>
    intro hcanP hdec dcur dOrig fuelL acc hdrop hfuel
    obtain ⟨k, v⟩ := kv
    have hcan3 : (k.all (plainChar iP) && canonicalV iP v &&
        canonicalP iP es') = true := hcanP
    have hkall : ∀ b ∈ k, plainChar iP b = true := by
      have := (Bool.and_eq_true _ _ |>.mp
        ((Bool.and_eq_true _ _ |>.mp hcan3).1)).1
      exact fun b hb => List.all_eq_true.mp this b hb
    have hcv : canonicalV iP v = true :=
      (Bool.and_eq_true _ _ |>.mp ((Bool.and_eq_true _ _ |>.mp hcan3).1)).2
    have hcanP' : canonicalP iP es' = true :=
      (Bool.and_eq_true _ _ |>.mp hcan3).2
    have hserP : serPTail iP f cfg2 ((k, v) :: es') ℓ =
        [44] ++ appendIndent cfg2 (ℓ + 1) [] ++ (34 :: k ++ [34]) ++ [58] ++
          [32] ++ serB iP f cfg2 v (ℓ + 1) ++ serPTail iP f cfg2 es' ℓ := by
      rw [show serPTail iP f cfg2 ((k, v) :: es') ℓ =
        [44] ++ appendIndent cfg2 (ℓ + 1) [] ++ quote iP k ++ [58] ++
          List.replicate cfg2.KeyValueGap 32 ++ serB iP f cfg2 v (ℓ + 1) ++
          serPTail iP f cfg2 es' ℓ from rfl, quote_plain hkall]
      rfl
    have hdropC : dcur.b.drop dcur.idx =
        44 :: (appendIndent cfg2 (ℓ + 1) [] ++
          (34 :: (k ++ 34 :: (58 :: 32 :: (serB iP f cfg2 v (ℓ + 1) ++
            (serPTail iP f cfg2 es' ℓ ++
              (appendIndent cfg2 ℓ [] ++ 125 :: post))))))) := by
      rw [hdrop, hserP]
      simp [List.append_assoc]
    have hlt := drop_cons_lt hdropC
    obtain ⟨fl, rfl⟩ : ∃ fl, fuelL = fl + 1 := ⟨fuelL - 1, by omega⟩
    have hid : skipSpaces dcur = dcur := skipSpaces_id (by rw [hdropC]; rfl)
    have h125 : (dcur.b.drop dcur.idx).head? ≠ some 125 := by
      rw [hdropC]; simp
    have hend : Discard (trimSpaceParser (byteParser 125)) dcur =
        (dcur, ⟨⟩, OK false) := by
      show ((byteParser 125 (skipSpaces dcur)).1, (⟨⟩ : Empty),
        (byteParser 125 (skipSpaces dcur)).2.2) = _
      rw [hid, byteParser_miss h125]
    have hsep : Discard (trimSpaceParser (byteParser 44)) dcur =
        (⟨dcur.b, dcur.idx + 1, dcur.row, dcur.col + 1⟩, ⟨⟩, OK true) := by
      show ((byteParser 44 (skipSpaces dcur)).1, (⟨⟩ : Empty),
        (byteParser 44 (skipSpaces dcur)).2.2) = _
      rw [hid, byteParser_drop_cons hdropC]
      rfl
    have hdrop1 : (⟨dcur.b, dcur.idx + 1, dcur.row, dcur.col + 1⟩ :
        deserializer).b.drop (⟨dcur.b, dcur.idx + 1, dcur.row,
          dcur.col + 1⟩ : deserializer).idx =
        appendIndent cfg2 (ℓ + 1) [] ++
          (34 :: (k ++ 34 :: (58 :: 32 :: (serB iP f cfg2 v (ℓ + 1) ++
            (serPTail iP f cfg2 es' ℓ ++
              (appendIndent cfg2 ℓ [] ++ 125 :: post)))))) := by
      show dcur.b.drop (dcur.idx + 1) = _
      exact drop_cons_succ hdropC
    have hpost2 : (serPTail iP f cfg2 es' ℓ ++
        (appendIndent cfg2 ℓ [] ++ 125 :: post)).head?.all
        (fun c => c = 10 || c = 44) := by
      cases es' with
      | nil =>
        rw [show serPTail iP f cfg2 [] ℓ = [] from rfl, List.nil_append,
          appendIndent_cfg2]
        rfl
      | cons w ws => rfl
    obtain ⟨dc₂, kv₂, hrun, hkey₂, hval₂, hb₂, hidx₂⟩ :=
      objectElemParserTS_run iP f parseF fuelE ℓ hkall hcv
        (hdec (k, v) (List.mem_cons_self _ _)) hdrop1
        (indent_space (ℓ + 1)) hpost2
    have hstep := listLoop_step_next dOrig fl acc hend hsep hrun
    have hlen : (dcur.b.drop dcur.idx).length = dcur.b.length - dcur.idx := by
      simp
    rw [hdropC] at hlen
    simp only [List.length_cons, List.length_append] at hlen
    have hstepdrop : dcur.b.drop (dcur.idx + 1 +
        (appendIndent cfg2 (ℓ + 1) []).length + 1 + k.length + 1 + 1 + 1 +
        (serB iP f cfg2 v (ℓ + 1)).length) =
        serPTail iP f cfg2 es' ℓ ++
          (appendIndent cfg2 ℓ [] ++ 125 :: post) := by
      have h1 : dcur.b.drop (dcur.idx + 1 +
          (appendIndent cfg2 (ℓ + 1) []).length) =
          34 :: (k ++ 34 :: (58 :: 32 :: (serB iP f cfg2 v (ℓ + 1) ++
            (serPTail iP f cfg2 es' ℓ ++
              (appendIndent cfg2 ℓ [] ++ 125 :: post))))) :=
        drop_append_of_drop (drop_cons_succ hdropC)
      have h2 := drop_cons_succ h1
      have h3 := drop_append_of_drop (i := dcur.idx + 1 +
        (appendIndent cfg2 (ℓ + 1) []).length + 1) h2
      have h4 := drop_cons_succ h3
      have h5 := drop_cons_succ h4
      have h6 := drop_cons_succ h5
      exact drop_append_of_drop (i := dcur.idx + 1 +
        (appendIndent cfg2 (ℓ + 1) []).length + 1 + k.length + 1 + 1 + 1) h6
    have hdropNext : dc₂.b.drop dc₂.idx =
        serPTail iP f cfg2 es' ℓ ++ appendIndent cfg2 ℓ [] ++
          125 :: post := by
      rw [hb₂, hidx₂]
      show dcur.b.drop (dcur.idx + 1 +
        (appendIndent cfg2 (ℓ + 1) []).length + k.length + 4 +
        (serB iP f cfg2 v (ℓ + 1)).length) = _
      rw [show dcur.idx + 1 + (appendIndent cfg2 (ℓ + 1) []).length +
        k.length + 4 + (serB iP f cfg2 v (ℓ + 1)).length =
        dcur.idx + 1 + (appendIndent cfg2 (ℓ + 1) []).length + 1 +
          k.length + 1 + 1 + 1 + (serB iP f cfg2 v (ℓ + 1)).length by omega]
      rw [hstepdrop]
      simp [List.append_assoc]
    have hfuel' : dc₂.b.length + 1 - dc₂.idx ≤ fl := by
      rw [hb₂, hidx₂]
      show dcur.b.length + 1 - (dcur.idx + 1 +
        (appendIndent cfg2 (ℓ + 1) []).length + k.length + 4 +
        (serB iP f cfg2 v (ℓ + 1)).length) ≤ fl
      omega
    obtain ⟨dF, outs', heqL, hmap, hbF, hidxF⟩ := ih hcanP'
      (fun kv' h' => hdec kv' (List.mem_cons_of_mem _ h')) dc₂ dOrig fl
      (acc ++ [kv₂]) hdropNext hfuel'
    refine ⟨dF, kv₂ :: outs', ?_, ?_, ?_, ?_⟩
    · rw [hstep, heqL]
      simp
    · simp [hmap, hkey₂, hval₂]
    · rw [hbF, hb₂]
    · rw [hidxF, hidx₂, hserP]
      show dcur.idx + 1 + (appendIndent cfg2 (ℓ + 1) []).length +
        k.length + 4 + (serB iP f cfg2 v (ℓ + 1)).length +
        (serPTail iP f cfg2 es' ℓ).length +
        (appendIndent cfg2 ℓ []).length + 1 = _
      simp only [List.length_append, List.length_cons, List.length_nil]
      omega

theorem objectParserWith_run (iP : Nat → Bool) (f : Nat → List Nat)
    (parseF : List Nat → Option Nat) (fuelE ℓ : Nat)
    {d : deserializer} {o : Option (List (List Nat × Value))}
    {post : List Nat}
    (hcanO : canonicalV iP (.object o) = true)
    (hdec : ∀ kv ∈ o.getD [], ∀ (d2 : deserializer) (ws post2 : List Nat),
      d2.b.drop d2.idx = ws ++ serB iP f cfg2 kv.2 (ℓ + 1) ++ post2 →
      (∀ b ∈ ws, isSpace b = true) →
      post2.head?.all (fun c => c = 10 || c = 44) →
      ∃ d' nd, jsonParserC parseF fuelE d2 = (d', ⟨kv.2, nd⟩, COK true) ∧
        d'.b = d2.b ∧
        d'.idx = d2.idx + ws.length + (serB iP f cfg2 kv.2 (ℓ + 1)).length)
    (hdrop : d.b.drop d.idx = serB iP f cfg2 (.object o) ℓ ++ post)
    (hpost : post.head?.all (fun c => c = 10 || c = 44)) :
    ∃ d' nd, objectParserWith (jsonParserEFun (jsonParserC parseF fuelE)) d =
      (d', ⟨.object o, nd⟩, COK true) ∧ d'.b = d.b ∧
      d'.idx = d.idx + (serB iP f cfg2 (.object o) ℓ).length := by
  cases o with
  | none =>
    have hdropC : d.b.drop d.idx = 123 :: (125 :: post) := by
      rw [hdrop, show serB iP f cfg2 (.object none) ℓ = [123, 125] from rfl]
      rfl
    have hq123 : byteParser 123 d =
        (⟨d.b, d.idx + 1, d.row, d.col + 1⟩, 123, OK true) := by
      rw [byteParser_drop_cons hdropC]
      rfl
    have hchainB := chain_discard_one hq123
    have hdrop1 : (⟨d.b, d.idx + 1, d.row, d.col + 1⟩ :
        deserializer).b.drop (⟨d.b, d.idx + 1, d.row, d.col + 1⟩ :
        deserializer).idx = 125 :: post := drop_cons_succ hdropC
    have hid : skipSpaces (⟨d.b, d.idx + 1, d.row, d.col + 1⟩ :
        deserializer) = ⟨d.b, d.idx + 1, d.row, d.col + 1⟩ :=
      skipSpaces_id (by rw [hdrop1]; rfl)
    have hb125 := byteParser_drop_cons hdrop1
    have hend : Discard (trimSpaceParser (byteParser 125))
        (⟨d.b, d.idx + 1, d.row, d.col + 1⟩ : deserializer) =
        (⟨d.b, d.idx + 2, d.row, d.col + 2⟩, ⟨⟩, OK true) := by
      show ((byteParser 125 (skipSpaces (⟨d.b, d.idx + 1, d.row,
        d.col + 1⟩ : deserializer))).1, (⟨⟩ : Empty),
        (byteParser 125 (skipSpaces (⟨d.b, d.idx + 1, d.row,
          d.col + 1⟩ : deserializer))).2.2) = _
      rw [hid, hb125]
      rfl
    have hlist := listParser_end
      (trimSpaceParser (objectElemParser
        (jsonParserEFun (jsonParserC parseF fuelE))))
      (Discard (trimSpaceParser (byteParser 44))) hend rfl
    have hcomp : compositeParser (Discard (byteParser 123))
        (Discard (trimSpaceParser (byteParser 125)))
        (Discard (trimSpaceParser (byteParser 44)))
        (trimSpaceParser (objectElemParser
          (jsonParserEFun (jsonParserC parseF fuelE)))) d =
        (⟨d.b, d.idx + 2, d.row, d.col + 2⟩, [], COK true) := by
      unfold compositeParser
      exact surround_run hchainB hlist
    have hloc : objectInner (jsonParserEFun (jsonParserC parseF fuelE)) d =
        (⟨d.b, d.idx + 2, d.row, d.col + 2⟩,
          (⟨⟨d.row, d.col⟩, ⟨d.row, d.col + 2⟩, []⟩ :
            locV (List keyValue)), COK true) := by
      show ((compositeParser (Discard (byteParser 123))
          (Discard (trimSpaceParser (byteParser 125)))
          (Discard (trimSpaceParser (byteParser 44)))
          (trimSpaceParser (objectElemParser
            (jsonParserEFun (jsonParserC parseF fuelE)))) d).1,
        (⟨⟨d.row, d.col⟩,
          ⟨(compositeParser (Discard (byteParser 123))
            (Discard (trimSpaceParser (byteParser 125)))
            (Discard (trimSpaceParser (byteParser 44)))
            (trimSpaceParser (objectElemParser
              (jsonParserEFun (jsonParserC parseF fuelE)))) d).1.row,
           (compositeParser (Discard (byteParser 123))
            (Discard (trimSpaceParser (byteParser 125)))
            (Discard (trimSpaceParser (byteParser 44)))
            (trimSpaceParser (objectElemParser
              (jsonParserEFun (jsonParserC parseF fuelE)))) d).1.col⟩,
          (compositeParser (Discard (byteParser 123))
            (Discard (trimSpaceParser (byteParser 125)))
            (Discard (trimSpaceParser (byteParser 44)))
            (trimSpaceParser (objectElemParser
              (jsonParserEFun (jsonParserC parseF fuelE)))) d).2.1⟩ :
          locV (List keyValue)),
        (compositeParser (Discard (byteParser 123))
          (Discard (trimSpaceParser (byteParser 125)))
          (Discard (trimSpaceParser (byteParser 44)))
          (trimSpaceParser (objectElemParser
            (jsonParserEFun (jsonParserC parseF fuelE)))) d).2.2) = _
      rw [hcomp]
    have hval : objectParserWith (jsonParserEFun (jsonParserC parseF fuelE))
        d = (⟨d.b, d.idx + 2, d.row, d.col + 2⟩,
          (⟨.object none, .mk [] [] ⟨d.row, d.col⟩ ⟨d.row, d.col + 2⟩⟩ :
            output), COK true) := Validate_run hloc rfl
    exact ⟨⟨d.b, d.idx + 2, d.row, d.col + 2⟩, _, hval, rfl, rfl⟩
  | some es =>
    cases es with
    | nil =>
      have h0 : canonicalV iP (.object (some [])) = false := rfl
      rw [h0] at hcanO
      exact absurd hcanO (by decide)
    | cons kv₁ es' =>
      obtain ⟨k₁, v₁⟩ := kv₁
      have hcan2 : (!((k₁, v₁) :: es').isEmpty &&
          canonicalP iP ((k₁, v₁) :: es')) = true := hcanO
      have hcanP1 : canonicalP iP ((k₁, v₁) :: es') = true :=
        (Bool.and_eq_true _ _ |>.mp hcan2).2
      have hcan3 : (k₁.all (plainChar iP) && canonicalV iP v₁ &&
          canonicalP iP es') = true := hcanP1
      have hk₁all : ∀ b ∈ k₁, plainChar iP b = true := by
        have := (Bool.and_eq_true _ _ |>.mp
          ((Bool.and_eq_true _ _ |>.mp hcan3).1)).1
        exact fun b hb => List.all_eq_true.mp this b hb
      have hcv₁ : canonicalV iP v₁ = true :=
        (Bool.and_eq_true _ _ |>.mp ((Bool.and_eq_true _ _ |>.mp hcan3).1)).2
      have hcanP' : canonicalP iP es' = true :=
        (Bool.and_eq_true _ _ |>.mp hcan3).2
      have hdecL : ∀ kv ∈ (k₁, v₁) :: es',
          ∀ (d2 : deserializer) (ws post2 : List Nat),
          d2.b.drop d2.idx = ws ++ serB iP f cfg2 kv.2 (ℓ + 1) ++ post2 →
          (∀ b ∈ ws, isSpace b = true) →
          post2.head?.all (fun c => c = 10 || c = 44) →
          ∃ d' nd, jsonParserC parseF fuelE d2 =
            (d', ⟨kv.2, nd⟩, COK true) ∧ d'.b = d2.b ∧
            d'.idx = d2.idx + ws.length +
              (serB iP f cfg2 kv.2 (ℓ + 1)).length := hdec
      have hserOB : serB iP f cfg2 (.object (some ((k₁, v₁) :: es'))) ℓ =
          [123] ++ appendIndent cfg2 (ℓ + 1) [] ++ (34 :: k₁ ++ [34]) ++
            [58] ++ [32] ++ serB iP f cfg2 v₁ (ℓ + 1) ++
            serPTail iP f cfg2 es' ℓ ++ appendIndent cfg2 ℓ [] ++
            [125] := by
        rw [show serB iP f cfg2 (.object (some ((k₁, v₁) :: es'))) ℓ =
          [123] ++ appendIndent cfg2 (ℓ + 1) [] ++ quote iP k₁ ++ [58] ++
            List.replicate cfg2.KeyValueGap 32 ++
            serB iP f cfg2 v₁ (ℓ + 1) ++ serPTail iP f cfg2 es' ℓ ++
            appendIndent cfg2 ℓ [] ++ [125] from rfl, quote_plain hk₁all]
        rfl
      have hdropC : d.b.drop d.idx =
          123 :: (appendIndent cfg2 (ℓ + 1) [] ++
            (34 :: (k₁ ++ 34 :: (58 :: 32 ::
              (serB iP f cfg2 v₁ (ℓ + 1) ++
                (serPTail iP f cfg2 es' ℓ ++
                  (appendIndent cfg2 ℓ [] ++ 125 :: post))))))) := by
        rw [hdrop, hserOB]
        simp [List.append_assoc]
      have hq123 : byteParser 123 d =
          (⟨d.b, d.idx + 1, d.row, d.col + 1⟩, 123, OK true) := by
        rw [byteParser_drop_cons hdropC]
        rfl
      have hchainB := chain_discard_one hq123
      have hdrop1 : d.b.drop (d.idx + 1) =
          appendIndent cfg2 (ℓ + 1) [] ++
            (34 :: (k₁ ++ 34 :: (58 :: 32 ::
              (serB iP f cfg2 v₁ (ℓ + 1) ++
                (serPTail iP f cfg2 es' ℓ ++
                  (appendIndent cfg2 ℓ [] ++ 125 :: post)))))) :=
        drop_cons_succ hdropC
      obtain ⟨rs, cs, hskip⟩ := skipSpaces_over
        (d := ⟨d.b, d.idx + 1, d.row, d.col + 1⟩)
        hdrop1 (indent_space (ℓ + 1)) rfl
      have hdws : d.b.drop (d.idx + 1 +
          (appendIndent cfg2 (ℓ + 1) []).length) =
          34 :: (k₁ ++ 34 :: (58 :: 32 ::
            (serB iP f cfg2 v₁ (ℓ + 1) ++
              (serPTail iP f cfg2 es' ℓ ++
                (appendIndent cfg2 ℓ [] ++ 125 :: post))))) :=
        drop_append_of_drop hdrop1
      have h125m : (d.b.drop (d.idx + 1 +
          (appendIndent cfg2 (ℓ + 1) []).length)).head? ≠ some 125 := by
        rw [hdws]
        simp
      have hend : Discard (trimSpaceParser (byteParser 125))
          (⟨d.b, d.idx + 1, d.row, d.col + 1⟩ : deserializer) =
          (⟨d.b, d.idx + 1 + (appendIndent cfg2 (ℓ + 1) []).length, rs, cs⟩,
            ⟨⟩, OK false) := by
        show ((byteParser 125 (skipSpaces (⟨d.b, d.idx + 1, d.row,
          d.col + 1⟩ : deserializer))).1, (⟨⟩ : Empty),
          (byteParser 125 (skipSpaces (⟨d.b, d.idx + 1, d.row,
            d.col + 1⟩ : deserializer))).2.2) = _
        rw [hskip, byteParser_miss h125m]
      have hpost2 : (serPTail iP f cfg2 es' ℓ ++
          (appendIndent cfg2 ℓ [] ++ 125 :: post)).head?.all
          (fun c => c = 10 || c = 44) := by
        cases es' with
        | nil =>
          rw [show serPTail iP f cfg2 [] ℓ = [] from rfl, List.nil_append,
            appendIndent_cfg2]
          rfl
        | cons w ws => rfl
      have hdropE : (⟨d.b, d.idx + 1 +
          (appendIndent cfg2 (ℓ + 1) []).length, rs, cs⟩ :
          deserializer).b.drop (⟨d.b, d.idx + 1 +
            (appendIndent cfg2 (ℓ + 1) []).length, rs, cs⟩ :
          deserializer).idx = [] ++ (34 :: (k₁ ++ 34 :: (58 :: 32 ::
            (serB iP f cfg2 v₁ (ℓ + 1) ++
              (serPTail iP f cfg2 es' ℓ ++
                (appendIndent cfg2 ℓ [] ++ 125 :: post)))))) := by
        show d.b.drop (d.idx + 1 +
          (appendIndent cfg2 (ℓ + 1) []).length) = _
        rw [List.nil_append]
        exact hdws
      obtain ⟨dc₂, kv₂, hrun, hkey₂, hval₂, hb₂, hidx₂⟩ :=
        objectElemParserTS_run iP f parseF fuelE ℓ hk₁all hcv₁
          (hdecL (k₁, v₁) (List.mem_cons_self _ _)) hdropE
          (fun b hb => absurd hb (List.not_mem_nil b)) hpost2
      have hlistgo := listParser_go
        (Discard (trimSpaceParser (byteParser 44))) hend hrun
      have hstepdrop : d.b.drop (d.idx + 1 +
          (appendIndent cfg2 (ℓ + 1) []).length + 1 + k₁.length + 1 + 1 +
          1 + (serB iP f cfg2 v₁ (ℓ + 1)).length) =
          serPTail iP f cfg2 es' ℓ ++
            (appendIndent cfg2 ℓ [] ++ 125 :: post) := by
        have h2 := drop_cons_succ hdws
        have h3 := drop_append_of_drop (i := d.idx + 1 +
          (appendIndent cfg2 (ℓ + 1) []).length + 1) h2
        have h4 := drop_cons_succ h3
        have h5 := drop_cons_succ h4
        have h6 := drop_cons_succ h5
        exact drop_append_of_drop (i := d.idx + 1 +
          (appendIndent cfg2 (ℓ + 1) []).length + 1 + k₁.length + 1 + 1 +
          1) h6
      have hdropNext : dc₂.b.drop dc₂.idx =
          serPTail iP f cfg2 es' ℓ ++ appendIndent cfg2 ℓ [] ++
            125 :: post := by
        rw [hb₂, hidx₂]
        show d.b.drop (d.idx + 1 +
          (appendIndent cfg2 (ℓ + 1) []).length +
          ([] : List Nat).length + k₁.length + 4 +
          (serB iP f cfg2 v₁ (ℓ + 1)).length) = _
        rw [show d.idx + 1 + (appendIndent cfg2 (ℓ + 1) []).length +
          ([] : List Nat).length + k₁.length + 4 +
          (serB iP f cfg2 v₁ (ℓ + 1)).length =
          d.idx + 1 + (appendIndent cfg2 (ℓ + 1) []).length + 1 +
            k₁.length + 1 + 1 + 1 +
            (serB iP f cfg2 v₁ (ℓ + 1)).length by
          simp only [List.length_nil]
          omega]
        rw [hstepdrop]
        simp [List.append_assoc]
      have hlen : (d.b.drop d.idx).length = d.b.length - d.idx := by simp
      rw [hdropC] at hlen
      simp only [List.length_cons, List.length_append] at hlen
      have hfuelL : dc₂.b.length + 1 - dc₂.idx ≤
          (⟨d.b, d.idx + 1, d.row, d.col + 1⟩ :
            deserializer).b.length + 1 -
          (⟨d.b, d.idx + 1, d.row, d.col + 1⟩ : deserializer).idx := by
        rw [hb₂, hidx₂]
        show d.b.length + 1 - (d.idx + 1 +
          (appendIndent cfg2 (ℓ + 1) []).length +
          ([] : List Nat).length + k₁.length + 4 +
          (serB iP f cfg2 v₁ (ℓ + 1)).length) ≤
          d.b.length + 1 - (d.idx + 1)
        simp only [List.length_nil]
        omega
      obtain ⟨dF, outs, heqL, hmap, hbF, hidxF⟩ := listLoop_obj iP f parseF
        fuelE ℓ post hpost es' hcanP'
        (fun kv' h' => hdecL kv' (List.mem_cons_of_mem _ h')) dc₂
        ⟨d.b, d.idx + 1, d.row, d.col + 1⟩
        ((⟨d.b, d.idx + 1, d.row, d.col + 1⟩ :
          deserializer).b.length + 1 -
          (⟨d.b, d.idx + 1, d.row, d.col + 1⟩ : deserializer).idx)
        [kv₂] hdropNext hfuelL
      have hlist : listParser (trimSpaceParser (objectElemParser
          (jsonParserEFun (jsonParserC parseF fuelE))))
          (Discard (trimSpaceParser (byteParser 44)))
          (Discard (trimSpaceParser (byteParser 125)))
          (⟨d.b, d.idx + 1, d.row, d.col + 1⟩ : deserializer) =
          (dF, [kv₂] ++ outs, COK true) := by
        rw [hlistgo, heqL]
      have hcomp : compositeParser (Discard (byteParser 123))
          (Discard (trimSpaceParser (byteParser 125)))
          (Discard (trimSpaceParser (byteParser 44)))
          (trimSpaceParser (objectElemParser
            (jsonParserEFun (jsonParserC parseF fuelE)))) d =
          (dF, [kv₂] ++ outs, COK true) := by
        unfold compositeParser
        exact surround_run hchainB hlist
      have hloc : objectInner (jsonParserEFun (jsonParserC parseF fuelE))
          d = (dF, (⟨⟨d.row, d.col⟩, ⟨dF.row, dF.col⟩, [kv₂] ++ outs⟩ :
            locV (List keyValue)), COK true) := by
        show ((compositeParser (Discard (byteParser 123))
            (Discard (trimSpaceParser (byteParser 125)))
            (Discard (trimSpaceParser (byteParser 44)))
            (trimSpaceParser (objectElemParser
              (jsonParserEFun (jsonParserC parseF fuelE)))) d).1,
          (⟨⟨d.row, d.col⟩,
            ⟨(compositeParser (Discard (byteParser 123))
              (Discard (trimSpaceParser (byteParser 125)))
              (Discard (trimSpaceParser (byteParser 44)))
              (trimSpaceParser (objectElemParser
                (jsonParserEFun (jsonParserC parseF fuelE)))) d).1.row,
             (compositeParser (Discard (byteParser 123))
              (Discard (trimSpaceParser (byteParser 125)))
              (Discard (trimSpaceParser (byteParser 44)))
              (trimSpaceParser (objectElemParser
                (jsonParserEFun (jsonParserC parseF fuelE)))) d).1.col⟩,
            (compositeParser (Discard (byteParser 123))
              (Discard (trimSpaceParser (byteParser 125)))
              (Discard (trimSpaceParser (byteParser 44)))
              (trimSpaceParser (objectElemParser
                (jsonParserEFun (jsonParserC parseF fuelE)))) d).2.1⟩ :
            locV (List keyValue)),
          (compositeParser (Discard (byteParser 123))
            (Discard (trimSpaceParser (byteParser 125)))
            (Discard (trimSpaceParser (byteParser 44)))
            (trimSpaceParser (objectElemParser
              (jsonParserEFun (jsonParserC parseF fuelE)))) d).2.2) = _
        rw [hcomp]
      have hmapAll : ([kv₂] ++ outs).map
          (fun kv => (kv.key.v, kv.value.value)) = (k₁, v₁) :: es' := by
        simp [hmap, hkey₂, hval₂]
      have hfold : ([kv₂] ++ outs).foldl
          (fun acc kv => objectAdd acc kv.key.v kv.value.value) none =
          some ((k₁, v₁) :: es') := by
        have h1 : (([kv₂] ++ outs).map
            (fun kv => (kv.key.v, kv.value.value))).foldl
            (fun acc p => objectAdd acc p.1 p.2) none =
            some ((k₁, v₁) :: es') := by
          rw [hmapAll, foldl_objectAdd]
          rfl
        rw [List.foldl_map] at h1
        exact h1
      have hobj : objectBuild (⟨⟨d.row, d.col⟩, ⟨dF.row, dF.col⟩,
          [kv₂] ++ outs⟩ : locV (List keyValue)) =
          ⟨.object (some ((k₁, v₁) :: es')),
            .mk (([kv₂] ++ outs).map
              (fun kv => ([], kv.key.start, kv.key.stop, kv.value.node)))
              [] ⟨d.row, d.col⟩ ⟨dF.row, dF.col⟩⟩ := by
        show (⟨.object (([kv₂] ++ outs).foldl
            (fun acc kv => objectAdd acc kv.key.v kv.value.value) none),
          .mk (([kv₂] ++ outs).map
            (fun kv => ([], kv.key.start, kv.key.stop, kv.value.node)))
            [] ⟨d.row, d.col⟩ ⟨dF.row, dF.col⟩⟩ : output) = _
        rw [hfold]
      have hvalid : objectParserWith
          (jsonParserEFun (jsonParserC parseF fuelE)) d =
          (dF, objectBuild (⟨⟨d.row, d.col⟩, ⟨dF.row, dF.col⟩,
            [kv₂] ++ outs⟩ : locV (List keyValue)), COK true) :=
        Validate_run hloc rfl
      rw [hobj] at hvalid
      refine ⟨dF, _, hvalid, ?_, ?_⟩
      · rw [hbF, hb₂]
      · rw [hidxF, hidx₂, hserOB]
        show d.idx + 1 + (appendIndent cfg2 (ℓ + 1) []).length +
          ([] : List Nat).length + k₁.length + 4 +
          (serB iP f cfg2 v₁ (ℓ + 1)).length +
          (serPTail iP f cfg2 es' ℓ).length +
          (appendIndent cfg2 ℓ []).length + 1 = _
        simp only [List.length_append, List.length_cons, List.length_nil]
        omega

theorem canonicalV_of_memL {iP : Nat → Bool} {v : Value} :
    ∀ {vs : List Value}, v ∈ vs → canonicalL iP vs = true →
      canonicalV iP v = true := by
  intro vs
  induction vs with
  | nil => intro h; exact absurd h (List.not_mem_nil v)
  | cons v' vs ih =>
    intro h hc
    have hc2 : (canonicalV iP v' && canonicalL iP vs) = true := hc
    rcases List.mem_cons.mp h with h' | h'
    · subst h'
      exact (Bool.and_eq_true _ _ |>.mp hc2).1
    · exact ih h' (Bool.and_eq_true _ _ |>.mp hc2).2

theorem canonicalV_of_memP {iP : Nat → Bool} {kv : List Nat × Value} :
    ∀ {es : List (List Nat × Value)}, kv ∈ es → canonicalP iP es = true →
      canonicalV iP kv.2 = true := by
  intro es
  induction es with
  | nil => intro h; exact absurd h (List.not_mem_nil kv)
  | cons kv' es ih =>
    intro h hc
    have hc2 : (kv'.1.all (plainChar iP) && canonicalV iP kv'.2 &&
        canonicalP iP es) = true := hc
    rcases List.mem_cons.mp h with h' | h'
    · subst h'
      exact (Bool.and_eq_true _ _ |>.mp
        ((Bool.and_eq_true _ _ |>.mp hc2).1)).2
    · exact ih h' (Bool.and_eq_true _ _ |>.mp hc2).2

theorem numberAppend_canon (fmtF : Nat → List Nat) (n : Number)
    (hnf : n.IsFloat = false) :
    numberAppend fmtF n [] =
      (if n.IsNeg then [45] else []) ++ formatUint n.Integer := by
  unfold numberAppend
  rw [hnf]
  by_cases hn : n.IsNeg <;> simp [hn]

theorem post_head_not_digit {post : List Nat}
    (hpost : post.head?.all (fun c => c = 10 || c = 44) = true) :
    post.head?.all (fun c => !(48 ≤ c && c ≤ 57)) = true := by
  cases post with
  | nil => rfl
  | cons c r =>
    simp only [List.head?, Option.all] at hpost ⊢
    simp at hpost ⊢
    omega

theorem post_head_not_46 {post : List Nat}
    (hpost : post.head?.all (fun c => c = 10 || c = 44) = true) :
    post.head? ≠ some 46 := by
  cases post with
  | nil => simp
  | cons c r =>
    simp only [List.head?, Option.all] at hpost ⊢
    simp at hpost ⊢
    omega

theorem serB_arr_head (iP : Nat → Bool) (f : Nat → List Nat)
    (s : Serializer) (vs : List Value) (ℓ : Nat) :
    ∃ t, serB iP f s (.array vs) ℓ = 91 :: t := by
  cases vs with
  | nil => exact ⟨[93], rfl⟩
  | cons v rest => exact ⟨_, rfl⟩

theorem serB_obj_head (iP : Nat → Bool) (f : Nat → List Nat)
    (s : Serializer) (o : Option (List (List Nat × Value))) (ℓ : Nat) :
    ∃ t, serB iP f s (.object o) ℓ = 123 :: t := by
  cases o with
  | none => exact ⟨[125], rfl⟩
  | some es =>
    cases es with
    | nil => exact ⟨[125], rfl⟩
    | cons kv es' => exact ⟨_, rfl⟩

theorem tryP_skip_of_miss {O : Type} [Inhabited O]
    {p : Parser deserializer O CombineResult}
    {ps : List (Parser deserializer O CombineResult)} {ii : deserializer}
    (h : (p ii).2.2 = COK false) :
    TryP (p :: ps) ii = TryP ps ii :=
  tryP_step_skip (by rw [h]; rfl) (by rw [h]; rfl)

theorem tryP_take_of_run {O : Type} [Inhabited O]
    {p : Parser deserializer O CombineResult}
    {ps : List (Parser deserializer O CombineResult)} {ii d' : deserializer}
    {o : O}
    (h : p ii = (d', o, COK true)) :
    TryP (p :: ps) ii = (d', o, COK true) := by
  rw [tryP_step_take (by rw [h]; rfl) (by rw [h]; rfl), h]

theorem jsonParserC_run (iP : Nat → Bool) (f : Nat → List Nat)
    (parseF : List Nat → Option Nat) :
    ∀ (fuel : Nat) (v : Value) (ℓ : Nat) (d : deserializer)
      (ws post : List Nat),
      vdepth v < fuel →
      canonicalV iP v = true →
      d.b.drop d.idx = ws ++ serB iP f cfg2 v ℓ ++ post →
      (∀ b ∈ ws, isSpace b = true) →
      post.head?.all (fun c => c = 10 || c = 44) →
    ∃ d' nd, jsonParserC parseF fuel d = (d', ⟨v, nd⟩, COK true) ∧
      d'.b = d.b ∧
      d'.idx = d.idx + ws.length + (serB iP f cfg2 v ℓ).length := by
  intro fuel
  induction fuel with
  | zero =>
    intro v ℓ d ws post hdep
    exact absurd hdep (Nat.not_lt_zero _)
  | succ fl ih =>
    intro v ℓ d ws post hdep hcan hdrop hws hpost
    obtain ⟨c₁, t₁, hser1, hsp1, hne93, hne125, hne44⟩ :=
      serB_head iP f v ℓ hcan
    have hdropR : d.b.drop d.idx =
        ws ++ (serB iP f cfg2 v ℓ ++ post) := by
      rw [hdrop, List.append_assoc]
    obtain ⟨rs, cs, hskip⟩ := skipSpaces_over hdropR hws
      (by rw [hser1]; simp [hsp1])
    have hdropS : (⟨d.b, d.idx + ws.length, rs, cs⟩ : deserializer).b.drop
        (⟨d.b, d.idx + ws.length, rs, cs⟩ : deserializer).idx =
        serB iP f cfg2 v ℓ ++ post := drop_append_of_drop hdropR
    cases v with
    | null =>
      have hd0 : (⟨d.b, d.idx + ws.length, rs, cs⟩ : deserializer).b.drop
          (⟨d.b, d.idx + ws.length, rs, cs⟩ : deserializer).idx =
          [110, 117, 108, 108] ++ post := hdropS
      obtain ⟨d', nd, hrun, hb, hidx⟩ := nullParser_run hd0
      refine ⟨d', nd, ?_, hb, hidx⟩
      show TryP [nullParser, boolParser, numberParser parseF, stringParser,
        arrayParserWith (jsonParserC parseF fl),
        objectParserWith (jsonParserEFun (jsonParserC parseF fl))]
        (skipSpaces d) = _
      rw [hskip]
      exact tryP_take_of_run hrun
    | bool b =>
      cases b with
      | false =>
        have hd0 : (⟨d.b, d.idx + ws.length, rs, cs⟩ :
            deserializer).b.drop (⟨d.b, d.idx + ws.length, rs, cs⟩ :
            deserializer).idx = [102, 97, 108, 115, 101] ++ post := hdropS
        have hh : ((⟨d.b, d.idx + ws.length, rs, cs⟩ :
            deserializer).b.drop (⟨d.b, d.idx + ws.length, rs, cs⟩ :
            deserializer).idx).head? = some 102 := by
          rw [hd0]
          rfl
        have hmN : (nullParser (⟨d.b, d.idx + ws.length, rs, cs⟩ :
            deserializer)).2.2 = COK false :=
          nullParser_miss (by rw [hh]; decide)
        obtain ⟨d', nd, hrun, hb, hidx⟩ := boolParser_run (b := false) hd0
        refine ⟨d', nd, ?_, hb, hidx⟩
        show TryP [nullParser, boolParser, numberParser parseF, stringParser,
          arrayParserWith (jsonParserC parseF fl),
          objectParserWith (jsonParserEFun (jsonParserC parseF fl))]
          (skipSpaces d) = _
        rw [hskip, tryP_skip_of_miss hmN]
        exact tryP_take_of_run hrun
      | true =>
        have hd0 : (⟨d.b, d.idx + ws.length, rs, cs⟩ :
            deserializer).b.drop (⟨d.b, d.idx + ws.length, rs, cs⟩ :
            deserializer).idx = [116, 114, 117, 101] ++ post := hdropS
        have hh : ((⟨d.b, d.idx + ws.length, rs, cs⟩ :
            deserializer).b.drop (⟨d.b, d.idx + ws.length, rs, cs⟩ :
            deserializer).idx).head? = some 116 := by
          rw [hd0]
          rfl
        have hmN : (nullParser (⟨d.b, d.idx + ws.length, rs, cs⟩ :
            deserializer)).2.2 = COK false :=
          nullParser_miss (by rw [hh]; decide)
        obtain ⟨d', nd, hrun, hb, hidx⟩ := boolParser_run (b := true) hd0
        refine ⟨d', nd, ?_, hb, hidx⟩
        show TryP [nullParser, boolParser, numberParser parseF, stringParser,
          arrayParserWith (jsonParserC parseF fl),
          objectParserWith (jsonParserEFun (jsonParserC parseF fl))]
          (skipSpaces d) = _
        rw [hskip, tryP_skip_of_miss hmN]
        exact tryP_take_of_run hrun
    | number n =>
      have hcan3 : (!n.IsFloat && (n.Float == 0) &&
          decide (n.Integer < 2 ^ 64)) = true := hcan
      have hnf : n.IsFloat = false := by
        have := (Bool.and_eq_true _ _ |>.mp
          ((Bool.and_eq_true _ _ |>.mp hcan3).1)).1
        simpa using this
      have hfl0 : n.Float = 0 := by
        have := (Bool.and_eq_true _ _ |>.mp
          ((Bool.and_eq_true _ _ |>.mp hcan3).1)).2
        simpa using this
      have hm : n.Integer < 2 ^ 64 := by
        have := (Bool.and_eq_true _ _ |>.mp hcan3).2
        simpa using this
      have hdropS2 : (⟨d.b, d.idx + ws.length, rs, cs⟩ :
          deserializer).b.drop (⟨d.b, d.idx + ws.length, rs, cs⟩ :
          deserializer).idx =
          (if n.IsNeg then [45] else []) ++
            (formatUint n.Integer ++ post) := by
        rw [hdropS, show serB iP f cfg2 (.number n) ℓ =
          numberAppend f n [] from rfl, numberAppend_canon f n hnf]
        simp [List.append_assoc]
      obtain ⟨ch, hch, hrange⟩ : ∃ c,
          ((⟨d.b, d.idx + ws.length, rs, cs⟩ : deserializer).b.drop
            (⟨d.b, d.idx + ws.length, rs, cs⟩ :
              deserializer).idx).head? = some c ∧
          (c = 45 ∨ (48 ≤ c ∧ c ≤ 57)) := by
        cases hneg : n.IsNeg with
        | false =>
          obtain ⟨dg, l, hfu, hd48, hd57⟩ := formatUint_head n.Integer
          refine ⟨dg, ?_, Or.inr ⟨hd48, hd57⟩⟩
          rw [hdropS2, hneg, hfu]
          rfl
        | true =>
          refine ⟨45, ?_, Or.inl rfl⟩
          rw [hdropS2, hneg]
          rfl
      have hne : ∀ c0 : Nat, c0 ≠ 45 → (c0 < 48 ∨ 57 < c0) →
          ((⟨d.b, d.idx + ws.length, rs, cs⟩ : deserializer).b.drop
            (⟨d.b, d.idx + ws.length, rs, cs⟩ :
              deserializer).idx).head? ≠ some c0 := by
        intro c0 h1 h2
        rw [hch]
        intro hcon
        have hcc : ch = c0 := by injection hcon
        rcases hrange with h | h <;> omega
      have hmN : (nullParser (⟨d.b, d.idx + ws.length, rs, cs⟩ :
          deserializer)).2.2 = COK false :=
        nullParser_miss (hne 110 (by decide) (by omega))
      have hmB : (boolParser (⟨d.b, d.idx + ws.length, rs, cs⟩ :
          deserializer)).2.2 = COK false :=
        boolParser_miss (hne 116 (by decide) (by omega))
          (hne 102 (by decide) (by omega))
      have hdmain : (⟨d.b, d.idx + ws.length, rs, cs⟩ :
          deserializer).b.drop (⟨d.b, d.idx + ws.length, rs, cs⟩ :
          deserializer).idx =
          (if n.IsNeg then [45] else []) ++ formatUint n.Integer ++
            post := by
        rw [hdropS2]
        simp [List.append_assoc]
      obtain ⟨d', nd, hrun, hb, hidx⟩ := numberParser_run parseF
        hm hdmain (post_head_not_digit hpost) (post_head_not_46 hpost)
      have hveq : (⟨0, n.Integer, false, n.IsNeg⟩ : Number) = n := by
        rw [← hfl0, ← hnf]
      rw [hveq] at hrun
      refine ⟨d', nd, ?_, hb, ?_⟩
      · show TryP [nullParser, boolParser, numberParser parseF, stringParser,
          arrayParserWith (jsonParserC parseF fl),
          objectParserWith (jsonParserEFun (jsonParserC parseF fl))]
          (skipSpaces d) = _
        rw [hskip, tryP_skip_of_miss hmN, tryP_skip_of_miss hmB]
        exact tryP_take_of_run hrun
      · rw [hidx, show serB iP f cfg2 (.number n) ℓ =
          numberAppend f n [] from rfl, numberAppend_canon f n hnf]
        show d.idx + ws.length + (if n.IsNeg then 1 else 0) +
          (formatUint n.Integer).length = _
        by_cases hneg : n.IsNeg <;>
          simp [hneg, List.length_append] <;> omega
    | string s =>
      have hsall : s.all (plainChar iP) = true := hcan
      have hsp : ∀ b ∈ s, plainChar iP b = true :=
        fun b hb => List.all_eq_true.mp hsall b hb
      have hs4 : ∀ b ∈ s, 32 ≤ b ∧ b ≤ 126 ∧ b ≠ 34 ∧ b ≠ 92 := by
        intro b hb
        obtain ⟨h1, h2, h3, h4, -⟩ := plainChar_props (hsp b hb)
        exact ⟨h1, h2, h3, h4⟩
      have hd0 : (⟨d.b, d.idx + ws.length, rs, cs⟩ :
          deserializer).b.drop (⟨d.b, d.idx + ws.length, rs, cs⟩ :
          deserializer).idx = 34 :: (s ++ 34 :: post) := by
        rw [hdropS, show serB iP f cfg2 (.string s) ℓ = quote iP s from rfl,
          quote_plain hsp]
        simp [List.append_assoc]
      have hh : ((⟨d.b, d.idx + ws.length, rs, cs⟩ :
          deserializer).b.drop (⟨d.b, d.idx + ws.length, rs, cs⟩ :
          deserializer).idx).head? = some 34 := by
        rw [hd0]
        rfl
      have hmN : (nullParser (⟨d.b, d.idx + ws.length, rs, cs⟩ :
          deserializer)).2.2 = COK false :=
        nullParser_miss (by rw [hh]; decide)
      have hmB : (boolParser (⟨d.b, d.idx + ws.length, rs, cs⟩ :
          deserializer)).2.2 = COK false :=
        boolParser_miss (by rw [hh]; decide) (by rw [hh]; decide)
      have hmNum : (numberParser parseF
          (⟨d.b, d.idx + ws.length, rs, cs⟩ : deserializer)).2.2 =
          COK false :=
        numberParser_miss (by rw [hh]; decide) (by rw [hh]; decide)
      obtain ⟨d', nd, hrun, hb, hidx⟩ := stringParser_run hd0 hs4
      refine ⟨d', nd, ?_, hb, ?_⟩
      · show TryP [nullParser, boolParser, numberParser parseF, stringParser,
          arrayParserWith (jsonParserC parseF fl),
          objectParserWith (jsonParserEFun (jsonParserC parseF fl))]
          (skipSpaces d) = _
        rw [hskip, tryP_skip_of_miss hmN, tryP_skip_of_miss hmB,
          tryP_skip_of_miss hmNum]
        exact tryP_take_of_run hrun
      · rw [hidx, show serB iP f cfg2 (.string s) ℓ = quote iP s from rfl,
          quote_plain hsp]
        show d.idx + ws.length + s.length + 2 = _
        simp only [List.length_cons, List.length_append, List.length_nil]
        omega
    | array vs =>
      have hcanL : canonicalL iP vs = true := hcan
      have hdepL : vdepthL vs < fl := by
        have h1 : vdepthL vs + 1 < fl + 1 := hdep
        omega
      have hdec : ∀ v' ∈ vs, ∀ (d2 : deserializer) (ws2 post2 : List Nat),
          d2.b.drop d2.idx = ws2 ++ serB iP f cfg2 v' (ℓ + 1) ++ post2 →
          (∀ b ∈ ws2, isSpace b = true) →
          post2.head?.all (fun c => c = 10 || c = 44) →
          ∃ d' nd, jsonParserC parseF fl d2 = (d', ⟨v', nd⟩, COK true) ∧
            d'.b = d2.b ∧
            d'.idx = d2.idx + ws2.length +
              (serB iP f cfg2 v' (ℓ + 1)).length :=
        fun v' hv' d2 ws2 post2 hdr hws2 hp2 =>
          ih v' (ℓ + 1) d2 ws2 post2
            (lt_of_le_of_lt (vdepth_le_of_memL hv') hdepL)
            (canonicalV_of_memL hv' hcanL) hdr hws2 hp2
      obtain ⟨t91, ht91⟩ := serB_arr_head iP f cfg2 vs ℓ
      have hh : ((⟨d.b, d.idx + ws.length, rs, cs⟩ :
          deserializer).b.drop (⟨d.b, d.idx + ws.length, rs, cs⟩ :
          deserializer).idx).head? = some 91 := by
        rw [hdropS, ht91]
        rfl
      have hmN : (nullParser (⟨d.b, d.idx + ws.length, rs, cs⟩ :
          deserializer)).2.2 = COK false :=
        nullParser_miss (by rw [hh]; decide)
      have hmB : (boolParser (⟨d.b, d.idx + ws.length, rs, cs⟩ :
          deserializer)).2.2 = COK false :=
        boolParser_miss (by rw [hh]; decide) (by rw [hh]; decide)
      have hmNum : (numberParser parseF
          (⟨d.b, d.idx + ws.length, rs, cs⟩ : deserializer)).2.2 =
          COK false :=
        numberParser_miss (by rw [hh]; decide) (by rw [hh]; decide)
      have hmS : (stringParser (⟨d.b, d.idx + ws.length, rs, cs⟩ :
          deserializer)).2.2 = COK false :=
        stringParser_miss (by rw [hh]; decide)
      obtain ⟨d', nd, hrun, hb, hidx⟩ := arrayParserWith_run iP f parseF fl ℓ
        hcanL hdec hdropS hpost
      refine ⟨d', nd, ?_, hb, hidx⟩
      show TryP [nullParser, boolParser, numberParser parseF, stringParser,
        arrayParserWith (jsonParserC parseF fl),
        objectParserWith (jsonParserEFun (jsonParserC parseF fl))]
        (skipSpaces d) = _
      rw [hskip, tryP_skip_of_miss hmN, tryP_skip_of_miss hmB,
        tryP_skip_of_miss hmNum, tryP_skip_of_miss hmS]
      exact tryP_take_of_run hrun
    | object o =>
      have hdec : ∀ kv ∈ o.getD [],
          ∀ (d2 : deserializer) (ws2 post2 : List Nat),
          d2.b.drop d2.idx = ws2 ++ serB iP f cfg2 kv.2 (ℓ + 1) ++ post2 →
          (∀ b ∈ ws2, isSpace b = true) →
          post2.head?.all (fun c => c = 10 || c = 44) →
          ∃ d' nd, jsonParserC parseF fl d2 = (d', ⟨kv.2, nd⟩, COK true) ∧
            d'.b = d2.b ∧
            d'.idx = d2.idx + ws2.length +
              (serB iP f cfg2 kv.2 (ℓ + 1)).length := by
        cases o with
        | none =>
          intro kv h
          exact absurd h (List.not_mem_nil kv)
        | some es =>
          intro kv h d2 ws2 post2 hdr hws2 hp2
          have hdepP : vdepthP es < fl := by
            have h1 : vdepthP es + 1 < fl + 1 := hdep
            omega
          have hcanPes : canonicalP iP es = true := by
            have h2 : (!es.isEmpty && canonicalP iP es) = true := hcan
            exact (Bool.and_eq_true _ _ |>.mp h2).2
          exact ih kv.2 (ℓ + 1) d2 ws2 post2
            (lt_of_le_of_lt (vdepth_le_of_memP h) hdepP)
            (canonicalV_of_memP h hcanPes) hdr hws2 hp2
      obtain ⟨t123, ht123⟩ := serB_obj_head iP f cfg2 o ℓ
      have hh : ((⟨d.b, d.idx + ws.length, rs, cs⟩ :
          deserializer).b.drop (⟨d.b, d.idx + ws.length, rs, cs⟩ :
          deserializer).idx).head? = some 123 := by
        rw [hdropS, ht123]
        rfl
      have hmN : (nullParser (⟨d.b, d.idx + ws.length, rs, cs⟩ :
          deserializer)).2.2 = COK false :=
        nullParser_miss (by rw [hh]; decide)
      have hmB : (boolParser (⟨d.b, d.idx + ws.length, rs, cs⟩ :
          deserializer)).2.2 = COK false :=
        boolParser_miss (by rw [hh]; decide) (by rw [hh]; decide)
      have hmNum : (numberParser parseF
          (⟨d.b, d.idx + ws.length, rs, cs⟩ : deserializer)).2.2 =
          COK false :=
        numberParser_miss (by rw [hh]; decide) (by rw [hh]; decide)
      have hmS : (stringParser (⟨d.b, d.idx + ws.length, rs, cs⟩ :
          deserializer)).2.2 = COK false :=
        stringParser_miss (by rw [hh]; decide)
      have hmA : (arrayParserWith (jsonParserC parseF fl)
          (⟨d.b, d.idx + ws.length, rs, cs⟩ : deserializer)).2.2 =
          COK false :=
        arrayParserWith_miss _ (by rw [hh]; decide)
      obtain ⟨d', nd, hrun, hb, hidx⟩ := objectParserWith_run iP f parseF
        fl ℓ hcan hdec hdropS hpost
      refine ⟨d', nd, ?_, hb, hidx⟩
      show TryP [nullParser, boolParser, numberParser parseF, stringParser,
        arrayParserWith (jsonParserC parseF fl),
        objectParserWith (jsonParserEFun (jsonParserC parseF fl))]
        (skipSpaces d) = _
      rw [hskip, tryP_skip_of_miss hmN, tryP_skip_of_miss hmB,
        tryP_skip_of_miss hmNum, tryP_skip_of_miss hmS,
        tryP_skip_of_miss hmA]
      exact tryP_take_of_run hrun


theorem numberAppend_float0 (fmtF : Nat → List Nat) (n : Number)
    (hf : n.IsFloat = true) :
    numberAppend fmtF n [] =
      (if n.IsNeg then [45] else []) ++ dotForm (fmtF n.Float) := by
  rw [numberAppend_float fmtF n hf []]
  by_cases hneg : n.IsNeg <;> simp [hneg]

/-- The first serialized byte of a junk-free tree is never white space or a
closing delimiter; only the float-kind number case consults the
`FormatFloat` shape. -/
theorem serB_head_n (iP : Nat → Bool) (f : Nat → List Nat) (v : Value)
    (ℓ : Nat) (hfl : ∀ x ∈ floatsOf v, floatShape (dotForm (f x))) :
    ∃ c t, serB iP f cfg2 v ℓ = c :: t ∧ isSpace c = false ∧
      c ≠ 93 ∧ c ≠ 125 ∧ c ≠ 44 := by
  cases v with
  | null => exact ⟨110, _, rfl, rfl, by decide, by decide, by decide⟩
  | bool b =>
    cases b with
    | true => exact ⟨116, _, rfl, rfl, by decide, by decide, by decide⟩
    | false => exact ⟨102, _, rfl, rfl, by decide, by decide, by decide⟩
  | number n =>
    show ∃ c t, numberAppend f n [] = c :: t ∧ _
    by_cases hq : n.IsFloat
    · have hsh : floatShape (dotForm (f n.Float)) := by
        refine hfl n.Float ?_
        show n.Float ∈ (if n.IsFloat then [n.Float] else [])
        rw [if_pos hq]
        exact List.mem_singleton.mpr rfl
      obtain ⟨d1, d2, hdf, hne1, hne2, hdig1, hdig2⟩ := hsh
      rw [numberAppend_float0 f n hq]
      by_cases hneg : n.IsNeg
      · refine ⟨45, d1 ++ 46 :: d2, ?_, by decide, by decide, by decide,
          by decide⟩
        rw [if_pos hneg, hdf]
        rfl
      · cases d1 with
        | nil => exact absurd rfl hne1
        | cons dd l =>
          have hb := hdig1 dd (List.mem_cons_self _ _)
          refine ⟨dd, l ++ 46 :: d2, ?_, ?_, by omega, by omega, by omega⟩
          · rw [if_neg hneg, hdf]
            rfl
          · simp [isSpace]
            omega
    · have hnf : n.IsFloat = false := by simpa using hq
      unfold numberAppend
      rw [hnf]
      simp only [Bool.false_eq_true, if_false]
      obtain ⟨dd, l, he, hd1, hd2⟩ := formatUint_head n.Integer
      by_cases hneg : n.IsNeg
      · refine ⟨45, _, by rw [if_pos hneg, he]; rfl, by decide, by decide,
          by decide, by decide⟩
      · refine ⟨dd, l, by rw [if_neg hneg, he]; rfl, ?_, by omega, by omega,
          by omega⟩
        simp [isSpace]
        omega
  | string str =>
    exact ⟨34, _, rfl, rfl, by decide, by decide, by decide⟩
  | array vs =>
    cases vs with
    | nil => exact ⟨91, [93], rfl, rfl, by decide, by decide, by decide⟩
    | cons v rest =>
      exact ⟨91, _, rfl, rfl, by decide, by decide, by decide⟩
  | object o =>
    cases o with
    | none => exact ⟨123, [125], rfl, rfl, by decide, by decide, by decide⟩
    | some es =>
      cases es with
      | nil => exact ⟨123, [125], rfl, rfl, by decide, by decide, by decide⟩
      | cons kv rest =>
        exact ⟨123, _, rfl, rfl, by decide, by decide, by decide⟩

theorem objectElemParser_run_q (iP : Nat → Bool) (f : Nat → List Nat)
    (parseF : List Nat → Option Nat) (fuelE ℓ : Nat)
    {d2 : deserializer} {k : List Nat} {v : Value} {post2 : List Nat}
    (hiP : iP 10 = false)
    (hkb : ∀ b ∈ k, b < 256)
    (hflv : ∀ x ∈ floatsOf v, floatShape (dotForm (f x)))
    (hvdec : ∀ (d3 : deserializer) (ws post3 : List Nat),
      d3.b.drop d3.idx = ws ++ serB iP f cfg2 v (ℓ + 1) ++ post3 →
      (∀ b ∈ ws, isSpace b = true) →
      post3.head?.all (fun c => c = 10 || c = 44) →
      ∃ d' nd, jsonParserC parseF fuelE d3 = (d', ⟨v, nd⟩, COK true) ∧
        d'.b = d3.b ∧
        d'.idx = d3.idx + ws.length + (serB iP f cfg2 v (ℓ + 1)).length)
    (hdrop : d2.b.drop d2.idx =
      quote iP k ++ (58 :: 32 ::
        (serB iP f cfg2 v (ℓ + 1) ++ post2)))
    (hpost : post2.head?.all (fun c => c = 10 || c = 44)) :
    ∃ d' kv, objectElemParser (jsonParserEFun (jsonParserC parseF fuelE))
        d2 = (d', kv, COK true) ∧
      kv.key.v = k ∧ kv.value.value = v ∧ d'.b = d2.b ∧
      d'.idx = d2.idx + (quote iP k).length + 2 +
        (serB iP f cfg2 v (ℓ + 1)).length := by
  obtain ⟨rk, ck, hraw⟩ := rawStringParser_run_quote iP hiP hkb hdrop
  have hlocK : locParser rawStringParser d2 =
      (⟨d2.b, d2.idx + (quote iP k).length, rk, ck⟩,
        (⟨⟨d2.row, d2.col⟩, ⟨rk, ck⟩, k⟩ : locV (List Nat)), COK true) := by
    show ((rawStringParser d2).1,
      (⟨⟨d2.row, d2.col⟩, ⟨(rawStringParser d2).1.row,
        (rawStringParser d2).1.col⟩, (rawStringParser d2).2.1⟩ :
        locV (List Nat)),
      (rawStringParser d2).2.2) = _
    rw [hraw]
  have hkeyP := MapO_run
    (fun s : locV (List Nat) =>
      ({ key := s, value := default } : keyValue)) hlocK
  have hdropK : d2.b.drop (d2.idx + (quote iP k).length) =
      58 :: (32 :: (serB iP f cfg2 v (ℓ + 1) ++ post2)) :=
    drop_append_of_drop hdrop
  have hq58 : byteParser 58
      (⟨d2.b, d2.idx + (quote iP k).length, rk, ck⟩ : deserializer) =
      (⟨d2.b, d2.idx + (quote iP k).length + 1, rk, ck + 1⟩, 58, OK true) := by
    show byteParser 58 (⟨d2.b, d2.idx + (quote iP k).length, rk, ck⟩ :
      deserializer) = _
    rw [byteParser_drop_cons
      (show (⟨d2.b, d2.idx + (quote iP k).length, rk, ck⟩ :
        deserializer).b.drop (⟨d2.b, d2.idx + (quote iP k).length, rk, ck⟩ :
        deserializer).idx = 58 :: (32 ::
          (serB iP f cfg2 v (ℓ + 1) ++ post2)) from hdropK)]
    rfl
  have hid58 : skipSpaces (⟨d2.b, d2.idx + (quote iP k).length, rk, ck⟩ :
      deserializer) = ⟨d2.b, d2.idx + (quote iP k).length, rk, ck⟩ :=
    skipSpaces_id (by
      show (d2.b.drop (d2.idx + (quote iP k).length)).head?.all
        (fun c => !isSpace c) = true
      rw [hdropK]
      rfl)
  have hcolon : Discard (trimSpaceParser
      (MapR (byteParser 58) errBoolResult))
      (⟨d2.b, d2.idx + (quote iP k).length, rk, ck⟩ : deserializer) =
      (⟨d2.b, d2.idx + (quote iP k).length + 1, rk, ck + 1⟩, ⟨⟩, COK true) := by
    show ((byteParser 58 (skipSpaces (⟨d2.b, d2.idx + (quote iP k).length, rk,
        ck⟩ : deserializer))).1, (⟨⟩ : Empty),
      errBoolResult
        (byteParser 58 (skipSpaces (⟨d2.b, d2.idx + (quote iP k).length, rk,
          ck⟩ : deserializer))).1
        (byteParser 58 (skipSpaces (⟨d2.b, d2.idx + (quote iP k).length, rk,
          ck⟩ : deserializer))).2.2) = _
    rw [hid58, hq58]
    rfl
  have hafter : ChainP [Discard (trimSpaceParser
      (MapR (byteParser 58) errBoolResult))]
      (⟨d2.b, d2.idx + (quote iP k).length, rk, ck⟩ : deserializer) =
      (⟨d2.b, d2.idx + (quote iP k).length + 1, rk, ck + 1⟩, [⟨⟩], COK true) := by
    show (if ResultC.Valid ((Discard (trimSpaceParser
            (MapR (byteParser 58) errBoolResult))
            (⟨d2.b, d2.idx + (quote iP k).length, rk, ck⟩ : deserializer)).2.2) then
            chainAux (⟨d2.b, d2.idx + (quote iP k).length, rk, ck⟩ : deserializer) []
              (Discard (trimSpaceParser (MapR (byteParser 58) errBoolResult))
                (⟨d2.b, d2.idx + (quote iP k).length, rk, ck⟩ : deserializer)).1
              ([] ++ [(Discard (trimSpaceParser
                (MapR (byteParser 58) errBoolResult))
                (⟨d2.b, d2.idx + (quote iP k).length, rk, ck⟩ : deserializer)).2.1])
          else ((⟨d2.b, d2.idx + (quote iP k).length, rk, ck⟩ : deserializer), [],
            (Discard (trimSpaceParser (MapR (byteParser 58) errBoolResult))
              (⟨d2.b, d2.idx + (quote iP k).length, rk, ck⟩ :
                deserializer)).2.2)) = _
    rw [hcolon]
    rfl
  have hp1 : surroundParser []
      (MapO (locParser rawStringParser)
        (fun s => ({ key := s, value := default } : keyValue)))
      [Discard (trimSpaceParser (MapR (byteParser 58) errBoolResult))] d2 =
      (⟨d2.b, d2.idx + (quote iP k).length + 1, rk, ck + 1⟩,
        ({ key := ⟨⟨d2.row, d2.col⟩, ⟨rk, ck⟩, k⟩, value := default } :
          keyValue), COK true) :=
    surround_run_after rfl hkeyP hafter
  have hdropV : d2.b.drop (d2.idx + (quote iP k).length + 1) =
      [32] ++ (serB iP f cfg2 v (ℓ + 1) ++ post2) :=
    drop_cons_succ hdropK
  obtain ⟨c₂, t₂, hser2, hsp2, -, -, -⟩ := serB_head_n iP f v (ℓ + 1) hflv
  obtain ⟨rv, cv, hskipV⟩ := skipSpaces_over
    (d := ⟨d2.b, d2.idx + (quote iP k).length + 1, rk, ck + 1⟩)
    hdropV
    (by intro b hb; rcases List.mem_singleton.mp hb with rfl; rfl)
    (by rw [hser2]; simp [hsp2])
  obtain ⟨dv', ndv, hvrun, hvb, hvidx⟩ := hvdec
    ⟨d2.b, d2.idx + (quote iP k).length + 1 + 1, rv, cv⟩ []
    post2
    (by
      show d2.b.drop (d2.idx + (quote iP k).length + 1 + 1) = _
      have := drop_append_of_drop (i := d2.idx + (quote iP k).length + 1) hdropV
      simpa using this)
    (by intro b hb; exact absurd hb (List.not_mem_nil b)) hpost
  have hpvE : jsonParserEFun (jsonParserC parseF fuelE)
      (⟨d2.b, d2.idx + (quote iP k).length + 1, rk, ck + 1⟩ : deserializer) =
      (dv', ⟨v, ndv⟩, Err none) := by
    show ((jsonParserC parseF fuelE (skipSpaces
        (⟨d2.b, d2.idx + (quote iP k).length + 1, rk, ck + 1⟩ : deserializer))).1,
      (jsonParserC parseF fuelE (skipSpaces
        (⟨d2.b, d2.idx + (quote iP k).length + 1, rk, ck + 1⟩ : deserializer))).2.1,
      (if ((jsonParserC parseF fuelE (skipSpaces
          (⟨d2.b, d2.idx + (quote iP k).length + 1, rk, ck + 1⟩ :
            deserializer))).2.2).Valid then Err none
       else if ((jsonParserC parseF fuelE (skipSpaces
          (⟨d2.b, d2.idx + (quote iP k).length + 1, rk, ck + 1⟩ :
            deserializer))).2.2).Err.isSome then
         ((jsonParserC parseF fuelE (skipSpaces
          (⟨d2.b, d2.idx + (quote iP k).length + 1, rk, ck + 1⟩ :
            deserializer))).2.2).ToE
       else Err (some (errNoMatch (jsonParserC parseF fuelE (skipSpaces
          (⟨d2.b, d2.idx + (quote iP k).length + 1, rk, ck + 1⟩ :
            deserializer))).1)))) = _
    rw [show skipSpaces (⟨d2.b, d2.idx + (quote iP k).length + 1, rk, ck + 1⟩ :
        deserializer) = ⟨d2.b, d2.idx + (quote iP k).length + 1 + 1, rv, cv⟩
      from hskipV]
    rw [hvrun]
    rfl
  have hp2run : ToC (LazyP (fun _ =>
      jsonParserEFun (jsonParserC parseF fuelE)))
      (⟨d2.b, d2.idx + (quote iP k).length + 1, rk, ck + 1⟩ : deserializer) =
      (dv', ⟨v, ndv⟩, COK true) := by
    show ((jsonParserEFun (jsonParserC parseF fuelE)
        (⟨d2.b, d2.idx + (quote iP k).length + 1, rk, ck + 1⟩ : deserializer)).1,
      (jsonParserEFun (jsonParserC parseF fuelE)
        (⟨d2.b, d2.idx + (quote iP k).length + 1, rk, ck + 1⟩ : deserializer)).2.1,
      ResultC.toC (jsonParserEFun (jsonParserC parseF fuelE)
        (⟨d2.b, d2.idx + (quote iP k).length + 1, rk, ck + 1⟩ :
          deserializer)).2.2) = _
    rw [hpvE]
    rfl
  have hp2 := MapO_run
    (fun o : output => ({ key := default, value := o } : keyValue)) hp2run
  have houter : ChainP
      [surroundParser []
        (MapO (locParser rawStringParser)
          (fun s => ({ key := s, value := default } : keyValue)))
        [Discard (trimSpaceParser (MapR (byteParser 58) errBoolResult))],
       MapO (ToC (LazyP (fun _ =>
         jsonParserEFun (jsonParserC parseF fuelE))))
        (fun o => ({ key := default, value := o } : keyValue))] d2 =
      (dv', [keyValue.mk ⟨⟨d2.row, d2.col⟩, ⟨rk, ck⟩, k⟩ default,
        keyValue.mk default ⟨v, ndv⟩], COK true) := by
    show (if ResultC.Valid ((surroundParser []
            (MapO (locParser rawStringParser)
              (fun s => ({ key := s, value := default } : keyValue)))
            [Discard (trimSpaceParser (MapR (byteParser 58) errBoolResult))]
            d2).2.2) then
            chainAux d2
              [MapO (ToC (LazyP (fun _ =>
                jsonParserEFun (jsonParserC parseF fuelE))))
                (fun o => ({ key := default, value := o } : keyValue))]
              (surroundParser []
                (MapO (locParser rawStringParser)
                  (fun s => ({ key := s, value := default } : keyValue)))
                [Discard (trimSpaceParser (MapR (byteParser 58)
                  errBoolResult))] d2).1
              ([] ++ [(surroundParser []
                (MapO (locParser rawStringParser)
                  (fun s => ({ key := s, value := default } : keyValue)))
                [Discard (trimSpaceParser (MapR (byteParser 58)
                  errBoolResult))] d2).2.1])
          else (d2, [], (surroundParser []
            (MapO (locParser rawStringParser)
              (fun s => ({ key := s, value := default } : keyValue)))
            [Discard (trimSpaceParser (MapR (byteParser 58) errBoolResult))]
            d2).2.2)) = _
    rw [hp1]
    show (if ResultC.Valid ((MapO (ToC (LazyP (fun _ =>
            jsonParserEFun (jsonParserC parseF fuelE))))
            (fun o => ({ key := default, value := o } : keyValue))
            (⟨d2.b, d2.idx + (quote iP k).length + 1, rk, ck + 1⟩ :
              deserializer)).2.2) then
            chainAux d2 []
              (MapO (ToC (LazyP (fun _ =>
                jsonParserEFun (jsonParserC parseF fuelE))))
                (fun o => ({ key := default, value := o } : keyValue))
                (⟨d2.b, d2.idx + (quote iP k).length + 1, rk, ck + 1⟩ :
                  deserializer)).1
              ([keyValue.mk ⟨⟨d2.row, d2.col⟩, ⟨rk, ck⟩, k⟩ default] ++
                [(MapO (ToC (LazyP (fun _ =>
                  jsonParserEFun (jsonParserC parseF fuelE))))
                  (fun o => ({ key := default, value := o } : keyValue))
                  (⟨d2.b, d2.idx + (quote iP k).length + 1, rk, ck + 1⟩ :
                    deserializer)).2.1])
          else (d2, [], (MapO (ToC (LazyP (fun _ =>
            jsonParserEFun (jsonParserC parseF fuelE))))
            (fun o => ({ key := default, value := o } : keyValue))
            (⟨d2.b, d2.idx + (quote iP k).length + 1, rk, ck + 1⟩ :
              deserializer)).2.2)) = _
    rw [hp2]
    rfl
  have hfin := MapO_run
    (fun kvs : List keyValue =>
      match kvs with
      | [kv0, kv1] => (⟨kv0.key, kv1.value⟩ : keyValue)
      | _ => default) houter
  refine ⟨dv', _, hfin, rfl, rfl, ?_, ?_⟩
  · rw [hvb]
  · rw [hvidx]
    show d2.idx + (quote iP k).length + 1 + 1 + ([] : List Nat).length +
      (serB iP f cfg2 v (ℓ + 1)).length = _
    simp only [List.length_nil]

theorem objectElemParserTS_run_q (iP : Nat → Bool) (f : Nat → List Nat)
    (parseF : List Nat → Option Nat) (fuelE ℓ : Nat)
    {d : deserializer} {ws k : List Nat} {v : Value} {post2 : List Nat}
    (hiP : iP 10 = false)
    (hkb : ∀ b ∈ k, b < 256)
    (hflv : ∀ x ∈ floatsOf v, floatShape (dotForm (f x)))
    (hvdec : ∀ (d3 : deserializer) (ws3 post3 : List Nat),
      d3.b.drop d3.idx = ws3 ++ serB iP f cfg2 v (ℓ + 1) ++ post3 →
      (∀ b ∈ ws3, isSpace b = true) →
      post3.head?.all (fun c => c = 10 || c = 44) →
      ∃ d' nd, jsonParserC parseF fuelE d3 = (d', ⟨v, nd⟩, COK true) ∧
        d'.b = d3.b ∧
        d'.idx = d3.idx + ws3.length + (serB iP f cfg2 v (ℓ + 1)).length)
    (hdrop : d.b.drop d.idx = ws ++ (quote iP k ++ (58 :: 32 ::
      (serB iP f cfg2 v (ℓ + 1) ++ post2))))
    (hws : ∀ b ∈ ws, isSpace b = true)
    (hpost : post2.head?.all (fun c => c = 10 || c = 44)) :
    ∃ d' kv, trimSpaceParser (objectElemParser
        (jsonParserEFun (jsonParserC parseF fuelE))) d = (d', kv, COK true) ∧
      kv.key.v = k ∧ kv.value.value = v ∧ d'.b = d.b ∧
      d'.idx = d.idx + ws.length + (quote iP k).length + 2 +
        (serB iP f cfg2 v (ℓ + 1)).length := by
  obtain ⟨rs, cs, hskip⟩ := skipSpaces_over hdrop hws rfl
  have hdropS : (⟨d.b, d.idx + ws.length, rs, cs⟩ : deserializer).b.drop
      (⟨d.b, d.idx + ws.length, rs, cs⟩ : deserializer).idx =
      quote iP k ++ (58 :: 32 ::
        (serB iP f cfg2 v (ℓ + 1) ++ post2)) := drop_append_of_drop hdrop
  obtain ⟨d', kv, hrun, hkey, hval, hb', hidx'⟩ :=
    objectElemParser_run_q iP f parseF fuelE ℓ hiP hkb hflv hvdec hdropS
      hpost
  refine ⟨d', kv, ?_, hkey, hval, hb', ?_⟩
  · show objectElemParser (jsonParserEFun (jsonParserC parseF fuelE))
      (skipSpaces d) = _
    rw [hskip, hrun]
  · rw [hidx']


theorem listLoop_obj_n (iP : Nat → Bool) (f : Nat → List Nat)
    (parseF : List Nat → Option Nat) (fuelE ℓ : Nat) (post : List Nat)
    (hiP : iP 10 = false)
    (hpost : post.head?.all (fun c => c = 10 || c = 44)) :
    ∀ (es : List (List Nat × Value))
      (hmem : ∀ kv ∈ es, (∀ b ∈ kv.1, b < 256) ∧
        (∀ x ∈ floatsOf kv.2, floatShape (dotForm (f x))))
      (hdec : ∀ kv ∈ es, ∀ (d2 : deserializer) (ws post2 : List Nat),
        d2.b.drop d2.idx = ws ++ serB iP f cfg2 kv.2 (ℓ + 1) ++ post2 →
        (∀ b ∈ ws, isSpace b = true) →
        post2.head?.all (fun c => c = 10 || c = 44) →
        ∃ d' nd, jsonParserC parseF fuelE d2 = (d', ⟨kv.2, nd⟩, COK true) ∧
          d'.b = d2.b ∧
          d'.idx = d2.idx + ws.length + (serB iP f cfg2 kv.2 (ℓ + 1)).length)
      (dcur dOrig : deserializer) (fuelL : Nat) (acc : List keyValue),
      dcur.b.drop dcur.idx =
        serPTail iP f cfg2 es ℓ ++ appendIndent cfg2 ℓ [] ++ 125 :: post →
      dcur.b.length + 1 - dcur.idx ≤ fuelL →
    ∃ (dF : deserializer) (outs : List keyValue),
      listLoop (trimSpaceParser (objectElemParser
          (jsonParserEFun (jsonParserC parseF fuelE))))
        (Discard (trimSpaceParser (byteParser 44)))
        (Discard (trimSpaceParser (byteParser 125))) dOrig fuelL dcur acc =
        (dF, acc ++ outs, COK true) ∧
      outs.map (fun kv => (kv.key.v, kv.value.value)) = es ∧
      dF.b = dcur.b ∧
      dF.idx = dcur.idx + (serPTail iP f cfg2 es ℓ).length +
        (appendIndent cfg2 ℓ []).length + 1 := by
  intro es
  induction es with
  | nil =>
    intro _ _ dcur dOrig fuelL acc hdrop hfuel
    rw [show serPTail iP f cfg2 [] ℓ = [] from rfl, List.nil_append] at hdrop
    have hconsform : dcur.b.drop dcur.idx =
        10 :: (List.replicate (2 * ℓ) 32 ++ 125 :: post) := by
      rw [hdrop, appendIndent_cfg2]
      rfl
    have hlt := drop_cons_lt hconsform
    obtain ⟨fl, rfl⟩ : ∃ fl, fuelL = fl + 1 := ⟨fuelL - 1, by omega⟩
    obtain ⟨rs, cs, hskip⟩ := skipSpaces_over hdrop (indent_space ℓ) rfl
    have hdws : (⟨dcur.b, dcur.idx + (appendIndent cfg2 ℓ []).length, rs, cs⟩ :
        deserializer).b.drop (⟨dcur.b,
          dcur.idx + (appendIndent cfg2 ℓ []).length, rs, cs⟩ :
        deserializer).idx = 125 :: post := drop_append_of_drop hdrop
    have hend : Discard (trimSpaceParser (byteParser 125)) dcur =
        (⟨dcur.b, dcur.idx + (appendIndent cfg2 ℓ []).length + 1, rs, cs + 1⟩,
          ⟨⟩, OK true) := by
      show ((byteParser 125 (skipSpaces dcur)).1, (⟨⟩ : Empty),
        (byteParser 125 (skipSpaces dcur)).2.2) = _
      rw [hskip, byteParser_drop_cons hdws]
      rfl
    refine ⟨⟨dcur.b, dcur.idx + (appendIndent cfg2 ℓ []).length + 1, rs,
      cs + 1⟩, [], ?_, rfl, rfl, ?_⟩
    · rw [listLoop_step_end hend rfl, List.append_nil]
    · rw [show serPTail iP f cfg2 [] ℓ = [] from rfl]
      simp
  | cons kv es' ih =>
    intro hmem hdec dcur dOrig fuelL acc hdrop hfuel
    obtain ⟨k, v⟩ := kv
    have hkb : ∀ b ∈ k, b < 256 := (hmem (k, v) (List.mem_cons_self _ _)).1
    have hflv : ∀ x ∈ floatsOf v, floatShape (dotForm (f x)) :=
      (hmem (k, v) (List.mem_cons_self _ _)).2
    have hmem' : ∀ kv ∈ es', (∀ b ∈ kv.1, b < 256) ∧
        (∀ x ∈ floatsOf kv.2, floatShape (dotForm (f x))) :=
      fun kv h => hmem kv (List.mem_cons_of_mem _ h)
    have hserP : serPTail iP f cfg2 ((k, v) :: es') ℓ =
        [44] ++ appendIndent cfg2 (ℓ + 1) [] ++ quote iP k ++ [58] ++
          [32] ++ serB iP f cfg2 v (ℓ + 1) ++
          serPTail iP f cfg2 es' ℓ := rfl
    have hdropC : dcur.b.drop dcur.idx =
        44 :: (appendIndent cfg2 (ℓ + 1) [] ++
          (quote iP k ++ (58 :: 32 :: (serB iP f cfg2 v (ℓ + 1) ++
            (serPTail iP f cfg2 es' ℓ ++
              (appendIndent cfg2 ℓ [] ++ 125 :: post)))))) := by
      rw [hdrop, hserP]
      simp [List.append_assoc]
    have hlt := drop_cons_lt hdropC
    obtain ⟨fl, rfl⟩ : ∃ fl, fuelL = fl + 1 := ⟨fuelL - 1, by omega⟩
    have hid : skipSpaces dcur = dcur := skipSpaces_id (by rw [hdropC]; rfl)
    have h125 : (dcur.b.drop dcur.idx).head? ≠ some 125 := by
      rw [hdropC]; simp
    have hend : Discard (trimSpaceParser (byteParser 125)) dcur =
        (dcur, ⟨⟩, OK false) := by
      show ((byteParser 125 (skipSpaces dcur)).1, (⟨⟩ : Empty),
        (byteParser 125 (skipSpaces dcur)).2.2) = _
      rw [hid, byteParser_miss h125]
    have hsep : Discard (trimSpaceParser (byteParser 44)) dcur =
        (⟨dcur.b, dcur.idx + 1, dcur.row, dcur.col + 1⟩, ⟨⟩, OK true) := by
      show ((byteParser 44 (skipSpaces dcur)).1, (⟨⟩ : Empty),
        (byteParser 44 (skipSpaces dcur)).2.2) = _
      rw [hid, byteParser_drop_cons hdropC]
      rfl
    have hdrop1 : (⟨dcur.b, dcur.idx + 1, dcur.row, dcur.col + 1⟩ :
        deserializer).b.drop (⟨dcur.b, dcur.idx + 1, dcur.row,
          dcur.col + 1⟩ : deserializer).idx =
        appendIndent cfg2 (ℓ + 1) [] ++
          (quote iP k ++ (58 :: 32 :: (serB iP f cfg2 v (ℓ + 1) ++
            (serPTail iP f cfg2 es' ℓ ++
              (appendIndent cfg2 ℓ [] ++ 125 :: post))))) := by
      show dcur.b.drop (dcur.idx + 1) = _
      exact drop_cons_succ hdropC
    have hpost2 : (serPTail iP f cfg2 es' ℓ ++
        (appendIndent cfg2 ℓ [] ++ 125 :: post)).head?.all
        (fun c => c = 10 || c = 44) := by
      cases es' with
      | nil =>
        rw [show serPTail iP f cfg2 [] ℓ = [] from rfl, List.nil_append,
          appendIndent_cfg2]
        rfl
      | cons w ws => rfl
    obtain ⟨dc₂, kv₂, hrun, hkey₂, hval₂, hb₂, hidx₂⟩ :=
      objectElemParserTS_run_q iP f parseF fuelE ℓ hiP hkb hflv
        (hdec (k, v) (List.mem_cons_self _ _)) hdrop1
        (indent_space (ℓ + 1)) hpost2
    have hstep := listLoop_step_next dOrig fl acc hend hsep hrun
    have hlen : (dcur.b.drop dcur.idx).length = dcur.b.length - dcur.idx := by
      simp
    rw [hdropC] at hlen
    simp only [List.length_cons, List.length_append] at hlen
    have hstepdrop : dcur.b.drop (dcur.idx + 1 +
        (appendIndent cfg2 (ℓ + 1) []).length + (quote iP k).length + 1 +
        1 + (serB iP f cfg2 v (ℓ + 1)).length) =
        serPTail iP f cfg2 es' ℓ ++
          (appendIndent cfg2 ℓ [] ++ 125 :: post) := by
      have h1 : dcur.b.drop (dcur.idx + 1 +
          (appendIndent cfg2 (ℓ + 1) []).length) =
          quote iP k ++ (58 :: 32 :: (serB iP f cfg2 v (ℓ + 1) ++
            (serPTail iP f cfg2 es' ℓ ++
              (appendIndent cfg2 ℓ [] ++ 125 :: post)))) :=
        drop_append_of_drop (drop_cons_succ hdropC)
      have h2 := drop_append_of_drop (i := dcur.idx + 1 +
        (appendIndent cfg2 (ℓ + 1) []).length) h1
      have h3 := drop_cons_succ h2
      have h4 := drop_cons_succ h3
      exact drop_append_of_drop (i := dcur.idx + 1 +
        (appendIndent cfg2 (ℓ + 1) []).length + (quote iP k).length + 1 +
        1) h4
    have hdropNext : dc₂.b.drop dc₂.idx =
        serPTail iP f cfg2 es' ℓ ++ appendIndent cfg2 ℓ [] ++
          125 :: post := by
      rw [hb₂, hidx₂]
      show dcur.b.drop (dcur.idx + 1 +
        (appendIndent cfg2 (ℓ + 1) []).length + (quote iP k).length + 2 +
        (serB iP f cfg2 v (ℓ + 1)).length) = _
      rw [show dcur.idx + 1 + (appendIndent cfg2 (ℓ + 1) []).length +
        (quote iP k).length + 2 + (serB iP f cfg2 v (ℓ + 1)).length =
        dcur.idx + 1 + (appendIndent cfg2 (ℓ + 1) []).length +
          (quote iP k).length + 1 + 1 +
          (serB iP f cfg2 v (ℓ + 1)).length by omega]
      rw [hstepdrop]
      simp [List.append_assoc]
    have hfuel' : dc₂.b.length + 1 - dc₂.idx ≤ fl := by
      rw [hb₂, hidx₂]
      show dcur.b.length + 1 - (dcur.idx + 1 +
        (appendIndent cfg2 (ℓ + 1) []).length + (quote iP k).length + 2 +
        (serB iP f cfg2 v (ℓ + 1)).length) ≤ fl
      omega
    obtain ⟨dF, outs', heqL, hmap, hbF, hidxF⟩ := ih hmem'
      (fun kv' h' => hdec kv' (List.mem_cons_of_mem _ h')) dc₂ dOrig fl
      (acc ++ [kv₂]) hdropNext hfuel'
    refine ⟨dF, kv₂ :: outs', ?_, ?_, ?_, ?_⟩
    · rw [hstep, heqL]
      simp
    · simp [hmap, hkey₂, hval₂]
    · rw [hbF, hb₂]
    · rw [hidxF, hidx₂, hserP]
      show dcur.idx + 1 + (appendIndent cfg2 (ℓ + 1) []).length +
        (quote iP k).length + 2 + (serB iP f cfg2 v (ℓ + 1)).length +
        (serPTail iP f cfg2 es' ℓ).length +
        (appendIndent cfg2 ℓ []).length + 1 = _
      simp only [List.length_append, List.length_cons, List.length_nil]
      omega


theorem arrayParserWith_run_n (iP : Nat → Bool) (f : Nat → List Nat)
    (parseF : List Nat → Option Nat) (fuelE ℓ : Nat)
    {d : deserializer} {vs : List Value} {post : List Nat}
    (hflL : ∀ x ∈ floatsOfL vs, floatShape (dotForm (f x)))
    (hdec : ∀ v' ∈ vs, ∀ (d2 : deserializer) (ws post2 : List Nat),
      d2.b.drop d2.idx = ws ++ serB iP f cfg2 v' (ℓ + 1) ++ post2 →
      (∀ b ∈ ws, isSpace b = true) →
      post2.head?.all (fun c => c = 10 || c = 44) →
      ∃ d' nd, jsonParserC parseF fuelE d2 = (d', ⟨v', nd⟩, COK true) ∧
        d'.b = d2.b ∧
        d'.idx = d2.idx + ws.length + (serB iP f cfg2 v' (ℓ + 1)).length)
    (hdrop : d.b.drop d.idx = serB iP f cfg2 (.array vs) ℓ ++ post)
    (hpost : post.head?.all (fun c => c = 10 || c = 44)) :
    ∃ d' nd, arrayParserWith (jsonParserC parseF fuelE) d =
      (d', ⟨.array vs, nd⟩, COK true) ∧ d'.b = d.b ∧
      d'.idx = d.idx + (serB iP f cfg2 (.array vs) ℓ).length := by
  cases vs with
  | nil =>
    have hdropC : d.b.drop d.idx = 91 :: (93 :: post) := by
      rw [hdrop, show serB iP f cfg2 (.array []) ℓ = [91, 93] from rfl]
      rfl
    have hb91 := byteParser_drop_cons hdropC
    have hq91 : byteParser 91 d =
        (⟨d.b, d.idx + 1, d.row, d.col + 1⟩, 91, OK true) := by
      rw [hb91]
      rfl
    have hchainB := chain_discard_one hq91
    have hdrop1 : (⟨d.b, d.idx + 1, d.row, d.col + 1⟩ :
        deserializer).b.drop (⟨d.b, d.idx + 1, d.row, d.col + 1⟩ :
        deserializer).idx = 93 :: post := drop_cons_succ hdropC
    have hid : skipSpaces (⟨d.b, d.idx + 1, d.row, d.col + 1⟩ :
        deserializer) = ⟨d.b, d.idx + 1, d.row, d.col + 1⟩ :=
      skipSpaces_id (by rw [hdrop1]; rfl)
    have hb93 := byteParser_drop_cons hdrop1
    have hend : Discard (trimSpaceParser (byteParser 93))
        (⟨d.b, d.idx + 1, d.row, d.col + 1⟩ : deserializer) =
        (⟨d.b, d.idx + 2, d.row, d.col + 2⟩, ⟨⟩, OK true) := by
      show ((byteParser 93 (skipSpaces (⟨d.b, d.idx + 1, d.row,
        d.col + 1⟩ : deserializer))).1, (⟨⟩ : Empty),
        (byteParser 93 (skipSpaces (⟨d.b, d.idx + 1, d.row,
          d.col + 1⟩ : deserializer))).2.2) = _
      rw [hid, hb93]
      rfl
    have hlist := listParser_end
      (LazyP (fun _ => jsonParserC parseF fuelE))
      (Discard (trimSpaceParser (byteParser 44))) hend rfl
    have hcomp : compositeParser (Discard (byteParser 91))
        (Discard (trimSpaceParser (byteParser 93)))
        (Discard (trimSpaceParser (byteParser 44)))
        (LazyP (fun _ => jsonParserC parseF fuelE)) d =
        (⟨d.b, d.idx + 2, d.row, d.col + 2⟩, [], COK true) := by
      unfold compositeParser
      exact surround_run hchainB hlist
    have hloc : locParser (compositeParser (Discard (byteParser 91))
        (Discard (trimSpaceParser (byteParser 93)))
        (Discard (trimSpaceParser (byteParser 44)))
        (LazyP (fun _ => jsonParserC parseF fuelE))) d =
        (⟨d.b, d.idx + 2, d.row, d.col + 2⟩,
          (⟨⟨d.row, d.col⟩, ⟨d.row, d.col + 2⟩, []⟩ : locV (List output)),
          COK true) := by
      show ((compositeParser (Discard (byteParser 91))
          (Discard (trimSpaceParser (byteParser 93)))
          (Discard (trimSpaceParser (byteParser 44)))
          (LazyP (fun _ => jsonParserC parseF fuelE)) d).1,
        (⟨⟨d.row, d.col⟩,
          ⟨(compositeParser (Discard (byteParser 91))
            (Discard (trimSpaceParser (byteParser 93)))
            (Discard (trimSpaceParser (byteParser 44)))
            (LazyP (fun _ => jsonParserC parseF fuelE)) d).1.row,
           (compositeParser (Discard (byteParser 91))
            (Discard (trimSpaceParser (byteParser 93)))
            (Discard (trimSpaceParser (byteParser 44)))
            (LazyP (fun _ => jsonParserC parseF fuelE)) d).1.col⟩,
          (compositeParser (Discard (byteParser 91))
            (Discard (trimSpaceParser (byteParser 93)))
            (Discard (trimSpaceParser (byteParser 44)))
            (LazyP (fun _ => jsonParserC parseF fuelE)) d).2.1⟩ :
          locV (List output)),
        (compositeParser (Discard (byteParser 91))
          (Discard (trimSpaceParser (byteParser 93)))
          (Discard (trimSpaceParser (byteParser 44)))
          (LazyP (fun _ => jsonParserC parseF fuelE)) d).2.2) = _
      rw [hcomp]
    have hfin := MapO_run
      (fun val : locV (List output) =>
        (⟨.array (val.v.map (fun o => o.value)),
          .mk [] (val.v.map (fun o => o.node)) val.start val.stop⟩ : output))
      hloc
    have hfin2 : arrayParserWith (jsonParserC parseF fuelE) d =
        (⟨d.b, d.idx + 2, d.row, d.col + 2⟩,
          (⟨.array [], .mk [] [] ⟨d.row, d.col⟩ ⟨d.row, d.col + 2⟩⟩ : output),
          COK true) := hfin
    exact ⟨⟨d.b, d.idx + 2, d.row, d.col + 2⟩, _, hfin2, rfl, rfl⟩
  | cons v₁ rest =>
    have hdropC : d.b.drop d.idx =
        91 :: (appendIndent cfg2 (ℓ + 1) [] ++
          (serB iP f cfg2 v₁ (ℓ + 1) ++
            (serTail iP f cfg2 rest ℓ ++
              (appendIndent cfg2 ℓ [] ++ 93 :: post)))) := by
      rw [hdrop, show serB iP f cfg2 (.array (v₁ :: rest)) ℓ =
        [91] ++ appendIndent cfg2 (ℓ + 1) [] ++ serB iP f cfg2 v₁ (ℓ + 1) ++
          serTail iP f cfg2 rest ℓ ++ appendIndent cfg2 ℓ [] ++ [93]
        from rfl]
      simp [List.append_assoc]
    have hb91 := byteParser_drop_cons hdropC
    have hq91 : byteParser 91 d =
        (⟨d.b, d.idx + 1, d.row, d.col + 1⟩, 91, OK true) := by
      rw [hb91]
      rfl
    have hchainB := chain_discard_one hq91
    have hdrop1 : d.b.drop (d.idx + 1) =
        appendIndent cfg2 (ℓ + 1) [] ++
          (serB iP f cfg2 v₁ (ℓ + 1) ++
            (serTail iP f cfg2 rest ℓ ++
              (appendIndent cfg2 ℓ [] ++ 93 :: post))) :=
      drop_cons_succ hdropC
    obtain ⟨c₁, t₁, hser1, hsp1, hne93, hne125, hne44⟩ :=
      serB_head_n iP f v₁ (ℓ + 1)
        (fun x hx => hflL x (floatsOfL_sub (List.mem_cons_self _ _) x hx))
    obtain ⟨rs, cs, hskip⟩ := skipSpaces_over
      (d := ⟨d.b, d.idx + 1, d.row, d.col + 1⟩)
      hdrop1 (indent_space (ℓ + 1))
      (by rw [hser1]; simp [hsp1])
    have hdws : d.b.drop (d.idx + 1 + (appendIndent cfg2 (ℓ + 1) []).length) =
        serB iP f cfg2 v₁ (ℓ + 1) ++
          (serTail iP f cfg2 rest ℓ ++
            (appendIndent cfg2 ℓ [] ++ 93 :: post)) :=
      drop_append_of_drop hdrop1
    have h93m : (d.b.drop (d.idx + 1 +
        (appendIndent cfg2 (ℓ + 1) []).length)).head? ≠ some 93 := by
      rw [hdws, hser1]
      simp
      exact fun h => absurd h hne93
    have hend : Discard (trimSpaceParser (byteParser 93))
        (⟨d.b, d.idx + 1, d.row, d.col + 1⟩ : deserializer) =
        (⟨d.b, d.idx + 1 + (appendIndent cfg2 (ℓ + 1) []).length, rs, cs⟩,
          ⟨⟩, OK false) := by
      show ((byteParser 93 (skipSpaces (⟨d.b, d.idx + 1, d.row,
        d.col + 1⟩ : deserializer))).1, (⟨⟩ : Empty),
        (byteParser 93 (skipSpaces (⟨d.b, d.idx + 1, d.row,
          d.col + 1⟩ : deserializer))).2.2) = _
      rw [hskip, byteParser_miss h93m]
    have hpost2 : (serTail iP f cfg2 rest ℓ ++
        (appendIndent cfg2 ℓ [] ++ 93 :: post)).head?.all
        (fun c => c = 10 || c = 44) := by
      cases rest with
      | nil =>
        rw [show serTail iP f cfg2 [] ℓ = [] from rfl, List.nil_append,
          appendIndent_cfg2]
        rfl
      | cons w ws => rfl
    obtain ⟨dc₂, nd₁, hrun1, hb₁, hidx₁⟩ := hdec v₁ (List.mem_cons_self _ _)
      ⟨d.b, d.idx + 1 + (appendIndent cfg2 (ℓ + 1) []).length, rs, cs⟩
      [] (serTail iP f cfg2 rest ℓ ++ (appendIndent cfg2 ℓ [] ++ 93 :: post))
      (by simpa using hdws) (by intro b hb; exact absurd hb (List.not_mem_nil b))
      hpost2
    have htp : LazyP (fun _ => jsonParserC parseF fuelE)
        (⟨d.b, d.idx + 1 + (appendIndent cfg2 (ℓ + 1) []).length, rs, cs⟩ :
          deserializer) = (dc₂, ⟨v₁, nd₁⟩, COK true) := hrun1
    have hlistgo := listParser_go
      (Discard (trimSpaceParser (byteParser 44))) hend htp
    have hdropNext : dc₂.b.drop dc₂.idx =
        serTail iP f cfg2 rest ℓ ++ appendIndent cfg2 ℓ [] ++ 93 :: post := by
      rw [hb₁, hidx₁]
      show d.b.drop (d.idx + 1 + (appendIndent cfg2 (ℓ + 1) []).length +
        [].length + (serB iP f cfg2 v₁ (ℓ + 1)).length) = _
      have h2 := drop_append_of_drop
        (i := d.idx + 1 + (appendIndent cfg2 (ℓ + 1) []).length) hdws
      rw [show d.idx + 1 + (appendIndent cfg2 (ℓ + 1) []).length +
          ([] : List Nat).length + (serB iP f cfg2 v₁ (ℓ + 1)).length =
          d.idx + 1 + (appendIndent cfg2 (ℓ + 1) []).length +
          (serB iP f cfg2 v₁ (ℓ + 1)).length by simp]
      rw [h2]
      simp [List.append_assoc]
    have hlen : (d.b.drop d.idx).length = d.b.length - d.idx := by simp
    rw [hdropC] at hlen
    simp only [List.length_cons, List.length_append] at hlen
    have hfuelL : dc₂.b.length + 1 - dc₂.idx ≤
        (⟨d.b, d.idx + 1, d.row, d.col + 1⟩ : deserializer).b.length + 1 -
          (⟨d.b, d.idx + 1, d.row, d.col + 1⟩ : deserializer).idx := by
      rw [hb₁, hidx₁]
      show d.b.length + 1 - (d.idx + 1 +
        (appendIndent cfg2 (ℓ + 1) []).length + ([] : List Nat).length +
        (serB iP f cfg2 v₁ (ℓ + 1)).length) ≤ d.b.length + 1 - (d.idx + 1)
      simp only [List.length_nil]
      omega
    obtain ⟨dF, outs, heqL, hmap, hbF, hidxF⟩ := listLoop_arr iP f parseF
      fuelE ℓ post hpost rest
      (fun v' h' => hdec v' (List.mem_cons_of_mem _ h')) dc₂
      ⟨d.b, d.idx + 1, d.row, d.col + 1⟩
      ((⟨d.b, d.idx + 1, d.row, d.col + 1⟩ : deserializer).b.length + 1 -
        (⟨d.b, d.idx + 1, d.row, d.col + 1⟩ : deserializer).idx)
      [⟨v₁, nd₁⟩] hdropNext hfuelL
    have hlist : listParser (LazyP (fun _ => jsonParserC parseF fuelE))
        (Discard (trimSpaceParser (byteParser 44)))
        (Discard (trimSpaceParser (byteParser 93)))
        (⟨d.b, d.idx + 1, d.row, d.col + 1⟩ : deserializer) =
        (dF, [⟨v₁, nd₁⟩] ++ outs, COK true) := by
      rw [hlistgo, heqL]
    have hcomp : compositeParser (Discard (byteParser 91))
        (Discard (trimSpaceParser (byteParser 93)))
        (Discard (trimSpaceParser (byteParser 44)))
        (LazyP (fun _ => jsonParserC parseF fuelE)) d =
        (dF, [⟨v₁, nd₁⟩] ++ outs, COK true) := by
      unfold compositeParser
      exact surround_run hchainB hlist
    have hloc : locParser (compositeParser (Discard (byteParser 91))
        (Discard (trimSpaceParser (byteParser 93)))
        (Discard (trimSpaceParser (byteParser 44)))
        (LazyP (fun _ => jsonParserC parseF fuelE))) d =
        (dF, (⟨⟨d.row, d.col⟩, ⟨dF.row, dF.col⟩, [⟨v₁, nd₁⟩] ++ outs⟩ :
          locV (List output)), COK true) := by
      show ((compositeParser (Discard (byteParser 91))
          (Discard (trimSpaceParser (byteParser 93)))
          (Discard (trimSpaceParser (byteParser 44)))
          (LazyP (fun _ => jsonParserC parseF fuelE)) d).1,
        (⟨⟨d.row, d.col⟩,
          ⟨(compositeParser (Discard (byteParser 91))
            (Discard (trimSpaceParser (byteParser 93)))
            (Discard (trimSpaceParser (byteParser 44)))
            (LazyP (fun _ => jsonParserC parseF fuelE)) d).1.row,
           (compositeParser (Discard (byteParser 91))
            (Discard (trimSpaceParser (byteParser 93)))
            (Discard (trimSpaceParser (byteParser 44)))
            (LazyP (fun _ => jsonParserC parseF fuelE)) d).1.col⟩,
          (compositeParser (Discard (byteParser 91))
            (Discard (trimSpaceParser (byteParser 93)))
            (Discard (trimSpaceParser (byteParser 44)))
            (LazyP (fun _ => jsonParserC parseF fuelE)) d).2.1⟩ :
          locV (List output)),
        (compositeParser (Discard (byteParser 91))
          (Discard (trimSpaceParser (byteParser 93)))
          (Discard (trimSpaceParser (byteParser 44)))
          (LazyP (fun _ => jsonParserC parseF fuelE)) d).2.2) = _
      rw [hcomp]
    have hfin := MapO_run
      (fun val : locV (List output) =>
        (⟨.array (val.v.map (fun o => o.value)),
          .mk [] (val.v.map (fun o => o.node)) val.start val.stop⟩ : output))
      hloc
    have hmap2 : ([(⟨v₁, nd₁⟩ : output)] ++ outs).map (fun o => o.value) =
        v₁ :: rest := by simp [hmap]
    have hfin2 : arrayParserWith (jsonParserC parseF fuelE) d =
        (dF, (⟨.array (([(⟨v₁, nd₁⟩ : output)] ++ outs).map
            (fun o => o.value)),
          .mk [] (([(⟨v₁, nd₁⟩ : output)] ++ outs).map (fun o => o.node))
            ⟨d.row, d.col⟩ ⟨dF.row, dF.col⟩⟩ : output), COK true) := hfin
    rw [hmap2] at hfin2
    refine ⟨dF, _, hfin2, ?_, ?_⟩
    · rw [hbF, hb₁]
    · rw [hidxF, hidx₁]
      show d.idx + 1 + (appendIndent cfg2 (ℓ + 1) []).length +
          ([] : List Nat).length + (serB iP f cfg2 v₁ (ℓ + 1)).length +
          (serTail iP f cfg2 rest ℓ).length +
          (appendIndent cfg2 ℓ []).length + 1 =
        d.idx + (serB iP f cfg2 (.array (v₁ :: rest)) ℓ).length
      rw [show serB iP f cfg2 (.array (v₁ :: rest)) ℓ =
        [91] ++ appendIndent cfg2 (ℓ + 1) [] ++ serB iP f cfg2 v₁ (ℓ + 1) ++
          serTail iP f cfg2 rest ℓ ++ appendIndent cfg2 ℓ [] ++ [93]
        from rfl]
      simp only [List.length_append, List.length_cons, List.length_nil]
      omega


theorem objectParserWith_run_n (iP : Nat → Bool) (f : Nat → List Nat)
    (parseF : List Nat → Option Nat) (fuelE ℓ : Nat)
    {d : deserializer} {o : Option (List (List Nat × Value))}
    {post : List Nat}
    (hiP : iP 10 = false)
    (hnil : o ≠ some [])
    (hmem : ∀ kv ∈ o.getD [], (∀ b ∈ kv.1, b < 256) ∧
      (∀ x ∈ floatsOf kv.2, floatShape (dotForm (f x))))
    (hdec : ∀ kv ∈ o.getD [], ∀ (d2 : deserializer) (ws post2 : List Nat),
      d2.b.drop d2.idx = ws ++ serB iP f cfg2 kv.2 (ℓ + 1) ++ post2 →
      (∀ b ∈ ws, isSpace b = true) →
      post2.head?.all (fun c => c = 10 || c = 44) →
      ∃ d' nd, jsonParserC parseF fuelE d2 = (d', ⟨kv.2, nd⟩, COK true) ∧
        d'.b = d2.b ∧
        d'.idx = d2.idx + ws.length + (serB iP f cfg2 kv.2 (ℓ + 1)).length)
    (hdrop : d.b.drop d.idx = serB iP f cfg2 (.object o) ℓ ++ post)
    (hpost : post.head?.all (fun c => c = 10 || c = 44)) :
    ∃ d' nd, objectParserWith (jsonParserEFun (jsonParserC parseF fuelE)) d =
      (d', ⟨.object o, nd⟩, COK true) ∧ d'.b = d.b ∧
      d'.idx = d.idx + (serB iP f cfg2 (.object o) ℓ).length := by
  cases o with
  | none =>
    have hdropC : d.b.drop d.idx = 123 :: (125 :: post) := by
      rw [hdrop, show serB iP f cfg2 (.object none) ℓ = [123, 125] from rfl]
      rfl
    have hq123 : byteParser 123 d =
        (⟨d.b, d.idx + 1, d.row, d.col + 1⟩, 123, OK true) := by
      rw [byteParser_drop_cons hdropC]
      rfl
    have hchainB := chain_discard_one hq123
    have hdrop1 : (⟨d.b, d.idx + 1, d.row, d.col + 1⟩ :
        deserializer).b.drop (⟨d.b, d.idx + 1, d.row, d.col + 1⟩ :
        deserializer).idx = 125 :: post := drop_cons_succ hdropC
    have hid : skipSpaces (⟨d.b, d.idx + 1, d.row, d.col + 1⟩ :
        deserializer) = ⟨d.b, d.idx + 1, d.row, d.col + 1⟩ :=
      skipSpaces_id (by rw [hdrop1]; rfl)
    have hb125 := byteParser_drop_cons hdrop1
    have hend : Discard (trimSpaceParser (byteParser 125))
        (⟨d.b, d.idx + 1, d.row, d.col + 1⟩ : deserializer) =
        (⟨d.b, d.idx + 2, d.row, d.col + 2⟩, ⟨⟩, OK true) := by
      show ((byteParser 125 (skipSpaces (⟨d.b, d.idx + 1, d.row,
        d.col + 1⟩ : deserializer))).1, (⟨⟩ : Empty),
        (byteParser 125 (skipSpaces (⟨d.b, d.idx + 1, d.row,
          d.col + 1⟩ : deserializer))).2.2) = _
      rw [hid, hb125]
      rfl
    have hlist := listParser_end
      (trimSpaceParser (objectElemParser
        (jsonParserEFun (jsonParserC parseF fuelE))))
      (Discard (trimSpaceParser (byteParser 44))) hend rfl
    have hcomp : compositeParser (Discard (byteParser 123))
        (Discard (trimSpaceParser (byteParser 125)))
        (Discard (trimSpaceParser (byteParser 44)))
        (trimSpaceParser (objectElemParser
          (jsonParserEFun (jsonParserC parseF fuelE)))) d =
        (⟨d.b, d.idx + 2, d.row, d.col + 2⟩, [], COK true) := by
      unfold compositeParser
      exact surround_run hchainB hlist
    have hloc : objectInner (jsonParserEFun (jsonParserC parseF fuelE)) d =
        (⟨d.b, d.idx + 2, d.row, d.col + 2⟩,
          (⟨⟨d.row, d.col⟩, ⟨d.row, d.col + 2⟩, []⟩ :
            locV (List keyValue)), COK true) := by
      show ((compositeParser (Discard (byteParser 123))
          (Discard (trimSpaceParser (byteParser 125)))
          (Discard (trimSpaceParser (byteParser 44)))
          (trimSpaceParser (objectElemParser
            (jsonParserEFun (jsonParserC parseF fuelE)))) d).1,
        (⟨⟨d.row, d.col⟩,
          ⟨(compositeParser (Discard (byteParser 123))
            (Discard (trimSpaceParser (byteParser 125)))
            (Discard (trimSpaceParser (byteParser 44)))
            (trimSpaceParser (objectElemParser
              (jsonParserEFun (jsonParserC parseF fuelE)))) d).1.row,
           (compositeParser (Discard (byteParser 123))
            (Discard (trimSpaceParser (byteParser 125)))
            (Discard (trimSpaceParser (byteParser 44)))
            (trimSpaceParser (objectElemParser
              (jsonParserEFun (jsonParserC parseF fuelE)))) d).1.col⟩,
          (compositeParser (Discard (byteParser 123))
            (Discard (trimSpaceParser (byteParser 125)))
            (Discard (trimSpaceParser (byteParser 44)))
            (trimSpaceParser (objectElemParser
              (jsonParserEFun (jsonParserC parseF fuelE)))) d).2.1⟩ :
          locV (List keyValue)),
        (compositeParser (Discard (byteParser 123))
          (Discard (trimSpaceParser (byteParser 125)))
          (Discard (trimSpaceParser (byteParser 44)))
          (trimSpaceParser (objectElemParser
            (jsonParserEFun (jsonParserC parseF fuelE)))) d).2.2) = _
      rw [hcomp]
    have hval : objectParserWith (jsonParserEFun (jsonParserC parseF fuelE))
        d = (⟨d.b, d.idx + 2, d.row, d.col + 2⟩,
          (⟨.object none, .mk [] [] ⟨d.row, d.col⟩ ⟨d.row, d.col + 2⟩⟩ :
            output), COK true) := Validate_run hloc rfl
    exact ⟨⟨d.b, d.idx + 2, d.row, d.col + 2⟩, _, hval, rfl, rfl⟩
  | some es =>
    cases es with
    | nil => exact absurd rfl hnil
    | cons kv₁ es' =>
      obtain ⟨k₁, v₁⟩ := kv₁
      have hk₁b : ∀ b ∈ k₁, b < 256 :=
        (hmem (k₁, v₁) (List.mem_cons_self _ _)).1
      have hflv₁ : ∀ x ∈ floatsOf v₁, floatShape (dotForm (f x)) :=
        (hmem (k₁, v₁) (List.mem_cons_self _ _)).2
      have hmem' : ∀ kv ∈ es', (∀ b ∈ kv.1, b < 256) ∧
          (∀ x ∈ floatsOf kv.2, floatShape (dotForm (f x))) :=
        fun kv h => hmem kv (List.mem_cons_of_mem _ h)
      have hdecL : ∀ kv ∈ (k₁, v₁) :: es',
          ∀ (d2 : deserializer) (ws post2 : List Nat),
          d2.b.drop d2.idx = ws ++ serB iP f cfg2 kv.2 (ℓ + 1) ++ post2 →
          (∀ b ∈ ws, isSpace b = true) →
          post2.head?.all (fun c => c = 10 || c = 44) →
          ∃ d' nd, jsonParserC parseF fuelE d2 =
            (d', ⟨kv.2, nd⟩, COK true) ∧ d'.b = d2.b ∧
            d'.idx = d2.idx + ws.length +
              (serB iP f cfg2 kv.2 (ℓ + 1)).length := hdec
      have hserOB : serB iP f cfg2 (.object (some ((k₁, v₁) :: es'))) ℓ =
          [123] ++ appendIndent cfg2 (ℓ + 1) [] ++ quote iP k₁ ++
            [58] ++ [32] ++ serB iP f cfg2 v₁ (ℓ + 1) ++
            serPTail iP f cfg2 es' ℓ ++ appendIndent cfg2 ℓ [] ++
            [125] := rfl
      have hdropC : d.b.drop d.idx =
          123 :: (appendIndent cfg2 (ℓ + 1) [] ++
            (quote iP k₁ ++ (58 :: 32 ::
              (serB iP f cfg2 v₁ (ℓ + 1) ++
                (serPTail iP f cfg2 es' ℓ ++
                  (appendIndent cfg2 ℓ [] ++ 125 :: post)))))) := by
        rw [hdrop, hserOB]
        simp [List.append_assoc]
      have hq123 : byteParser 123 d =
          (⟨d.b, d.idx + 1, d.row, d.col + 1⟩, 123, OK true) := by
        rw [byteParser_drop_cons hdropC]
        rfl
      have hchainB := chain_discard_one hq123
      have hdrop1 : d.b.drop (d.idx + 1) =
          appendIndent cfg2 (ℓ + 1) [] ++
            (quote iP k₁ ++ (58 :: 32 ::
              (serB iP f cfg2 v₁ (ℓ + 1) ++
                (serPTail iP f cfg2 es' ℓ ++
                  (appendIndent cfg2 ℓ [] ++ 125 :: post))))) :=
        drop_cons_succ hdropC
      obtain ⟨rs, cs, hskip⟩ := skipSpaces_over
        (d := ⟨d.b, d.idx + 1, d.row, d.col + 1⟩)
        hdrop1 (indent_space (ℓ + 1)) rfl
      have hdws : d.b.drop (d.idx + 1 +
          (appendIndent cfg2 (ℓ + 1) []).length) =
          quote iP k₁ ++ (58 :: 32 ::
            (serB iP f cfg2 v₁ (ℓ + 1) ++
              (serPTail iP f cfg2 es' ℓ ++
                (appendIndent cfg2 ℓ [] ++ 125 :: post)))) :=
        drop_append_of_drop hdrop1
      have h125m : (d.b.drop (d.idx + 1 +
          (appendIndent cfg2 (ℓ + 1) []).length)).head? ≠ some 125 := by
        rw [hdws, show quote iP k₁ ++ (58 :: 32 ::
            (serB iP f cfg2 v₁ (ℓ + 1) ++
              (serPTail iP f cfg2 es' ℓ ++
                (appendIndent cfg2 ℓ [] ++ 125 :: post)))) =
          34 :: (quoteLoopF iP (k₁.length + 1) k₁ ++ [34] ++ (58 :: 32 ::
            (serB iP f cfg2 v₁ (ℓ + 1) ++
              (serPTail iP f cfg2 es' ℓ ++
                (appendIndent cfg2 ℓ [] ++ 125 :: post))))) by
          show (34 :: (quoteLoopF iP (k₁.length + 1) k₁ ++ [34])) ++ _ = _
          simp [List.append_assoc]]
        simp
      have hend : Discard (trimSpaceParser (byteParser 125))
          (⟨d.b, d.idx + 1, d.row, d.col + 1⟩ : deserializer) =
          (⟨d.b, d.idx + 1 + (appendIndent cfg2 (ℓ + 1) []).length, rs, cs⟩,
            ⟨⟩, OK false) := by
        show ((byteParser 125 (skipSpaces (⟨d.b, d.idx + 1, d.row,
          d.col + 1⟩ : deserializer))).1, (⟨⟩ : Empty),
          (byteParser 125 (skipSpaces (⟨d.b, d.idx + 1, d.row,
            d.col + 1⟩ : deserializer))).2.2) = _
        rw [hskip, byteParser_miss h125m]
      have hpost2 : (serPTail iP f cfg2 es' ℓ ++
          (appendIndent cfg2 ℓ [] ++ 125 :: post)).head?.all
          (fun c => c = 10 || c = 44) := by
        cases es' with
        | nil =>
          rw [show serPTail iP f cfg2 [] ℓ = [] from rfl, List.nil_append,
            appendIndent_cfg2]
          rfl
        | cons w ws => rfl
      have hdropE : (⟨d.b, d.idx + 1 +
          (appendIndent cfg2 (ℓ + 1) []).length, rs, cs⟩ :
          deserializer).b.drop (⟨d.b, d.idx + 1 +
            (appendIndent cfg2 (ℓ + 1) []).length, rs, cs⟩ :
          deserializer).idx = [] ++ (quote iP k₁ ++ (58 :: 32 ::
            (serB iP f cfg2 v₁ (ℓ + 1) ++
              (serPTail iP f cfg2 es' ℓ ++
                (appendIndent cfg2 ℓ [] ++ 125 :: post))))) := by
        show d.b.drop (d.idx + 1 +
          (appendIndent cfg2 (ℓ + 1) []).length) = _
        rw [List.nil_append]
        exact hdws
      obtain ⟨dc₂, kv₂, hrun, hkey₂, hval₂, hb₂, hidx₂⟩ :=
        objectElemParserTS_run_q iP f parseF fuelE ℓ hiP hk₁b hflv₁
          (hdecL (k₁, v₁) (List.mem_cons_self _ _)) hdropE
          (fun b hb => absurd hb (List.not_mem_nil b)) hpost2
      have hlistgo := listParser_go
        (Discard (trimSpaceParser (byteParser 44))) hend hrun
      have hstepdrop : d.b.drop (d.idx + 1 +
          (appendIndent cfg2 (ℓ + 1) []).length + (quote iP k₁).length +
          1 + 1 + (serB iP f cfg2 v₁ (ℓ + 1)).length) =
          serPTail iP f cfg2 es' ℓ ++
            (appendIndent cfg2 ℓ [] ++ 125 :: post) := by
        have h2 := drop_append_of_drop (i := d.idx + 1 +
          (appendIndent cfg2 (ℓ + 1) []).length) hdws
        have h3 := drop_cons_succ h2
        have h4 := drop_cons_succ h3
        exact drop_append_of_drop (i := d.idx + 1 +
          (appendIndent cfg2 (ℓ + 1) []).length + (quote iP k₁).length +
          1 + 1) h4
      have hdropNext : dc₂.b.drop dc₂.idx =
          serPTail iP f cfg2 es' ℓ ++ appendIndent cfg2 ℓ [] ++
            125 :: post := by
        rw [hb₂, hidx₂]
        show d.b.drop (d.idx + 1 +
          (appendIndent cfg2 (ℓ + 1) []).length +
          ([] : List Nat).length + (quote iP k₁).length + 2 +
          (serB iP f cfg2 v₁ (ℓ + 1)).length) = _
        rw [show d.idx + 1 + (appendIndent cfg2 (ℓ + 1) []).length +
          ([] : List Nat).length + (quote iP k₁).length + 2 +
          (serB iP f cfg2 v₁ (ℓ + 1)).length =
          d.idx + 1 + (appendIndent cfg2 (ℓ + 1) []).length +
            (quote iP k₁).length + 1 + 1 +
            (serB iP f cfg2 v₁ (ℓ + 1)).length by
          simp only [List.length_nil]
          omega]
        rw [hstepdrop]
        simp [List.append_assoc]
      have hlen : (d.b.drop d.idx).length = d.b.length - d.idx := by simp
      rw [hdropC] at hlen
      simp only [List.length_cons, List.length_append] at hlen
      have hfuelL : dc₂.b.length + 1 - dc₂.idx ≤
          (⟨d.b, d.idx + 1, d.row, d.col + 1⟩ :
            deserializer).b.length + 1 -
          (⟨d.b, d.idx + 1, d.row, d.col + 1⟩ : deserializer).idx := by
        rw [hb₂, hidx₂]
        show d.b.length + 1 - (d.idx + 1 +
          (appendIndent cfg2 (ℓ + 1) []).length +
          ([] : List Nat).length + (quote iP k₁).length + 2 +
          (serB iP f cfg2 v₁ (ℓ + 1)).length) ≤
          d.b.length + 1 - (d.idx + 1)
        simp only [List.length_nil]
        omega
      obtain ⟨dF, outs, heqL, hmap, hbF, hidxF⟩ := listLoop_obj_n iP f
        parseF fuelE ℓ post hiP hpost es' hmem'
        (fun kv' h' => hdecL kv' (List.mem_cons_of_mem _ h')) dc₂
        ⟨d.b, d.idx + 1, d.row, d.col + 1⟩
        ((⟨d.b, d.idx + 1, d.row, d.col + 1⟩ :
          deserializer).b.length + 1 -
          (⟨d.b, d.idx + 1, d.row, d.col + 1⟩ : deserializer).idx)
        [kv₂] hdropNext hfuelL
      have hlist : listParser (trimSpaceParser (objectElemParser
          (jsonParserEFun (jsonParserC parseF fuelE))))
          (Discard (trimSpaceParser (byteParser 44)))
          (Discard (trimSpaceParser (byteParser 125)))
          (⟨d.b, d.idx + 1, d.row, d.col + 1⟩ : deserializer) =
          (dF, [kv₂] ++ outs, COK true) := by
        rw [hlistgo, heqL]
      have hcomp : compositeParser (Discard (byteParser 123))
          (Discard (trimSpaceParser (byteParser 125)))
          (Discard (trimSpaceParser (byteParser 44)))
          (trimSpaceParser (objectElemParser
            (jsonParserEFun (jsonParserC parseF fuelE)))) d =
          (dF, [kv₂] ++ outs, COK true) := by
        unfold compositeParser
        exact surround_run hchainB hlist
      have hloc : objectInner (jsonParserEFun (jsonParserC parseF fuelE))
          d = (dF, (⟨⟨d.row, d.col⟩, ⟨dF.row, dF.col⟩, [kv₂] ++ outs⟩ :
            locV (List keyValue)), COK true) := by
        show ((compositeParser (Discard (byteParser 123))
            (Discard (trimSpaceParser (byteParser 125)))
            (Discard (trimSpaceParser (byteParser 44)))
            (trimSpaceParser (objectElemParser
              (jsonParserEFun (jsonParserC parseF fuelE)))) d).1,
          (⟨⟨d.row, d.col⟩,
            ⟨(compositeParser (Discard (byteParser 123))
              (Discard (trimSpaceParser (byteParser 125)))
              (Discard (trimSpaceParser (byteParser 44)))
              (trimSpaceParser (objectElemParser
                (jsonParserEFun (jsonParserC parseF fuelE)))) d).1.row,
             (compositeParser (Discard (byteParser 123))
              (Discard (trimSpaceParser (byteParser 125)))
              (Discard (trimSpaceParser (byteParser 44)))
              (trimSpaceParser (objectElemParser
                (jsonParserEFun (jsonParserC parseF fuelE)))) d).1.col⟩,
            (compositeParser (Discard (byteParser 123))
              (Discard (trimSpaceParser (byteParser 125)))
              (Discard (trimSpaceParser (byteParser 44)))
              (trimSpaceParser (objectElemParser
                (jsonParserEFun (jsonParserC parseF fuelE)))) d).2.1⟩ :
            locV (List keyValue)),
          (compositeParser (Discard (byteParser 123))
            (Discard (trimSpaceParser (byteParser 125)))
            (Discard (trimSpaceParser (byteParser 44)))
            (trimSpaceParser (objectElemParser
              (jsonParserEFun (jsonParserC parseF fuelE)))) d).2.2) = _
        rw [hcomp]
      have hmapAll : ([kv₂] ++ outs).map
          (fun kv => (kv.key.v, kv.value.value)) = (k₁, v₁) :: es' := by
        simp [hmap, hkey₂, hval₂]
      have hfold : ([kv₂] ++ outs).foldl
          (fun acc kv => objectAdd acc kv.key.v kv.value.value) none =
          some ((k₁, v₁) :: es') := by
        have h1 : (([kv₂] ++ outs).map
            (fun kv => (kv.key.v, kv.value.value))).foldl
            (fun acc p => objectAdd acc p.1 p.2) none =
            some ((k₁, v₁) :: es') := by
          rw [hmapAll, foldl_objectAdd]
          rfl
        rw [List.foldl_map] at h1
        exact h1
      have hobj : objectBuild (⟨⟨d.row, d.col⟩, ⟨dF.row, dF.col⟩,
          [kv₂] ++ outs⟩ : locV (List keyValue)) =
          ⟨.object (some ((k₁, v₁) :: es')),
            .mk (([kv₂] ++ outs).map
              (fun kv => ([], kv.key.start, kv.key.stop, kv.value.node)))
              [] ⟨d.row, d.col⟩ ⟨dF.row, dF.col⟩⟩ := by
        show (⟨.object (([kv₂] ++ outs).foldl
            (fun acc kv => objectAdd acc kv.key.v kv.value.value) none),
          .mk (([kv₂] ++ outs).map
            (fun kv => ([], kv.key.start, kv.key.stop, kv.value.node)))
            [] ⟨d.row, d.col⟩ ⟨dF.row, dF.col⟩⟩ : output) = _
        rw [hfold]
      have hvalid : objectParserWith
          (jsonParserEFun (jsonParserC parseF fuelE)) d =
          (dF, objectBuild (⟨⟨d.row, d.col⟩, ⟨dF.row, dF.col⟩,
            [kv₂] ++ outs⟩ : locV (List keyValue)), COK true) :=
        Validate_run hloc rfl
      rw [hobj] at hvalid
      refine ⟨dF, _, hvalid, ?_, ?_⟩
      · rw [hbF, hb₂]
      · rw [hidxF, hidx₂, hserOB]
        show d.idx + 1 + (appendIndent cfg2 (ℓ + 1) []).length +
          ([] : List Nat).length + (quote iP k₁).length + 2 +
          (serB iP f cfg2 v₁ (ℓ + 1)).length +
          (serPTail iP f cfg2 es' ℓ).length +
          (appendIndent cfg2 ℓ []).length + 1 = _
        simp only [List.length_append, List.length_cons, List.length_nil]
        omega


theorem normalP_key_of_mem {kv : List Nat × Value} :
    ∀ {es : List (List Nat × Value)}, kv ∈ es → normalP es = true →
      ∀ b ∈ kv.1, b < 256 := by
  intro es
  induction es with
  | nil => intro h; exact absurd h (List.not_mem_nil kv)
  | cons kv2 es ih =>
    intro h hc
    have hc2 : (kv2.1.all (fun b => decide (b < 256)) && normalV kv2.2 &&
        normalP es) = true := hc
    rcases List.mem_cons.mp h with h2 | h2
    · subst h2
      intro b hb
      have := List.all_eq_true.mp ((Bool.and_eq_true _ _ |>.mp
        ((Bool.and_eq_true _ _ |>.mp hc2).1)).1) b hb
      simpa using this
    · exact ih h2 (Bool.and_eq_true _ _ |>.mp hc2).2

theorem jsonParserC_run_n (iP : Nat → Bool) (f : Nat → List Nat)
    (parseF : List Nat → Option Nat) (hiP : iP 10 = false) :
    ∀ (fuel : Nat) (v : Value) (ℓ : Nat) (d : deserializer)
      (ws post : List Nat),
      vdepth v < fuel →
      normalV v = true →
      (∀ x ∈ floatsOf v, floatOK f parseF x) →
      d.b.drop d.idx = ws ++ serB iP f cfg2 v ℓ ++ post →
      (∀ b ∈ ws, isSpace b = true) →
      post.head?.all (fun c => c = 10 || c = 44) →
    ∃ d' nd, jsonParserC parseF fuel d = (d', ⟨v, nd⟩, COK true) ∧
      d'.b = d.b ∧
      d'.idx = d.idx + ws.length + (serB iP f cfg2 v ℓ).length := by
  intro fuel
  induction fuel with
  | zero =>
    intro v ℓ d ws post hdep
    exact fun _ _ _ _ _ => absurd hdep (Nat.not_lt_zero _)
  | succ fl ih =>
    intro v ℓ d ws post hdep hnorm hfl hdrop hws hpost
    obtain ⟨c₁, t₁, hser1, hsp1, hne93, hne125, hne44⟩ :=
      serB_head_n iP f v ℓ (fun x hx => (hfl x hx).1)
    have hdropR : d.b.drop d.idx =
        ws ++ (serB iP f cfg2 v ℓ ++ post) := by
      rw [hdrop, List.append_assoc]
    obtain ⟨rs, cs, hskip⟩ := skipSpaces_over hdropR hws
      (by rw [hser1]; simp [hsp1])
    have hdropS : (⟨d.b, d.idx + ws.length, rs, cs⟩ : deserializer).b.drop
        (⟨d.b, d.idx + ws.length, rs, cs⟩ : deserializer).idx =
        serB iP f cfg2 v ℓ ++ post := drop_append_of_drop hdropR
    cases v with
    | null =>
      have hd0 : (⟨d.b, d.idx + ws.length, rs, cs⟩ : deserializer).b.drop
          (⟨d.b, d.idx + ws.length, rs, cs⟩ : deserializer).idx =
          [110, 117, 108, 108] ++ post := hdropS
      obtain ⟨d', nd, hrun, hb, hidx⟩ := nullParser_run hd0
      refine ⟨d', nd, ?_, hb, hidx⟩
      show TryP [nullParser, boolParser, numberParser parseF, stringParser,
        arrayParserWith (jsonParserC parseF fl),
        objectParserWith (jsonParserEFun (jsonParserC parseF fl))]
        (skipSpaces d) = _
      rw [hskip]
      exact tryP_take_of_run hrun
    | bool b =>
      cases b with
      | false =>
        have hd0 : (⟨d.b, d.idx + ws.length, rs, cs⟩ :
            deserializer).b.drop (⟨d.b, d.idx + ws.length, rs, cs⟩ :
            deserializer).idx = [102, 97, 108, 115, 101] ++ post := hdropS
        have hh : ((⟨d.b, d.idx + ws.length, rs, cs⟩ :
            deserializer).b.drop (⟨d.b, d.idx + ws.length, rs, cs⟩ :
            deserializer).idx).head? = some 102 := by
          rw [hd0]
          rfl
        have hmN : (nullParser (⟨d.b, d.idx + ws.length, rs, cs⟩ :
            deserializer)).2.2 = COK false :=
          nullParser_miss (by rw [hh]; decide)
        obtain ⟨d', nd, hrun, hb, hidx⟩ := boolParser_run (b := false) hd0
        refine ⟨d', nd, ?_, hb, hidx⟩
        show TryP [nullParser, boolParser, numberParser parseF, stringParser,
          arrayParserWith (jsonParserC parseF fl),
          objectParserWith (jsonParserEFun (jsonParserC parseF fl))]
          (skipSpaces d) = _
        rw [hskip, tryP_skip_of_miss hmN]
        exact tryP_take_of_run hrun
      | true =>
        have hd0 : (⟨d.b, d.idx + ws.length, rs, cs⟩ :
            deserializer).b.drop (⟨d.b, d.idx + ws.length, rs, cs⟩ :
            deserializer).idx = [116, 114, 117, 101] ++ post := hdropS
        have hh : ((⟨d.b, d.idx + ws.length, rs, cs⟩ :
            deserializer).b.drop (⟨d.b, d.idx + ws.length, rs, cs⟩ :
            deserializer).idx).head? = some 116 := by
          rw [hd0]
          rfl
        have hmN : (nullParser (⟨d.b, d.idx + ws.length, rs, cs⟩ :
            deserializer)).2.2 = COK false :=
          nullParser_miss (by rw [hh]; decide)
        obtain ⟨d', nd, hrun, hb, hidx⟩ := boolParser_run (b := true) hd0
        refine ⟨d', nd, ?_, hb, hidx⟩
        show TryP [nullParser, boolParser, numberParser parseF, stringParser,
          arrayParserWith (jsonParserC parseF fl),
          objectParserWith (jsonParserEFun (jsonParserC parseF fl))]
          (skipSpaces d) = _
        rw [hskip, tryP_skip_of_miss hmN]
        exact tryP_take_of_run hrun
    | number n =>
      have hnorm2 : (if n.IsFloat then n.Integer == 0
          else n.Float == 0 && decide (n.Integer < 2 ^ 64)) = true := hnorm
      by_cases hq : n.IsFloat
      · -- float-kind: the serialized text is the dotted FormatFloat form
        have hmemF : n.Float ∈ floatsOf (.number n) := by
          show n.Float ∈ (if n.IsFloat then [n.Float] else [])
          rw [if_pos hq]
          exact List.mem_singleton.mpr rfl
        obtain ⟨hshape, hparse⟩ := hfl n.Float hmemF
        obtain ⟨d1, d2, hdf, hne1, hne2, hdig1, hdig2⟩ := hshape
        rw [if_pos hq] at hnorm2
        have hint0 : n.Integer = 0 := by simpa using hnorm2
        have hdmain : (⟨d.b, d.idx + ws.length, rs, cs⟩ :
            deserializer).b.drop (⟨d.b, d.idx + ws.length, rs, cs⟩ :
            deserializer).idx =
            (if n.IsNeg then [45] else []) ++ (d1 ++ 46 :: d2) ++ post := by
          rw [hdropS, show serB iP f cfg2 (.number n) ℓ =
            numberAppend f n [] from rfl, numberAppend_float0 f n hq, hdf]
        obtain ⟨ch, hch, hrange⟩ : ∃ c,
            ((⟨d.b, d.idx + ws.length, rs, cs⟩ : deserializer).b.drop
              (⟨d.b, d.idx + ws.length, rs, cs⟩ :
                deserializer).idx).head? = some c ∧
            (c = 45 ∨ (48 ≤ c ∧ c ≤ 57)) := by
          cases hneg : n.IsNeg with
          | false =>
            cases d1 with
            | nil => exact absurd rfl hne1
            | cons dd l =>
              refine ⟨dd, ?_, Or.inr (hdig1 dd (List.mem_cons_self _ _))⟩
              rw [hdmain, hneg]
              rfl
          | true =>
            refine ⟨45, ?_, Or.inl rfl⟩
            rw [hdmain, hneg]
            rfl
        have hne : ∀ c0 : Nat, c0 ≠ 45 → (c0 < 48 ∨ 57 < c0) →
            ((⟨d.b, d.idx + ws.length, rs, cs⟩ : deserializer).b.drop
              (⟨d.b, d.idx + ws.length, rs, cs⟩ :
                deserializer).idx).head? ≠ some c0 := by
          intro c0 h1 h2
          rw [hch]
          intro hcon
          have hcc : ch = c0 := by injection hcon
          rcases hrange with h | h <;> omega
        have hmN : (nullParser (⟨d.b, d.idx + ws.length, rs, cs⟩ :
            deserializer)).2.2 = COK false :=
          nullParser_miss (hne 110 (by decide) (by omega))
        have hmB : (boolParser (⟨d.b, d.idx + ws.length, rs, cs⟩ :
            deserializer)).2.2 = COK false :=
          boolParser_miss (hne 116 (by decide) (by omega))
            (hne 102 (by decide) (by omega))
        have hpf2 : parseF (d1 ++ 46 :: d2) = some n.Float := by
          rw [← hdf]
          exact hparse
        obtain ⟨d', nd, hrun, hb, hidx⟩ := numberParser_run_float parseF
          hdmain hdig1 hne1 hdig2 hne2 (post_head_not_digit hpost) hpf2
        have hveq : (⟨n.Float, 0, true, n.IsNeg⟩ : Number) = n := by
          rw [← hint0, ← hq]
        rw [hveq] at hrun
        refine ⟨d', nd, ?_, hb, ?_⟩
        · show TryP [nullParser, boolParser, numberParser parseF,
            stringParser, arrayParserWith (jsonParserC parseF fl),
            objectParserWith (jsonParserEFun (jsonParserC parseF fl))]
            (skipSpaces d) = _
          rw [hskip, tryP_skip_of_miss hmN, tryP_skip_of_miss hmB]
          exact tryP_take_of_run hrun
        · rw [hidx, show serB iP f cfg2 (.number n) ℓ =
            numberAppend f n [] from rfl, numberAppend_float0 f n hq, hdf]
          by_cases hneg : n.IsNeg <;>
            simp [hneg, List.length_append] <;> omega
      · -- integer-kind: the old canonical argument, junk-freeness only
        have hnf : n.IsFloat = false := by simpa using hq
        rw [if_neg hq] at hnorm2
        have hfl0 : n.Float = 0 := by
          have := (Bool.and_eq_true _ _ |>.mp hnorm2).1
          simpa using this
        have hm : n.Integer < 2 ^ 64 := by
          have := (Bool.and_eq_true _ _ |>.mp hnorm2).2
          simpa using this
        have hdropS2 : (⟨d.b, d.idx + ws.length, rs, cs⟩ :
            deserializer).b.drop (⟨d.b, d.idx + ws.length, rs, cs⟩ :
            deserializer).idx =
            (if n.IsNeg then [45] else []) ++
              (formatUint n.Integer ++ post) := by
          rw [hdropS, show serB iP f cfg2 (.number n) ℓ =
            numberAppend f n [] from rfl, numberAppend_canon f n hnf]
          simp [List.append_assoc]
        obtain ⟨ch, hch, hrange⟩ : ∃ c,
            ((⟨d.b, d.idx + ws.length, rs, cs⟩ : deserializer).b.drop
              (⟨d.b, d.idx + ws.length, rs, cs⟩ :
                deserializer).idx).head? = some c ∧
            (c = 45 ∨ (48 ≤ c ∧ c ≤ 57)) := by
          cases hneg : n.IsNeg with
          | false =>
            obtain ⟨dg, l, hfu, hd48, hd57⟩ := formatUint_head n.Integer
            refine ⟨dg, ?_, Or.inr ⟨hd48, hd57⟩⟩
            rw [hdropS2, hneg, hfu]
            rfl
          | true =>
            refine ⟨45, ?_, Or.inl rfl⟩
            rw [hdropS2, hneg]
            rfl
        have hne : ∀ c0 : Nat, c0 ≠ 45 → (c0 < 48 ∨ 57 < c0) →
            ((⟨d.b, d.idx + ws.length, rs, cs⟩ : deserializer).b.drop
              (⟨d.b, d.idx + ws.length, rs, cs⟩ :
                deserializer).idx).head? ≠ some c0 := by
          intro c0 h1 h2
          rw [hch]
          intro hcon
          have hcc : ch = c0 := by injection hcon
          rcases hrange with h | h <;> omega
        have hmN : (nullParser (⟨d.b, d.idx + ws.length, rs, cs⟩ :
            deserializer)).2.2 = COK false :=
          nullParser_miss (hne 110 (by decide) (by omega))
        have hmB : (boolParser (⟨d.b, d.idx + ws.length, rs, cs⟩ :
            deserializer)).2.2 = COK false :=
          boolParser_miss (hne 116 (by decide) (by omega))
            (hne 102 (by decide) (by omega))
        have hdmain : (⟨d.b, d.idx + ws.length, rs, cs⟩ :
            deserializer).b.drop (⟨d.b, d.idx + ws.length, rs, cs⟩ :
            deserializer).idx =
            (if n.IsNeg then [45] else []) ++ formatUint n.Integer ++
              post := by
          rw [hdropS2]
          simp [List.append_assoc]
        obtain ⟨d', nd, hrun, hb, hidx⟩ := numberParser_run parseF
          hm hdmain (post_head_not_digit hpost) (post_head_not_46 hpost)
        have hveq : (⟨0, n.Integer, false, n.IsNeg⟩ : Number) = n := by
          rw [← hfl0, ← hnf]
        rw [hveq] at hrun
        refine ⟨d', nd, ?_, hb, ?_⟩
        · show TryP [nullParser, boolParser, numberParser parseF,
            stringParser, arrayParserWith (jsonParserC parseF fl),
            objectParserWith (jsonParserEFun (jsonParserC parseF fl))]
            (skipSpaces d) = _
          rw [hskip, tryP_skip_of_miss hmN, tryP_skip_of_miss hmB]
          exact tryP_take_of_run hrun
        · rw [hidx, show serB iP f cfg2 (.number n) ℓ =
            numberAppend f n [] from rfl, numberAppend_canon f n hnf]
          show d.idx + ws.length + (if n.IsNeg then 1 else 0) +
            (formatUint n.Integer).length = _
          by_cases hneg : n.IsNeg <;>
            simp [hneg, List.length_append] <;> omega
    | string s =>
      have hsall : s.all (fun b => decide (b < 256)) = true := hnorm
      have hbytes : ∀ b ∈ s, b < 256 := by
        intro b hb
        have := List.all_eq_true.mp hsall b hb
        simpa using this
      have hd0 : (⟨d.b, d.idx + ws.length, rs, cs⟩ :
          deserializer).b.drop (⟨d.b, d.idx + ws.length, rs, cs⟩ :
          deserializer).idx = quote iP s ++ post := hdropS
      have hh : ((⟨d.b, d.idx + ws.length, rs, cs⟩ :
          deserializer).b.drop (⟨d.b, d.idx + ws.length, rs, cs⟩ :
          deserializer).idx).head? = some 34 := by
        rw [hd0]
        rfl
      have hmN : (nullParser (⟨d.b, d.idx + ws.length, rs, cs⟩ :
          deserializer)).2.2 = COK false :=
        nullParser_miss (by rw [hh]; decide)
      have hmB : (boolParser (⟨d.b, d.idx + ws.length, rs, cs⟩ :
          deserializer)).2.2 = COK false :=
        boolParser_miss (by rw [hh]; decide) (by rw [hh]; decide)
      have hmNum : (numberParser parseF
          (⟨d.b, d.idx + ws.length, rs, cs⟩ : deserializer)).2.2 =
          COK false :=
        numberParser_miss (by rw [hh]; decide) (by rw [hh]; decide)
      obtain ⟨d', nd, hrun, hb, hidx⟩ :=
        stringParser_run_quote iP hiP hbytes hd0
      refine ⟨d', nd, ?_, hb, ?_⟩
      · show TryP [nullParser, boolParser, numberParser parseF, stringParser,
          arrayParserWith (jsonParserC parseF fl),
          objectParserWith (jsonParserEFun (jsonParserC parseF fl))]
          (skipSpaces d) = _
        rw [hskip, tryP_skip_of_miss hmN, tryP_skip_of_miss hmB,
          tryP_skip_of_miss hmNum]
        exact tryP_take_of_run hrun
      · rw [hidx]
        rfl
    | array vs =>
      have hnormL : normalL vs = true := hnorm
      have hdepL : vdepthL vs < fl := by
        have h1 : vdepthL vs + 1 < fl + 1 := hdep
        omega
      have hdec : ∀ v' ∈ vs, ∀ (d2 : deserializer) (ws2 post2 : List Nat),
          d2.b.drop d2.idx = ws2 ++ serB iP f cfg2 v' (ℓ + 1) ++ post2 →
          (∀ b ∈ ws2, isSpace b = true) →
          post2.head?.all (fun c => c = 10 || c = 44) →
          ∃ d' nd, jsonParserC parseF fl d2 = (d', ⟨v', nd⟩, COK true) ∧
            d'.b = d2.b ∧
            d'.idx = d2.idx + ws2.length +
              (serB iP f cfg2 v' (ℓ + 1)).length :=
        fun v' hv' d2 ws2 post2 hdr hws2 hp2 =>
          ih v' (ℓ + 1) d2 ws2 post2
            (lt_of_le_of_lt (vdepth_le_of_memL hv') hdepL)
            (normalV_of_memL hv' hnormL)
            (fun x hx => hfl x (floatsOfL_sub hv' x hx)) hdr hws2 hp2
      obtain ⟨t91, ht91⟩ := serB_arr_head iP f cfg2 vs ℓ
      have hh : ((⟨d.b, d.idx + ws.length, rs, cs⟩ :
          deserializer).b.drop (⟨d.b, d.idx + ws.length, rs, cs⟩ :
          deserializer).idx).head? = some 91 := by
        rw [hdropS, ht91]
        rfl
      have hmN : (nullParser (⟨d.b, d.idx + ws.length, rs, cs⟩ :
          deserializer)).2.2 = COK false :=
        nullParser_miss (by rw [hh]; decide)
      have hmB : (boolParser (⟨d.b, d.idx + ws.length, rs, cs⟩ :
          deserializer)).2.2 = COK false :=
        boolParser_miss (by rw [hh]; decide) (by rw [hh]; decide)
      have hmNum : (numberParser parseF
          (⟨d.b, d.idx + ws.length, rs, cs⟩ : deserializer)).2.2 =
          COK false :=
        numberParser_miss (by rw [hh]; decide) (by rw [hh]; decide)
      have hmS : (stringParser (⟨d.b, d.idx + ws.length, rs, cs⟩ :
          deserializer)).2.2 = COK false :=
        stringParser_miss (by rw [hh]; decide)
      obtain ⟨d', nd, hrun, hb, hidx⟩ := arrayParserWith_run_n iP f parseF
        fl ℓ (fun x hx => (hfl x hx).1) hdec hdropS hpost
      refine ⟨d', nd, ?_, hb, hidx⟩
      show TryP [nullParser, boolParser, numberParser parseF, stringParser,
        arrayParserWith (jsonParserC parseF fl),
        objectParserWith (jsonParserEFun (jsonParserC parseF fl))]
        (skipSpaces d) = _
      rw [hskip, tryP_skip_of_miss hmN, tryP_skip_of_miss hmB,
        tryP_skip_of_miss hmNum, tryP_skip_of_miss hmS]
      exact tryP_take_of_run hrun
    | object o =>
      have hdec : ∀ kv ∈ o.getD [],
          ∀ (d2 : deserializer) (ws2 post2 : List Nat),
          d2.b.drop d2.idx = ws2 ++ serB iP f cfg2 kv.2 (ℓ + 1) ++ post2 →
          (∀ b ∈ ws2, isSpace b = true) →
          post2.head?.all (fun c => c = 10 || c = 44) →
          ∃ d' nd, jsonParserC parseF fl d2 = (d', ⟨kv.2, nd⟩, COK true) ∧
            d'.b = d2.b ∧
            d'.idx = d2.idx + ws2.length +
              (serB iP f cfg2 kv.2 (ℓ + 1)).length := by
        cases o with
        | none =>
          intro kv h
          exact absurd h (List.not_mem_nil kv)
        | some es =>
          intro kv h d2 ws2 post2 hdr hws2 hp2
          have hdepP : vdepthP es < fl := by
            have h1 : vdepthP es + 1 < fl + 1 := hdep
            omega
          have hnormPes : normalP es = true := by
            have h2 : (!es.isEmpty && normalP es) = true := hnorm
            exact (Bool.and_eq_true _ _ |>.mp h2).2
          exact ih kv.2 (ℓ + 1) d2 ws2 post2
            (lt_of_le_of_lt (vdepth_le_of_memP h) hdepP)
            (normalV_of_memP h hnormPes)
            (fun x hx => hfl x (floatsOfP_sub h x hx)) hdr hws2 hp2
      have hnil : o ≠ some [] := by
        cases o with
        | none => simp
        | some es =>
          cases es with
          | nil =>
            exact absurd (show normalV (.object
              (some ([] : List (List Nat × Value)))) = true from hnorm)
              (by decide)
          | cons kv es' => simp
      have hmem : ∀ kv ∈ o.getD [], (∀ b ∈ kv.1, b < 256) ∧
          (∀ x ∈ floatsOf kv.2, floatShape (dotForm (f x))) := by
        cases o with
        | none =>
          intro kv h
          exact absurd h (List.not_mem_nil kv)
        | some es =>
          intro kv h
          have hnormEs : (!es.isEmpty && normalP es) = true := hnorm
          have hnP : normalP es = true :=
            (Bool.and_eq_true _ _ |>.mp hnormEs).2
          refine ⟨normalP_key_of_mem h hnP, ?_⟩
          intro x hx
          exact (hfl x (floatsOfP_sub h x hx)).1
      obtain ⟨t123, ht123⟩ := serB_obj_head iP f cfg2 o ℓ
      have hh : ((⟨d.b, d.idx + ws.length, rs, cs⟩ :
          deserializer).b.drop (⟨d.b, d.idx + ws.length, rs, cs⟩ :
          deserializer).idx).head? = some 123 := by
        rw [hdropS, ht123]
        rfl
      have hmN : (nullParser (⟨d.b, d.idx + ws.length, rs, cs⟩ :
          deserializer)).2.2 = COK false :=
        nullParser_miss (by rw [hh]; decide)
      have hmB : (boolParser (⟨d.b, d.idx + ws.length, rs, cs⟩ :
          deserializer)).2.2 = COK false :=
        boolParser_miss (by rw [hh]; decide) (by rw [hh]; decide)
      have hmNum : (numberParser parseF
          (⟨d.b, d.idx + ws.length, rs, cs⟩ : deserializer)).2.2 =
          COK false :=
        numberParser_miss (by rw [hh]; decide) (by rw [hh]; decide)
      have hmS : (stringParser (⟨d.b, d.idx + ws.length, rs, cs⟩ :
          deserializer)).2.2 = COK false :=
        stringParser_miss (by rw [hh]; decide)
      have hmA : (arrayParserWith (jsonParserC parseF fl)
          (⟨d.b, d.idx + ws.length, rs, cs⟩ : deserializer)).2.2 =
          COK false :=
        arrayParserWith_miss _ (by rw [hh]; decide)
      obtain ⟨d', nd, hrun, hb, hidx⟩ := objectParserWith_run_n iP f parseF
        fl ℓ hiP hnil hmem hdec hdropS hpost
      refine ⟨d', nd, ?_, hb, hidx⟩
      show TryP [nullParser, boolParser, numberParser parseF, stringParser,
        arrayParserWith (jsonParserC parseF fl),
        objectParserWith (jsonParserEFun (jsonParserC parseF fl))]
        (skipSpaces d) = _
      rw [hskip, tryP_skip_of_miss hmN, tryP_skip_of_miss hmB,
        tryP_skip_of_miss hmNum, tryP_skip_of_miss hmS,
        tryP_skip_of_miss hmA]
      exact tryP_take_of_run hrun



/-- The round trip on junk-free trees, with the two oracle facts it needs:
`IsPrint` rejects the newline (true of Go `unicode.IsPrint`), and
`FormatFloat`/`ParseFloat` cohere at each float magnitude in the tree. -/
theorem Deserialize_Serialize_normal (iP : Nat → Bool) (f : Nat → List Nat)
    (parseF : List Nat → Option Nat) (v : Value)
    (hiP : iP 10 = false)
    (hnorm : normalV v = true)
    (hfl : ∀ x ∈ floatsOf v, floatOK f parseF x) :
    Deserialize parseF (Serializer.Serialize iP f cfg2 v) = .ok v := by
  have hdrop0 : (⟨serB iP f cfg2 v 0, 0, 1, 1⟩ : deserializer).b.drop
      (⟨serB iP f cfg2 v 0, 0, 1, 1⟩ : deserializer).idx =
      [] ++ serB iP f cfg2 v 0 ++ [] := by
    simp
  have hdep : vdepth v < (serB iP f cfg2 v 0).length + 1 :=
    Nat.lt_succ_of_le (vdepth_le_serB iP f (vdepth v) v le_rfl 0)
  obtain ⟨d', nd, hrunC, hb', hidx'⟩ := jsonParserC_run_n iP f parseF hiP
    ((serB iP f cfg2 v 0).length + 1) v 0 ⟨serB iP f cfg2 v 0, 0, 1, 1⟩
    [] [] hdep hnorm hfl hdrop0
    (fun x hx => absurd hx (List.not_mem_nil x)) rfl
  obtain ⟨c₁, t₁, hser1, hsp1, -, -, -⟩ :=
    serB_head_n iP f v 0 (fun x hx => (hfl x hx).1)
  have hid0 : skipSpaces (⟨serB iP f cfg2 v 0, 0, 1, 1⟩ : deserializer) =
      ⟨serB iP f cfg2 v 0, 0, 1, 1⟩ :=
    skipSpaces_id (by
      show ((serB iP f cfg2 v 0).drop 0).head?.all
        (fun c => !isSpace c) = true
      rw [List.drop_zero, hser1]
      simp [hsp1])
  have hE : jsonParserE parseF ((serB iP f cfg2 v 0).length + 1)
      ⟨serB iP f cfg2 v 0, 0, 1, 1⟩ = (d', ⟨v, nd⟩, Err none) := by
    show ((jsonParserC parseF ((serB iP f cfg2 v 0).length + 1)
        (skipSpaces (⟨serB iP f cfg2 v 0, 0, 1, 1⟩ : deserializer))).1,
      (jsonParserC parseF ((serB iP f cfg2 v 0).length + 1)
        (skipSpaces (⟨serB iP f cfg2 v 0, 0, 1, 1⟩ : deserializer))).2.1,
      if ((jsonParserC parseF ((serB iP f cfg2 v 0).length + 1)
          (skipSpaces (⟨serB iP f cfg2 v 0, 0, 1, 1⟩ :
            deserializer))).2.2).Valid then Err none
      else if ((jsonParserC parseF ((serB iP f cfg2 v 0).length + 1)
          (skipSpaces (⟨serB iP f cfg2 v 0, 0, 1, 1⟩ :
            deserializer))).2.2).Err.isSome then
        ((jsonParserC parseF ((serB iP f cfg2 v 0).length + 1)
          (skipSpaces (⟨serB iP f cfg2 v 0, 0, 1, 1⟩ :
            deserializer))).2.2).ToE
      else Err (some (errNoMatch
        (jsonParserC parseF ((serB iP f cfg2 v 0).length + 1)
          (skipSpaces (⟨serB iP f cfg2 v 0, 0, 1, 1⟩ :
            deserializer))).1))) = _
    rw [hid0, hrunC]
    rfl
  rw [Serialize_cfg2_serB iP f v]
  have hd : deserialize parseF (serB iP f cfg2 v 0) =
      .ok (⟨v, nd⟩ : output) := by
    unfold deserialize
    rw [hE]
    rfl
  unfold Deserialize
  rw [hd]

/-- C5: the object parser keeps duplicate keys in encounter order: an
object value whose entry list repeats keys serializes and re-parses to
exactly that entry list (nothing dropped or overwritten), and the backing
ordered-duplicate map built from those pairs iterates them in the same
order, `Get` returns the earliest binding of a key and `GetAll` all of its
bindings in order. -/
theorem objectParser_duplicate_preserving (iP : Nat → Bool)
    (f : Nat → List Nat) (parseF : List Nat → Option Nat)
    (es : List (List Nat × Value))
    (hiP : iP 10 = false) (hne : es ≠ [])
    (hnorm : normalP es = true)
    (hfl : ∀ x ∈ floatsOfP es, floatOK f parseF x) :
    Deserialize parseF
        (Serializer.Serialize iP f cfg2 (.object (some es))) =
      .ok (.object (some es)) ∧
    odmIter.collect (Object.Iter (objectOfPairs es)) = some es ∧
    (∀ k, Object.Get (objectOfPairs es) k = some (pairsFirst es k)) ∧
    (∀ k, Object.GetAll (objectOfPairs es) k = some (pairsAll es k)) := by
  have hnormV : normalV (.object (some es)) = true := by
    show (!es.isEmpty && normalP es) = true
    rw [hnorm]
    cases es with
    | nil => exact absurd rfl hne
    | cons kv es2 => rfl
  obtain ⟨h1, h2, h3⟩ := objectOfPairs_spec es
  exact ⟨Deserialize_Serialize_normal iP f parseF (.object (some es)) hiP
    hnormV hfl, h1, h2 hne, h3 hne⟩

/-- Witness for C5 at the duplicate-keyed entry list
`[("k", null), ("k", true)]` (key byte 107): the serialized object
re-parses to the same two entries in order, and the map operations see
both bindings. -/
theorem objectParser_duplicate_preserving_witness :
    ([([107], Value.null), ([107], Value.bool true)] :
      List (List Nat × Value)) ≠ [] ∧
    normalP [([107], Value.null), ([107], Value.bool true)] = true ∧
    Deserialize (fun _ => none)
        (Serializer.Serialize (fun b => decide (32 ≤ b ∧ b ≤ 126))
          (fun _ => []) cfg2
          (.object (some [([107], Value.null), ([107], Value.bool true)]))) =
      .ok (.object (some [([107], Value.null), ([107], Value.bool true)])) ∧
    odmIter.collect (Object.Iter (objectOfPairs
        [([107], Value.null), ([107], Value.bool true)])) =
      some [([107], Value.null), ([107], Value.bool true)] ∧
    (∀ k, Object.Get (objectOfPairs
        [([107], Value.null), ([107], Value.bool true)]) k =
      some (pairsFirst [([107], Value.null), ([107], Value.bool true)] k)) ∧
    (∀ k, Object.GetAll (objectOfPairs
        [([107], Value.null), ([107], Value.bool true)]) k =
      some (pairsAll [([107], Value.null), ([107], Value.bool true)] k)) := by
  obtain ⟨h1, h2, h3, h4⟩ := objectParser_duplicate_preserving
    (fun b => decide (32 ≤ b ∧ b ≤ 126)) (fun _ => []) (fun _ => none)
    [([107], Value.null), ([107], Value.bool true)]
    rfl (List.cons_ne_nil _ _) rfl
    (fun x hx => absurd hx (List.not_mem_nil x))
  exact ⟨List.cons_ne_nil _ _, rfl, h1, h2, h3, h4⟩

/-- C1 counterexample: the claim quantifies over every `Value` tree without
duplicate keys, but a `Number` whose unused `Float` field holds junk bits
while `IsFloat` is unset serializes to its integer form and re-parses with
`Float = 0`, so the round trip under indent 2 / gap 1 changes the value. -/
theorem roundTrip_counterexample :
    noDupKeysV (Value.number ⟨1, 1, false, false⟩) = true ∧
    Serializer.Serialize (fun _ => false) (fun _ => []) ⟨2, 0, 1, false⟩
      (Value.number ⟨1, 1, false, false⟩) = [49] ∧
    Deserialize (fun _ => none) [49] =
      .ok (Value.number ⟨0, 1, false, false⟩) ∧
    Value.number ⟨0, 1, false, false⟩ ≠ Value.number ⟨1, 1, false, false⟩ :=
  ⟨rfl, rfl, rfl, fun h => by
    injection h with h'
    exact absurd h' (by decide)⟩

/-- C1 (amended): serialization with indent 2 and key-value gap 1 (`cfg2`)
followed by deserialization returns exactly the value, for every
duplicate-key-free tree that is junk-free: each number's unused magnitude
field is zeroed (`Float` for integer kind — whose junk the counterexample
shows breaking the unrestricted claim — and `Integer` for float kind),
integer magnitudes fit Go's `uint64`, string and key elements are bytes
(Go strings are byte arrays), and no object payload is the non-nil empty
entry list (which serializes like the nil map).  String and key content is
otherwise unrestricted — quotes, backslashes, control bytes, non-ASCII and
invalid UTF-8 all round-trip through `Quote`/`Unquote` — and float-kind
numbers round-trip wherever the `FormatFloat`/`ParseFloat` oracles cohere
(`floatOK`, their documented contract) and `IsPrint` rejects the newline
(true of Go `unicode.IsPrint`).  The counterexample
`roundTrip_counterexample` shows the unrestricted claim is false. -/
theorem roundTrip_normal (iP : Nat → Bool) (f : Nat → List Nat)
    (parseF : List Nat → Option Nat) (v : Value)
    (hiP : iP 10 = false)
    (hnd : noDupKeysV v = true)
    (hnorm : normalV v = true)
    (hfl : ∀ x ∈ floatsOf v, floatOK f parseF x) :
    Deserialize parseF (Serializer.Serialize iP f cfg2 v) = .ok v :=
  Deserialize_Serialize_normal iP f parseF v hiP hnorm hfl

/-- Witness for the amended C1 round trip: an object with a key containing
a newline (escaped as `\n`), a negative float value `-1.5` under coherent
float oracles, and a string holding a quote, a backslash, a newline and an
invalid UTF-8 byte (escaped as `\xc8`), under indent 2 / gap 1. -/
theorem roundTrip_normal_witness :
    (fun b => decide (32 ≤ b ∧ b ≤ 126)) 10 = false ∧
    noDupKeysV (Value.object (some
      [([10, 97], Value.number ⟨5, 0, true, true⟩),
       ([98], Value.string [34, 92, 10, 200, 55])])) = true ∧
    normalV (Value.object (some
      [([10, 97], Value.number ⟨5, 0, true, true⟩),
       ([98], Value.string [34, 92, 10, 200, 55])])) = true ∧
    Deserialize (fun s => if s = [49, 46, 53] then some 5 else none)
      (Serializer.Serialize (fun b => decide (32 ≤ b ∧ b ≤ 126))
        (fun _ => [49, 46, 53]) cfg2
        (Value.object (some
          [([10, 97], Value.number ⟨5, 0, true, true⟩),
           ([98], Value.string [34, 92, 10, 200, 55])]))) =
      .ok (Value.object (some
        [([10, 97], Value.number ⟨5, 0, true, true⟩),
         ([98], Value.string [34, 92, 10, 200, 55])])) :=
  ⟨rfl, rfl, rfl,
    roundTrip_normal (fun b => decide (32 ≤ b ∧ b ≤ 126))
      (fun _ => [49, 46, 53])
      (fun s => if s = [49, 46, 53] then some 5 else none)
      (Value.object (some
        [([10, 97], Value.number ⟨5, 0, true, true⟩),
         ([98], Value.string [34, 92, 10, 200, 55])]))
      rfl rfl rfl
      (fun x hx => by
        have h2 : x ∈ [5] := hx
        have hx5 : x = 5 := by simpa using h2
        subst hx5
        exact ⟨⟨[49], [53], rfl, by decide, by decide, by decide,
          by decide⟩, rfl⟩)⟩

/-! ### C9: number formatting. -/

theorem numberAppend_int_no_dot (fmtF : Nat → List Nat) (n : Number)
    (h : n.IsFloat = false) :
    (numberAppend fmtF n []).contains 46 = false := by
  have hm : 46 ∉ numberAppend fmtF n [] := by
    unfold numberAppend
    simp only [h, if_false, List.nil_append]
    intro hmem
    by_cases hn : n.IsNeg
    · simp only [hn, if_true] at hmem
      rcases List.mem_append.mp hmem with h' | h'
      · rcases List.mem_cons.mp h' with h'' | h''
        · omega
        · exact absurd h'' (List.not_mem_nil _)
      · have := formatUint_digits n.Integer 46 h'
        omega
    · simp only [hn, if_false, List.nil_append] at hmem
      have := formatUint_digits n.Integer 46 hmem
      omega
  simp [hm]

theorem numberAppend_float_dot (fmtF : Nat → List Nat) (n : Number)
    (h : n.IsFloat = true) :
    (numberAppend fmtF n []).contains 46 = true := by
  have hm : 46 ∈ numberAppend fmtF n [] := by
    unfold numberAppend
    simp only [h, if_true]
    refine List.mem_append.mpr (Or.inr ?_)
    by_cases hc : (fmtF n.Float).contains 46
    · simp only [hc, if_true]
      simpa using hc
    · simp only [hc, if_false]
      exact List.mem_append.mpr (Or.inr (by simp))
  simp [hm]

/-- C9: `Number.append` writes the sign byte `'-'` exactly when `IsNeg` is
set (given that `strconv.FormatFloat` of the float magnitude does not start
with a sign), followed by the decimal integer magnitude when the number is
integer-kind — an output that never contains a `'.'` — or by the formatted
float with `".0"` appended when it contains no `'.'`, so that a float-kind
number never serializes to the same bytes as an integer-kind one; the bytes
are appended after any previously accumulated output `bb`. -/
theorem numberAppend_spec (fmtF : Nat → List Nat) (n : Number)
    (hmag : (fmtF n.Float).head? ≠ some 45) :
    (∀ bb, numberAppend fmtF n bb = bb ++ numberAppend fmtF n []) ∧
    numberAppend fmtF n [] =
      (if n.IsNeg then [45] else []) ++
        (if n.IsFloat then
           (if (fmtF n.Float).contains 46 then fmtF n.Float
            else fmtF n.Float ++ [46, 48])
         else formatUint n.Integer) ∧
    ((numberAppend fmtF n []).head? = some 45 ↔ n.IsNeg = true) ∧
    (n.IsFloat = false → (numberAppend fmtF n []).contains 46 = false) ∧
    (n.IsFloat = true → (numberAppend fmtF n []).contains 46 = true) ∧
    (∀ n' : Number, n.IsFloat = true → n'.IsFloat = false →
       numberAppend fmtF n [] ≠ numberAppend fmtF n' []) := by
  refine ⟨numberAppend_decomp fmtF n, ?_, ?_, numberAppend_int_no_dot fmtF n,
    numberAppend_float_dot fmtF n, ?_⟩
  · unfold numberAppend
    by_cases hn : n.IsNeg <;> by_cases hf : n.IsFloat <;>
      simp [hn, hf]
  · constructor
    · intro hh
      by_contra hn
      have hn' : n.IsNeg = false := by
        cases hb : n.IsNeg
        · rfl
        · exact absurd hb hn
      unfold numberAppend at hh
      simp only [hn', if_false, List.nil_append] at hh
      by_cases hf : n.IsFloat
      · simp only [hf, if_true] at hh
        by_cases hc : (fmtF n.Float).contains 46
        · simp only [hc, if_true] at hh
          cases he : fmtF n.Float with
          | nil => rw [he] at hh; exact Option.noConfusion hh
          | cons a l =>
            rw [he] at hh
            simp only [List.head?] at hh
            rw [he] at hmag
            exact hmag hh
        · simp only [hc, if_false] at hh
          cases he : fmtF n.Float with
          | nil =>
            rw [he] at hh
            simp only [List.nil_append, List.head?] at hh
            exact absurd (Option.some.inj hh) (by decide)
          | cons a l =>
            rw [he] at hh
            simp only [List.cons_append, List.head?] at hh
            rw [he] at hmag
            exact hmag hh
      · have hf' : n.IsFloat = false := by
          cases hb : n.IsFloat
          · rfl
          · exact absurd hb hf
        simp only [hf', if_false, List.nil_append] at hh
        obtain ⟨d, l, he, h1, _⟩ := formatUint_head n.Integer
        rw [he] at hh
        simp only [List.head?] at hh
        have := Option.some.inj hh
        omega
    · intro hn
      unfold numberAppend
      simp only [hn, if_true]
      by_cases hf : n.IsFloat <;> simp [hf]
  · intro n' hf hf' heq
    have h1 := numberAppend_float_dot fmtF n hf
    have h2 := numberAppend_int_no_dot fmtF n' hf'
    rw [heq, h2] at h1
    exact Bool.noConfusion h1

theorem numberAppend_spec_witness :
    (((fun _ => [51, 46, 53] : Nat → List Nat)
        (Number.mk 0 12 false true).Float).head? ≠ some 45) ∧
    ((∀ bb, numberAppend (fun _ => [51, 46, 53]) (Number.mk 0 12 false true) bb
        = bb ++ numberAppend (fun _ => [51, 46, 53]) (Number.mk 0 12 false true) []) ∧
     numberAppend (fun _ => [51, 46, 53]) (Number.mk 0 12 false true) [] =
       (if (Number.mk 0 12 false true).IsNeg then [45] else []) ++
         (if (Number.mk 0 12 false true).IsFloat then
            (if ((fun _ => [51, 46, 53] : Nat → List Nat)
                  (Number.mk 0 12 false true).Float).contains 46 then
               (fun _ => [51, 46, 53] : Nat → List Nat)
                 (Number.mk 0 12 false true).Float
             else (fun _ => [51, 46, 53] : Nat → List Nat)
                 (Number.mk 0 12 false true).Float ++ [46, 48])
          else formatUint (Number.mk 0 12 false true).Integer) ∧
     ((numberAppend (fun _ => [51, 46, 53]) (Number.mk 0 12 false true) []).head?
        = some 45 ↔ (Number.mk 0 12 false true).IsNeg = true) ∧
     ((Number.mk 0 12 false true).IsFloat = false →
       (numberAppend (fun _ => [51, 46, 53]) (Number.mk 0 12 false true) []).contains 46
         = false) ∧
     ((Number.mk 0 12 false true).IsFloat = true →
       (numberAppend (fun _ => [51, 46, 53]) (Number.mk 0 12 false true) []).contains 46
         = true) ∧
     (∀ n' : Number, (Number.mk 0 12 false true).IsFloat = true →
        n'.IsFloat = false →
        numberAppend (fun _ => [51, 46, 53]) (Number.mk 0 12 false true) [] ≠
          numberAppend (fun _ => [51, 46, 53]) n' [])) :=
  ⟨by decide, numberAppend_spec (fun _ => [51, 46, 53]) (Number.mk 0 12 false true)
    (by decide)⟩

end GenJson
